import Mathlib

/-!
# FAudio mixing core

A shallow embedding of the mixing pipeline of `src/FAudio_internal.c`
(buffer queue, decoders, linear resampler, filter, effect chain, voice mixers,
engine tick) together with theorems about it.

Conventions of the embedding:

* samples (`float`, `double`) are exact rationals;
* `uint32_t` / `uint64_t` values are natural numbers, reduced modulo `2 ^ 32`
  / `2 ^ 64` where the C code computes with them;
* a `float *` is a function `Nat → Sample` (an array that is large enough),
  possibly together with an index into it; array indices are not reduced;
* loops whose termination depends on the data take a `fuel` argument and
  return `none` when it runs out;
* calls that leave the translation unit (client callbacks, the decoder function
  pointer, `FAudio_free`, effect methods) are recorded in a log of events;
* a read behind the end of a constant table finds a value that the source does
  not fix: the memory there is a parameter (`AdaptCoeffOverrun`), and `int32_t`
  arithmetic on such a value is reduced to 32 bits (`wrapInt32`).
-/

namespace FAudioInternal

/-! ## Machine integers and memory -/

/-- The value of a `float` or `double`, taken exactly. -/
abbrev Sample := ℚ

/-- A `float *`: the array it points into. -/
abbrev FloatBuf := Nat → Sample

/-- A `uint8_t *`: the bytes it points to. -/
abbrev ByteBuf := Nat → Nat

/-- Reduction to `uint32_t`. -/
def wrap32 (n : Nat) : Nat := n % 2 ^ 32

/-- Reduction to `uint64_t`. -/
def wrap64 (n : Nat) : Nat := n % 2 ^ 64

/-- Subtraction of two `uint32_t`. -/
def sub32 (a b : Nat) : Nat := (wrap32 a + (2 ^ 32 - wrap32 b)) % 2 ^ 32

/-- Subtraction of two `uint64_t`. -/
def sub64 (a b : Nat) : Nat := (wrap64 a + (2 ^ 64 - wrap64 b)) % 2 ^ 64

/-- Conversion to `int16_t`. -/
def toInt16 (x : Int) : Int := (x + 32768) % 65536 - 32768

/-- Reduction to `int32_t`: the value a 32-bit two's complement register holds. -/
def wrapInt32 (x : Int) : Int := (x + 2147483648) % 4294967296 - 2147483648

/-- Store `vals` at `buf + off`. -/
def writeAt (buf : FloatBuf) (off : Nat) (vals : List Sample) : FloatBuf :=
  fun k => if off ≤ k ∧ k < off + vals.length then vals.getD (k - off) 0 else buf k

/-- The call `FAudio_zero(buf + off, sizeof(float) * n)`. -/
def FAudio_zero (buf : FloatBuf) (off n : Nat) : FloatBuf :=
  fun k => if off ≤ k ∧ k < off + n then 0 else buf k

/-- The call `FAudio_memcpy(dst + dstOff, src + srcOff, sizeof(float) * n)` on
two distinct arrays. -/
def FAudio_memcpy (dst : FloatBuf) (dstOff : Nat) (src : FloatBuf) (srcOff n : Nat) :
    FloatBuf :=
  fun k => if dstOff ≤ k ∧ k < dstOff + n then src (srcOff + (k - dstOff)) else dst k

/-- Modelled from the spec: the macro `FAudio_min` is declared in a header that
is not among the sources; it is the smaller of its two arguments. -/
def FAudio_min (val1 val2 : Nat) : Nat := if val1 < val2 then val1 else val2

/-- Modelled from the spec: the macro `FAudio_clamp` is declared in a header
that is not among the sources; it limits `val` to the range from `lo` to `hi`. -/
def FAudio_clamp {α : Type} [LT α] [DecidableRel (fun (a b : α) => a < b)]
    (val lo hi : α) : α :=
  if hi < val then hi else if val < lo then lo else val

/-! ## Fixed point -/

def FIXED_PRECISION : Nat := 32

def FIXED_ONE : Nat := 1 <<< FIXED_PRECISION

def FIXED_FRACTION_MASK : Nat := FIXED_ONE - 1

/-- The macro `DOUBLE_TO_FIXED`: `(uint64_t) (dbl * FIXED_ONE + 0.5)`. -/
def DOUBLE_TO_FIXED (dbl : Sample) : Nat :=
  wrap64 (Int.toNat (Int.floor (dbl * (FIXED_ONE : Sample) + 1 / 2)))

/-- The macro `FIXED_TO_DOUBLE`. -/
def FIXED_TO_DOUBLE (fxd : Nat) : Sample :=
  ((fxd >>> FIXED_PRECISION : Nat) : Sample) +
    ((fxd &&& FIXED_FRACTION_MASK : Nat) : Sample) * (1 / (FIXED_ONE : Sample))

/-! ## Data model -/

/-- Constants and platform services that `FAudio_internal.c` uses and that are
declared in headers which are not among the sources. -/
structure Env where
  FAUDIO_MAX_VOLUME_LEVEL : Sample
  FAUDIO_LOOP_INFINITE : Nat
  FAUDIO_END_OF_STREAM : Nat
  FAUDIO_VOICE_USEFILTER : Nat
  EXTRA_DECODE_PADDING : Nat
  FAPO_BUFFER_VALID : Nat
  /-- The fixed-rate resampler of the platform: from the resampler handle, the
  input array, `inLen` and `outLen` to the floats it stores at the start of the
  output array and the count it returns. -/
  FAudio_PlatformResample : Nat → FloatBuf → Nat → Nat → List Sample × Nat

structure FAudioBuffer where
  Flags : Nat
  AudioBytes : Nat
  pAudioData : ByteBuf
  PlayBegin : Nat
  PlayLength : Nat
  LoopBegin : Nat
  LoopLength : Nat
  LoopCount : Nat
  pContext : Nat

structure FAudioWaveFormatEx where
  wFormatTag : Nat
  nChannels : Nat
  nSamplesPerSec : Nat
  nAvgBytesPerSec : Nat
  nBlockAlign : Nat
  wBitsPerSample : Nat
  cbSize : Nat

/-- The type of `voice->src.decode`: from the buffer, the start frame, the frame
count and the format to the floats the decoder stores at its destination. -/
abbrev FAudioDecodeCallback := FAudioBuffer → Nat → Nat → FAudioWaveFormatEx → List Sample

/-- A client callback table; a field is `true` when the function pointer is
not `NULL`. -/
structure FAudioVoiceCallback where
  OnBufferEnd : Bool
  OnBufferStart : Bool
  OnLoopEnd : Bool
  OnStreamEnd : Bool
  OnVoiceError : Bool
  OnVoiceProcessingPassEnd : Bool
  OnVoiceProcessingPassStart : Bool

/-- An engine callback table, with a number that identifies it. -/
structure FAudioEngineCallback where
  ident : Nat
  OnCriticalError : Bool
  OnProcessingPassEnd : Bool
  OnProcessingPassStart : Bool

/-- The two arrays an effect chain works on: the one the caller passed and the
scratch array of the engine. -/
inductive BufferPtr where
  | buffer
  | effectChainCache
  deriving DecidableEq, Repr

/-- Calls that leave the translation unit, in the order they are made. -/
inductive Event where
  | OnBufferStart (pContext : Nat)
  | OnBufferEnd (pContext : Nat)
  | OnLoopEnd (pContext : Nat)
  | OnStreamEnd
  | OnVoiceProcessingPassStart (BytesRequired : Nat)
  | OnVoiceProcessingPassEnd
  | OnProcessingPassStart (callback : Nat)
  | OnProcessingPassEnd (callback : Nat)
  /-- A call of `voice->src.decode`; `padding` tells the look-ahead call after
  the main loop of `FAudio_INTERNAL_DecodeBuffers` from the calls inside it. -/
  | decode (pContext curOffset samples : Nat) (padding : Bool)
  /-- The call `FAudio_free(toDelete)`. -/
  | free (pContext : Nat)
  | SetParameters (effect : Nat) (parameters : List Nat) (size : Nat)
  | LockForProcess (effect srcChannels dstChannels maxFrames status : Nat)
  | Process (effect : Nat) (src dst : BufferPtr) (enabled : Nat)
  | UnlockForProcess (effect : Nat)
  deriving DecidableEq, Repr

structure FAPOLockForProcessBufferParameters where
  pFormat : FAudioWaveFormatEx
  MaxFrameCount : Nat

structure FAPOProcessBufferParameters where
  pBuffer : BufferPtr
  BufferFlags : Nat
  ValidFrameCount : Nat

/-- An effect (`FAPO`). It is opaque to the mixer: a hidden state `σ` and the
methods the mixer calls. `Process` receives the contents of its input array and
of its output array and returns the new contents of the output array together
with the flags and frame count it stores in its output parameters. -/
structure FAPO where
  σ : Type
  state : σ
  SetParameters : σ → List Nat → Nat → σ
  LockForProcess : σ → FAPOLockForProcessBufferParameters →
    FAPOLockForProcessBufferParameters → σ × Nat
  UnlockForProcess : σ → σ
  Process : σ → FloatBuf → Nat → Nat → FloatBuf → Nat → Nat → Nat →
    σ × FloatBuf × Nat × Nat

structure FAudioEffectDescriptor where
  pEffect : FAPO
  InitialState : Nat
  OutputChannels : Nat

/-- One position of `voice->effects`: the descriptor and the entries of the
parallel arrays `parameters`, `parameterSizes`, `parameterUpdates` and
`inPlaceProcessing` at that index. -/
structure EffectSlot where
  desc : FAudioEffectDescriptor
  parameters : List Nat
  parameterSizes : Nat
  parameterUpdates : Nat
  inPlaceProcessing : Nat

inductive FAudioFilterType where
  | FAudioLowPassFilter
  | FAudioBandPassFilter
  | FAudioHighPassFilter
  | FAudioNotchFilter
  deriving DecidableEq, Repr

structure FAudioFilterParameters where
  Type_ : FAudioFilterType
  Frequency : Sample
  OneOverQ : Sample

/-- One `FAudioFilterState`: a value for each of the four filter outputs. -/
abbrev FAudioFilterState := FAudioFilterType → Sample

/-- The voice a send points to. -/
inductive VoiceRef where
  | master
  | submix (index : Nat)
  deriving DecidableEq, Repr

structure FAudioSendDescriptor where
  Flags : Nat
  pOutputVoice : VoiceRef

/-- The members of `FAudioVoice` shared by the three kinds of voice.
`sends` holds `sends.pSends`; `sends.SendCount` is its length; `effects`
holds one slot per effect and `effects.count` is its length. -/
structure FAudioVoice where
  flags : Nat
  sends : List FAudioSendDescriptor
  sendCoefficients : Nat → Nat → Sample
  effects : List EffectSlot
  filter : FAudioFilterParameters
  filterState : Nat → FAudioFilterState
  volume : Sample
  channelVolume : Nat → Sample
  outputChannels : Nat

/-- The member `src` of a source voice. `bufferList` is the queue, head first. -/
structure SourceData where
  maxFreqRatio : Sample
  format : FAudioWaveFormatEx
  callback : Option FAudioVoiceCallback
  decode : FAudioDecodeCallback
  decodeSamples : Nat
  resampleSamples : Nat
  active : Bool
  freqRatio : Sample
  totalSamples : Nat
  resampleFreqRatio : Sample
  resampleStep : Nat
  resampleOffset : Nat
  curBufferOffset : Nat
  curBufferOffsetDec : Nat
  bufferList : List FAudioBuffer

structure FAudioSourceVoice extends FAudioVoice where
  src : SourceData

/-- The member `mix` of a submix voice. -/
structure SubmixData where
  inputChannels : Nat
  inputSampleRate : Nat
  inputCache : FloatBuf
  inputSamples : Nat
  outputSamples : Nat
  processingStage : Nat
  resampler : Nat

structure FAudioSubmixVoice extends FAudioVoice where
  mix : SubmixData

/-- The member `master` of the mastering voice. -/
structure MasterData where
  inputChannels : Nat
  inputSampleRate : Nat
  output : FloatBuf

structure FAudioMasterVoice extends FAudioVoice where
  master : MasterData

/-- The engine. `log` collects the events of the run. -/
structure FAudio where
  active : Bool
  updateSize : Nat
  submixStages : Nat
  master : FAudioMasterVoice
  sources : List FAudioSourceVoice
  submixes : List FAudioSubmixVoice
  callbacks : List FAudioEngineCallback
  decodeSamples : Nat
  decodeCache : FloatBuf
  resampleSamples : Nat
  resampleCache : FloatBuf
  effectChainSamples : Nat
  effectChainCache : FloatBuf
  log : List Event

/-! ## Sample converters and decoders -/

/-- Read the `uint8_t` at byte address `p`. -/
def readU8 (data : ByteBuf) (p : Nat) : Nat := data p % 256

/-- Read the `int16_t` whose two bytes start at byte address `p` (the macro
`READ`, or an access through an `int16_t *`, on a little-endian machine). -/
def readS16 (data : ByteBuf) (p : Nat) : Int :=
  toInt16 ((readU8 data p + 256 * readU8 data (p + 1) : Nat) : Int)

def DIVBY128 : Sample := 1 / 128

def DIVBY32768 : Sample := 1 / 32768

/-- The function `FAudio_INTERNAL_Convert_U8_To_F32_Scalar`: the floats stored
at `dst` for the `len` bytes at `src`. -/
def FAudio_INTERNAL_Convert_U8_To_F32_Scalar (src : List Nat) : List Sample :=
  src.map (fun (b : Nat) => (b : Sample) * DIVBY128 - 1)

/-- The function `FAudio_INTERNAL_Convert_S16_To_F32_Scalar`: the floats stored
at `dst` for the `len` shorts at `src`. -/
def FAudio_INTERNAL_Convert_S16_To_F32_Scalar (src : List Int) : List Sample :=
  src.map (fun (s : Int) => (s : Sample) * DIVBY32768)

/-- The function `FAudio_INTERNAL_DecodePCM8`, given the converter the pointer
`FAudio_INTERNAL_Convert_U8_To_F32` is set to. The two products are 32 bits
wide. -/
def FAudio_INTERNAL_DecodePCM8 (Convert_U8_To_F32 : List Nat → List Sample) :
    FAudioDecodeCallback :=
  fun buffer curOffset samples format =>
    Convert_U8_To_F32
      ((List.range (wrap32 (samples * format.nChannels))).map
        (fun i => readU8 buffer.pAudioData (wrap32 (curOffset * format.nChannels) + i)))

/-- The function `FAudio_INTERNAL_DecodePCM16`, given the converter the pointer
`FAudio_INTERNAL_Convert_S16_To_F32` is set to. The two products are 32 bits
wide. -/
def FAudio_INTERNAL_DecodePCM16 (Convert_S16_To_F32 : List Int → List Sample) :
    FAudioDecodeCallback :=
  fun buffer curOffset samples format =>
    Convert_S16_To_F32
      ((List.range (wrap32 (samples * format.nChannels))).map
        (fun i => readS16 buffer.pAudioData
          (2 * (wrap32 (curOffset * format.nChannels) + i))))

/-- The function `FAudio_INTERNAL_DecodePCM32F`. `readF32 data p` is the `float`
whose four bytes start at byte address `p`. The offset is a 32-bit product; the
size is a product of `size_t`, 64 bits wide, a number of bytes. -/
def FAudio_INTERNAL_DecodePCM32F (readF32 : ByteBuf → Nat → Sample) : FAudioDecodeCallback :=
  fun buffer curOffset samples format =>
    (List.range (wrap64 (4 * samples * format.nChannels) / 4)).map
      (fun i => readF32 buffer.pAudioData
        (4 * (wrap32 (curOffset * format.nChannels) + i)))

/-! ### MSADPCM -/

def AdaptionTable : List Int :=
  [230, 230, 230, 230, 307, 409, 512, 614, 768, 614, 512, 409, 307, 230, 230, 230]

def AdaptCoeff_1 : List Int := [256, 512, 0, 192, 240, 460, 392]

def AdaptCoeff_2 : List Int := [0, -256, 0, 64, 0, -208, -232]

/-- The memory behind the tables `AdaptCoeff_1` and `AdaptCoeff_2`.
`FAudio_INTERNAL_ParseNibble` indexes both tables with `predictor`, a byte of
the audio data that no function checks, so a predictor of 7 or more reads the
`int32_t` at `AdaptCoeff_1 + predictor` and at `AdaptCoeff_2 + predictor`,
behind the seven entries. The source does not say what is stored there:
`behind1 i` and `behind2 i` stand for the values found at index `i`, and the
theorems hold for every choice of them. -/
structure AdaptCoeffOverrun where
  behind1 : Nat → Int
  behind2 : Nat → Int

/-- The read `table[predictor]` of one of the two coefficient tables: the entry
for an index inside the table, the `int32_t` behind the table otherwise. -/
def readCoeff (table : List Int) (behind : Nat → Int) (predictor : Nat) : Int :=
  if predictor < table.length then table.getD predictor 0 else wrapInt32 (behind predictor)

/-- The decoder state of one channel of a block. -/
structure NibbleState where
  delta : Int
  sample1 : Int
  sample2 : Int
  deriving DecidableEq, Repr

/-- The function `FAudio_INTERNAL_ParseNibble`: the sample it returns and the
values it leaves in `*delta`, `*sample1`, `*sample2`. The products, their sum
and the sum with `signedNibble * delta` are `int32_t` values; `M` is the memory
behind the two coefficient tables, read when `predictor` is 7 or more. Both
callers pass a nibble below 16, an index inside `AdaptionTable`. -/
def FAudio_INTERNAL_ParseNibble (M : AdaptCoeffOverrun) (nibble predictor : Nat)
    (s : NibbleState) : Int × NibbleState :=
  let signedNibble : Int := if nibble &&& 0x08 ≠ 0 then (nibble : Int) - 0x10 else nibble
  let sampleInt : Int :=
    Int.tdiv (wrapInt32
      (wrapInt32 (s.sample1 * readCoeff AdaptCoeff_1 M.behind1 predictor) +
        wrapInt32 (s.sample2 * readCoeff AdaptCoeff_2 M.behind2 predictor))) 256
  let sampleInt := wrapInt32 (sampleInt + signedNibble * s.delta)
  let sample : Int := FAudio_clamp sampleInt (-32768) 32767
  let delta := toInt16 (Int.tdiv (AdaptionTable.getD nibble 0 * s.delta) 256)
  let delta := if delta < 16 then 16 else delta
  (sample, { delta := delta, sample1 := sample, sample2 := s.sample1 })

/-- The sample loop of `FAudio_INTERNAL_DecodeMonoMSADPCMBlock`: `n` bytes from
address `p`, two samples a byte. -/
def DecodeMonoMSADPCMBlock_loop (M : AdaptCoeffOverrun) (data : ByteBuf) (predictor : Nat) :
    Nat → Nat → NibbleState → Nat × List Int
  | 0, p, _ => (p, [])
  | n + 1, p, s =>
    let r1 := FAudio_INTERNAL_ParseNibble M (readU8 data p >>> 4) predictor s
    let r2 := FAudio_INTERNAL_ParseNibble M (readU8 data p &&& 0x0F) predictor r1.2
    let rest := DecodeMonoMSADPCMBlock_loop M data predictor n (p + 1) r2.2
    (rest.1, r1.1 :: r2.1 :: rest.2)

/-- The function `FAudio_INTERNAL_DecodeMonoMSADPCMBlock`: the new value of
`*buf` and the samples stored in `blockCache`. -/
def FAudio_INTERNAL_DecodeMonoMSADPCMBlock (M : AdaptCoeffOverrun) (data : ByteBuf)
    (buf : Nat) (align : Nat) : Nat × List Int :=
  let predictor := readU8 data buf
  let delta := readS16 data (buf + 1)
  let sample1 := readS16 data (buf + 3)
  let sample2 := readS16 data (buf + 5)
  let align := sub32 align 7
  let rest := DecodeMonoMSADPCMBlock_loop M data predictor align (buf + 7)
    { delta := delta, sample1 := sample1, sample2 := sample2 }
  (rest.1, sample2 :: sample1 :: rest.2)

/-- The sample loop of `FAudio_INTERNAL_DecodeStereoMSADPCMBlock`. -/
def DecodeStereoMSADPCMBlock_loop (M : AdaptCoeffOverrun) (data : ByteBuf)
    (l_predictor r_predictor : Nat) :
    Nat → Nat → NibbleState → NibbleState → Nat × List Int
  | 0, p, _, _ => (p, [])
  | n + 1, p, l, r =>
    let r1 := FAudio_INTERNAL_ParseNibble M (readU8 data p >>> 4) l_predictor l
    let r2 := FAudio_INTERNAL_ParseNibble M (readU8 data p &&& 0x0F) r_predictor r
    let rest :=
      DecodeStereoMSADPCMBlock_loop M data l_predictor r_predictor n (p + 1) r1.2 r2.2
    (rest.1, r1.1 :: r2.1 :: rest.2)

/-- The function `FAudio_INTERNAL_DecodeStereoMSADPCMBlock`. -/
def FAudio_INTERNAL_DecodeStereoMSADPCMBlock (M : AdaptCoeffOverrun) (data : ByteBuf)
    (buf : Nat) (align : Nat) : Nat × List Int :=
  let l_predictor := readU8 data buf
  let r_predictor := readU8 data (buf + 1)
  let l_delta := readS16 data (buf + 2)
  let r_delta := readS16 data (buf + 4)
  let l_sample1 := readS16 data (buf + 6)
  let r_sample1 := readS16 data (buf + 8)
  let l_sample2 := readS16 data (buf + 10)
  let r_sample2 := readS16 data (buf + 12)
  let align := sub32 align 14
  let rest := DecodeStereoMSADPCMBlock_loop M data l_predictor r_predictor align (buf + 14)
    { delta := l_delta, sample1 := l_sample1, sample2 := l_sample2 }
    { delta := r_delta, sample1 := r_sample1, sample2 := r_sample2 }
  (rest.1, l_sample2 :: r_sample2 :: l_sample1 :: r_sample1 :: rest.2)

/-- The block loop of `FAudio_INTERNAL_DecodeMonoMSADPCM`: the floats stored at
`decodeCache`, in order. -/
def DecodeMonoMSADPCM_loop (M : AdaptCoeffOverrun)
    (Convert_S16_To_F32 : List Int → List Sample) (data : ByteBuf) (nBlockAlign bsize : Nat) :
    Nat → Nat → Nat → Nat → Option (List Sample)
  | 0, _, _, _ => none
  | fuel + 1, buf, midOffset, samples =>
    if samples > 0 then
      let copy := FAudio_min samples (sub32 bsize midOffset)
      let blk := FAudio_INTERNAL_DecodeMonoMSADPCMBlock M data buf nBlockAlign
      let out := Convert_S16_To_F32 ((blk.2.drop midOffset).take copy)
      (DecodeMonoMSADPCM_loop M Convert_S16_To_F32 data nBlockAlign bsize fuel blk.1 0
        (sub32 samples copy)).map (fun rest => out ++ rest)
    else some []

/-- The function `FAudio_INTERNAL_DecodeMonoMSADPCM`; `none` when the loop does
not end within `fuel` blocks or the block size is zero (a division by zero). -/
def FAudio_INTERNAL_DecodeMonoMSADPCM (M : AdaptCoeffOverrun)
    (Convert_S16_To_F32 : List Int → List Sample) (fuel : Nat) (buffer : FAudioBuffer)
    (curOffset samples : Nat)
    (format : FAudioWaveFormatEx) : Option (List Sample) :=
  let bsize := wrap32 (sub32 format.nBlockAlign 6 * 2)
  if bsize = 0 then none else
  let buf := (curOffset / bsize) * format.nBlockAlign
  let midOffset := curOffset % bsize
  DecodeMonoMSADPCM_loop M Convert_S16_To_F32 buffer.pAudioData format.nBlockAlign bsize
    fuel buf midOffset samples

/-- The block loop of `FAudio_INTERNAL_DecodeStereoMSADPCM`. -/
def DecodeStereoMSADPCM_loop (M : AdaptCoeffOverrun)
    (Convert_S16_To_F32 : List Int → List Sample) (data : ByteBuf) (nBlockAlign bsize : Nat) :
    Nat → Nat → Nat → Nat → Option (List Sample)
  | 0, _, _, _ => none
  | fuel + 1, buf, midOffset, samples =>
    if samples > 0 then
      let copy := FAudio_min samples (sub32 bsize midOffset)
      let blk := FAudio_INTERNAL_DecodeStereoMSADPCMBlock M data buf nBlockAlign
      let out := Convert_S16_To_F32 ((blk.2.drop (midOffset * 2)).take (copy * 2))
      (DecodeStereoMSADPCM_loop M Convert_S16_To_F32 data nBlockAlign bsize fuel blk.1 0
        (sub32 samples copy)).map (fun rest => out ++ rest)
    else some []

/-- The function `FAudio_INTERNAL_DecodeStereoMSADPCM`. -/
def FAudio_INTERNAL_DecodeStereoMSADPCM (M : AdaptCoeffOverrun)
    (Convert_S16_To_F32 : List Int → List Sample) (fuel : Nat) (buffer : FAudioBuffer)
    (curOffset samples : Nat)
    (format : FAudioWaveFormatEx) : Option (List Sample) :=
  let bsize := wrap32 (sub32 (format.nBlockAlign / 2) 6 * 2)
  if bsize = 0 then none else
  let buf := (curOffset / bsize) * format.nBlockAlign
  let midOffset := curOffset % bsize
  DecodeStereoMSADPCM_loop M Convert_S16_To_F32 buffer.pAudioData format.nBlockAlign bsize
    fuel buf midOffset samples

/-! ## The buffer queue: `FAudio_INTERNAL_DecodeBuffers` -/

/-- The end of the region being played: `end` in `FAudio_INTERNAL_DecodeBuffers`. -/
def bufferEnd (buffer : FAudioBuffer) : Nat :=
  if buffer.LoopCount > 0 then wrap32 (buffer.LoopBegin + buffer.LoopLength)
  else wrap32 (buffer.PlayBegin + buffer.PlayLength)

/-- Whether `voice->src.callback` and the member chosen by `f` are both set. -/
def hasCallback (voice : FAudioSourceVoice) (f : FAudioVoiceCallback → Bool) : Bool :=
  match voice.src.callback with
  | none => false
  | some cb => f cb

/-- One pass through the body of the `while` loop of
`FAudio_INTERNAL_DecodeBuffers`, entered with `buffer` the head of the queue and
`next` the rest of it. Returns the voice, the engine and `decoded`. -/
def DecodeBuffers_body (K : Env) (voice : FAudioSourceVoice) (audio : FAudio)
    (buffer : FAudioBuffer) (next : List FAudioBuffer) (toDecode decoded : Nat) :
    FAudioSourceVoice × FAudio × Nat :=
  let decoding := sub32 toDecode decoded
  /- Start-of-buffer behavior -/
  let log1 :=
    if voice.src.curBufferOffset = buffer.PlayBegin ∧
        hasCallback voice (fun cb => cb.OnBufferStart) = true then
      audio.log ++ [Event.OnBufferStart buffer.pContext]
    else audio.log
  /- Check for end-of-buffer -/
  let end_ := bufferEnd buffer
  let endRead := FAudio_min (sub32 end_ voice.src.curBufferOffset) decoding
  /- Decode... -/
  let cache1 := writeAt audio.decodeCache (decoded * voice.src.format.nChannels)
    (voice.src.decode buffer voice.src.curBufferOffset endRead voice.src.format)
  let log2 := log1 ++ [Event.decode buffer.pContext voice.src.curBufferOffset endRead false]
  let src1 : SourceData := { voice.src with
    curBufferOffset := wrap32 (voice.src.curBufferOffset + endRead)
    totalSamples := wrap64 (voice.src.totalSamples + endRead) }
  /- End-of-buffer behavior -/
  if endRead < decoding then
    if buffer.LoopCount > 0 then
      let buffer1 : FAudioBuffer :=
        if buffer.LoopCount < K.FAUDIO_LOOP_INFINITE then
          { buffer with LoopCount := sub32 buffer.LoopCount 1 }
        else buffer
      let log3 :=
        if hasCallback voice (fun cb => cb.OnLoopEnd) = true then
          log2 ++ [Event.OnLoopEnd buffer.pContext]
        else log2
      ({ voice with src := { src1 with
            curBufferOffset := buffer.LoopBegin
            bufferList := buffer1 :: next } },
        { audio with decodeCache := cache1, log := log3 },
        wrap32 (decoded + endRead))
    else
      /- For EOS we can stop storing fraction offsets -/
      let src2 : SourceData :=
        if buffer.Flags &&& K.FAUDIO_END_OF_STREAM ≠ 0 then
          { src1 with curBufferOffsetDec := 0, totalSamples := 0 }
        else src1
      /- Change active buffer, delete finished buffer -/
      let src3 : SourceData :=
        match next with
        | b :: _ => { src2 with bufferList := next, curBufferOffset := b.PlayBegin }
        | [] => { src2 with bufferList := [] }
      let cache2 :=
        match next with
        | _ :: _ => cache1
        | [] => FAudio_zero cache1 ((decoded + endRead) * voice.src.format.nChannels)
            ((decoding - endRead) * voice.src.format.nChannels)
      /- Callbacks -/
      let log3 :=
        if hasCallback voice (fun cb => cb.OnBufferEnd) = true then
          log2 ++ [Event.OnBufferEnd buffer.pContext]
        else log2
      let log4 :=
        if buffer.Flags &&& K.FAUDIO_END_OF_STREAM ≠ 0 ∧
            hasCallback voice (fun cb => cb.OnStreamEnd) = true then
          log3 ++ [Event.OnStreamEnd]
        else log3
      ({ voice with src := src3 },
        { audio with decodeCache := cache2, log := log4 ++ [Event.free buffer.pContext] },
        wrap32 (decoded + endRead))
  else
    ({ voice with src := src1 },
      { audio with decodeCache := cache1, log := log2 },
      wrap32 (decoded + endRead))

/-- The `while` loop of `FAudio_INTERNAL_DecodeBuffers`. The local `buffer` is
the head of `voice->src.bufferList` throughout, `NULL` when the list is empty. -/
def DecodeBuffers_loop (K : Env) (toDecode : Nat) :
    Nat → FAudioSourceVoice → FAudio → Nat → Option (FAudioSourceVoice × FAudio × Nat)
  | 0, _, _, _ => none
  | fuel + 1, voice, audio, decoded =>
    match voice.src.bufferList with
    | [] => some (voice, audio, decoded)
    | buffer :: next =>
      if decoded < toDecode then
        let r := DecodeBuffers_body K voice audio buffer next toDecode decoded
        DecodeBuffers_loop K toDecode fuel r.1 r.2.1 r.2.2
      else some (voice, audio, decoded)

/-- The part of `FAudio_INTERNAL_DecodeBuffers` after the loop: the look-ahead
frames behind the decoded ones. -/
def DecodeBuffers_padding (K : Env) (voice : FAudioSourceVoice) (audio : FAudio)
    (decoded : Nat) : FAudio :=
  match voice.src.bufferList with
  | buffer :: _ =>
    let end_ := bufferEnd buffer
    let endRead := FAudio_min (sub32 end_ voice.src.curBufferOffset) K.EXTRA_DECODE_PADDING
    let cache1 := writeAt audio.decodeCache (decoded * voice.src.format.nChannels)
      (voice.src.decode buffer voice.src.curBufferOffset endRead voice.src.format)
    let log1 := audio.log ++
      [Event.decode buffer.pContext voice.src.curBufferOffset endRead true]
    let cache2 :=
      if endRead < K.EXTRA_DECODE_PADDING then
        FAudio_zero cache1 (decoded * voice.src.format.nChannels)
          (sub32 K.EXTRA_DECODE_PADDING (endRead * voice.src.format.nChannels))
      else cache1
    { audio with decodeCache := cache2, log := log1 }
  | [] =>
    let cache1 := FAudio_zero audio.decodeCache (decoded * voice.src.format.nChannels)
      (K.EXTRA_DECODE_PADDING * voice.src.format.nChannels)
    { audio with decodeCache := cache1 }

/-- The function `FAudio_INTERNAL_DecodeBuffers`. The third component of the
result is the value left in `*toDecode`. -/
def FAudio_INTERNAL_DecodeBuffers (K : Env) (fuel : Nat) (voice : FAudioSourceVoice)
    (audio : FAudio) (toDecode : Nat) : Option (FAudioSourceVoice × FAudio × Nat) :=
  (DecodeBuffers_loop K toDecode fuel voice audio 0).map
    (fun r => (r.1, DecodeBuffers_padding K r.1 r.2.1 r.2.2, r.2.2))

/-! ## The linear resampler: `FAudio_INTERNAL_ResamplePCM` -/

/-- The state of the loop of `FAudio_INTERNAL_ResamplePCM`: the read position
`dCache` (an index into the decode cache), the fraction `cur`,
`voice->src.resampleOffset`, and the resample cache with the write position
`*resampleCache`. -/
structure ResampleState where
  dCache : Nat
  cur : Nat
  resampleOffset : Nat
  out : FloatBuf
  pos : Nat

/-- One output frame of `FAudio_INTERNAL_ResamplePCM`. -/
def ResamplePCM_frame (nChannels resampleStep : Nat) (decodeCache : FloatBuf)
    (s : ResampleState) : ResampleState :=
  let frame := (List.range nChannels).map (fun j =>
    decodeCache (s.dCache + j) +
      (decodeCache (s.dCache + j + nChannels) - decodeCache (s.dCache + j)) *
        FIXED_TO_DOUBLE s.cur)
  let cur := wrap64 (s.cur + resampleStep)
  { dCache := s.dCache + (cur >>> FIXED_PRECISION) * nChannels
    cur := cur &&& FIXED_FRACTION_MASK
    resampleOffset := wrap64 (s.resampleOffset + resampleStep)
    out := writeAt s.out s.pos frame
    pos := s.pos + nChannels }

/-- The loop of `FAudio_INTERNAL_ResamplePCM`, `toResample` frames. -/
def ResamplePCM_loop (nChannels resampleStep : Nat) (decodeCache : FloatBuf) :
    Nat → ResampleState → ResampleState
  | 0, s => s
  | n + 1, s =>
    ResamplePCM_loop nChannels resampleStep decodeCache n
      (ResamplePCM_frame nChannels resampleStep decodeCache s)

/-- The function `FAudio_INTERNAL_ResamplePCM`, called with `*resampleCache`
at index `pos` of the resample cache. Returns the voice, the engine and the new
`*resampleCache`. The counter `i` is 32 bits wide; the caller passes a
`toResample` below `2 ^ 32`. -/
def FAudio_INTERNAL_ResamplePCM (voice : FAudioSourceVoice) (audio : FAudio) (pos : Nat)
    (toResample : Nat) : FAudioSourceVoice × FAudio × Nat :=
  let r := ResamplePCM_loop voice.src.format.nChannels voice.src.resampleStep
    audio.decodeCache toResample
    { dCache := 0
      cur := voice.src.resampleOffset &&& FIXED_FRACTION_MASK
      resampleOffset := voice.src.resampleOffset
      out := audio.resampleCache
      pos := pos }
  ({ voice with src := { voice.src with resampleOffset := r.resampleOffset } },
    { audio with resampleCache := r.out }, r.pos)

/-! ## The filter: `FAudio_INTERNAL_FilterVoice` -/

/-- The body of the loops of `FAudio_INTERNAL_FilterVoice` for one sample `x`
of one channel: the new state of the channel and the sample stored. -/
def FilterVoice_sample (filter : FAudioFilterParameters) (st : FAudioFilterState)
    (x : Sample) : FAudioFilterState × Sample :=
  let low := st FAudioFilterType.FAudioLowPassFilter +
    filter.Frequency * st FAudioFilterType.FAudioBandPassFilter
  let high := x - low - filter.OneOverQ * st FAudioFilterType.FAudioBandPassFilter
  let band := filter.Frequency * high + st FAudioFilterType.FAudioBandPassFilter
  let notch := high + low
  let st1 : FAudioFilterState := fun t =>
    match t with
    | FAudioFilterType.FAudioLowPassFilter => low
    | FAudioFilterType.FAudioBandPassFilter => band
    | FAudioFilterType.FAudioHighPassFilter => high
    | FAudioFilterType.FAudioNotchFilter => notch
  (st1, st1 filter.Type_)

/-- The function `FAudio_INTERNAL_FilterVoice`: the new filter state and the
new contents of `samples`. The index `j * numChannels + ci` is 32 bits wide. -/
def FAudio_INTERNAL_FilterVoice (filter : FAudioFilterParameters)
    (filterState : Nat → FAudioFilterState) (samples : FloatBuf)
    (numSamples numChannels : Nat) : (Nat → FAudioFilterState) × FloatBuf :=
  (List.range numSamples).foldl (fun acc j =>
    (List.range numChannels).foldl (fun acc ci =>
      let r := FilterVoice_sample filter (acc.1 ci) (acc.2 (wrap32 (j * numChannels + ci)))
      (Function.update acc.1 ci r.1, Function.update acc.2 (wrap32 (j * numChannels + ci)) r.2))
      acc) (filterState, samples)

/-! ## The effect chain: `FAudio_INTERNAL_ProcessEffectChain` -/

def FAudio_INTERNAL_ResizeEffectChainCache (audio : FAudio) (samples : Nat) : FAudio :=
  if samples > audio.effectChainSamples then
    { audio with effectChainSamples := samples }
  else audio

/-- The locals of `FAudio_INTERNAL_ProcessEffectChain` that change in its loop,
with the contents of the array `buffer` and the engine. -/
structure ChainState where
  srcFmt : FAudioWaveFormatEx
  dstFmt : FAudioWaveFormatEx
  srcParams : FAPOProcessBufferParameters
  dstParams : FAPOProcessBufferParameters
  buffer : FloatBuf
  audio : FAudio

/-- The array a `pBuffer` points to. -/
def ChainState.deref (c : ChainState) : BufferPtr → FloatBuf
  | BufferPtr.buffer => c.buffer
  | BufferPtr.effectChainCache => c.audio.effectChainCache

/-- Replace the contents of the array a `pBuffer` points to. -/
def ChainState.store (c : ChainState) (p : BufferPtr) (content : FloatBuf) : ChainState :=
  match p with
  | BufferPtr.buffer => { c with buffer := content }
  | BufferPtr.effectChainCache =>
    { c with audio := { c.audio with effectChainCache := content } }

/-- The body of the loop of `FAudio_INTERNAL_ProcessEffectChain` for effect
`i`: the slot and the locals afterwards. -/
def ProcessEffectChain_body (samples i : Nat) (slot : EffectSlot) (c : ChainState) :
    EffectSlot × ChainState :=
  let fapo := slot.desc.pEffect
  let c1 : ChainState :=
    if slot.inPlaceProcessing = 0 then
      let nBlockAlign := slot.desc.OutputChannels * (c.dstFmt.wBitsPerSample / 8)
      let dstFmt : FAudioWaveFormatEx := { c.dstFmt with
        nChannels := slot.desc.OutputChannels
        nBlockAlign := nBlockAlign
        nAvgBytesPerSec := c.dstFmt.nSamplesPerSec * nBlockAlign }
      if c.dstParams.pBuffer = BufferPtr.buffer then
        { c with
          dstFmt := dstFmt
          audio := FAudio_INTERNAL_ResizeEffectChainCache c.audio (nBlockAlign * samples)
          dstParams := { c.dstParams with pBuffer := BufferPtr.effectChainCache } }
      else
        { c with
          dstFmt := dstFmt
          dstParams := { c.dstParams with pBuffer := BufferPtr.buffer } }
    else c
  let st1 := if slot.parameterUpdates ≠ 0 then
      fapo.SetParameters fapo.state slot.parameters slot.parameterSizes
    else fapo.state
  let log1 := if slot.parameterUpdates ≠ 0 then
      c1.audio.log ++ [Event.SetParameters i slot.parameters slot.parameterSizes]
    else c1.audio.log
  let lk := fapo.LockForProcess st1
    { pFormat := c1.srcFmt, MaxFrameCount := samples }
    { pFormat := c1.dstFmt, MaxFrameCount := samples }
  let log2 := log1 ++
    [Event.LockForProcess i c1.srcFmt.nChannels c1.dstFmt.nChannels samples lk.2]
  let pr := fapo.Process lk.1
    (c1.deref c1.srcParams.pBuffer) c1.srcParams.BufferFlags c1.srcParams.ValidFrameCount
    (c1.deref c1.dstParams.pBuffer) c1.dstParams.BufferFlags c1.dstParams.ValidFrameCount
    slot.desc.InitialState
  let log3 := log2 ++
    [Event.Process i c1.srcParams.pBuffer c1.dstParams.pBuffer slot.desc.InitialState,
      Event.UnlockForProcess i]
  let st2 := fapo.UnlockForProcess pr.1
  let c2 := c1.store c1.dstParams.pBuffer pr.2.1
  let dstParams : FAPOProcessBufferParameters :=
    { pBuffer := c1.dstParams.pBuffer, BufferFlags := pr.2.2.1, ValidFrameCount := pr.2.2.2 }
  ({ slot with
      desc := { slot.desc with pEffect := { fapo with state := st2 } }
      parameterUpdates := 0 },
    { c2 with
      audio := { c2.audio with log := log3 }
      srcFmt := c1.dstFmt
      dstParams := dstParams
      srcParams := dstParams })

/-- The loop of `FAudio_INTERNAL_ProcessEffectChain` from effect `i` on. -/
def ProcessEffectChain_loop (samples : Nat) :
    Nat → List EffectSlot → ChainState → List EffectSlot × ChainState
  | _, [], c => ([], c)
  | i, slot :: rest, c =>
    let r := ProcessEffectChain_body samples i slot c
    let rs := ProcessEffectChain_loop samples (i + 1) rest r.2
    (r.1 :: rs.1, rs.2)

/-- The function `FAudio_INTERNAL_ProcessEffectChain` on the effects of a
voice: the effects, the engine and the contents of `buffer` afterwards, and the
pointer it returns. -/
def FAudio_INTERNAL_ProcessEffectChain (K : Env) (effects : List EffectSlot)
    (audio : FAudio) (channels sampleRate : Nat) (buffer : FloatBuf) (samples : Nat) :
    List EffectSlot × FAudio × FloatBuf × BufferPtr :=
  let srcFmt : FAudioWaveFormatEx :=
    { wBitsPerSample := 32
      wFormatTag := 3
      nChannels := channels
      nSamplesPerSec := sampleRate
      nBlockAlign := channels * (32 / 8)
      nAvgBytesPerSec := sampleRate * (channels * (32 / 8))
      cbSize := 0 }
  let srcParams : FAPOProcessBufferParameters :=
    { pBuffer := BufferPtr.buffer
      BufferFlags := K.FAPO_BUFFER_VALID
      ValidFrameCount := samples }
  let r := ProcessEffectChain_loop samples 0 effects
    { srcFmt := srcFmt, dstFmt := srcFmt, srcParams := srcParams, dstParams := srcParams,
      buffer := buffer, audio := audio }
  (r.1, r.2.audio, r.2.buffer, r.2.dstParams.pBuffer)

/-! ## Mixing into the sends -/

/-- The array and channel count a send writes to: `stream` and `oChan`. A send
to a submix voice that is not in the list of the engine has no target. -/
def sendTarget (audio : FAudio) : VoiceRef → Option (FloatBuf × Nat)
  | VoiceRef.master => some (audio.master.master.output, audio.master.master.inputChannels)
  | VoiceRef.submix k =>
    (audio.submixes.get? k).map (fun v => (v.mix.inputCache, v.mix.inputChannels))

/-- Store the array of a send target back into the engine. -/
def setSendTarget (audio : FAudio) (out : VoiceRef) (stream : FloatBuf) : FAudio :=
  match out with
  | VoiceRef.master =>
    { audio with master := { audio.master with
        master := { audio.master.master with output := stream } } }
  | VoiceRef.submix k =>
    match audio.submixes.get? k with
    | some v =>
      let v1 : FAudioSubmixVoice := { v with mix := { v.mix with inputCache := stream } }
      { audio with submixes := audio.submixes.set k v1 }
    | none => audio

/-- The three nested loops that mix `mixed` frames into `stream`; `term j co ci`
is the product added to `stream[j * oChan + co]` for input channel `ci`. -/
def mixIntoStream (K : Env) (term : Nat → Nat → Nat → Sample)
    (mixed oChan outputChannels : Nat) (stream : FloatBuf) : FloatBuf :=
  (List.range mixed).foldl (fun s j =>
    (List.range oChan).foldl (fun s co =>
      (List.range outputChannels).foldl (fun s ci =>
        Function.update s (j * oChan + co)
          (FAudio_clamp (s (j * oChan + co) + term j co ci)
            (-K.FAUDIO_MAX_VOLUME_LEVEL) K.FAUDIO_MAX_VOLUME_LEVEL)) s) s) stream

/-- The loop over the sends of a voice, from send `i` on; `term i j co ci` is
the product added for send `i`. -/
def mixSends (K : Env) (term : Nat → Nat → Nat → Nat → Sample)
    (mixed outputChannels : Nat) : Nat → List FAudioSendDescriptor → FAudio → FAudio
  | _, [], audio => audio
  | i, send :: rest, audio =>
    let audio1 :=
      match sendTarget audio send.pOutputVoice with
      | some (stream, oChan) =>
        setSendTarget audio send.pOutputVoice
          (mixIntoStream K (term i) mixed oChan outputChannels stream)
      | none => audio
    mixSends K term mixed outputChannels (i + 1) rest audio1

/-- The array an effect chain returned. -/
def effectOutput (audio : FAudio) : BufferPtr → FloatBuf
  | BufferPtr.buffer => audio.resampleCache
  | BufferPtr.effectChainCache => audio.effectChainCache

/-! ## The source voice: `FAudio_INTERNAL_MixSource` -/

/-- The first block of `FAudio_INTERNAL_MixSource`: the stepping value is
computed again when the frequency ratio has changed. -/
def MixSource_step (voice : FAudioSourceVoice) (audio : FAudio) : FAudioSourceVoice :=
  if voice.src.resampleFreqRatio ≠ voice.src.freqRatio then
    let out : VoiceRef :=
      match voice.sends with
      | [] => VoiceRef.master
      | send :: _ => send.pOutputVoice
    let outputRate : Nat :=
      match out with
      | VoiceRef.master => audio.master.master.inputSampleRate
      | VoiceRef.submix k =>
        ((audio.submixes.get? k).map (fun v => v.mix.inputSampleRate)).getD 0
    let stepd : Sample :=
      voice.src.freqRatio * (voice.src.format.nSamplesPerSec : Sample) / (outputRate : Sample)
    { voice with src := { voice.src with
        resampleStep := DOUBLE_TO_FIXED stepd
        resampleFreqRatio := voice.src.freqRatio } }
  else voice

/-- The size of the decode request in the loop of `FAudio_INTERNAL_MixSource`:
`toDecode` as passed to `FAudio_INTERNAL_DecodeBuffers`. -/
def MixSource_toDecode (voice : FAudioSourceVoice) (mixed : Nat) : Nat :=
  let toDecode := wrap64 (sub32 voice.src.resampleSamples mixed * voice.src.resampleStep)
  let toDecode := wrap64 (toDecode + wrap64 (voice.src.curBufferOffsetDec + FIXED_FRACTION_MASK))
  toDecode >>> FIXED_PRECISION

/-- The number of frames to resample in the loop of `FAudio_INTERNAL_MixSource`,
from the count `toDecode` that `FAudio_INTERNAL_DecodeBuffers` returned. -/
def MixSource_toResample (voice : FAudioSourceVoice) (mixed toDecode : Nat) : Nat :=
  let toResample := wrap64 (toDecode <<< FIXED_PRECISION)
  let toResample := sub64 toResample voice.src.curBufferOffsetDec
  let toResample := toResample / voice.src.resampleStep
  FAudio_min toResample (sub32 voice.src.resampleSamples mixed)

/-- The body of the decode/resample loop of `FAudio_INTERNAL_MixSource` after
the call of `FAudio_INTERNAL_DecodeBuffers` returned `toDecode`. Returns the
voice, the engine, `mixed` and the position `resampleCache`. -/
def MixSource_resample (voice : FAudioSourceVoice) (audio : FAudio)
    (mixed pos toDecode : Nat) : FAudioSourceVoice × FAudio × Nat × Nat :=
  let toResample := MixSource_toResample voice mixed toDecode
  /- Resample... -/
  let r : FAudioSourceVoice × FAudio × Nat :=
    if voice.src.resampleStep = FIXED_ONE then
      let cache := FAudio_memcpy audio.resampleCache pos audio.decodeCache 0
        (toResample * voice.src.format.nChannels)
      (voice, { audio with resampleCache := cache },
        pos + toResample * voice.src.format.nChannels)
    else FAudio_INTERNAL_ResamplePCM voice audio pos toResample
  /- Update buffer offsets -/
  let src1 : SourceData :=
    match r.1.src.bufferList with
    | _ :: _ => { r.1.src with
        curBufferOffsetDec :=
          wrap64 (r.1.src.curBufferOffsetDec + wrap64 (toResample * r.1.src.resampleStep))
            &&& FIXED_FRACTION_MASK }
    | [] => { r.1.src with curBufferOffsetDec := 0, curBufferOffset := 0 }
  ({ r.1 with src := src1 }, r.2.1, wrap32 (mixed + wrap32 toResample), r.2.2)

/-- The decode/resample loop of `FAudio_INTERNAL_MixSource`. `dfuel` bounds the
loop of each call of `FAudio_INTERNAL_DecodeBuffers`. A stepping value of zero
is a division by zero: `none`. Returns the voice, the engine and `mixed`. -/
def MixSource_loop (K : Env) (dfuel : Nat) :
    Nat → FAudioSourceVoice → FAudio → Nat → Nat → Option (FAudioSourceVoice × FAudio × Nat)
  | 0, _, _, _, _ => none
  | fuel + 1, voice, audio, mixed, pos =>
    if mixed < voice.src.resampleSamples ∧ voice.src.bufferList.isEmpty = false then
      match FAudio_INTERNAL_DecodeBuffers K dfuel voice audio (MixSource_toDecode voice mixed) with
      | none => none
      | some (voice1, audio1, toDecode) =>
        if voice1.src.resampleStep = 0 then none
        else
          let r := MixSource_resample voice1 audio1 mixed pos toDecode
          MixSource_loop K dfuel fuel r.1 r.2.1 r.2.2.1 r.2.2.2
    else some (voice, audio, mixed)

/-- The label `end` of `FAudio_INTERNAL_MixSource`. -/
def MixSource_end (voice : FAudioSourceVoice) (audio : FAudio) : FAudioSourceVoice × FAudio :=
  if hasCallback voice (fun cb => cb.OnVoiceProcessingPassEnd) = true then
    (voice, { audio with log := audio.log ++ [Event.OnVoiceProcessingPassEnd] })
  else (voice, audio)

/-- The part of `FAudio_INTERNAL_MixSource` after the decode/resample loop, for
`mixed` frames in the resample cache: filter, effect chain, sends. -/
def MixSource_output (K : Env) (voice : FAudioSourceVoice) (audio : FAudio) (mixed : Nat) :
    FAudioSourceVoice × FAudio :=
  if mixed = 0 then MixSource_end voice audio
  else if voice.sends.length = 0 then MixSource_end voice audio
  else
    /- Filters -/
    let f : (Nat → FAudioFilterState) × FloatBuf :=
      if voice.flags &&& K.FAUDIO_VOICE_USEFILTER ≠ 0 then
        FAudio_INTERNAL_FilterVoice voice.filter voice.filterState audio.resampleCache
          mixed voice.src.format.nChannels
      else (voice.filterState, audio.resampleCache)
    let audio1 : FAudio := { audio with resampleCache := f.2 }
    /- Process effect chain -/
    let e : List EffectSlot × FAudio × FloatBuf × BufferPtr :=
      if voice.effects.length > 0 then
        FAudio_INTERNAL_ProcessEffectChain K voice.effects audio1 voice.src.format.nChannels
          voice.src.format.nSamplesPerSec audio1.resampleCache mixed
      else (voice.effects, audio1, audio1.resampleCache, BufferPtr.buffer)
    let audio2 : FAudio := { e.2.1 with resampleCache := e.2.2.1 }
    let effectOut := effectOutput audio2 e.2.2.2
    /- Send float cache to sends -/
    let audio3 := mixSends K
      (fun i j co ci =>
        effectOut (j * voice.outputChannels + ci) * voice.channelVolume ci * voice.volume *
          voice.sendCoefficients i (co * voice.outputChannels + ci))
      mixed voice.outputChannels 0 voice.sends audio2
    MixSource_end { voice with filterState := f.1, effects := e.1 } audio3

/-- The function `FAudio_INTERNAL_MixSource`. -/
def FAudio_INTERNAL_MixSource (K : Env) (fuel : Nat) (voice : FAudioSourceVoice)
    (audio : FAudio) : Option (FAudioSourceVoice × FAudio) :=
  /- Calculate the resample stepping value -/
  let voice := MixSource_step voice audio
  /- Last call for buffer data! -/
  let audio : FAudio :=
    if hasCallback voice (fun cb => cb.OnVoiceProcessingPassStart) = true then
      { audio with log := audio.log ++
          [Event.OnVoiceProcessingPassStart (voice.src.decodeSamples * 2)] }
    else audio
  /- Nothing to do? -/
  match voice.src.bufferList with
  | [] => some (MixSource_end voice audio)
  | _ :: _ =>
    (MixSource_loop K fuel fuel voice audio 0 0).map
      (fun r => MixSource_output K r.1 r.2.1 r.2.2)

/-! ## The submix voice: `FAudio_INTERNAL_MixSubmix` -/

/-- The volume loop of `FAudio_INTERNAL_MixSubmix` and of the master voice:
every one of the first `n` floats is multiplied by `volume` and clamped. -/
def applyVolume (K : Env) (volume : Sample) (n : Nat) (buf : FloatBuf) : FloatBuf :=
  fun i =>
    if i < n then
      FAudio_clamp (buf i * volume) (-K.FAUDIO_MAX_VOLUME_LEVEL) K.FAUDIO_MAX_VOLUME_LEVEL
    else buf i

/-- The last statement of `FAudio_INTERNAL_MixSubmix`: the input cache of
submix voice `idx` is zeroed. -/
def MixSubmix_end (audio : FAudio) (idx : Nat) : FAudio :=
  match audio.submixes.get? idx with
  | some v =>
    let v1 : FAudioSubmixVoice :=
      { v with mix := { v.mix with inputCache := FAudio_zero v.mix.inputCache 0 v.mix.inputSamples } }
    { audio with submixes := audio.submixes.set idx v1 }
  | none => audio

/-- The function `FAudio_INTERNAL_MixSubmix` on the submix voice at position
`idx` of the list of the engine. A voice with no input channels divides by
zero: `none`. -/
def FAudio_INTERNAL_MixSubmix (K : Env) (audio : FAudio) (idx : Nat) : Option FAudio :=
  match audio.submixes.get? idx with
  | none => some audio
  | some voice =>
    /- Nothing to do? -/
    if voice.sends.length = 0 then some (MixSubmix_end audio idx)
    else
      /- Resample (if necessary) -/
      let rs := K.FAudio_PlatformResample voice.mix.resampler voice.mix.inputCache
        voice.mix.inputSamples (wrap32 (voice.mix.outputSamples * voice.mix.inputChannels))
      let cache0 := writeAt audio.resampleCache 0 rs.1
      let resampled := rs.2
      /- Submix overall volume is applied _before_ effects/filters, blech! -/
      let cache1 :=
        if voice.volume ≠ 1 then applyVolume K voice.volume resampled cache0 else cache0
      if voice.mix.inputChannels = 0 then none
      else
        let resampled := resampled / voice.mix.inputChannels
        /- Filters -/
        let f : (Nat → FAudioFilterState) × FloatBuf :=
          if voice.flags &&& K.FAUDIO_VOICE_USEFILTER ≠ 0 then
            FAudio_INTERNAL_FilterVoice voice.filter voice.filterState cache1 resampled
              voice.mix.inputChannels
          else (voice.filterState, cache1)
        let audio1 : FAudio := { audio with resampleCache := f.2 }
        /- Process effect chain -/
        let e : List EffectSlot × FAudio × FloatBuf × BufferPtr :=
          if voice.effects.length > 0 then
            FAudio_INTERNAL_ProcessEffectChain K voice.effects audio1 voice.mix.inputChannels
              voice.mix.inputSampleRate audio1.resampleCache resampled
          else (voice.effects, audio1, audio1.resampleCache, BufferPtr.buffer)
        let voice1 : FAudioSubmixVoice := { voice with filterState := f.1, effects := e.1 }
        let audio2 : FAudio := { e.2.1 with
          resampleCache := e.2.2.1
          submixes := e.2.1.submixes.set idx voice1 }
        let effectOut := effectOutput audio2 e.2.2.2
        /- Send float cache to sends -/
        let audio3 := mixSends K
          (fun i j co ci =>
            effectOut (j * voice.outputChannels + ci) * voice.channelVolume ci *
              voice.sendCoefficients i (co * voice.outputChannels + ci))
          resampled voice.outputChannels 0 voice.sends audio2
        /- Zero this at the end, for the next update -/
        some (MixSubmix_end audio3 idx)

/-! ## The engine tick: `FAudio_INTERNAL_UpdateEngine` -/

/-- The loop over the source voices. -/
def UpdateEngine_sources (K : Env) (fuel : Nat) :
    List FAudioSourceVoice → FAudio → Option (List FAudioSourceVoice × FAudio)
  | [], audio => some ([], audio)
  | source :: rest, audio =>
    if source.src.active = true then
      match FAudio_INTERNAL_MixSource K fuel source audio with
      | none => none
      | some (source1, audio1) =>
        (UpdateEngine_sources K fuel rest audio1).map (fun r => (source1 :: r.1, r.2))
    else
      (UpdateEngine_sources K fuel rest audio).map (fun r => (source :: r.1, r.2))

/-- The inner loop over the submix voices for stage `i`, over the list
positions in `idxs`. -/
def UpdateEngine_stage (K : Env) (i : Nat) : List Nat → FAudio → Option FAudio
  | [], audio => some audio
  | k :: rest, audio =>
    match audio.submixes.get? k with
    | none => UpdateEngine_stage K i rest audio
    | some submix =>
      if submix.mix.processingStage = i then
        match FAudio_INTERNAL_MixSubmix K audio k with
        | none => none
        | some audio1 => UpdateEngine_stage K i rest audio1
      else UpdateEngine_stage K i rest audio

/-- The outer loop over the processing stages in `stages`. -/
def UpdateEngine_submixes (K : Env) : List Nat → FAudio → Option FAudio
  | [], audio => some audio
  | i :: rest, audio =>
    match UpdateEngine_stage K i (List.range audio.submixes.length) audio with
    | none => none
    | some audio1 => UpdateEngine_submixes K rest audio1

/-- The events of one of the two loops over the engine callbacks. -/
def passEvents (callbacks : List FAudioEngineCallback) (start : Bool) : List Event :=
  callbacks.filterMap (fun cb =>
    if start then
      if cb.OnProcessingPassStart then some (Event.OnProcessingPassStart cb.ident) else none
    else
      if cb.OnProcessingPassEnd then some (Event.OnProcessingPassEnd cb.ident) else none)

/-- The master part of `FAudio_INTERNAL_UpdateEngine`: volume, effect chain. -/
def UpdateEngine_master (K : Env) (audio : FAudio) : FAudio :=
  /- Apply master volume -/
  let totalSamples := wrap32 (audio.updateSize * audio.master.master.inputChannels)
  let output :=
    if audio.master.volume ≠ 1 then
      applyVolume K audio.master.volume totalSamples audio.master.master.output
    else audio.master.master.output
  /- Process master effect chain -/
  if audio.master.effects.length > 0 then
    let e := FAudio_INTERNAL_ProcessEffectChain K audio.master.effects audio
      audio.master.master.inputChannels audio.master.master.inputSampleRate output
      audio.updateSize
    let output1 :=
      match e.2.2.2 with
      | BufferPtr.buffer => e.2.2.1
      | BufferPtr.effectChainCache =>
        FAudio_memcpy e.2.2.1 0 e.2.1.effectChainCache 0
          (audio.updateSize * audio.master.outputChannels)
    { e.2.1 with master := { e.2.1.master with
        effects := e.1
        master := { e.2.1.master.master with output := output1 } } }
  else
    { audio with master := { audio.master with
        master := { audio.master.master with output := output } } }

/-- The function `FAudio_INTERNAL_UpdateEngine`, called with the array
`output`. Returns the engine and the contents of the array afterwards. -/
def FAudio_INTERNAL_UpdateEngine (K : Env) (fuel : Nat) (audio : FAudio) (output : FloatBuf) :
    Option (FAudio × FloatBuf) :=
  if audio.active = false then some (audio, output)
  else
    /- ProcessingPassStart callbacks -/
    let audio1 : FAudio := { audio with log := audio.log ++ passEvents audio.callbacks true }
    /- Writes to master will directly write to output -/
    let audio2 : FAudio := { audio1 with master := { audio1.master with
      master := { audio1.master.master with output := output } } }
    /- Mix sources -/
    match UpdateEngine_sources K fuel audio2.sources audio2 with
    | none => none
    | some (sources, audio3) =>
      let audio4 : FAudio := { audio3 with sources := sources }
      /- Mix submixes, ordered by processing stage -/
      match UpdateEngine_submixes K (List.range (audio4.submixStages + 1)) audio4 with
      | none => none
      | some audio5 =>
        let audio6 := UpdateEngine_master K audio5
        /- OnProcessingPassEnd callbacks -/
        let audio7 : FAudio :=
          { audio6 with log := audio6.log ++ passEvents audio6.callbacks false }
        some (audio7, audio7.master.master.output)


/-! ## The SSE2 converter of 8-bit samples

The intrinsics of `<emmintrin.h>` that `FAudio_INTERNAL_Convert_U8_To_F32_SSE2`
uses, on a 128-bit integer register held as its eight 16-bit lanes (lowest
first) and a float register held as its four lanes. -/

/-- The value of a 32-bit pattern read as an `int`. -/
def toInt32 (x : Nat) : Int :=
  if x % 2 ^ 32 < 2 ^ 31 then ((x % 2 ^ 32 : Nat) : Int) else ((x % 2 ^ 32 : Nat) : Int) - 2 ^ 32

/-- The expression `(((float) *src) * DIVBY128) - 1.0f`. -/
def convertU8 (b : Nat) : Sample := (b : Sample) * DIVBY128 - 1

def _mm_setzero_si128 : List Nat := List.replicate 8 0

def _mm_set1_ps (a : Sample) : List Sample := List.replicate 4 a

/-- Load the 16 bytes at byte index `p` of `src`: lane `j` holds bytes `2j`
(low) and `2j + 1` (high). -/
def _mm_load_si128 (src : ByteBuf) (p : Nat) : List Nat :=
  (List.range 8).map (fun j => readU8 src (p + 2 * j) + 256 * readU8 src (p + 2 * j + 1))

def _mm_slli_epi16 (a : List Nat) (imm8 : Nat) : List Nat :=
  a.map (fun x => (x <<< imm8) % 65536)

def _mm_srli_epi16 (a : List Nat) (imm8 : Nat) : List Nat :=
  a.map (fun x => x >>> imm8)

def _mm_unpacklo_epi16 (a b : List Nat) : List Nat :=
  [a.getD 0 0, b.getD 0 0, a.getD 1 0, b.getD 1 0, a.getD 2 0, b.getD 2 0, a.getD 3 0,
    b.getD 3 0]

def _mm_unpackhi_epi16 (a b : List Nat) : List Nat :=
  [a.getD 4 0, b.getD 4 0, a.getD 5 0, b.getD 5 0, a.getD 6 0, b.getD 6 0, a.getD 7 0,
    b.getD 7 0]

/-- Convert the four signed 32-bit lanes (lane `j` is made of the 16-bit lanes
`2j` and `2j + 1`) to floats. -/
def _mm_cvtepi32_ps (a : List Nat) : List Sample :=
  (List.range 4).map (fun j =>
    ((toInt32 (a.getD (2 * j) 0 + 65536 * a.getD (2 * j + 1) 0) : Int) : Sample))

def _mm_mul_ps (a b : List Sample) : List Sample := List.zipWith (fun x y => x * y) a b

def _mm_add_ps (a b : List Sample) : List Sample := List.zipWith (fun x y => x + y) a b

def _mm_unpacklo_ps (a b : List Sample) : List Sample :=
  [a.getD 0 0, b.getD 0 0, a.getD 1 0, b.getD 1 0]

def _mm_unpackhi_ps (a b : List Sample) : List Sample :=
  [a.getD 2 0, b.getD 2 0, a.getD 3 0, b.getD 3 0]

def _mm_store_ps (dst : FloatBuf) (p : Nat) (a : List Sample) : FloatBuf := writeAt dst p a

/-- The first loop of `FAudio_INTERNAL_Convert_U8_To_F32_SSE2`, which runs
until `dst - 15` is aligned to 16 bytes. `dstAddr` is the address the function
received in `dst`; `i` is the counter (the 32-bit pattern of the `int`) and `p`
the index `src` and `dst` both point to. A store in front of the arrays is
`none`. Returns `i`, `p` and the contents of `dst`. -/
def Convert_U8_To_F32_SSE2_align (dstAddr : Nat) (src : ByteBuf) :
    Nat → Int → FloatBuf → Option (Nat × Int × FloatBuf)
  | 0, p, dst => some (0, p, dst)
  | i + 1, p, dst =>
    if ((dstAddr : Int) + 4 * (p - 15)) % 16 ≠ 0 then
      if p < 0 then none
      else Convert_U8_To_F32_SSE2_align dstAddr src i (p - 1)
        (Function.update dst p.toNat (convertU8 (readU8 src p.toNat)))
    else some (i + 1, p, dst)

/-- One round of the vector loop: the sixteen floats stored at `dst + p`. -/
def Convert_U8_To_F32_SSE2_block (src : ByteBuf) (p : Nat) (dst : FloatBuf) : FloatBuf :=
  let zero := _mm_setzero_si128
  let divby128 := _mm_set1_ps DIVBY128
  let minus1 := _mm_set1_ps (-1)
  let bytes := _mm_load_si128 src p
  let shorts1 := _mm_srli_epi16 (_mm_slli_epi16 bytes 8) 8
  let shorts2 := _mm_srli_epi16 bytes 8
  let floats1 :=
    _mm_add_ps (_mm_mul_ps (_mm_cvtepi32_ps (_mm_unpacklo_epi16 shorts1 zero)) divby128) minus1
  let floats2 :=
    _mm_add_ps (_mm_mul_ps (_mm_cvtepi32_ps (_mm_unpacklo_epi16 shorts2 zero)) divby128) minus1
  let floats3 :=
    _mm_add_ps (_mm_mul_ps (_mm_cvtepi32_ps (_mm_unpackhi_epi16 shorts1 zero)) divby128) minus1
  let floats4 :=
    _mm_add_ps (_mm_mul_ps (_mm_cvtepi32_ps (_mm_unpackhi_epi16 shorts2 zero)) divby128) minus1
  let dst := _mm_store_ps dst p (_mm_unpacklo_ps floats1 floats2)
  let dst := _mm_store_ps dst (p + 4) (_mm_unpackhi_ps floats1 floats2)
  let dst := _mm_store_ps dst (p + 8) (_mm_unpacklo_ps floats3 floats4)
  _mm_store_ps dst (p + 12) (_mm_unpackhi_ps floats3 floats4)

/-- The vector loop `while (i >= 16)`, a signed comparison. -/
def Convert_U8_To_F32_SSE2_blocks (src : ByteBuf) :
    Nat → Nat → Int → FloatBuf → Option (Nat × Int × FloatBuf)
  | 0, i, p, dst => if 16 ≤ toInt32 i then none else some (i, p, dst)
  | fuel + 1, i, p, dst =>
    if 16 ≤ toInt32 i then
      if p < 0 then none
      else Convert_U8_To_F32_SSE2_blocks src fuel (i - 16) (p - 16)
        (Convert_U8_To_F32_SSE2_block src p.toNat dst)
    else some (i, p, dst)

/-- The last loop `while (i)`. -/
def Convert_U8_To_F32_SSE2_rest (src : ByteBuf) : Nat → Int → FloatBuf → Option FloatBuf
  | 0, _, dst => some dst
  | i + 1, p, dst =>
    if p < 0 then none
    else Convert_U8_To_F32_SSE2_rest src i (p - 1)
      (Function.update dst p.toNat (convertU8 (readU8 src p.toNat)))

/-- The function `FAudio_INTERNAL_Convert_U8_To_F32_SSE2`. `srcAddr` and
`dstAddr` are the addresses received in `src` and `dst`; `src` and `dst` are the
contents of the two arrays. The counter `i` is an `int`; it is held as its
32-bit pattern, so that `--i` is a decrement of the pattern. -/
def FAudio_INTERNAL_Convert_U8_To_F32_SSE2 (srcAddr dstAddr : Nat) (src : ByteBuf)
    (dst : FloatBuf) (len : Nat) : Option FloatBuf :=
  let p : Int := ((sub32 len 1 : Nat) : Int)
  match Convert_U8_To_F32_SSE2_align dstAddr src (wrap32 len) p dst with
  | none => none
  | some (i, p, dst) =>
    let p := p - 15
    let r : Option (Nat × Int × FloatBuf) :=
      if ((srcAddr : Int) + p) % 16 = 0 then Convert_U8_To_F32_SSE2_blocks src i i p dst
      else some (i, p, dst)
    match r with
    | none => none
    | some (i, p, dst) => Convert_U8_To_F32_SSE2_rest src i (p + 15) dst

/-! ## The other SIMD converters

`FAudio_INTERNAL_Convert_S16_To_F32_SSE2`, `FAudio_INTERNAL_Convert_U8_To_F32_NEON`
and `FAudio_INTERNAL_Convert_S16_To_F32_NEON` are built like the SSE2 converter of
8-bit samples: a scalar loop until `dst - w` is aligned to 16 bytes, a vector
loop of `w + 1` samples a round when `src` is aligned too, and a scalar loop for
the rest. `conv k` stands for the scalar expression on sample `k` of `src`. -/

/-- The four 32-bit lanes of an integer register held as eight 16-bit lanes. -/
def lanes32 (a : List Nat) : List Nat :=
  [a.getD 0 0 + 65536 * a.getD 1 0, a.getD 2 0 + 65536 * a.getD 3 0,
    a.getD 4 0 + 65536 * a.getD 5 0, a.getD 6 0 + 65536 * a.getD 7 0]

/-- The eight 16-bit lanes of four 32-bit lanes. -/
def lanes16 (a : List Nat) : List Nat :=
  [a.getD 0 0 % 65536, a.getD 0 0 / 65536 % 65536, a.getD 1 0 % 65536,
    a.getD 1 0 / 65536 % 65536, a.getD 2 0 % 65536, a.getD 2 0 / 65536 % 65536,
    a.getD 3 0 % 65536, a.getD 3 0 / 65536 % 65536]

def _mm_slli_epi32 (a : List Nat) (imm8 : Nat) : List Nat :=
  lanes16 ((lanes32 a).map (fun x => (x <<< imm8) % 2 ^ 32))

/-- Shift every 32-bit lane right, shifting in the sign bit. -/
def _mm_srai_epi32 (a : List Nat) (imm8 : Nat) : List Nat :=
  lanes16 ((lanes32 a).map (fun x => Int.toNat ((toInt32 x / 2 ^ imm8) % 2 ^ 32)))

def _mm_unpacklo_epi32 (a b : List Nat) : List Nat :=
  [a.getD 0 0, a.getD 1 0, b.getD 0 0, b.getD 1 0, a.getD 2 0, a.getD 3 0, b.getD 2 0,
    b.getD 3 0]

def _mm_unpackhi_epi32 (a b : List Nat) : List Nat :=
  [a.getD 4 0, a.getD 5 0, b.getD 4 0, b.getD 5 0, a.getD 6 0, a.getD 7 0, b.getD 6 0,
    b.getD 7 0]

/-- The expression `((float) *src) * DIVBY32768` on the `int16_t` at index `k`
of `src`. -/
def convertS16 (src : ByteBuf) (k : Nat) : Sample := (readS16 src (2 * k) : Sample) * DIVBY32768

/-- The first loop of a converter,
`for (i = len; i && (((size_t) (dst-w)) & 15); --i, --src, --dst)`. `dstAddr` is
the address the function received in `dst`; `i` is the counter (the 32-bit
pattern of the `int`) and `p` the index `src` and `dst` both point to. A store
in front of the arrays is `none`. Returns `i`, `p` and the contents of `dst`. -/
def Convert_SIMD_align (w : Nat) (conv : Nat → Sample) (dstAddr : Nat) :
    Nat → Int → FloatBuf → Option (Nat × Int × FloatBuf)
  | 0, p, dst => some (0, p, dst)
  | i + 1, p, dst =>
    if ((dstAddr : Int) + 4 * (p - w)) % 16 ≠ 0 then
      if p < 0 then none
      else Convert_SIMD_align w conv dstAddr i (p - 1)
        (Function.update dst p.toNat (conv p.toNat))
    else some (i + 1, p, dst)

/-- The vector loop `while (i >= w + 1)`, a signed comparison; `block p dst` is
the array `dst` after one round with `src` and `dst` at index `p`. -/
def Convert_SIMD_blocks (w : Nat) (block : Nat → FloatBuf → FloatBuf) :
    Nat → Nat → Int → FloatBuf → Option (Nat × Int × FloatBuf)
  | 0, i, p, dst => if ((w : Int) + 1) ≤ toInt32 i then none else some (i, p, dst)
  | fuel + 1, i, p, dst =>
    if ((w : Int) + 1) ≤ toInt32 i then
      if p < 0 then none
      else Convert_SIMD_blocks w block fuel (i - (w + 1)) (p - (w + 1)) (block p.toNat dst)
    else some (i, p, dst)

/-- The last loop `while (i)`. -/
def Convert_SIMD_rest (conv : Nat → Sample) : Nat → Int → FloatBuf → Option FloatBuf
  | 0, _, dst => some dst
  | i + 1, p, dst =>
    if p < 0 then none
    else Convert_SIMD_rest conv i (p - 1) (Function.update dst p.toNat (conv p.toNat))

/-- The three loops in a row. `size` is the size of a sample of `src` in bytes;
`srcAddr` and `dstAddr` are the addresses received in `src` and `dst`. The
counter `i` is an `int`; it is held as its 32-bit pattern, so that `--i` is a
decrement of the pattern. -/
def Convert_SIMD (w size : Nat) (conv : Nat → Sample) (block : Nat → FloatBuf → FloatBuf)
    (srcAddr dstAddr : Nat) (dst : FloatBuf) (len : Nat) : Option FloatBuf :=
  let p : Int := ((sub32 len 1 : Nat) : Int)
  match Convert_SIMD_align w conv dstAddr (wrap32 len) p dst with
  | none => none
  | some (i, p, dst) =>
    let p := p - w
    let r : Option (Nat × Int × FloatBuf) :=
      if ((srcAddr : Int) + size * p) % 16 = 0 then Convert_SIMD_blocks w block i i p dst
      else some (i, p, dst)
    match r with
    | none => none
    | some (i, p, dst) => Convert_SIMD_rest conv i (p + w) dst

/-- One round of the vector loop of `FAudio_INTERNAL_Convert_S16_To_F32_SSE2`:
the eight floats stored at `dst + p`. -/
def Convert_S16_To_F32_SSE2_block (src : ByteBuf) (p : Nat) (dst : FloatBuf) : FloatBuf :=
  let divby32768 := _mm_set1_ps DIVBY32768
  let ints := _mm_load_si128 src (2 * p)
  let a := _mm_srai_epi32 (_mm_slli_epi32 ints 16) 16
  let b := _mm_srai_epi32 ints 16
  let dst := _mm_store_ps dst p
    (_mm_mul_ps (_mm_cvtepi32_ps (_mm_unpacklo_epi32 a b)) divby32768)
  _mm_store_ps dst (p + 4) (_mm_mul_ps (_mm_cvtepi32_ps (_mm_unpackhi_epi32 a b)) divby32768)

/-- The function `FAudio_INTERNAL_Convert_S16_To_F32_SSE2`; `src` holds the
shorts as bytes, sample `k` at the bytes `2k` and `2k + 1`. -/
def FAudio_INTERNAL_Convert_S16_To_F32_SSE2 (srcAddr dstAddr : Nat) (src : ByteBuf)
    (dst : FloatBuf) (len : Nat) : Option FloatBuf :=
  Convert_SIMD 7 2 (convertS16 src) (Convert_S16_To_F32_SSE2_block src) srcAddr dstAddr dst len

/-! ### NEON

The intrinsics of `<arm_neon.h>` that the two NEON converters use, on registers
held as the list of their lanes, lowest first. -/

def vdupq_n_f32 (value : Sample) : List Sample := List.replicate 4 value

def vld1q_u8 (src : ByteBuf) (p : Nat) : List Nat := (List.range 16).map (fun j => readU8 src (p + j))

def vget_high_u8 (a : List Nat) : List Nat := a.drop 8

def vget_low_u8 (a : List Nat) : List Nat := a.take 8

/-- Widen every lane from 8 to 16 bits. -/
def vmovl_u8 (a : List Nat) : List Nat := a

def vget_high_u16 (a : List Nat) : List Nat := a.drop 4

def vget_low_u16 (a : List Nat) : List Nat := a.take 4

/-- Widen every lane from 16 to 32 bits. -/
def vmovl_u16 (a : List Nat) : List Nat := a

def vcvtq_f32_u32 (a : List Nat) : List Sample := a.map (fun x => (x : Sample))

/-- Multiply-subtract: `a[i] - (b[i] * c[i])` in every lane. -/
def vmlsq_f32 (a b c : List Sample) : List Sample :=
  List.zipWith (fun x yz => x - yz) a (List.zipWith (fun y z => y * z) b c)

def vst1q_f32 (dst : FloatBuf) (p : Nat) (val : List Sample) : FloatBuf := writeAt dst p val

def vld1q_s16 (src : ByteBuf) (p : Nat) : List Int :=
  (List.range 8).map (fun j => readS16 src (2 * (p + j)))

def vget_low_s16 (a : List Int) : List Int := a.take 4

def vget_high_s16 (a : List Int) : List Int := a.drop 4

/-- Widen every lane from 16 to 32 bits, keeping the sign. -/
def vmovl_s16 (a : List Int) : List Int := a

def vcvtq_f32_s32 (a : List Int) : List Sample := a.map (fun x => (x : Sample))

def vmulq_f32 (a b : List Sample) : List Sample := List.zipWith (fun x y => x * y) a b

/-- One round of the vector loop of `FAudio_INTERNAL_Convert_U8_To_F32_NEON`:
the sixteen floats stored at `dst + p`. -/
def Convert_U8_To_F32_NEON_block (src : ByteBuf) (p : Nat) (dst : FloatBuf) : FloatBuf :=
  let divby128 := vdupq_n_f32 DIVBY128
  let one := vdupq_n_f32 1
  let bytes := vld1q_u8 src p
  let uint16hi := vmovl_u8 (vget_high_u8 bytes)
  let uint16lo := vmovl_u8 (vget_low_u8 bytes)
  let dst := vst1q_f32 dst p
    (vmlsq_f32 (vcvtq_f32_u32 (vmovl_u16 (vget_high_u16 uint16hi))) divby128 one)
  let dst := vst1q_f32 dst (p + 4)
    (vmlsq_f32 (vcvtq_f32_u32 (vmovl_u16 (vget_low_u16 uint16hi))) divby128 one)
  let dst := vst1q_f32 dst (p + 8)
    (vmlsq_f32 (vcvtq_f32_u32 (vmovl_u16 (vget_high_u16 uint16lo))) divby128 one)
  vst1q_f32 dst (p + 12)
    (vmlsq_f32 (vcvtq_f32_u32 (vmovl_u16 (vget_low_u16 uint16lo))) divby128 one)

/-- The function `FAudio_INTERNAL_Convert_U8_To_F32_NEON`. -/
def FAudio_INTERNAL_Convert_U8_To_F32_NEON (srcAddr dstAddr : Nat) (src : ByteBuf)
    (dst : FloatBuf) (len : Nat) : Option FloatBuf :=
  Convert_SIMD 15 1 (fun k => convertU8 (readU8 src k)) (Convert_U8_To_F32_NEON_block src)
    srcAddr dstAddr dst len

/-- One round of the vector loop of `FAudio_INTERNAL_Convert_S16_To_F32_NEON`:
the eight floats stored at `dst + p`. -/
def Convert_S16_To_F32_NEON_block (src : ByteBuf) (p : Nat) (dst : FloatBuf) : FloatBuf :=
  let divby32768 := vdupq_n_f32 DIVBY32768
  let ints := vld1q_s16 src p
  let dst := vst1q_f32 dst p
    (vmulq_f32 (vcvtq_f32_s32 (vmovl_s16 (vget_low_s16 ints))) divby32768)
  vst1q_f32 dst (p + 4) (vmulq_f32 (vcvtq_f32_s32 (vmovl_s16 (vget_high_s16 ints))) divby32768)

/-- The function `FAudio_INTERNAL_Convert_S16_To_F32_NEON`; `src` holds the
shorts as bytes, sample `k` at the bytes `2k` and `2k + 1`. -/
def FAudio_INTERNAL_Convert_S16_To_F32_NEON (srcAddr dstAddr : Nat) (src : ByteBuf)
    (dst : FloatBuf) (len : Nat) : Option FloatBuf :=
  Convert_SIMD 7 2 (convertS16 src) (Convert_S16_To_F32_NEON_block src) srcAddr dstAddr dst len

/-! ## The channel mask of the Windows platform: `get_channel_mask` -/

/-- The speaker constants of `<ksmedia.h>` that `get_channel_mask` uses; the
header is not among the sources. -/
structure SpeakerMasks where
  SPEAKER_LOW_FREQUENCY : Nat
  SPEAKER_BACK_CENTER : Nat
  KSAUDIO_SPEAKER_MONO : Nat
  KSAUDIO_SPEAKER_STEREO : Nat
  KSAUDIO_SPEAKER_QUAD : Nat
  KSAUDIO_SPEAKER_5POINT1 : Nat
  KSAUDIO_SPEAKER_7POINT1_SURROUND : Nat

/-- The function `get_channel_mask` of `FAudio_platform_win32.c`. -/
def get_channel_mask (M : SpeakerMasks) (channels : Nat) : Nat :=
  match channels with
  | 0 => 0
  | 1 => M.KSAUDIO_SPEAKER_MONO
  | 2 => M.KSAUDIO_SPEAKER_STEREO
  | 3 => M.KSAUDIO_SPEAKER_STEREO ||| M.SPEAKER_LOW_FREQUENCY
  | 4 => M.KSAUDIO_SPEAKER_QUAD
  | 5 => M.KSAUDIO_SPEAKER_QUAD ||| M.SPEAKER_LOW_FREQUENCY
  | 6 => M.KSAUDIO_SPEAKER_5POINT1
  | 7 => M.KSAUDIO_SPEAKER_5POINT1 ||| M.SPEAKER_BACK_CENTER
  | 8 => M.KSAUDIO_SPEAKER_7POINT1_SURROUND
  | _ => 0

/-! ## The linked list: `LinkedList_AddEntry`, `LinkedList_PrependEntry`,
`LinkedList_RemoveEntry`

A node lives at an address; `NULL` is `none`. The mutex is not modelled. -/

/-- A node of a `LinkedList`. -/
structure LinkedList where
  entry : Nat
  next : Option Nat
  deriving DecidableEq, Repr

/-- The memory that holds the nodes: the node at each allocated address. -/
abbrev ListHeap := Nat → Option LinkedList

/-- The loop `while (latest->next != NULL) latest = latest->next` of
`LinkedList_AddEntry`: the last node. A dangling pointer is `none`. -/
def LinkedList_AddEntry_loop (heap : ListHeap) : Nat → Nat → Option Nat
  | 0, _ => none
  | fuel + 1, latest =>
    match heap latest with
    | none => none
    | some node =>
      match node.next with
      | none => some latest
      | some n => LinkedList_AddEntry_loop heap fuel n

/-- The function `LinkedList_AddEntry`; `newEntry` is the address that
`FAudio_malloc` returns. Returns the memory and `*start`. -/
def LinkedList_AddEntry (fuel : Nat) (heap : ListHeap) (start : Option Nat)
    (toAdd newEntry : Nat) : Option (ListHeap × Option Nat) :=
  let heap1 : ListHeap := Function.update heap newEntry (some { entry := toAdd, next := none })
  match start with
  | none => some (heap1, some newEntry)
  | some s =>
    match LinkedList_AddEntry_loop heap1 fuel s with
    | none => none
    | some latest =>
      match heap1 latest with
      | none => none
      | some node =>
        some (Function.update heap1 latest (some { node with next := some newEntry }), start)

/-- The function `LinkedList_PrependEntry`. -/
def LinkedList_PrependEntry (heap : ListHeap) (start : Option Nat) (toAdd newEntry : Nat) :
    ListHeap × Option Nat :=
  (Function.update heap newEntry (some { entry := toAdd, next := start }), some newEntry)

/-- The loop of `LinkedList_RemoveEntry` with its locals `latest` and `prev`.
The third component of the result tells whether the function returned from
inside the loop (`true`) or reached the assertion behind it (`false`). -/
def LinkedList_RemoveEntry_loop (start : Option Nat) (toRemove : Nat) :
    Nat → ListHeap → Option Nat → Option Nat → Option (ListHeap × Option Nat × Bool)
  | 0, _, _, _ => none
  | fuel + 1, heap, latest, prev =>
    match latest with
    | none => some (heap, start, false)
    | some l =>
      match heap l with
      | none => none
      | some node =>
        if node.entry = toRemove then
          if latest = prev then
            some (Function.update heap l none, node.next, true)
          else
            match prev with
            | none => none
            | some p =>
              match heap p with
              | none => none
              | some pnode =>
                some (Function.update (Function.update heap p
                  (some { pnode with next := node.next })) l none, start, true)
        else LinkedList_RemoveEntry_loop start toRemove fuel heap node.next latest

/-- The function `LinkedList_RemoveEntry`. -/
def LinkedList_RemoveEntry (fuel : Nat) (heap : ListHeap) (start : Option Nat)
    (toRemove : Nat) : Option (ListHeap × Option Nat × Bool) :=
  LinkedList_RemoveEntry_loop start toRemove fuel heap start start

/-! ## The device list of the Windows platform: `FAudio_PlatformQuit`,
`FAudio_PlatformStart`, `FAudio_PlatformGetDeviceDetails` -/

/-- The fields of `FAudioPlatformDevice` that the device list functions use;
`audio` is the address of the engine. -/
structure FAudioPlatformDevice where
  audio : Nat
  stop_engine : Bool
  deriving DecidableEq, Repr

/-- The devices in memory, by address. -/
abbrev DeviceHeap := Nat → Option FAudioPlatformDevice

/-- The search loop of `FAudio_PlatformQuit`, with the local variables `dev` and
`device`; the result holds both and `found`. The loop body does not change
`dev`. The result is `none` when the fuel runs out or a pointer is invalid. -/
def FAudio_PlatformQuit_loop (heap : ListHeap) (devices : DeviceHeap) (audio : Nat) :
    Nat → Option Nat → Option Nat → Option (Option Nat × Option Nat × Bool)
  | 0, _, _ => none
  | fuel + 1, dev, device =>
    match dev with
    | none => some (dev, device, false)
    | some d =>
      match heap d with
      | none => none
      | some node =>
        match devices node.entry with
        | none => none
        | some dv =>
          if dv.audio = audio then some (dev, some node.entry, true)
          else FAudio_PlatformQuit_loop heap devices audio fuel dev (some node.entry)

/-- The ways `FAudio_PlatformQuit` can end: it returns with the list heap, the
devices, `devlist` and the device it stopped and freed, or it reads the `next`
field of a null list node. -/
inductive PlatformQuitResult where
  | returned (heap : ListHeap) (devices : DeviceHeap) (devlist : Option Nat)
      (stopped : Option Nat)
  | nullDereference

/-- The function `FAudio_PlatformQuit` of `FAudio_platform_win32.c`. The result
is `none` when the fuel runs out or a pointer is invalid. -/
def FAudio_PlatformQuit (fuel : Nat) (heap : ListHeap) (devices : DeviceHeap)
    (devlist : Option Nat) (audio : Nat) : Option PlatformQuitResult :=
  match FAudio_PlatformQuit_loop heap devices audio fuel devlist none with
  | none => none
  | some (dev, device, found) =>
    if found then
      match device with
      | none => none
      | some dv =>
        match devices dv with
        | none => none
        | some r =>
          let devices1 := Function.update devices dv (some { r with stop_engine := true })
          match LinkedList_RemoveEntry fuel heap devlist dv with
          | none => none
          | some (heap1, devlist1, _) =>
            some (PlatformQuitResult.returned heap1 (Function.update devices1 dv none)
              devlist1 (some dv))
    else
      match dev with
      | none => some PlatformQuitResult.nullDereference
      | some d =>
        match heap d with
        | none => none
        | some _ => some (PlatformQuitResult.returned heap devices devlist none)

/-- The function `FAudio_PlatformStart` of `FAudio_platform_win32.c`: the result
is the device whose client is started, if any. It is `none` when the fuel
runs out or a pointer is invalid. -/
def FAudio_PlatformStart (heap : ListHeap) (devices : DeviceHeap) (audio : Nat) :
    Nat → Option Nat → Option (Option Nat)
  | 0, _ => none
  | fuel + 1, dev =>
    match dev with
    | none => some none
    | some d =>
      match heap d with
      | none => none
      | some node =>
        match devices node.entry with
        | none => none
        | some dv =>
          if dv.audio = audio then some (some node.entry)
          else FAudio_PlatformStart heap devices audio fuel node.next

/-- The constants of headers that are not among the sources and that
`FAudio_PlatformGetDeviceDetails` uses. -/
structure DeviceConstants where
  GlobalDefaultDevice : Nat
  NotDefaultDevice : Nat
  SPEAKER_STEREO : Nat
  WAVE_FORMAT_IEEE_FLOAT : Nat

/-- The fields of `FAudioWaveFormatExtensible` that
`FAudio_PlatformGetDeviceDetails` writes. -/
structure FAudioWaveFormatExtensible where
  Format : FAudioWaveFormatEx
  wValidBitsPerSample : Nat
  dwChannelMask : Nat

/-- The structure `FAudioDeviceDetails`; the two strings hold the characters
before the first zero. -/
structure FAudioDeviceDetails where
  DeviceID : List Nat
  DisplayName : List Nat
  Role : Nat
  OutputFormat : FAudioWaveFormatExtensible

/-- The details after `FAudio_zero`. -/
def zeroDetails : FAudioDeviceDetails :=
  { DeviceID := [], DisplayName := [], Role := 0,
    OutputFormat :=
      { Format :=
          { wFormatTag := 0, nChannels := 0, nSamplesPerSec := 0, nAvgBytesPerSec := 0,
            nBlockAlign := 0, wBitsPerSample := 0, cbSize := 0 },
        wValidBitsPerSample := 0, dwChannelMask := 0 } }

/-- The function `FAudio_PlatformGetDeviceCount` of `FAudio_platform_win32.c`. -/
def FAudio_PlatformGetDeviceCount (mmdevcount : Nat) : Nat := mmdevcount

/-- The characters of the display name that `FAudio_PlatformGetDeviceDetails`
stores. -/
def friendlyName : List Nat := ("Should Get Friendly Name").toList.map Char.toNat

/-- The function `FAudio_PlatformGetDeviceDetails` of
`FAudio_platform_win32.c`: `mmdevids i` is the string that the array element
`mmdevids[i]` points to. The result holds the details and the indices at
which `mmdevids` was read. -/
def FAudio_PlatformGetDeviceDetails (C : DeviceConstants) (mmdevcount : Nat)
    (mmdevids : Nat → List Nat) (index : Nat) : FAudioDeviceDetails × List Nat :=
  if index > FAudio_PlatformGetDeviceCount mmdevcount then (zeroDetails, [])
  else
    let len := FAudio_min friendlyName.length 0xFF
    let nChannels := 2
    let wBitsPerSample := 32
    let nSamplesPerSec := 48000
    let nBlockAlign := nChannels * (wBitsPerSample / 8)
    ({ DeviceID := mmdevids index,
       DisplayName := friendlyName.take len,
       Role := if index = 0 then C.GlobalDefaultDevice else C.NotDefaultDevice,
       OutputFormat :=
         { Format :=
             { wFormatTag := C.WAVE_FORMAT_IEEE_FLOAT, nChannels := nChannels,
               nSamplesPerSec := nSamplesPerSec,
               nAvgBytesPerSec := nSamplesPerSec * nBlockAlign,
               nBlockAlign := nBlockAlign, wBitsPerSample := wBitsPerSample, cbSize := 0 },
           wValidBitsPerSample := 32, dwChannelMask := C.SPEAKER_STEREO } }, [index])


/-! ## Notions used to state the properties -/

/-- What `FAudio_INTERNAL_DecodeBuffers` leaves alone in a source voice: all of
it but the queue, the buffer offset, the sample counter, and the fractional
offset, which it either keeps or resets to zero. -/
structure SameVoice (v v1 : FAudioSourceVoice) : Prop where
  base : v1.toFAudioVoice = v.toFAudioVoice
  maxFreqRatio : v1.src.maxFreqRatio = v.src.maxFreqRatio
  format : v1.src.format = v.src.format
  callback : v1.src.callback = v.src.callback
  decode : v1.src.decode = v.src.decode
  decodeSamples : v1.src.decodeSamples = v.src.decodeSamples
  resampleSamples : v1.src.resampleSamples = v.src.resampleSamples
  active : v1.src.active = v.src.active
  freqRatio : v1.src.freqRatio = v.src.freqRatio
  resampleFreqRatio : v1.src.resampleFreqRatio = v.src.resampleFreqRatio
  resampleStep : v1.src.resampleStep = v.src.resampleStep
  resampleOffset : v1.src.resampleOffset = v.src.resampleOffset
  dec : v1.src.curBufferOffsetDec = v.src.curBufferOffsetDec ∨ v1.src.curBufferOffsetDec = 0

/-- What `FAudio_INTERNAL_DecodeBuffers` leaves alone in the engine: all of it
but the decode cache and the log. -/
structure SameEngine (a a1 : FAudio) : Prop where
  active : a1.active = a.active
  updateSize : a1.updateSize = a.updateSize
  submixStages : a1.submixStages = a.submixStages
  master : a1.master = a.master
  sources : a1.sources = a.sources
  submixes : a1.submixes = a.submixes
  callbacks : a1.callbacks = a.callbacks
  decodeSamples : a1.decodeSamples = a.decodeSamples
  resampleSamples : a1.resampleSamples = a.resampleSamples
  resampleCache : a1.resampleCache = a.resampleCache
  effectChainSamples : a1.effectChainSamples = a.effectChainSamples
  effectChainCache : a1.effectChainCache = a.effectChainCache

/-- Sample `k` of the mono MSADPCM stream of a buffer: the samples of the
blocks, `(align - 6) * 2` of each, one block after the other. -/
def monoStream (M : AdaptCoeffOverrun) (data : ByteBuf) (align : Nat) (k : Nat) : Int :=
  (FAudio_INTERNAL_DecodeMonoMSADPCMBlock M data
    (k / wrap32 (sub32 align 6 * 2) * align) align).2.getD (k % wrap32 (sub32 align 6 * 2)) 0

/-- Sample `k` of the interleaved stereo MSADPCM stream of a buffer: the first
`(align / 2 - 6) * 2` frames of each block, one block after the other. -/
def stereoStream (M : AdaptCoeffOverrun) (data : ByteBuf) (align : Nat) (k : Nat) : Int :=
  (FAudio_INTERNAL_DecodeStereoMSADPCMBlock M data
    (k / (2 * wrap32 (sub32 (align / 2) 6 * 2)) * align) align).2.getD
      (k % (2 * wrap32 (sub32 (align / 2) 6 * 2))) 0

/-- The frames that `end - curBufferOffset` leaves for the head buffer. -/
def avail (voice : FAudioSourceVoice) (buffer : FAudioBuffer) : Nat :=
  sub32 (bufferEnd buffer) voice.src.curBufferOffset

/-- The value of `endRead` in one pass of the loop of
`FAudio_INTERNAL_DecodeBuffers`. -/
def endReadOf (voice : FAudioSourceVoice) (buffer : FAudioBuffer) (toDecode decoded : Nat) :
    Nat :=
  FAudio_min (avail voice buffer) (sub32 toDecode decoded)

/-- The events of one pass of the loop of `FAudio_INTERNAL_DecodeBuffers`. -/
def bodyEvents (K : Env) (voice : FAudioSourceVoice) (buffer : FAudioBuffer)
    (toDecode decoded : Nat) : List Event :=
  (if voice.src.curBufferOffset = buffer.PlayBegin ∧
      hasCallback voice (fun cb => cb.OnBufferStart) = true then
    [Event.OnBufferStart buffer.pContext] else []) ++
  [Event.decode buffer.pContext voice.src.curBufferOffset
    (endReadOf voice buffer toDecode decoded) false] ++
  (if endReadOf voice buffer toDecode decoded < sub32 toDecode decoded then
    if buffer.LoopCount > 0 then
      (if hasCallback voice (fun cb => cb.OnLoopEnd) = true then
        [Event.OnLoopEnd buffer.pContext] else [])
    else
      (if hasCallback voice (fun cb => cb.OnBufferEnd) = true then
        [Event.OnBufferEnd buffer.pContext] else []) ++
      (if buffer.Flags &&& K.FAUDIO_END_OF_STREAM ≠ 0 ∧
          hasCallback voice (fun cb => cb.OnStreamEnd) = true then
        [Event.OnStreamEnd] else []) ++
      [Event.free buffer.pContext]
  else [])

/-- The queue after one pass of the loop of `FAudio_INTERNAL_DecodeBuffers`. -/
def bodyQueue (K : Env) (voice : FAudioSourceVoice) (buffer : FAudioBuffer)
    (next : List FAudioBuffer) (toDecode decoded : Nat) : List FAudioBuffer :=
  if endReadOf voice buffer toDecode decoded < sub32 toDecode decoded then
    if buffer.LoopCount > 0 then
      (if buffer.LoopCount < K.FAUDIO_LOOP_INFINITE then
        { buffer with LoopCount := sub32 buffer.LoopCount 1 } else buffer) :: next
    else next
  else voice.src.bufferList

/-- The buffer offset after one pass of the loop of
`FAudio_INTERNAL_DecodeBuffers`. -/
def bodyOffset (voice : FAudioSourceVoice) (buffer : FAudioBuffer)
    (next : List FAudioBuffer) (toDecode decoded : Nat) : Nat :=
  if endReadOf voice buffer toDecode decoded < sub32 toDecode decoded then
    if buffer.LoopCount > 0 then buffer.LoopBegin
    else
      match next with
      | b :: _ => b.PlayBegin
      | [] => wrap32 (voice.src.curBufferOffset + endReadOf voice buffer toDecode decoded)
  else wrap32 (voice.src.curBufferOffset + endReadOf voice buffer toDecode decoded)

/-- The frame numbers of the decode calls made inside the loop of
`FAudio_INTERNAL_DecodeBuffers`, in order. -/
def framesOf : List Event → List Nat
  | [] => []
  | Event.decode _ curOffset samples false :: es => List.range' curOffset samples ++ framesOf es
  | _ :: es => framesOf es

/-- Whether an event is a call of `FAudio_free`. -/
def isFree : Event → Bool
  | Event.free _ => true
  | _ => false

/-- The frames a buffer plays from offset `off` with `LC` loops to go: up to
the end of the loop region, `LC - 1` times the loop region, and from the start
of the loop region to the end of the play region. -/
def loopSeq (b : FAudioBuffer) (LC off : Nat) : List Nat :=
  if LC = 0 then List.range' off (b.PlayBegin + b.PlayLength - off)
  else
    List.range' off (b.LoopBegin + b.LoopLength - off) ++
      ((List.replicate (LC - 1) (List.range' b.LoopBegin b.LoopLength)).flatten ++
        List.range' b.LoopBegin (b.PlayBegin + b.PlayLength - b.LoopBegin))

/-- A buffer whose loop region lies inside its play region, with 32-bit fields. -/
structure WellFormed (b : FAudioBuffer) : Prop where
  begin_le : b.PlayBegin ≤ b.LoopBegin
  end_le : b.LoopBegin + b.LoopLength ≤ b.PlayBegin + b.PlayLength
  end_lt : b.PlayBegin + b.PlayLength < 2 ^ 32
  count_lt : b.LoopCount < 2 ^ 32

/-- A buffer on which the loop of `FAudio_INTERNAL_DecodeBuffers` makes
progress: 32-bit fields, and a loop region that is not empty when the loop
count never runs out. -/
structure Playable (K : Env) (b : FAudioBuffer) : Prop where
  playBegin_lt : b.PlayBegin < 2 ^ 32
  loopBegin_lt : b.LoopBegin < 2 ^ 32
  loopLength_lt : b.LoopLength < 2 ^ 32
  loopCount_lt : b.LoopCount < 2 ^ 32
  loop_pos : K.FAUDIO_LOOP_INFINITE ≤ b.LoopCount → 0 < b.LoopLength

/-- The weight of a queue in the termination measure of the loop of
`FAudio_INTERNAL_DecodeBuffers`: one for each buffer and one for each loop of a
finite loop count. -/
def queueWeight (K : Env) : List FAudioBuffer → Nat
  | [] => 0
  | b :: rest =>
    1 + (if b.LoopCount < K.FAUDIO_LOOP_INFINITE then b.LoopCount else 0) + queueWeight K rest

/-- One when the head buffer has no frame left before its end, else zero. -/
def stallFlag (voice : FAudioSourceVoice) : Nat :=
  match voice.src.bufferList with
  | [] => 0
  | b :: _ => if avail voice b = 0 then 1 else 0

/-- The termination measure of the loop of `FAudio_INTERNAL_DecodeBuffers`. -/
def loopMeasure (K : Env) (voice : FAudioSourceVoice) (toDecode decoded : Nat) : Nat :=
  2 * (toDecode - decoded) + 2 * queueWeight K voice.src.bufferList + stallFlag voice

/-- Successive calls of `FAudio_INTERNAL_DecodeBuffers`, one for each request. -/
def DecodeBuffers_run (K : Env) (fuel : Nat) :
    List Nat → FAudioSourceVoice → FAudio → Option (FAudioSourceVoice × FAudio)
  | [], voice, audio => some (voice, audio)
  | n :: rest, voice, audio =>
    match FAudio_INTERNAL_DecodeBuffers K fuel voice audio n with
    | none => none
    | some r => DecodeBuffers_run K fuel rest r.1 r.2.1

/-- The buffer `b0`, with `LC` loops to go, is the head of the queue before
`tail`, and the buffer offset lies in the region being played. -/
def HeadAlive (b0 : FAudioBuffer) (tail : List FAudioBuffer) (voice : FAudioSourceVoice)
    (LC : Nat) : Prop :=
  voice.src.bufferList = { b0 with LoopCount := LC } :: tail ∧
  LC ≤ b0.LoopCount ∧
  b0.PlayBegin ≤ voice.src.curBufferOffset ∧
  voice.src.curBufferOffset ≤
    (if LC > 0 then b0.LoopBegin + b0.LoopLength else b0.PlayBegin + b0.PlayLength)

/-- The account of a buffer `b0` that was at the head of the queue, before
`tail`, at offset `off0` when the events `ev` began. Either it is still the
head, no buffer has been freed, and the frames decoded so far followed by the
frames still to play are the frames of the whole buffer; or `ev` holds its
`FAudio_free`, and the frames decoded before that are the frames of the whole
buffer. -/
def HeadInv (b0 : FAudioBuffer) (tail : List FAudioBuffer) (off0 : Nat)
    (voice : FAudioSourceVoice) (ev : List Event) : Prop :=
  (∃ LC, HeadAlive b0 tail voice LC ∧
    (∀ e ∈ ev, isFree e = false) ∧
    framesOf ev ++ loopSeq b0 LC voice.src.curBufferOffset = loopSeq b0 b0.LoopCount off0 ∧
    (hasCallback voice (fun cb => cb.OnLoopEnd) = true →
      List.count (Event.OnLoopEnd b0.pContext) ev + LC = b0.LoopCount) ∧
    List.count (Event.OnBufferEnd b0.pContext) ev = 0) ∨
  (∃ ev0 rest, ev = ev0 ++ Event.free b0.pContext :: rest ∧
    (∀ e ∈ ev0, isFree e = false) ∧
    framesOf ev0 = loopSeq b0 b0.LoopCount off0 ∧
    (hasCallback voice (fun cb => cb.OnLoopEnd) = true →
      List.count (Event.OnLoopEnd b0.pContext) ev0 = b0.LoopCount) ∧
    (hasCallback voice (fun cb => cb.OnBufferEnd) = true →
      List.count (Event.OnBufferEnd b0.pContext) ev0 = 1) ∧
    (tail = [] → rest = [] ∧ voice.src.bufferList = []))

/-- Rounding to the nearest integer, a half going away from zero. -/
def roundHalfAway (x : ℚ) : Int :=
  if 0 ≤ x then ⌊x + 1 / 2⌋ else ⌈x - 1 / 2⌉

/-- The array `dst` after the bytes of `src` at the indices from `lo` up to
`hi` (excluded) have been converted into it. -/
def convertedRange (src : ByteBuf) (dst : FloatBuf) (lo hi : Nat) : FloatBuf :=
  fun k => if lo ≤ k ∧ k < hi then convertU8 (readU8 src k) else dst k

/-- The other one of the two arrays of an effect chain. -/
def otherBuffer : BufferPtr → BufferPtr
  | BufferPtr.buffer => BufferPtr.effectChainCache
  | BufferPtr.effectChainCache => BufferPtr.buffer

/-- The calls of `Process` in a log: effect index, input array, output array. -/
def processCalls : List Event → List (Nat × BufferPtr × BufferPtr)
  | [] => []
  | Event.Process i src dst _ :: es => (i, src, dst) :: processCalls es
  | _ :: es => processCalls es

/-- The start state of the loop of `FAudio_INTERNAL_ProcessEffectChain`. -/
def chainStart (K : Env) (audio : FAudio) (channels sampleRate : Nat) (buffer : FloatBuf)
    (samples : Nat) : ChainState :=
  let srcFmt : FAudioWaveFormatEx :=
    { wBitsPerSample := 32
      wFormatTag := 3
      nChannels := channels
      nSamplesPerSec := sampleRate
      nBlockAlign := channels * (32 / 8)
      nAvgBytesPerSec := sampleRate * (channels * (32 / 8))
      cbSize := 0 }
  let srcParams : FAPOProcessBufferParameters :=
    { pBuffer := BufferPtr.buffer
      BufferFlags := K.FAPO_BUFFER_VALID
      ValidFrameCount := samples }
  { srcFmt := srcFmt, dstFmt := srcFmt, srcParams := srcParams, dstParams := srcParams,
    buffer := buffer, audio := audio }

/-- The members of a submix voice that no function of the mixer changes:
`inputSamples`, `processingStage`, `inputChannels`. -/
def submixKey (v : FAudioSubmixVoice) : Nat × Nat × Nat :=
  (v.mix.inputSamples, v.mix.processingStage, v.mix.inputChannels)

/-- The processing stage of the submix voice at position `k` of a list of
voices given by their keys (0 when there is none). -/
def stageOf (keys : List (Nat × Nat × Nat)) (k : Nat) : Nat :=
  ((keys.get? k).map (fun x => x.2.1)).getD 0

/-- The positions among `idxs` of the submix voices of stage `i`, in the order
of `idxs`. -/
def stageMembers (keys : List (Nat × Nat × Nat)) (i : Nat) (idxs : List Nat) : List Nat :=
  idxs.filter (fun k => decide ((keys.get? k).map (fun x => x.2.1) = some i))

/-- The positions of the submix voices in the order in which one tick mixes
them: stage after stage from 0 to `submixStages`, list order within a stage. -/
def submixOrder (keys : List (Nat × Nat × Nat)) (submixStages : Nat) : List Nat :=
  (List.range (submixStages + 1)).flatMap (fun i =>
    stageMembers keys i (List.range keys.length))

/-- The calls of `FAudio_INTERNAL_MixSubmix` on the voices at the positions
`idxs`, one after the other. -/
def MixSubmix_seq (K : Env) : List Nat → FAudio → Option FAudio
  | [], audio => some audio
  | k :: rest, audio =>
    match FAudio_INTERNAL_MixSubmix K audio k with
    | none => none
    | some audio1 => MixSubmix_seq K rest audio1

/-- The part of `FAudio_INTERNAL_UpdateEngine` after the submix voices: master
volume, master effect chain, `OnProcessingPassEnd` callbacks. -/
def UpdateEngine_finish (K : Env) (audio : FAudio) : FAudio × FloatBuf :=
  let audio6 := UpdateEngine_master K audio
  let audio7 : FAudio := { audio6 with log := audio6.log ++ passEvents audio6.callbacks false }
  (audio7, audio7.master.master.output)

/-- The part of `FAudio_INTERNAL_UpdateEngine` before the source voices:
`OnProcessingPassStart` callbacks, and `output` becomes the array of the master
voice. -/
def UpdateEngine_start (audio : FAudio) (output : FloatBuf) : FAudio :=
  let audio1 : FAudio := { audio with log := audio.log ++ passEvents audio.callbacks true }
  { audio1 with master := { audio1.master with
      master := { audio1.master.master with output := output } } }

/-- The float at `stream[j * oChan + co]` after the innermost loop of the mix
has added the products of the `outputChannels` input channels to `x`, with a
clamp after each addition. -/
def mixValue (K : Env) (term : Nat → Nat → Nat → Sample) (outputChannels j co : Nat)
    (x : Sample) : Sample :=
  (List.range outputChannels).foldl (fun x ci =>
    FAudio_clamp (x + term j co ci) (-K.FAUDIO_MAX_VOLUME_LEVEL) K.FAUDIO_MAX_VOLUME_LEVEL) x

/-- A float within the volume limits. -/
def InRange (K : Env) (x : Sample) : Prop :=
  -K.FAUDIO_MAX_VOLUME_LEVEL ≤ x ∧ x ≤ K.FAUDIO_MAX_VOLUME_LEVEL

/-- The number of floats the platform resampler returned for a submix voice. -/
def submixResampled (K : Env) (voice : FAudioSubmixVoice) : Nat :=
  (K.FAudio_PlatformResample voice.mix.resampler voice.mix.inputCache voice.mix.inputSamples
    (wrap32 (voice.mix.outputSamples * voice.mix.inputChannels))).2

/-- The resample cache after the platform resampler stored its output for a
submix voice. -/
def submixResampleOut (K : Env) (audio : FAudio) (voice : FAudioSubmixVoice) : FloatBuf :=
  writeAt audio.resampleCache 0
    (K.FAudio_PlatformResample voice.mix.resampler voice.mix.inputCache voice.mix.inputSamples
      (wrap32 (voice.mix.outputSamples * voice.mix.inputChannels))).1

/-- The resampler output of a submix voice, each float multiplied by the volume
of the voice and clamped when the volume is not 1. -/
def submixScaled (K : Env) (audio : FAudio) (voice : FAudioSubmixVoice) : FloatBuf :=
  fun k =>
    if voice.volume ≠ 1 ∧ k < submixResampled K voice then
      FAudio_clamp (submixResampleOut K audio voice k * voice.volume)
        (-K.FAUDIO_MAX_VOLUME_LEVEL) K.FAUDIO_MAX_VOLUME_LEVEL
    else submixResampleOut K audio voice k

/-- The filter stage of a submix voice, fed with the scaled floats. -/
def submixFiltered (K : Env) (audio : FAudio) (voice : FAudioSubmixVoice) :
    (Nat → FAudioFilterState) × FloatBuf :=
  if voice.flags &&& K.FAUDIO_VOICE_USEFILTER ≠ 0 then
    FAudio_INTERNAL_FilterVoice voice.filter voice.filterState (submixScaled K audio voice)
      (submixResampled K voice / voice.mix.inputChannels) voice.mix.inputChannels
  else (voice.filterState, submixScaled K audio voice)

/-- The effect stage of a submix voice, fed with the output of the filter
stage. -/
def submixEffects (K : Env) (audio : FAudio) (voice : FAudioSubmixVoice) :
    List EffectSlot × FAudio × FloatBuf × BufferPtr :=
  if voice.effects.length > 0 then
    FAudio_INTERNAL_ProcessEffectChain K voice.effects
      { audio with resampleCache := (submixFiltered K audio voice).2 }
      voice.mix.inputChannels voice.mix.inputSampleRate (submixFiltered K audio voice).2
      (submixResampled K voice / voice.mix.inputChannels)
  else
    (voice.effects, { audio with resampleCache := (submixFiltered K audio voice).2 },
      (submixFiltered K audio voice).2, BufferPtr.buffer)

/-- The engine a submix voice mixes its sends into: the arrays and the voice as
the filter and effect stages left them. -/
def submixMixInput (K : Env) (audio : FAudio) (idx : Nat) (voice : FAudioSubmixVoice) : FAudio :=
  let e := submixEffects K audio voice
  let voice1 : FAudioSubmixVoice :=
    { voice with filterState := (submixFiltered K audio voice).1, effects := e.1 }
  { e.2.1 with resampleCache := e.2.2.1, submixes := e.2.1.submixes.set idx voice1 }

/-- The slot with an effect whose `LockForProcess` returns `status` and is the
same otherwise. -/
def withLockStatus (slot : EffectSlot) (status : Nat) : EffectSlot :=
  { slot with desc := { slot.desc with pEffect := { slot.desc.pEffect with
      LockForProcess := fun s a b => ((slot.desc.pEffect.LockForProcess s a b).1, status) } } }

/-- What the mixing of a voice keeps of the engine: the settings of the master
voice, the size of a tick, and every float of the output of the master voice
that is within the volume limits stays within them. -/
structure Kept (K : Env) (a a1 : FAudio) : Prop where
  voice : a1.master.toFAudioVoice = a.master.toFAudioVoice
  channels : a1.master.master.inputChannels = a.master.master.inputChannels
  updateSize : a1.updateSize = a.updateSize
  range : ∀ k, InRange K (a.master.master.output k) → InRange K (a1.master.master.output k)

/-- A source voice that plays the buffer `b` at `k` times the output rate, `k`
a whole number, at the start of a tick: the stepping value is `k * 2^32`, both
fractions are zero, the buffer has no loop and the decoder reads the samples
`inp`, frame `off` starting at `inp (off * nChannels)`. -/
structure IntegerPlay (voice : FAudioSourceVoice) (b : FAudioBuffer) (inp : Nat → Sample)
    (k : Nat) : Prop where
  step : voice.src.resampleStep = k * 2 ^ 32
  k_pos : 1 ≤ k
  samples_pos : 0 < voice.src.resampleSamples
  request : voice.src.resampleSamples * k < 2 ^ 32
  dec : voice.src.curBufferOffsetDec = 0
  frac : voice.src.resampleOffset % 2 ^ 32 = 0
  offset64 : voice.src.resampleOffset < 2 ^ 64
  noLoop : b.LoopCount = 0
  end32 : b.PlayBegin + b.PlayLength < 2 ^ 32
  decode : ∀ off n, off + n ≤ b.PlayBegin + b.PlayLength →
    voice.src.decode b off n voice.src.format =
      (List.range (n * voice.src.format.nChannels)).map
        (fun i => inp (off * voice.src.format.nChannels + i))

/-- Sample `m` of a 16-bit PCM buffer as a float: the short divided by 32768. -/
def pcm16Input (b : FAudioBuffer) (m : Nat) : Sample :=
  (readS16 b.pAudioData (2 * m) : Sample) * DIVBY32768

/-- The engine after the call of `OnVoiceProcessingPassStart` at the start of
`FAudio_INTERNAL_MixSource`. -/
def passStart (voice : FAudioSourceVoice) (audio : FAudio) : FAudio :=
  if hasCallback voice (fun cb => cb.OnVoiceProcessingPassStart) = true then
    { audio with log := audio.log ++
        [Event.OnVoiceProcessingPassStart (voice.src.decodeSamples * 2)] }
  else audio

/-- The sum of the first `n` products that the mix of a source voice adds to
`stream[j * oChan + co]` for its send 0, over the samples `decoded`. -/
def mixSum (voice : FAudioSourceVoice) (decoded : Nat → Sample) (j co n : Nat) : Sample :=
  ((List.range n).map (fun ci =>
    decoded (j * voice.outputChannels + ci) * voice.channelVolume ci * voice.volume *
      voice.sendCoefficients 0 (co * voice.outputChannels + ci))).sum

/-- The array `dst` after the floats `f k` have been stored at the indices `k`
from `lo` up to `hi` (excluded). -/
def filledRange (f : Nat → Sample) (dst : FloatBuf) (lo hi : Nat) : FloatBuf :=
  fun k => if lo ≤ k ∧ k < hi then f k else dst k

/-- The state of one channel of the filter after `n` samples `x 0`, ...,
`x (n - 1)` of that channel, from the state `st`. -/
def channelState (filter : FAudioFilterParameters) (st : FAudioFilterState)
    (x : Nat → Sample) : Nat → FAudioFilterState
  | 0 => st
  | n + 1 => (FilterVoice_sample filter (channelState filter st x n) (x n)).1

/-- The inner loop of `FAudio_INTERNAL_FilterVoice`: frame `j`, the channels
below `m`. -/
def filterFrame (filter : FAudioFilterParameters) (numChannels j m : Nat)
    (acc : (Nat → FAudioFilterState) × FloatBuf) : (Nat → FAudioFilterState) × FloatBuf :=
  (List.range m).foldl (fun acc ci =>
    let r := FilterVoice_sample filter (acc.1 ci) (acc.2 (wrap32 (j * numChannels + ci)))
    (Function.update acc.1 ci r.1, Function.update acc.2 (wrap32 (j * numChannels + ci)) r.2))
    acc

/-- The buffer offset `off` lies in the play region of the head of `queue`, and
not behind the end of its loop region while it has loops to go. -/
def OffsetInRegion (queue : List FAudioBuffer) (off : Nat) : Prop :=
  match queue with
  | [] => True
  | b :: _ =>
    b.PlayBegin ≤ off ∧ off ≤ b.PlayBegin + b.PlayLength ∧
      (b.LoopCount > 0 → off ≤ b.LoopBegin + b.LoopLength)

/-! ## Concrete data for the examples -/

/-- An environment for the examples: a volume limit of `2^24`, a loop sentinel
of 255, the end-of-stream bit `0x40`, the filter bit `0x8`, two frames of decode
padding, and a platform resampler that stores nothing and returns 0 (as the
one in `FAudio_platform_win32.c` does). -/
def exampleEnv : Env :=
  { FAUDIO_MAX_VOLUME_LEVEL := 16777216
    FAUDIO_LOOP_INFINITE := 255
    FAUDIO_END_OF_STREAM := 64
    FAUDIO_VOICE_USEFILTER := 8
    EXTRA_DECODE_PADDING := 2
    FAPO_BUFFER_VALID := 1
    FAudio_PlatformResample := fun _ _ _ _ => ([], 0) }

/-- Stereo 16-bit PCM at 48 kHz. -/
def exampleFormat : FAudioWaveFormatEx :=
  { wFormatTag := 1, nChannels := 2, nSamplesPerSec := 48000, nAvgBytesPerSec := 192000,
    nBlockAlign := 4, wBitsPerSample := 16, cbSize := 0 }

/-- Mono MSADPCM with a block alignment of 36 bytes: 60 frames per block. -/
def exampleAdpcmFormat : FAudioWaveFormatEx :=
  { wFormatTag := 2, nChannels := 1, nSamplesPerSec := 48000, nAvgBytesPerSec := 28800,
    nBlockAlign := 36, wBitsPerSample := 4, cbSize := 32 }

/-- A buffer of 100 frames whose second half is looped twice. -/
def exampleBuffer : FAudioBuffer :=
  { Flags := 0, AudioBytes := 400, pAudioData := fun p => p % 251, PlayBegin := 0,
    PlayLength := 100, LoopBegin := 50, LoopLength := 50, LoopCount := 2, pContext := 7 }

/-- A buffer of 100 frames whose first half is looped twice. -/
def exampleLoopBuffer : FAudioBuffer :=
  { exampleBuffer with LoopBegin := 0 }

/-- A buffer that loops for ever. -/
def exampleInfiniteBuffer : FAudioBuffer :=
  { exampleBuffer with LoopCount := 255 }

/-- A buffer without a loop that ends the stream. -/
def exampleLastBuffer : FAudioBuffer :=
  { exampleBuffer with Flags := 64, LoopBegin := 0, LoopLength := 0, LoopCount := 0 }

/-- A callback table with every function set. -/
def exampleCallback : FAudioVoiceCallback :=
  { OnBufferEnd := true, OnBufferStart := true, OnLoopEnd := true, OnStreamEnd := true,
    OnVoiceError := true, OnVoiceProcessingPassEnd := true,
    OnVoiceProcessingPassStart := true }

/-- The members shared by the voices of the examples: one send to the master
voice with the identity matrix, no effects, volume 1. -/
def exampleBase : FAudioVoice :=
  { flags := 0
    sends := [{ Flags := 0, pOutputVoice := VoiceRef.master }]
    sendCoefficients := fun _ k => if k = 0 ∨ k = 3 then 1 else 0
    effects := []
    filter := { Type_ := FAudioFilterType.FAudioLowPassFilter, Frequency := 1, OneOverQ := 1 }
    filterState := fun _ _ => 0
    volume := 1
    channelVolume := fun _ => 1
    outputChannels := 2 }

/-- A source voice that plays `exampleBuffer` at half rate. -/
def exampleVoice : FAudioSourceVoice :=
  { exampleBase with
    src :=
      { maxFreqRatio := 2
        format := exampleFormat
        callback := some exampleCallback
        decode := FAudio_INTERNAL_DecodePCM16 FAudio_INTERNAL_Convert_S16_To_F32_Scalar
        decodeSamples := 962
        resampleSamples := 480
        active := true
        freqRatio := 1 / 2
        totalSamples := 0
        resampleFreqRatio := 1 / 2
        resampleStep := 2147483648
        resampleOffset := 0
        curBufferOffset := 0
        curBufferOffsetDec := 0
        bufferList := [exampleBuffer] } }

/-- The same voice with another queue. -/
def exampleVoiceWith (queue : List FAudioBuffer) : FAudioSourceVoice :=
  { exampleVoice with src := { exampleVoice.src with bufferList := queue } }

/-- A stereo master voice. -/
def exampleMaster : FAudioMasterVoice :=
  { exampleBase with
    sends := []
    master := { inputChannels := 2, inputSampleRate := 48000, output := fun _ => 0 } }

/-- An engine with a tick of 480 frames and no voices but the master voice. -/
def exampleAudio : FAudio :=
  { active := true
    updateSize := 480
    submixStages := 0
    master := exampleMaster
    sources := []
    submixes := []
    callbacks := []
    decodeSamples := 962
    decodeCache := fun i => (i : Sample) / 4
    resampleSamples := 480
    resampleCache := fun _ => 0
    effectChainSamples := 0
    effectChainCache := fun _ => 0
    log := [] }

/-- A submix voice of stage 0 with one send to the master voice. -/
def exampleSubmix : FAudioSubmixVoice :=
  { exampleBase with
    mix := { inputChannels := 2, inputSampleRate := 48000, inputCache := fun _ => 1,
             inputSamples := 960, outputSamples := 480, processingStage := 0, resampler := 0 } }

/-- A submix voice of the given stage. -/
def exampleSubmixAt (stage : Nat) : FAudioSubmixVoice :=
  { exampleSubmix with mix := { exampleSubmix.mix with processingStage := stage } }

/-- The example engine with the given submix voices and number of stages. -/
def exampleAudioWith (submixes : List FAudioSubmixVoice) (stages : Nat) : FAudio :=
  { exampleAudio with submixes := submixes, submixStages := stages }

/-- The example environment with a platform resampler that copies its input. -/
def exampleEnvCopy : Env :=
  { exampleEnv with
    FAudio_PlatformResample := fun _ input inLen _ => ((List.range inLen).map input, inLen) }

/-- The example submix voice with a volume of 2. -/
def exampleSubmixLoud : FAudioSubmixVoice :=
  { exampleSubmix with volume := 2 }

/-- An effect without state that copies its input to its output and whose
`LockForProcess` returns the status 1, a failure. -/
def exampleFailingEffect : FAPO :=
  { σ := Unit
    state := ()
    SetParameters := fun s _ _ => s
    LockForProcess := fun s _ _ => (s, 1)
    UnlockForProcess := fun s => s
    Process := fun s input _ frames _ _ _ _ => (s, input, 1, frames) }

/-- An in-place slot for `exampleFailingEffect`. -/
def exampleFailingSlot : EffectSlot :=
  { desc := { pEffect := exampleFailingEffect, InitialState := 1, OutputChannels := 2 }
    parameters := []
    parameterSizes := 0
    parameterUpdates := 0
    inPlaceProcessing := 1 }

/-- A buffer of 100 frames without a loop. -/
def examplePlainBuffer : FAudioBuffer :=
  { exampleBuffer with LoopBegin := 0, LoopLength := 0, LoopCount := 0 }

/-- The example voice playing `examplePlainBuffer` at the output rate. -/
def exampleUnitVoice : FAudioSourceVoice :=
  { exampleVoice with src := { exampleVoice.src with
      freqRatio := 1
      resampleFreqRatio := 1
      resampleStep := 4294967296
      resampleSamples := 100
      bufferList := [examplePlainBuffer] } }

/-- A 16-bit PCM buffer of 480 stereo frames without a loop. -/
def exampleTickBuffer : FAudioBuffer :=
  { examplePlainBuffer with AudioBytes := 1920, PlayLength := 480 }

/-- The example voice playing `exampleTickBuffer` at the output rate: one tick
of 480 frames. -/
def exampleTickVoice : FAudioSourceVoice :=
  { exampleUnitVoice with src := { exampleUnitVoice.src with
      resampleSamples := 480
      bufferList := [exampleTickBuffer] } }

/-- The values that `<ksmedia.h>` gives the speaker constants. -/
def exampleMasks : SpeakerMasks :=
  { SPEAKER_LOW_FREQUENCY := 0x8, SPEAKER_BACK_CENTER := 0x100, KSAUDIO_SPEAKER_MONO := 0x4,
    KSAUDIO_SPEAKER_STEREO := 0x3, KSAUDIO_SPEAKER_QUAD := 0x33,
    KSAUDIO_SPEAKER_5POINT1 := 0x3F, KSAUDIO_SPEAKER_7POINT1_SURROUND := 0x63F }

/-- A low-pass filter with `Frequency = 1/2` and `OneOverQ = 1`. -/
def exampleFilter : FAudioFilterParameters :=
  { Type_ := FAudioFilterType.FAudioLowPassFilter, Frequency := 1 / 2, OneOverQ := 1 }

/-- Mono 16-bit PCM at 48 kHz. -/
def exampleMonoFormat : FAudioWaveFormatEx :=
  { exampleFormat with nChannels := 1, nAvgBytesPerSec := 96000, nBlockAlign := 2 }

/-- The voice `exampleUnitVoice` with the mono format. -/
def exampleMonoVoice : FAudioSourceVoice :=
  { exampleUnitVoice with src := { exampleUnitVoice.src with format := exampleMonoFormat } }


/-! ## Notions and example data for the lists, the platform, the block decoders,
the effect parameters, the decode loop and the fractions -/
/-- The nodes `l` (address and entry of each) are linked from the pointer `p`
up to the pointer `q`. -/
def IsSeg (heap : ListHeap) : Option Nat → List (Nat × Nat) → Option Nat → Prop
  | p, [], q => p = q
  | p, n :: rest, q =>
    p = some n.1 ∧ ∃ next, heap n.1 = some { entry := n.2, next := next } ∧
      IsSeg heap next rest q

/-- The pointer `start` points to the list of the nodes `l`, which lie at
different addresses. -/
def IsList (heap : ListHeap) (start : Option Nat) (l : List (Nat × Nat)) : Prop :=
  IsSeg heap start l none ∧ (l.map Prod.fst).Nodup

/-- The entries of a list of nodes, in order. -/
def entriesOf (l : List (Nat × Nat)) : List Nat := l.map Prod.snd

/-- The list operation that `LinkedList_AddEntry` stands for. -/
def listAddEntry (l : List Nat) (x : Nat) : List Nat := l ++ [x]

/-- The list operation that `LinkedList_PrependEntry` stands for. -/
def listPrependEntry (l : List Nat) (x : Nat) : List Nat := x :: l

/-- The list operation that `LinkedList_RemoveEntry` stands for: the first
element equal to `x` is deleted. -/
def listRemoveEntry (l : List Nat) (x : Nat) : List Nat := l.erase x

/-- A client that calls `LinkedList_AddEntry` once for every pair of `xs` (the
address the allocator returns and the entry to add), in order. -/
def addEntries (fuel : Nat) :
    ListHeap → Option Nat → List (Nat × Nat) → Option (ListHeap × Option Nat)
  | heap, start, [] => some (heap, start)
  | heap, start, n :: rest =>
    match LinkedList_AddEntry fuel heap start n.2 n.1 with
    | none => none
    | some r => addEntries fuel r.1 r.2 rest

/-- A heap with the two nodes of `exampleNodes`. -/
def exampleHeap : ListHeap := fun a =>
  if a = 1 then some { entry := 10, next := some 2 }
  else if a = 2 then some { entry := 20, next := none }
  else none

/-- The nodes of `exampleHeap`: address and entry. -/
def exampleNodes : List (Nat × Nat) := [(1, 10), (2, 20)]

/-- The devices of `exampleHeap`: the device at address 10 belongs to the
engine 1, the device at address 20 to the engine 2. -/
def exampleDevices : DeviceHeap := fun a =>
  if a = 10 then some { audio := 1, stop_engine := false }
  else if a = 20 then some { audio := 2, stop_engine := false }
  else none

/-- Values for the constants of `DeviceConstants`. -/
def exampleDeviceConstants : DeviceConstants :=
  { GlobalDefaultDevice := 4, NotDefaultDevice := 0, SPEAKER_STEREO := 3,
    WAVE_FORMAT_IEEE_FLOAT := 3 }

/-- An array `mmdevids` with one device id; the memory after it holds another
string. -/
def exampleDeviceIds : Nat → List Nat := fun i => if i = 0 then [100, 101] else [7]

/-- The decoder state of a mono block after the `k` data bytes from address
`p`, entered with the state `s`: each byte is parsed high nibble first. -/
def monoStateAfter (M : AdaptCoeffOverrun) (data : ByteBuf) (predictor : Nat) :
    Nat → Nat → NibbleState → NibbleState
  | 0, _, s => s
  | k + 1, p, s =>
    monoStateAfter M data predictor k (p + 1)
      (FAudio_INTERNAL_ParseNibble M (readU8 data p &&& 0x0F) predictor
        (FAudio_INTERNAL_ParseNibble M (readU8 data p >>> 4) predictor s).2).2

/-- The decoder state of one channel of a stereo block after the `k` data bytes
from address `p`: `nib` chooses the nibble of the channel in each byte. -/
def channelStateAfter (M : AdaptCoeffOverrun) (data : ByteBuf) (predictor : Nat)
    (nib : Nat → Nat) : Nat → Nat → NibbleState → NibbleState
  | 0, _, s => s
  | k + 1, p, s =>
    channelStateAfter M data predictor nib k (p + 1)
      (FAudio_INTERNAL_ParseNibble M (nib (readU8 data p)) predictor s).2

/-- A stereo MSADPCM format with blocks of 36 bytes. -/
def exampleStereoAdpcmFormat : FAudioWaveFormatEx :=
  { wFormatTag := 2, nChannels := 2, nSamplesPerSec := 48000, nAvgBytesPerSec := 57600,
    nBlockAlign := 36, wBitsPerSample := 4, cbSize := 32 }

/-- Some contents of the memory behind the two coefficient tables. -/
def exampleOverrun : AdaptCoeffOverrun :=
  { behind1 := fun i => 1000 + (i : Int), behind2 := fun i => -(i : Int) }

/-- MSADPCM data in blocks of 36 bytes: the first two bytes of block `q`, the
predictor bytes of a mono and of a stereo block, hold `q % 7`, an index inside
the coefficient tables; the other bytes are those of `exampleBuffer`. -/
def exampleAdpcmData : ByteBuf :=
  fun p => if p % 36 < 2 then (p / 36) % 7 else p % 251

/-- A buffer of four mono MSADPCM blocks of 36 bytes, 240 frames. -/
def exampleAdpcmBuffer : FAudioBuffer :=
  { Flags := 0, AudioBytes := 144, pAudioData := exampleAdpcmData, PlayBegin := 0,
    PlayLength := 240, LoopBegin := 0, LoopLength := 0, LoopCount := 0, pContext := 7 }

/-- A buffer of four stereo MSADPCM blocks of 36 bytes, 96 frames. -/
def exampleStereoAdpcmBuffer : FAudioBuffer :=
  { exampleAdpcmBuffer with PlayLength := 96 }

/-- A call of a method of an effect, without the buffers and formats. -/
inductive EffectCall where
  | set (parameters : List Nat) (size : Nat)
  | lock
  | process
  | unlock
  deriving DecidableEq, Repr

/-- Whether a call is a call of `SetParameters`. -/
def EffectCall.isSet : EffectCall → Bool
  | EffectCall.set _ _ => true
  | _ => false

/-- The calls of effect methods in a log, in order, each with the index of the
effect. -/
def effectCalls : List Event → List (Nat × EffectCall)
  | [] => []
  | Event.SetParameters i p s :: es => (i, EffectCall.set p s) :: effectCalls es
  | Event.LockForProcess i _ _ _ _ :: es => (i, EffectCall.lock) :: effectCalls es
  | Event.Process i _ _ _ :: es => (i, EffectCall.process) :: effectCalls es
  | Event.UnlockForProcess i :: es => (i, EffectCall.unlock) :: effectCalls es
  | _ :: es => effectCalls es

/-- The calls an effect chain is to receive, the first effect having the index
`i`: for each effect `SetParameters` with the stored blob and size if its
update flag is set, then `LockForProcess`, `Process`, `UnlockForProcess`. -/
def expectedCalls : Nat → List EffectSlot → List (Nat × EffectCall)
  | _, [] => []
  | i, slot :: rest =>
    (if slot.parameterUpdates ≠ 0 then [(i, EffectCall.set slot.parameters slot.parameterSizes)]
      else []) ++
    [(i, EffectCall.lock), (i, EffectCall.process), (i, EffectCall.unlock)] ++
    expectedCalls (i + 1) rest

/-- The number of `SetParameters` calls for the effect `j` in a list of calls. -/
def setCount (j : Nat) (calls : List (Nat × EffectCall)) : Nat :=
  (calls.filter (fun c => decide (c.1 = j) && c.2.isSet)).length

/-- The progress of one pass of the loop of `FAudio_INTERNAL_DecodeBuffers`,
entered with the head `buffer`, the rest `next` and the count `decoded`, and
left with the queue `queue1` and the count `decoded1`: at least one frame is
decoded, or a finite loop count is decremented, or the head is removed. -/
def PassProgress (K : Env) (buffer : FAudioBuffer) (next : List FAudioBuffer) (decoded : Nat)
    (queue1 : List FAudioBuffer) (decoded1 : Nat) : Prop :=
  decoded < decoded1 ∨
  (0 < buffer.LoopCount ∧ buffer.LoopCount < K.FAUDIO_LOOP_INFINITE ∧
    queue1 = { buffer with LoopCount := buffer.LoopCount - 1 } :: next) ∨
  queue1 = next

/-- A loop that never runs out, over an empty loop region at the start of the
buffer; the loop count lies above `FAUDIO_LOOP_INFINITE`. -/
def exampleEmptyLoopBuffer : FAudioBuffer :=
  { exampleBuffer with LoopBegin := 0, LoopLength := 0, LoopCount := 256 }

/-- The example voice at the end of the loop region of `exampleInfiniteBuffer`. -/
def exampleStalledVoice : FAudioSourceVoice :=
  { exampleVoice with src := { exampleVoice.src with
      bufferList := [exampleInfiniteBuffer]
      curBufferOffset := 100 } }

/-- The frame counts of the decode calls made inside the loop of
`FAudio_INTERNAL_DecodeBuffers`, in order. -/
def decodeCounts : List Event → List Nat
  | [] => []
  | Event.decode _ _ samples false :: es => samples :: decodeCounts es
  | _ :: es => decodeCounts es

/-- The queue `q1` holds the buffers of `q`; the loop count of the head buffer,
which the decoder writes, may have gone down. -/
def SameButLoopCount (q1 q : List FAudioBuffer) : Prop :=
  match q1, q with
  | [], [] => True
  | b1 :: r1, b :: r =>
    r1 = r ∧ b1 = { b with LoopCount := b1.LoopCount } ∧ b1.LoopCount ≤ b.LoopCount
  | _, _ => False

/-- The queue `q1` is what is left of the queue `q` when the buffers `removed`
have been taken from its head. -/
def QueueSuffix (removed q1 q : List FAudioBuffer) : Prop :=
  ∃ q2, q = removed ++ q2 ∧ SameButLoopCount q1 q2

/-- Stereo 16-bit PCM at 44.1 kHz. -/
def exampleCdFormat : FAudioWaveFormatEx :=
  { exampleFormat with nSamplesPerSec := 44100, nAvgBytesPerSec := 176400 }

/-- A buffer of 588 frames without a loop that ends the stream. -/
def exampleCdBuffer : FAudioBuffer :=
  { examplePlainBuffer with Flags := 64, AudioBytes := 2352, PlayLength := 588 }

/-- A voice that plays `exampleCdBuffer` at 44.1 kHz into an output of 48 kHz,
480 frames a tick, at the start of its first tick: the stepping value is
`DOUBLE_TO_FIXED (44100 / 48000)`. -/
def exampleCdVoice : FAudioSourceVoice :=
  { exampleVoice with src := { exampleVoice.src with
      format := exampleCdFormat
      freqRatio := 1
      resampleFreqRatio := 1
      resampleStep := 3946001203
      resampleSamples := 480
      bufferList := [exampleCdBuffer] } }

/-- The voice `exampleCdVoice` as its first tick leaves it. -/
def exampleCdVoiceSecond : FAudioSourceVoice :=
  { exampleCdVoice with src := { exampleCdVoice.src with
      curBufferOffset := 441
      curBufferOffsetDec := 4294967200
      resampleOffset := 1894080577440 } }

/-- The frame of the decode cache at which `FAudio_INTERNAL_ResamplePCM` reads
for its output frame `i`: it interpolates between this frame and the next. -/
def resampleReadFrame (voice : FAudioSourceVoice) (i : Nat) : Nat :=
  (voice.src.resampleOffset % 2 ^ 32 + i * voice.src.resampleStep) / 2 ^ 32

/-- The state in which `FAudio_INTERNAL_ResamplePCM` enters its loop. -/
def resampleStart (voice : FAudioSourceVoice) (audio : FAudio) (pos : Nat) : ResampleState :=
  { dCache := 0
    cur := voice.src.resampleOffset &&& FIXED_FRACTION_MASK
    resampleOffset := voice.src.resampleOffset
    out := audio.resampleCache
    pos := pos }

/-- The two fractions of a source voice agree: `resampleOffset mod 2^32` is
`curBufferOffsetDec`. -/
def FractionsAgree (voice : FAudioSourceVoice) : Prop :=
  voice.src.resampleOffset % 2 ^ 32 = voice.src.curBufferOffsetDec

/-- The voice `exampleCdVoice` with a queue that holds one buffer of 480 frames
which does not end the stream. -/
def exampleCdPlainVoice : FAudioSourceVoice :=
  { exampleCdVoice with src := { exampleCdVoice.src with bufferList := [exampleTickBuffer] } }

/-- The array the effect of `slot` writes to when the chain is in the state
`c`: the other one of the two arrays, unless the effect works in place. -/
def chainDst (slot : EffectSlot) (c : ChainState) : BufferPtr :=
  if slot.inPlaceProcessing = 0 then otherBuffer c.dstParams.pBuffer else c.dstParams.pBuffer

/-- The output format of the effect of `slot` when the chain is in the state
`c`. -/
def chainDstFmt (slot : EffectSlot) (c : ChainState) : FAudioWaveFormatEx :=
  if slot.inPlaceProcessing = 0 then
    { c.dstFmt with
      nChannels := slot.desc.OutputChannels
      nBlockAlign := slot.desc.OutputChannels * (c.dstFmt.wBitsPerSample / 8)
      nAvgBytesPerSec :=
        c.dstFmt.nSamplesPerSec * (slot.desc.OutputChannels * (c.dstFmt.wBitsPerSample / 8)) }
  else c.dstFmt

/-- The state of the effect of `slot` in which the chain calls its `Process`:
the state `SetParameters` (called if the update flag is set) and then
`LockForProcess` leave; the status of `LockForProcess` is not part of it. -/
def effectLocked (samples : Nat) (slot : EffectSlot) (c : ChainState) : slot.desc.pEffect.σ :=
  (slot.desc.pEffect.LockForProcess
    (if slot.parameterUpdates ≠ 0 then
      slot.desc.pEffect.SetParameters slot.desc.pEffect.state slot.parameters
        slot.parameterSizes
    else slot.desc.pEffect.state)
    { pFormat := c.srcFmt, MaxFrameCount := samples }
    { pFormat := chainDstFmt slot c, MaxFrameCount := samples }).1

/-- What the `Process` of the effect of `slot` stores when the chain, in the
state `c`, calls it: the contents of its output array, and the flags and the
frame count of its output parameters. -/
def effectProcessed (samples : Nat) (slot : EffectSlot) (c : ChainState) :
    FloatBuf × Nat × Nat :=
  (slot.desc.pEffect.Process (effectLocked samples slot c)
    (c.deref c.srcParams.pBuffer) c.srcParams.BufferFlags c.srcParams.ValidFrameCount
    (c.deref (chainDst slot c)) c.dstParams.BufferFlags c.dstParams.ValidFrameCount
    slot.desc.InitialState).2

/-- The example engine with a master volume of 2 and one source voice,
`exampleTickVoice`, which sends 480 frames to the master voice. -/
def exampleLoudAudio : FAudio :=
  { exampleAudio with
    master := { exampleMaster with volume := 2 }
    sources := [exampleTickVoice] }


/-! ## Fixed-point and machine arithmetic -/

theorem FIXED_ONE_eq : FIXED_ONE = 2 ^ 32 := by decide

theorem FIXED_FRACTION_MASK_eq : FIXED_FRACTION_MASK = 2 ^ 32 - 1 := by decide

theorem and_mask (x : Nat) : x &&& FIXED_FRACTION_MASK = x % 2 ^ 32 := by
  rw [FIXED_FRACTION_MASK_eq]; exact Nat.and_pow_two_sub_one_eq_mod x 32

theorem shr_prec (x : Nat) : x >>> FIXED_PRECISION = x / 2 ^ 32 := by
  simp [FIXED_PRECISION, Nat.shiftRight_eq_div_pow]

theorem shl_prec (x : Nat) : x <<< FIXED_PRECISION = x * 2 ^ 32 := by
  simp [FIXED_PRECISION, Nat.shiftLeft_eq]

theorem FAudio_min_eq (a b : Nat) : FAudio_min a b = min a b := by
  unfold FAudio_min; split <;> omega

/-! ## What the buffer queue leaves alone -/

theorem SameVoice.reflV (v : FAudioSourceVoice) : SameVoice v v := by
  constructor <;> first | rfl | exact Or.inl rfl

theorem SameVoice.transV {v v1 v2 : FAudioSourceVoice} (h : SameVoice v v1)
    (h1 : SameVoice v1 v2) : SameVoice v v2 := by
  constructor
  · exact h1.base.trans h.base
  · exact h1.maxFreqRatio.trans h.maxFreqRatio
  · exact h1.format.trans h.format
  · exact h1.callback.trans h.callback
  · exact h1.decode.trans h.decode
  · exact h1.decodeSamples.trans h.decodeSamples
  · exact h1.resampleSamples.trans h.resampleSamples
  · exact h1.active.trans h.active
  · exact h1.freqRatio.trans h.freqRatio
  · exact h1.resampleFreqRatio.trans h.resampleFreqRatio
  · exact h1.resampleStep.trans h.resampleStep
  · exact h1.resampleOffset.trans h.resampleOffset
  · rcases h1.dec with h2 | h2
    · rw [h2]; exact h.dec
    · exact Or.inr h2

theorem SameEngine.reflE (a : FAudio) : SameEngine a a := by
  constructor <;> rfl

theorem SameEngine.transE {a a1 a2 : FAudio} (h : SameEngine a a1) (h1 : SameEngine a1 a2) :
    SameEngine a a2 := by
  constructor
  · exact h1.active.trans h.active
  · exact h1.updateSize.trans h.updateSize
  · exact h1.submixStages.trans h.submixStages
  · exact h1.master.trans h.master
  · exact h1.sources.trans h.sources
  · exact h1.submixes.trans h.submixes
  · exact h1.callbacks.trans h.callbacks
  · exact h1.decodeSamples.trans h.decodeSamples
  · exact h1.resampleSamples.trans h.resampleSamples
  · exact h1.resampleCache.trans h.resampleCache
  · exact h1.effectChainSamples.trans h.effectChainSamples
  · exact h1.effectChainCache.trans h.effectChainCache

theorem DecodeBuffers_body_sameVoice (K : Env) (voice : FAudioSourceVoice) (audio : FAudio)
    (buffer : FAudioBuffer) (next : List FAudioBuffer) (toDecode decoded : Nat) :
    SameVoice voice (DecodeBuffers_body K voice audio buffer next toDecode decoded).1 := by
  unfold DecodeBuffers_body
  cases next <;> (simp only []; split_ifs <;> constructor <;> simp)

theorem DecodeBuffers_body_sameEngine (K : Env) (voice : FAudioSourceVoice) (audio : FAudio)
    (buffer : FAudioBuffer) (next : List FAudioBuffer) (toDecode decoded : Nat) :
    SameEngine audio (DecodeBuffers_body K voice audio buffer next toDecode decoded).2.1 := by
  unfold DecodeBuffers_body
  cases next <;> (simp only []; split_ifs <;> constructor <;> simp)

theorem DecodeBuffers_loop_same (K : Env) (toDecode : Nat) :
    ∀ (fuel : Nat) (voice : FAudioSourceVoice) (audio : FAudio) (decoded : Nat)
      (r : FAudioSourceVoice × FAudio × Nat),
      DecodeBuffers_loop K toDecode fuel voice audio decoded = some r →
      SameVoice voice r.1 ∧ SameEngine audio r.2.1 := by
  intro fuel
  induction fuel with
  | zero => intro voice audio decoded r h; simp [DecodeBuffers_loop] at h
  | succ n ih =>
    intro voice audio decoded r h
    unfold DecodeBuffers_loop at h
    split at h
    · cases h; exact ⟨SameVoice.reflV _, SameEngine.reflE _⟩
    · split at h
      · have h1 := ih _ _ _ _ h
        exact ⟨(DecodeBuffers_body_sameVoice _ _ _ _ _ _ _).transV h1.1,
          (DecodeBuffers_body_sameEngine _ _ _ _ _ _ _).transE h1.2⟩
      · cases h; exact ⟨SameVoice.reflV _, SameEngine.reflE _⟩

theorem DecodeBuffers_padding_sameEngine (K : Env) (voice : FAudioSourceVoice) (audio : FAudio)
    (decoded : Nat) : SameEngine audio (DecodeBuffers_padding K voice audio decoded) := by
  unfold DecodeBuffers_padding
  split <;> constructor <;> simp

theorem DecodeBuffers_same (K : Env) (fuel : Nat) (voice : FAudioSourceVoice) (audio : FAudio)
    (toDecode : Nat) (r : FAudioSourceVoice × FAudio × Nat)
    (h : FAudio_INTERNAL_DecodeBuffers K fuel voice audio toDecode = some r) :
    SameVoice voice r.1 ∧ SameEngine audio r.2.1 := by
  unfold FAudio_INTERNAL_DecodeBuffers at h
  cases hl : DecodeBuffers_loop K toDecode fuel voice audio 0 with
  | none => simp [hl] at h
  | some r1 =>
    simp [hl] at h
    subst h
    have h1 := DecodeBuffers_loop_same K toDecode fuel voice audio 0 r1 hl
    exact ⟨h1.1, h1.2.transE (DecodeBuffers_padding_sameEngine _ _ _ _)⟩


/-! ## The size of the decode request -/

theorem MixSource_toDecode_eq (voice : FAudioSourceVoice) (mixed : Nat)
    (hmixed : mixed < voice.src.resampleSamples) (hR : voice.src.resampleSamples < 2 ^ 32)
    (hno : (voice.src.resampleSamples - mixed) * voice.src.resampleStep +
      voice.src.curBufferOffsetDec + (2 ^ 32 - 1) < 2 ^ 64) :
    MixSource_toDecode voice mixed =
      ((voice.src.resampleSamples - mixed) * voice.src.resampleStep +
        voice.src.curBufferOffsetDec + (2 ^ 32 - 1)) / 2 ^ 32 := by
  have h1 : sub32 voice.src.resampleSamples mixed = voice.src.resampleSamples - mixed := by
    simp only [sub32, wrap32]; omega
  simp only [MixSource_toDecode, h1, shr_prec, FIXED_FRACTION_MASK_eq, wrap64]
  generalize (voice.src.resampleSamples - mixed) * voice.src.resampleStep = p at *
  omega

theorem MixSource_toResample_full (voice voice1 : FAudioSourceVoice) (mixed : Nat)
    (hstep : 0 < voice.src.resampleStep)
    (hmixed : mixed < voice.src.resampleSamples) (hR : voice.src.resampleSamples < 2 ^ 32)
    (hno : (voice.src.resampleSamples - mixed) * voice.src.resampleStep +
      voice.src.curBufferOffsetDec + (2 ^ 32 - 1) < 2 ^ 64)
    (h1 : voice1.src.resampleStep = voice.src.resampleStep)
    (h2 : voice1.src.resampleSamples = voice.src.resampleSamples)
    (h3 : voice1.src.curBufferOffsetDec ≤ voice.src.curBufferOffsetDec) :
    MixSource_toResample voice1 mixed (MixSource_toDecode voice mixed) =
      voice.src.resampleSamples - mixed := by
  rw [MixSource_toDecode_eq voice mixed hmixed hR hno]
  have hs : sub32 voice.src.resampleSamples mixed = voice.src.resampleSamples - mixed := by
    simp only [sub32, wrap32]; omega
  simp only [MixSource_toResample, h1, h2, hs, shl_prec, FAudio_min_eq, wrap64, sub64]
  generalize hp : (voice.src.resampleSamples - mixed) * voice.src.resampleStep = p at *
  generalize hn : voice.src.resampleSamples - mixed = n at *
  generalize voice.src.curBufferOffsetDec = dec at *
  generalize voice1.src.curBufferOffsetDec = dec1 at *
  generalize voice.src.resampleStep = step at *
  have hx : ((p + dec + (2 ^ 32 - 1)) / 2 ^ 32 * 2 ^ 32 % 2 ^ 64 % 2 ^ 64 + (2 ^ 64 - dec1 % 2 ^ 64)) % 2 ^ 64
      = (p + dec + (2 ^ 32 - 1)) / 2 ^ 32 * 2 ^ 32 - dec1 := by omega
  rw [hx]
  have hge : n * step ≤ (p + dec + (2 ^ 32 - 1)) / 2 ^ 32 * 2 ^ 32 - dec1 := by
    rw [hp]; omega
  have : n ≤ ((p + dec + (2 ^ 32 - 1)) / 2 ^ 32 * 2 ^ 32 - dec1) / step :=
    (Nat.le_div_iff_mul_le hstep).mpr hge
  omega

theorem ResamplePCM_loop_pos (nChannels resampleStep : Nat) (decodeCache : FloatBuf) :
    ∀ (n : Nat) (s : ResampleState),
      (ResamplePCM_loop nChannels resampleStep decodeCache n s).pos = s.pos + n * nChannels := by
  intro n
  induction n with
  | zero => intro s; simp [ResamplePCM_loop]
  | succ n ih =>
    intro s
    rw [ResamplePCM_loop, ih]
    simp only [ResamplePCM_frame]
    rw [Nat.succ_mul]; omega

theorem MixSource_resample_mixed (voice : FAudioSourceVoice) (audio : FAudio)
    (mixed pos toDecode : Nat) :
    (MixSource_resample voice audio mixed pos toDecode).2.2.1 =
      wrap32 (mixed + wrap32 (MixSource_toResample voice mixed toDecode)) := rfl

theorem FIXED_TO_DOUBLE_frac (cur : Nat) (h : cur < 2 ^ 32) :
    FIXED_TO_DOUBLE cur = (cur : ℚ) / 2 ^ 32 := by
  unfold FIXED_TO_DOUBLE
  rw [shr_prec, and_mask, Nat.div_eq_of_lt h, Nat.mod_eq_of_lt h, FIXED_ONE_eq]
  push_cast
  ring

theorem writeAt_of_lt (buf : FloatBuf) (off : Nat) (vals : List Sample) (k : Nat)
    (h : k < off) : writeAt buf off vals k = buf k := by
  unfold writeAt
  rw [if_neg]; omega

theorem writeAt_of_ge (buf : FloatBuf) (off : Nat) (vals : List Sample) (k : Nat)
    (h : off + vals.length ≤ k) : writeAt buf off vals k = buf k := by
  unfold writeAt
  rw [if_neg]; omega

theorem writeAt_map_range (buf : FloatBuf) (off n : Nat) (g : Nat → Sample) (c : Nat)
    (h : c < n) : writeAt buf off ((List.range n).map g) (off + c) = g c := by
  unfold writeAt
  rw [if_pos (by simp; omega)]
  simp [List.getD_eq_getElem?_getD, h]

theorem ResamplePCM_frame_cur (nChannels resampleStep : Nat) (decodeCache : FloatBuf)
    (hstep : resampleStep + 2 ^ 32 ≤ 2 ^ 64) (s : ResampleState) (hs : s.cur < 2 ^ 32) :
    (ResamplePCM_frame nChannels resampleStep decodeCache s).cur =
        (s.cur + resampleStep) % 2 ^ 32 ∧
      (ResamplePCM_frame nChannels resampleStep decodeCache s).dCache =
        s.dCache + (s.cur + resampleStep) / 2 ^ 32 * nChannels := by
  have hw : wrap64 (s.cur + resampleStep) = s.cur + resampleStep := by
    simp only [wrap64]; omega
  simp only [ResamplePCM_frame, and_mask, shr_prec, hw, and_self]

/-- The loop of the linear resampler in closed form: the offset, fraction and
read position after `n` frames, and the frames written. -/
theorem ResamplePCM_loop_spec (nChannels resampleStep : Nat) (decodeCache : FloatBuf)
    (hstep : resampleStep + 2 ^ 32 ≤ 2 ^ 64) :
    ∀ (n : Nat) (s : ResampleState), s.cur < 2 ^ 32 → s.resampleOffset < 2 ^ 64 →
      (ResamplePCM_loop nChannels resampleStep decodeCache n s).resampleOffset =
        wrap64 (s.resampleOffset + n * resampleStep) ∧
      (ResamplePCM_loop nChannels resampleStep decodeCache n s).cur =
        (s.cur + n * resampleStep) % 2 ^ 32 ∧
      (ResamplePCM_loop nChannels resampleStep decodeCache n s).dCache =
        s.dCache + (s.cur + n * resampleStep) / 2 ^ 32 * nChannels ∧
      (∀ k, k < s.pos ∨ s.pos + n * nChannels ≤ k →
        (ResamplePCM_loop nChannels resampleStep decodeCache n s).out k = s.out k) ∧
      (∀ i c, i < n → c < nChannels →
        (ResamplePCM_loop nChannels resampleStep decodeCache n s).out
            (s.pos + i * nChannels + c) =
          decodeCache (s.dCache + (s.cur + i * resampleStep) / 2 ^ 32 * nChannels + c) +
            (decodeCache (s.dCache + (s.cur + i * resampleStep) / 2 ^ 32 * nChannels + c
                + nChannels) -
              decodeCache (s.dCache + (s.cur + i * resampleStep) / 2 ^ 32 * nChannels + c)) *
              ((((s.cur + i * resampleStep) % 2 ^ 32 : ℕ) : ℚ) / 2 ^ 32)) := by
  intro n
  induction n with
  | zero =>
    intro s hs ho
    simp only [ResamplePCM_loop, wrap64]
    refine ⟨?_, ?_, ?_, ?_, ?_⟩
    · omega
    · omega
    · have : (s.cur + 0 * resampleStep) / 2 ^ 32 = 0 := by omega
      rw [this]; omega
    · intro k _; trivial
    · intro i c hi; omega
  | succ n ih =>
    intro s hs ho
    obtain ⟨hc, hd⟩ := ResamplePCM_frame_cur nChannels resampleStep decodeCache hstep s hs
    have hro : (ResamplePCM_frame nChannels resampleStep decodeCache s).resampleOffset =
        wrap64 (s.resampleOffset + resampleStep) := rfl
    have hpos : (ResamplePCM_frame nChannels resampleStep decodeCache s).pos =
        s.pos + nChannels := rfl
    have hout : (ResamplePCM_frame nChannels resampleStep decodeCache s).out =
        writeAt s.out s.pos ((List.range nChannels).map (fun j =>
          decodeCache (s.dCache + j) +
            (decodeCache (s.dCache + j + nChannels) - decodeCache (s.dCache + j)) *
              FIXED_TO_DOUBLE s.cur)) := rfl
    obtain ⟨h1, h2, h3, h4, h5⟩ :=
      ih (ResamplePCM_frame nChannels resampleStep decodeCache s)
        (by rw [hc]; omega) (by rw [hro]; simp only [wrap64]; omega)
    rw [ResamplePCM_loop]
    have hmul : (n + 1) * resampleStep = n * resampleStep + resampleStep := Nat.succ_mul _ _
    have hmulc : (n + 1) * nChannels = n * nChannels + nChannels := Nat.succ_mul _ _
    refine ⟨?_, ?_, ?_, ?_, ?_⟩
    · rw [h1, hro, hmul]; simp only [wrap64]; omega
    · rw [h2, hc, hmul]; omega
    · rw [h3, hc, hd, hmul, Nat.add_assoc, ← Nat.add_mul]
      congr 2
      omega
    · intro k hk
      rw [h4 k (by rw [hpos]; omega), hout]
      rcases hk with hk | hk
      · exact writeAt_of_lt _ _ _ _ hk
      · exact writeAt_of_ge _ _ _ _ (by simp; omega)
    · intro i c hi hcn
      rcases Nat.eq_zero_or_pos i with h0 | hipos
      · subst h0
        rw [h4 _ (by rw [hpos]; omega), hout]
        have e : s.pos + 0 * nChannels + c = s.pos + c := by omega
        rw [e, writeAt_map_range _ _ _ _ _ hcn]
        have e1 : (s.cur + 0 * resampleStep) / 2 ^ 32 = 0 := by omega
        have e2 : (s.cur + 0 * resampleStep) % 2 ^ 32 = s.cur := by omega
        rw [e1, e2, FIXED_TO_DOUBLE_frac _ hs]
        simp only [Nat.zero_mul, Nat.add_zero]
      · obtain ⟨j, rfl⟩ : ∃ j, i = j + 1 := ⟨i - 1, by omega⟩
        have h6 := h5 j c (by omega) hcn
        rw [hpos, hc, hd] at h6
        have e : s.pos + (j + 1) * nChannels + c = s.pos + nChannels + j * nChannels + c := by
          rw [Nat.succ_mul]; omega
        have hm : (j + 1) * resampleStep = j * resampleStep + resampleStep := Nat.succ_mul _ _
        have e3 : s.dCache + (s.cur + resampleStep) / 2 ^ 32 * nChannels +
            ((s.cur + resampleStep) % 2 ^ 32 + j * resampleStep) / 2 ^ 32 * nChannels =
            s.dCache + (s.cur + (j + 1) * resampleStep) / 2 ^ 32 * nChannels := by
          rw [hm, Nat.add_assoc, ← Nat.add_mul]
          congr 2
          omega
        have e4 : ((s.cur + resampleStep) % 2 ^ 32 + j * resampleStep) % 2 ^ 32 =
            (s.cur + (j + 1) * resampleStep) % 2 ^ 32 := by
          rw [hm]; omega
        rw [e, h6, e3, e4]

/-- C3. `FAudio_INTERNAL_ResamplePCM` in closed form: with `f0` the fraction of
`resampleOffset`, output frame `i`, channel `c` is
`d[n_i][c] + (d[n_i + 1][c] - d[n_i][c]) * (f_i / 2 ^ 32)` for
`n_i = (f0 + i * step) / 2 ^ 32` and `f_i = (f0 + i * step) % 2 ^ 32`, where `d` is
the decode cache; `resampleOffset` advances by `toResample * step` and the write
position by `toResample` frames. At half rate (`step = 2 ^ 31`, `f0 = 0`) frame 0
is input frame 0 and frame 1 is the mean of input frames 0 and 1. -/
theorem c3_resample_closed_form (voice : FAudioSourceVoice) (audio : FAudio)
    (pos toResample : Nat)
    (hstep : voice.src.resampleStep + 2 ^ 32 ≤ 2 ^ 64)
    (ho : voice.src.resampleOffset < 2 ^ 64) :
    (∀ i c, i < toResample → c < voice.src.format.nChannels →
      (FAudio_INTERNAL_ResamplePCM voice audio pos toResample).2.1.resampleCache
          (pos + i * voice.src.format.nChannels + c) =
        audio.decodeCache
            ((voice.src.resampleOffset % 2 ^ 32 + i * voice.src.resampleStep) / 2 ^ 32 *
              voice.src.format.nChannels + c) +
          (audio.decodeCache
              (((voice.src.resampleOffset % 2 ^ 32 + i * voice.src.resampleStep) / 2 ^ 32 + 1) *
                voice.src.format.nChannels + c) -
            audio.decodeCache
              ((voice.src.resampleOffset % 2 ^ 32 + i * voice.src.resampleStep) / 2 ^ 32 *
                voice.src.format.nChannels + c)) *
            ((((voice.src.resampleOffset % 2 ^ 32 + i * voice.src.resampleStep) % 2 ^ 32 : ℕ)
              : ℚ) / 2 ^ 32)) ∧
    (FAudio_INTERNAL_ResamplePCM voice audio pos toResample).1.src.resampleOffset =
      wrap64 (voice.src.resampleOffset + toResample * voice.src.resampleStep) ∧
    (FAudio_INTERNAL_ResamplePCM voice audio pos toResample).2.2 =
      pos + toResample * voice.src.format.nChannels ∧
    (voice.src.resampleStep = 2 ^ 31 → voice.src.resampleOffset % 2 ^ 32 = 0 →
      ∀ c, c < voice.src.format.nChannels →
        (1 ≤ toResample →
          (FAudio_INTERNAL_ResamplePCM voice audio pos toResample).2.1.resampleCache (pos + c) =
            audio.decodeCache c) ∧
        (2 ≤ toResample →
          (FAudio_INTERNAL_ResamplePCM voice audio pos toResample).2.1.resampleCache
              (pos + voice.src.format.nChannels + c) =
            (audio.decodeCache c + audio.decodeCache (voice.src.format.nChannels + c)) / 2)) := by
  have hcur : voice.src.resampleOffset &&& FIXED_FRACTION_MASK < 2 ^ 32 := by
    rw [and_mask]; omega
  obtain ⟨h1, _, _, _, h5⟩ := ResamplePCM_loop_spec voice.src.format.nChannels
    voice.src.resampleStep audio.decodeCache hstep toResample
    { dCache := 0
      cur := voice.src.resampleOffset &&& FIXED_FRACTION_MASK
      resampleOffset := voice.src.resampleOffset
      out := audio.resampleCache
      pos := pos } hcur ho
  have main : ∀ i c, i < toResample → c < voice.src.format.nChannels →
      (FAudio_INTERNAL_ResamplePCM voice audio pos toResample).2.1.resampleCache
          (pos + i * voice.src.format.nChannels + c) =
        audio.decodeCache
            ((voice.src.resampleOffset % 2 ^ 32 + i * voice.src.resampleStep) / 2 ^ 32 *
              voice.src.format.nChannels + c) +
          (audio.decodeCache
              (((voice.src.resampleOffset % 2 ^ 32 + i * voice.src.resampleStep) / 2 ^ 32 + 1) *
                voice.src.format.nChannels + c) -
            audio.decodeCache
              ((voice.src.resampleOffset % 2 ^ 32 + i * voice.src.resampleStep) / 2 ^ 32 *
                voice.src.format.nChannels + c)) *
            ((((voice.src.resampleOffset % 2 ^ 32 + i * voice.src.resampleStep) % 2 ^ 32 : ℕ)
              : ℚ) / 2 ^ 32) := by
    intro i c hi hc
    have e : ((voice.src.resampleOffset % 2 ^ 32 + i * voice.src.resampleStep) / 2 ^ 32 + 1) *
        voice.src.format.nChannels + c =
        (voice.src.resampleOffset % 2 ^ 32 + i * voice.src.resampleStep) / 2 ^ 32 *
          voice.src.format.nChannels + c + voice.src.format.nChannels := by
      rw [Nat.succ_mul]; omega
    rw [e]
    have h6 := h5 i c hi hc
    simp only [FAudio_INTERNAL_ResamplePCM, and_mask, Nat.zero_add] at h6 ⊢
    exact h6
  refine ⟨main, h1, ?_, ?_⟩
  · exact (ResamplePCM_loop_pos _ _ _ _ _)
  · intro hs hf c hc
    constructor
    · intro h
      have := main 0 c (by omega) hc
      simp only [hf, Nat.zero_mul, Nat.add_zero, Nat.zero_div, Nat.zero_mod, Nat.cast_zero,
        zero_div, mul_zero, add_zero, Nat.zero_add] at this
      exact this
    · intro h
      have := main 1 c (by omega) hc
      rw [hf, hs] at this
      have e1 : (0 + 1 * 2 ^ 31) / 2 ^ 32 = 0 := by norm_num
      have e2 : (0 + 1 * 2 ^ 31) % 2 ^ 32 = 2 ^ 31 := by norm_num
      rw [e1, e2] at this
      simp only [Nat.one_mul, Nat.zero_mul, Nat.zero_add] at this
      rw [this]
      push_cast
      ring


/-! ## MSADPCM -/

theorem DecodeMonoMSADPCMBlock_loop_spec (M : AdaptCoeffOverrun) (data : ByteBuf) (predictor : Nat) :
    ∀ (n p : Nat) (s : NibbleState),
      (DecodeMonoMSADPCMBlock_loop M data predictor n p s).1 = p + n ∧
      (DecodeMonoMSADPCMBlock_loop M data predictor n p s).2.length = 2 * n := by
  intro n
  induction n with
  | zero => intro p s; simp [DecodeMonoMSADPCMBlock_loop]
  | succ n ih =>
    intro p s
    simp only [DecodeMonoMSADPCMBlock_loop, List.length_cons]
    obtain ⟨h1, h2⟩ := ih (p + 1)
      (FAudio_INTERNAL_ParseNibble M (readU8 data p &&& 0x0F) predictor
        (FAudio_INTERNAL_ParseNibble M (readU8 data p >>> 4) predictor s).2).2
    rw [h1, h2]
    constructor <;> omega

theorem DecodeMonoMSADPCMBlock_spec (M : AdaptCoeffOverrun) (data : ByteBuf) (buf align : Nat) (h7 : 7 ≤ align)
    (h : align < 2 ^ 31) :
    (FAudio_INTERNAL_DecodeMonoMSADPCMBlock M data buf align).1 = buf + align ∧
    (FAudio_INTERNAL_DecodeMonoMSADPCMBlock M data buf align).2.length =
      wrap32 (sub32 align 6 * 2) := by
  have e7 : sub32 align 7 = align - 7 := by simp only [sub32, wrap32]; omega
  have e6 : wrap32 (sub32 align 6 * 2) = (align - 6) * 2 := by simp only [sub32, wrap32]; omega
  simp only [FAudio_INTERNAL_DecodeMonoMSADPCMBlock, List.length_cons, e7, e6]
  obtain ⟨h1, h2⟩ := DecodeMonoMSADPCMBlock_loop_spec M data (readU8 data buf) (align - 7)
    (buf + 7) ⟨readS16 data (buf + 1), readS16 data (buf + 3), readS16 data (buf + 5)⟩
  rw [h1, h2]
  constructor <;> omega

theorem DecodeStereoMSADPCMBlock_loop_spec (M : AdaptCoeffOverrun) (data : ByteBuf) (lp rp : Nat) :
    ∀ (n p : Nat) (l r : NibbleState),
      (DecodeStereoMSADPCMBlock_loop M data lp rp n p l r).1 = p + n ∧
      (DecodeStereoMSADPCMBlock_loop M data lp rp n p l r).2.length = 2 * n := by
  intro n
  induction n with
  | zero => intro p l r; simp [DecodeStereoMSADPCMBlock_loop]
  | succ n ih =>
    intro p l r
    simp only [DecodeStereoMSADPCMBlock_loop, List.length_cons]
    obtain ⟨h1, h2⟩ := ih (p + 1)
      (FAudio_INTERNAL_ParseNibble M (readU8 data p >>> 4) lp l).2
      (FAudio_INTERNAL_ParseNibble M (readU8 data p &&& 0x0F) rp r).2
    rw [h1, h2]
    constructor <;> omega

theorem DecodeStereoMSADPCMBlock_spec (M : AdaptCoeffOverrun) (data : ByteBuf) (buf align : Nat) (h14 : 14 ≤ align)
    (h : align < 2 ^ 31) :
    (FAudio_INTERNAL_DecodeStereoMSADPCMBlock M data buf align).1 = buf + align ∧
    2 * wrap32 (sub32 (align / 2) 6 * 2) ≤
      (FAudio_INTERNAL_DecodeStereoMSADPCMBlock M data buf align).2.length := by
  have e14 : sub32 align 14 = align - 14 := by simp only [sub32, wrap32]; omega
  have e6 : wrap32 (sub32 (align / 2) 6 * 2) = (align / 2 - 6) * 2 := by
    simp only [sub32, wrap32]; omega
  simp only [FAudio_INTERNAL_DecodeStereoMSADPCMBlock, List.length_cons, e14, e6]
  obtain ⟨h1, h2⟩ := DecodeStereoMSADPCMBlock_loop_spec M data (readU8 data buf)
    (readU8 data (buf + 1)) (align - 14) (buf + 14)
    ⟨readS16 data (buf + 2), readS16 data (buf + 6), readS16 data (buf + 10)⟩
    ⟨readS16 data (buf + 4), readS16 data (buf + 8), readS16 data (buf + 12)⟩
  rw [h1, h2]
  constructor <;> omega

theorem take_drop_eq_map_range (l : List Int) (m n : Nat) (h : m + n ≤ l.length) :
    (l.drop m).take n = (List.range n).map (fun i => l.getD (m + i) 0) := by
  apply List.ext_getElem
  · simp; omega
  · intro i h1 h2
    simp at h1 h2
    simp [List.getD_eq_getElem?_getD]
    rw [List.getElem?_eq_getElem (by omega)]
    simp

theorem map_range_add (g : Nat → Sample) (m n : Nat) :
    (List.range (m + n)).map g =
      (List.range m).map g ++ (List.range n).map (fun i => g (m + i)) := by
  rw [List.range_add, List.map_append, List.map_map]
  rfl

theorem monoStream_at (M : AdaptCoeffOverrun) (data : ByteBuf) (align q r : Nat)
    (hr : r < wrap32 (sub32 align 6 * 2)) :
    monoStream M data align (q * wrap32 (sub32 align 6 * 2) + r) =
      (FAudio_INTERNAL_DecodeMonoMSADPCMBlock M data (q * align) align).2.getD r 0 := by
  unfold monoStream
  have hB : 0 < wrap32 (sub32 align 6 * 2) := by omega
  rw [Nat.add_comm, Nat.add_mul_div_right _ _ hB, Nat.add_mul_mod_self_right,
    Nat.div_eq_of_lt hr, Nat.mod_eq_of_lt hr, Nat.zero_add]

theorem DecodeMonoMSADPCM_loop_spec (M : AdaptCoeffOverrun) (f : Int → Sample) (data : ByteBuf) (align : Nat)
    (h7 : 7 ≤ align) (h : align < 2 ^ 31) :
    ∀ (fuel samples q m : Nat), samples < fuel → m < wrap32 (sub32 align 6 * 2) →
      samples < 2 ^ 32 →
      DecodeMonoMSADPCM_loop M (List.map f) data align (wrap32 (sub32 align 6 * 2)) fuel
          (q * align) m samples =
        some ((List.range samples).map
          (fun i => f (monoStream M data align (q * wrap32 (sub32 align 6 * 2) + m + i)))) := by
  have hB32 : wrap32 (sub32 align 6 * 2) < 2 ^ 32 := by simp only [wrap32]; omega
  generalize hB : wrap32 (sub32 align 6 * 2) = B at *
  intro fuel
  induction fuel with
  | zero => intro samples q m hs; omega
  | succ n ih =>
    intro samples q m hs hm h32
    unfold DecodeMonoMSADPCM_loop
    by_cases h0 : samples > 0
    · rw [if_pos h0]
      obtain ⟨hb1, hb2⟩ := DecodeMonoMSADPCMBlock_spec M data (q * align) align h7 h
      rw [hB] at hb2
      have hsub : sub32 B m = B - m := by simp only [sub32, wrap32]; omega
      simp only [hsub, FAudio_min_eq, hb1]
      have hq : q * align + align = (q + 1) * align := by rw [Nat.succ_mul]
      rw [hq]
      have hcopy : min samples (B - m) ≤ samples := Nat.min_le_left _ _
      have hsub2 : sub32 samples (min samples (B - m)) = samples - min samples (B - m) := by
        simp only [sub32, wrap32]; omega
      rw [hsub2, ih (samples - min samples (B - m)) (q + 1) 0 (by omega) (by omega) (by omega)]
      simp only [Option.map_some']
      refine congrArg some ?_
      rw [take_drop_eq_map_range _ _ _ (by rw [hb2]; omega), List.map_map]
      have hsplit : samples = min samples (B - m) + (samples - min samples (B - m)) := by omega
      conv_rhs => rw [hsplit, map_range_add]
      refine congrArg₂ (fun a b => a ++ b) ?_ ?_
      · apply List.map_congr_left
        intro i hi
        simp only [List.mem_range] at hi
        simp only [Function.comp]
        rw [Nat.add_assoc, ← hB, monoStream_at M data align q (m + i) (by rw [hB]; omega)]
      · apply List.map_congr_left
        intro i hi
        simp only [List.mem_range] at hi
        by_cases hc : samples ≤ B - m
        · rw [Nat.min_eq_left hc] at hi; omega
        · rw [Nat.min_eq_right (by omega)]
          have e : (q + 1) * B + 0 + i = q * B + m + (B - m + i) := by
            rw [Nat.succ_mul]; omega
          rw [e]
    · rw [if_neg h0]
      have : samples = 0 := by omega
      subst this
      simp

theorem stereoStream_at (M : AdaptCoeffOverrun) (data : ByteBuf) (align q r : Nat)
    (hr : r < 2 * wrap32 (sub32 (align / 2) 6 * 2)) :
    stereoStream M data align (q * (2 * wrap32 (sub32 (align / 2) 6 * 2)) + r) =
      (FAudio_INTERNAL_DecodeStereoMSADPCMBlock M data (q * align) align).2.getD r 0 := by
  unfold stereoStream
  have hB : 0 < 2 * wrap32 (sub32 (align / 2) 6 * 2) := by omega
  rw [Nat.add_comm, Nat.add_mul_div_right _ _ hB, Nat.add_mul_mod_self_right,
    Nat.div_eq_of_lt hr, Nat.mod_eq_of_lt hr, Nat.zero_add]

theorem DecodeStereoMSADPCM_loop_spec (M : AdaptCoeffOverrun) (f : Int → Sample) (data : ByteBuf) (align : Nat)
    (h14 : 14 ≤ align) (h : align < 2 ^ 31) :
    ∀ (fuel samples q m : Nat), samples < fuel → m < wrap32 (sub32 (align / 2) 6 * 2) →
      samples < 2 ^ 32 →
      DecodeStereoMSADPCM_loop M (List.map f) data align (wrap32 (sub32 (align / 2) 6 * 2)) fuel
          (q * align) m samples =
        some ((List.range (2 * samples)).map
          (fun i => f (stereoStream M data align
            (q * (2 * wrap32 (sub32 (align / 2) 6 * 2)) + 2 * m + i)))) := by
  have hB32 : wrap32 (sub32 (align / 2) 6 * 2) < 2 ^ 32 := by simp only [wrap32]; omega
  have hBpos : 0 < wrap32 (sub32 (align / 2) 6 * 2) := by simp only [sub32, wrap32]; omega
  have hblk := fun buf => DecodeStereoMSADPCMBlock_spec M data buf align h14 h
  have hat := stereoStream_at M data align
  generalize hB : wrap32 (sub32 (align / 2) 6 * 2) = B at *
  intro fuel
  induction fuel with
  | zero => intro samples q m hs; omega
  | succ n ih =>
    intro samples q m hs hm h32
    unfold DecodeStereoMSADPCM_loop
    by_cases h0 : samples > 0
    · rw [if_pos h0]
      obtain ⟨hb1, hb2⟩ := hblk (q * align)
      have hsub : sub32 B m = B - m := by simp only [sub32, wrap32]; omega
      simp only [hsub, FAudio_min_eq, hb1]
      have hq : q * align + align = (q + 1) * align := by rw [Nat.succ_mul]
      rw [hq]
      have hcopy : min samples (B - m) ≤ samples := Nat.min_le_left _ _
      have hsub2 : sub32 samples (min samples (B - m)) = samples - min samples (B - m) := by
        simp only [sub32, wrap32]; omega
      rw [hsub2, ih (samples - min samples (B - m)) (q + 1) 0 (by omega) (by omega) (by omega)]
      simp only [Option.map_some']
      refine congrArg some ?_
      rw [take_drop_eq_map_range _ _ _ (by omega), List.map_map]
      have hsplit : 2 * samples =
          min samples (B - m) * 2 + 2 * (samples - min samples (B - m)) := by omega
      conv_rhs => rw [hsplit, map_range_add]
      refine congrArg₂ (fun a b => a ++ b) ?_ ?_
      · apply List.map_congr_left
        intro i hi
        simp only [List.mem_range] at hi
        simp only [Function.comp]
        have e : q * (2 * B) + 2 * m + i = q * (2 * B) + (m * 2 + i) := by omega
        rw [e, hat q (m * 2 + i) (by omega)]
      · apply List.map_congr_left
        intro i hi
        simp only [List.mem_range] at hi
        by_cases hc : samples ≤ B - m
        · rw [Nat.min_eq_left hc] at hi; omega
        · rw [Nat.min_eq_right (by omega)]
          have e : (q + 1) * (2 * B) + 2 * 0 + i = q * (2 * B) + 2 * m + ((B - m) * 2 + i) := by
            rw [Nat.succ_mul]; omega
          rw [e]
    · rw [if_neg h0]
      have : samples = 0 := by omega
      subst this
      simp

theorem DecodeMonoMSADPCM_spec (M : AdaptCoeffOverrun) (f : Int → Sample) (buffer : FAudioBuffer)
    (format : FAudioWaveFormatEx) (h7 : 7 ≤ format.nBlockAlign)
    (h : format.nBlockAlign < 2 ^ 31) (fuel curOffset samples : Nat)
    (hf : samples < fuel) (hs : samples < 2 ^ 32) :
    FAudio_INTERNAL_DecodeMonoMSADPCM M (List.map f) fuel buffer curOffset samples format =
      some ((List.range samples).map
        (fun i => f (monoStream M buffer.pAudioData format.nBlockAlign (curOffset + i)))) := by
  unfold FAudio_INTERNAL_DecodeMonoMSADPCM
  have hB : 0 < wrap32 (sub32 format.nBlockAlign 6 * 2) := by
    simp only [sub32, wrap32]; omega
  simp only []
  rw [if_neg (by omega), DecodeMonoMSADPCM_loop_spec M f _ _ h7 h fuel samples _ _ hf
    (Nat.mod_lt _ hB) hs]
  rw [Nat.div_add_mod' curOffset]

theorem DecodeStereoMSADPCM_spec (M : AdaptCoeffOverrun) (f : Int → Sample) (buffer : FAudioBuffer)
    (format : FAudioWaveFormatEx) (h14 : 14 ≤ format.nBlockAlign)
    (h : format.nBlockAlign < 2 ^ 31) (fuel curOffset samples : Nat)
    (hf : samples < fuel) (hs : samples < 2 ^ 32) :
    FAudio_INTERNAL_DecodeStereoMSADPCM M (List.map f) fuel buffer curOffset samples format =
      some ((List.range (2 * samples)).map
        (fun i => f (stereoStream M buffer.pAudioData format.nBlockAlign (2 * curOffset + i)))) := by
  unfold FAudio_INTERNAL_DecodeStereoMSADPCM
  have hB : 0 < wrap32 (sub32 (format.nBlockAlign / 2) 6 * 2) := by
    simp only [sub32, wrap32]; omega
  simp only []
  rw [if_neg (by omega), DecodeStereoMSADPCM_loop_spec M f _ _ h14 h fuel samples _ _ hf
    (Nat.mod_lt _ hB) hs]
  have e : curOffset / wrap32 (sub32 (format.nBlockAlign / 2) 6 * 2) *
        (2 * wrap32 (sub32 (format.nBlockAlign / 2) 6 * 2)) +
      2 * (curOffset % wrap32 (sub32 (format.nBlockAlign / 2) 6 * 2)) = 2 * curOffset := by
    have := Nat.div_add_mod' curOffset (wrap32 (sub32 (format.nBlockAlign / 2) 6 * 2))
    calc _ = 2 * (curOffset / wrap32 (sub32 (format.nBlockAlign / 2) 6 * 2) *
            wrap32 (sub32 (format.nBlockAlign / 2) 6 * 2) +
          curOffset % wrap32 (sub32 (format.nBlockAlign / 2) 6 * 2)) := by ring
      _ = 2 * curOffset := by rw [this]
  rw [e]

theorem readCoeff_inside (table : List Int) (behind : Nat → Int) (predictor : Nat)
    (hp : predictor < table.length) :
    readCoeff table behind predictor = table.getD predictor 0 := by
  unfold readCoeff
  rw [if_pos hp]

/-- With a predictor inside the tables `FAudio_INTERNAL_ParseNibble` does not
read the memory behind them. -/
theorem ParseNibble_inside (M M1 : AdaptCoeffOverrun) (nibble predictor : Nat)
    (s : NibbleState) (hp : predictor < 7) :
    FAudio_INTERNAL_ParseNibble M nibble predictor s =
      FAudio_INTERNAL_ParseNibble M1 nibble predictor s := by
  unfold FAudio_INTERNAL_ParseNibble
  rw [readCoeff_inside AdaptCoeff_1 M.behind1 predictor hp,
    readCoeff_inside AdaptCoeff_2 M.behind2 predictor hp,
    readCoeff_inside AdaptCoeff_1 M1.behind1 predictor hp,
    readCoeff_inside AdaptCoeff_2 M1.behind2 predictor hp]

theorem DecodeMonoMSADPCMBlock_loop_inside (M M1 : AdaptCoeffOverrun) (data : ByteBuf)
    (predictor : Nat) (hp : predictor < 7) :
    ∀ (n p : Nat) (s : NibbleState),
      DecodeMonoMSADPCMBlock_loop M1 data predictor n p s =
        DecodeMonoMSADPCMBlock_loop M data predictor n p s := by
  intro n
  induction n with
  | zero => intro p s; rfl
  | succ n ih =>
    intro p s
    simp only [DecodeMonoMSADPCMBlock_loop]
    rw [ParseNibble_inside M1 M (readU8 data p >>> 4) predictor s hp,
      ParseNibble_inside M1 M (readU8 data p &&& 0x0F) predictor _ hp, ih]

theorem DecodeStereoMSADPCMBlock_loop_inside (M M1 : AdaptCoeffOverrun) (data : ByteBuf)
    (lp rp : Nat) (hl : lp < 7) (hr : rp < 7) :
    ∀ (n p : Nat) (l r : NibbleState),
      DecodeStereoMSADPCMBlock_loop M1 data lp rp n p l r =
        DecodeStereoMSADPCMBlock_loop M data lp rp n p l r := by
  intro n
  induction n with
  | zero => intro p l r; rfl
  | succ n ih =>
    intro p l r
    simp only [DecodeStereoMSADPCMBlock_loop]
    rw [ParseNibble_inside M1 M (readU8 data p >>> 4) lp l hl,
      ParseNibble_inside M1 M (readU8 data p &&& 0x0F) rp r hr, ih]

theorem DecodeMonoMSADPCMBlock_inside (M M1 : AdaptCoeffOverrun) (data : ByteBuf)
    (buf align : Nat) (hp : readU8 data buf < 7) :
    FAudio_INTERNAL_DecodeMonoMSADPCMBlock M1 data buf align =
      FAudio_INTERNAL_DecodeMonoMSADPCMBlock M data buf align := by
  simp only [FAudio_INTERNAL_DecodeMonoMSADPCMBlock]
  rw [DecodeMonoMSADPCMBlock_loop_inside M M1 data (readU8 data buf) hp]

theorem DecodeStereoMSADPCMBlock_inside (M M1 : AdaptCoeffOverrun) (data : ByteBuf)
    (buf align : Nat) (hl : readU8 data buf < 7) (hr : readU8 data (buf + 1) < 7) :
    FAudio_INTERNAL_DecodeStereoMSADPCMBlock M1 data buf align =
      FAudio_INTERNAL_DecodeStereoMSADPCMBlock M data buf align := by
  simp only [FAudio_INTERNAL_DecodeStereoMSADPCMBlock]
  rw [DecodeStereoMSADPCMBlock_loop_inside M M1 data (readU8 data buf)
    (readU8 data (buf + 1)) hl hr]

/-- C5. Split decoding of MSADPCM: for frame offsets `a ≤ b ≤ c`, decoding
`[a, b)` and then `[b, c)` stores the same floats as decoding `[a, c)` in one
call, for the mono decoder (block alignment from 7 to 262) and for the stereo
decoder (block alignment from 14 to 524), wherever `a` and `b` fall inside a
block; `f` is the conversion of one sample, and each call returns. This for
every buffer: for the blocks whose predictor byte is 7 or more it holds
whatever the memory `M` behind the coefficient tables contains, and when the
predictor bytes of all blocks are below 7 the floats do not depend on `M`. -/
theorem c5_msadpcm_split (M : AdaptCoeffOverrun) (f : Int → Sample) (buffer : FAudioBuffer)
    (format : FAudioWaveFormatEx) (a b c fuel : Nat)
    (hab : a ≤ b) (hbc : b ≤ c) (hc : c < 2 ^ 32) (hfuel : c - a < fuel) :
    (7 ≤ format.nBlockAlign → format.nBlockAlign ≤ 262 →
      ∃ x y,
        FAudio_INTERNAL_DecodeMonoMSADPCM M (List.map f) fuel buffer a (b - a) format = some x ∧
        FAudio_INTERNAL_DecodeMonoMSADPCM M (List.map f) fuel buffer b (c - b) format = some y ∧
        FAudio_INTERNAL_DecodeMonoMSADPCM M (List.map f) fuel buffer a (c - a) format =
          some (x ++ y)) ∧
    (14 ≤ format.nBlockAlign → format.nBlockAlign ≤ 524 →
      ∃ x y,
        FAudio_INTERNAL_DecodeStereoMSADPCM M (List.map f) fuel buffer a (b - a) format = some x ∧
        FAudio_INTERNAL_DecodeStereoMSADPCM M (List.map f) fuel buffer b (c - b) format = some y ∧
        FAudio_INTERNAL_DecodeStereoMSADPCM M (List.map f) fuel buffer a (c - a) format =
          some (x ++ y)) ∧
    (7 ≤ format.nBlockAlign → format.nBlockAlign ≤ 262 →
      (∀ q, readU8 buffer.pAudioData (q * format.nBlockAlign) < 7) →
      ∀ M1 : AdaptCoeffOverrun,
        FAudio_INTERNAL_DecodeMonoMSADPCM M1 (List.map f) fuel buffer a (c - a) format =
          FAudio_INTERNAL_DecodeMonoMSADPCM M (List.map f) fuel buffer a (c - a) format) ∧
    (14 ≤ format.nBlockAlign → format.nBlockAlign ≤ 524 →
      (∀ q, readU8 buffer.pAudioData (q * format.nBlockAlign) < 7 ∧
        readU8 buffer.pAudioData (q * format.nBlockAlign + 1) < 7) →
      ∀ M1 : AdaptCoeffOverrun,
        FAudio_INTERNAL_DecodeStereoMSADPCM M1 (List.map f) fuel buffer a (c - a) format =
          FAudio_INTERNAL_DecodeStereoMSADPCM M (List.map f) fuel buffer a (c - a) format) := by
  refine ⟨?_, ?_, ?_, ?_⟩
  · intro h7 h262
    have hal : format.nBlockAlign < 2 ^ 31 := by omega
    refine ⟨_, _, DecodeMonoMSADPCM_spec M f buffer format h7 hal fuel a (b - a) (by omega)
      (by omega), DecodeMonoMSADPCM_spec M f buffer format h7 hal fuel b (c - b) (by omega)
      (by omega), ?_⟩
    rw [DecodeMonoMSADPCM_spec M f buffer format h7 hal fuel a (c - a) hfuel (by omega)]
    refine congrArg some ?_
    have hsplit : c - a = (b - a) + (c - b) := by omega
    rw [hsplit, map_range_add]
    refine congrArg₂ (fun x y => x ++ y) rfl ?_
    apply List.map_congr_left
    intro i _
    have e : a + (b - a + i) = b + i := by omega
    rw [e]
  · intro h14 h524
    have hal : format.nBlockAlign < 2 ^ 31 := by omega
    refine ⟨_, _, DecodeStereoMSADPCM_spec M f buffer format h14 hal fuel a (b - a) (by omega)
      (by omega), DecodeStereoMSADPCM_spec M f buffer format h14 hal fuel b (c - b) (by omega)
      (by omega), ?_⟩
    rw [DecodeStereoMSADPCM_spec M f buffer format h14 hal fuel a (c - a) hfuel (by omega)]
    refine congrArg some ?_
    have hsplit : 2 * (c - a) = 2 * (b - a) + 2 * (c - b) := by omega
    rw [hsplit, map_range_add]
    refine congrArg₂ (fun x y => x ++ y) rfl ?_
    apply List.map_congr_left
    intro i _
    have e : 2 * a + (2 * (b - a) + i) = 2 * b + i := by omega
    rw [e]
  · intro h7 h262 hp M1
    have hal : format.nBlockAlign < 2 ^ 31 := by omega
    rw [DecodeMonoMSADPCM_spec M1 f buffer format h7 hal fuel a (c - a) hfuel (by omega),
      DecodeMonoMSADPCM_spec M f buffer format h7 hal fuel a (c - a) hfuel (by omega)]
    refine congrArg some ?_
    apply List.map_congr_left
    intro i _
    unfold monoStream
    rw [DecodeMonoMSADPCMBlock_inside M M1 buffer.pAudioData _ _ (hp _)]
  · intro h14 h524 hp M1
    have hal : format.nBlockAlign < 2 ^ 31 := by omega
    rw [DecodeStereoMSADPCM_spec M1 f buffer format h14 hal fuel a (c - a) hfuel (by omega),
      DecodeStereoMSADPCM_spec M f buffer format h14 hal fuel a (c - a) hfuel (by omega)]
    refine congrArg some ?_
    apply List.map_congr_left
    intro i _
    unfold stereoStream
    rw [DecodeStereoMSADPCMBlock_inside M M1 buffer.pAudioData _ _ (hp _).1 (hp _).2]


/-! ## One pass of the loop of the buffer queue -/

theorem DecodeBuffers_body_log (K : Env) (voice : FAudioSourceVoice) (audio : FAudio)
    (buffer : FAudioBuffer) (next : List FAudioBuffer) (toDecode decoded : Nat) :
    (DecodeBuffers_body K voice audio buffer next toDecode decoded).2.1.log =
      audio.log ++ bodyEvents K voice buffer toDecode decoded := by
  unfold DecodeBuffers_body bodyEvents endReadOf avail
  simp only []
  split_ifs <;> simp

theorem DecodeBuffers_body_queue (K : Env) (voice : FAudioSourceVoice) (audio : FAudio)
    (buffer : FAudioBuffer) (next : List FAudioBuffer) (toDecode decoded : Nat) :
    (DecodeBuffers_body K voice audio buffer next toDecode decoded).1.src.bufferList =
      bodyQueue K voice buffer next toDecode decoded := by
  unfold DecodeBuffers_body bodyQueue endReadOf avail
  cases next <;> (simp only []; split_ifs <;> simp)

theorem DecodeBuffers_body_offset (K : Env) (voice : FAudioSourceVoice) (audio : FAudio)
    (buffer : FAudioBuffer) (next : List FAudioBuffer) (toDecode decoded : Nat) :
    (DecodeBuffers_body K voice audio buffer next toDecode decoded).1.src.curBufferOffset =
      bodyOffset voice buffer next toDecode decoded := by
  unfold DecodeBuffers_body bodyOffset endReadOf avail
  cases next <;> (simp only []; split_ifs <;> simp)

theorem DecodeBuffers_body_decoded (K : Env) (voice : FAudioSourceVoice) (audio : FAudio)
    (buffer : FAudioBuffer) (next : List FAudioBuffer) (toDecode decoded : Nat) :
    (DecodeBuffers_body K voice audio buffer next toDecode decoded).2.2 =
      wrap32 (decoded + endReadOf voice buffer toDecode decoded) := by
  unfold DecodeBuffers_body endReadOf avail
  simp only []
  split_ifs <;> rfl

/-! ## Termination of the loop of the buffer queue -/

theorem stallFlag_le_one (voice : FAudioSourceVoice) : stallFlag voice ≤ 1 := by
  unfold stallFlag
  split
  · omega
  · split <;> omega

theorem DecodeBuffers_body_measure (K : Env) (voice : FAudioSourceVoice) (audio : FAudio)
    (buffer : FAudioBuffer) (next : List FAudioBuffer) (toDecode decoded : Nat)
    (hq : voice.src.bufferList = buffer :: next)
    (hp : ∀ b ∈ voice.src.bufferList, Playable K b)
    (hd : decoded < toDecode) (hT : toDecode < 2 ^ 32) :
    loopMeasure K (DecodeBuffers_body K voice audio buffer next toDecode decoded).1 toDecode
        (DecodeBuffers_body K voice audio buffer next toDecode decoded).2.2 <
      loopMeasure K voice toDecode decoded ∧
    (DecodeBuffers_body K voice audio buffer next toDecode decoded).2.2 ≤ toDecode ∧
    (∀ b ∈ (DecodeBuffers_body K voice audio buffer next toDecode decoded).1.src.bufferList,
      Playable K b) := by
  have hpb : Playable K buffer := hp buffer (by rw [hq]; simp)
  have hpn : ∀ b ∈ next, Playable K b := fun b hb => hp b (by rw [hq]; simp [hb])
  have hdec : sub32 toDecode decoded = toDecode - decoded := by
    simp only [sub32, wrap32]; omega
  have hle : endReadOf voice buffer toDecode decoded ≤ toDecode - decoded := by
    unfold endReadOf; rw [FAudio_min_eq, hdec]; exact Nat.min_le_right _ _
  have hle2 : endReadOf voice buffer toDecode decoded ≤ avail voice buffer := by
    unfold endReadOf; rw [FAudio_min_eq]; exact Nat.min_le_left _ _
  have hdd : (DecodeBuffers_body K voice audio buffer next toDecode decoded).2.2 =
      decoded + endReadOf voice buffer toDecode decoded := by
    rw [DecodeBuffers_body_decoded]; simp only [wrap32]; omega
  refine ⟨?_, by omega, ?_⟩
  · have hf := stallFlag_le_one (DecodeBuffers_body K voice audio buffer next toDecode decoded).1
    have hf2 := stallFlag_le_one voice
    have hF : stallFlag voice = if avail voice buffer = 0 then 1 else 0 := by
      unfold stallFlag; rw [hq]
    unfold loopMeasure
    rw [hdd, DecodeBuffers_body_queue, hq]
    by_cases hlt : endReadOf voice buffer toDecode decoded < toDecode - decoded
    · have hav : endReadOf voice buffer toDecode decoded = avail voice buffer := by
        unfold endReadOf at hlt ⊢; rw [FAudio_min_eq, hdec] at hlt ⊢; omega
      by_cases hlc : buffer.LoopCount > 0
      · by_cases hinf : buffer.LoopCount < K.FAUDIO_LOOP_INFINITE
        · have h1 := hpb.loopCount_lt
          have e : sub32 buffer.LoopCount 1 = buffer.LoopCount - 1 := by
            simp only [sub32, wrap32]; omega
          simp only [bodyQueue, hdec, if_pos hlt, if_pos hlc, if_pos hinf, queueWeight, e]
          rw [if_pos (by omega)]
          omega
        · simp only [bodyQueue, hdec, if_pos hlt, if_pos hlc, if_neg hinf, queueWeight]
          have hoff : (DecodeBuffers_body K voice audio buffer next toDecode
              decoded).1.src.curBufferOffset = buffer.LoopBegin := by
            rw [DecodeBuffers_body_offset]; unfold bodyOffset
            rw [hdec, if_pos hlt, if_pos hlc]
          have hF1 : stallFlag (DecodeBuffers_body K voice audio buffer next toDecode decoded).1
              = 0 := by
            unfold stallFlag
            rw [DecodeBuffers_body_queue]
            simp only [bodyQueue, hdec, if_pos hlt, if_pos hlc, if_neg hinf]
            unfold avail bufferEnd
            rw [hoff, if_pos hlc]
            have := hpb.loopBegin_lt
            have := hpb.loopLength_lt
            have hpos := hpb.loop_pos (by omega)
            rw [if_neg]
            simp only [sub32, wrap32]; omega
          rw [hF1, hF]
          by_cases ha0 : avail voice buffer = 0
          · rw [if_pos ha0]; omega
          · rw [if_neg ha0]; omega
      · simp only [bodyQueue, hdec, if_pos hlt, if_neg hlc, queueWeight]
        omega
    · simp only [bodyQueue, hdec, if_neg hlt, hq, queueWeight]
      omega
  · rw [DecodeBuffers_body_queue]
    unfold bodyQueue
    split_ifs with h1 h2 h3
    · intro b hb
      simp only [List.mem_cons] at hb
      rcases hb with rfl | hb
      · have e : sub32 buffer.LoopCount 1 = buffer.LoopCount - 1 := by
          have := hpb.loopCount_lt
          simp only [sub32, wrap32]; omega
        constructor
        · exact hpb.playBegin_lt
        · exact hpb.loopBegin_lt
        · exact hpb.loopLength_lt
        · simp only [e]; have := hpb.loopCount_lt; omega
        · simp only [e]; intro h; omega
      · exact hpn b hb
    · intro b hb
      simp only [List.mem_cons] at hb
      rcases hb with rfl | hb
      · exact hpb
      · exact hpn b hb
    · exact hpn
    · exact hp

theorem DecodeBuffers_body_weight (K : Env) (voice : FAudioSourceVoice)
    (buffer : FAudioBuffer) (next : List FAudioBuffer) (toDecode decoded : Nat)
    (hq : voice.src.bufferList = buffer :: next) :
    queueWeight K (bodyQueue K voice buffer next toDecode decoded) ≤
      queueWeight K voice.src.bufferList := by
  unfold bodyQueue
  rw [hq]
  split_ifs with h1 h2 h3
  · simp only [queueWeight]
    have e : sub32 buffer.LoopCount 1 ≤ buffer.LoopCount := by
      simp only [sub32, wrap32]; omega
    split_ifs <;> omega
  · simp only [queueWeight]; omega
  · simp only [queueWeight]; omega
  · exact Nat.le_refl _

/-- With enough fuel the loop of `FAudio_INTERNAL_DecodeBuffers` returns, on
every queue of playable buffers and for every request below `2 ^ 32`. -/
theorem DecodeBuffers_loop_terminates (K : Env) (toDecode : Nat) (hT : toDecode < 2 ^ 32) :
    ∀ (fuel : Nat) (voice : FAudioSourceVoice) (audio : FAudio) (decoded : Nat),
      (∀ b ∈ voice.src.bufferList, Playable K b) → decoded ≤ toDecode →
      loopMeasure K voice toDecode decoded < fuel →
      ∃ r, DecodeBuffers_loop K toDecode fuel voice audio decoded = some r ∧
        (∀ b ∈ r.1.src.bufferList, Playable K b) ∧ r.2.2 ≤ toDecode ∧
        (r.1.src.bufferList ≠ [] → r.2.2 = toDecode) ∧
        queueWeight K r.1.src.bufferList ≤ queueWeight K voice.src.bufferList := by
  intro fuel
  induction fuel with
  | zero => intro voice audio decoded _ _ h; omega
  | succ n ih =>
    intro voice audio decoded hp hd hm
    unfold DecodeBuffers_loop
    cases hq : voice.src.bufferList with
    | nil =>
      refine ⟨(voice, audio, decoded), rfl, ?_, hd, ?_, ?_⟩
      · simp [hq]
      · simp [hq]
      · simp [hq]
    | cons buffer next =>
      simp only []
      by_cases hlt : decoded < toDecode
      · rw [if_pos hlt]
        obtain ⟨h1, h2, h3⟩ := DecodeBuffers_body_measure K voice audio buffer next toDecode
          decoded hq hp hlt hT
        obtain ⟨r, hr, hr1, hr2, hr3, hr4⟩ := ih _ (DecodeBuffers_body K voice audio buffer next
          toDecode decoded).2.1 _ h3 h2 (by omega)
        refine ⟨r, hr, hr1, hr2, hr3, ?_⟩
        rw [DecodeBuffers_body_queue] at hr4
        have := DecodeBuffers_body_weight K voice buffer next toDecode decoded hq
        rw [hq] at this
        omega
      · rw [if_neg hlt]
        refine ⟨(voice, audio, decoded), rfl, ?_, hd, ?_, ?_⟩
        · simpa [hq] using hp
        · intro _; simp only []; omega
        · simp [hq]


/-! ## The account of the head buffer -/

theorem framesOf_append (a b : List Event) : framesOf (a ++ b) = framesOf a ++ framesOf b := by
  induction a with
  | nil => simp [framesOf]
  | cons e es ih =>
    cases e <;> simp [framesOf, ih]
    case decode c o n p => cases p <;> simp [framesOf, ih]

theorem framesOf_bodyEvents (K : Env) (voice : FAudioSourceVoice) (buffer : FAudioBuffer)
    (toDecode decoded : Nat) :
    framesOf (bodyEvents K voice buffer toDecode decoded) =
      List.range' voice.src.curBufferOffset (endReadOf voice buffer toDecode decoded) := by
  unfold bodyEvents
  split_ifs <;> simp [framesOf, framesOf_append]

theorem count_OnLoopEnd_bodyEvents (K : Env) (voice : FAudioSourceVoice)
    (buffer : FAudioBuffer) (toDecode decoded : Nat) :
    List.count (Event.OnLoopEnd buffer.pContext) (bodyEvents K voice buffer toDecode decoded) =
      if endReadOf voice buffer toDecode decoded < sub32 toDecode decoded ∧
          buffer.LoopCount > 0 ∧ hasCallback voice (fun cb => cb.OnLoopEnd) = true
      then 1 else 0 := by
  unfold bodyEvents
  split_ifs <;> simp_all [List.count_cons]

theorem count_OnBufferEnd_bodyEvents (K : Env) (voice : FAudioSourceVoice)
    (buffer : FAudioBuffer) (toDecode decoded : Nat) :
    List.count (Event.OnBufferEnd buffer.pContext)
        (bodyEvents K voice buffer toDecode decoded) =
      if endReadOf voice buffer toDecode decoded < sub32 toDecode decoded ∧
          ¬ buffer.LoopCount > 0 ∧ hasCallback voice (fun cb => cb.OnBufferEnd) = true
      then 1 else 0 := by
  unfold bodyEvents
  split_ifs <;> simp_all [List.count_cons]

theorem noFree_bodyEvents (K : Env) (voice : FAudioSourceVoice)
    (buffer : FAudioBuffer) (toDecode decoded : Nat)
    (h : ¬ (endReadOf voice buffer toDecode decoded < sub32 toDecode decoded ∧
      ¬ buffer.LoopCount > 0)) :
    ∀ e ∈ bodyEvents K voice buffer toDecode decoded, isFree e = false := by
  unfold bodyEvents
  split_ifs <;> simp_all [isFree, or_imp, forall_and]

theorem bodyEvents_end (K : Env) (voice : FAudioSourceVoice)
    (buffer : FAudioBuffer) (toDecode decoded : Nat)
    (h1 : endReadOf voice buffer toDecode decoded < sub32 toDecode decoded)
    (h2 : ¬ buffer.LoopCount > 0) :
    ∃ pre, bodyEvents K voice buffer toDecode decoded = pre ++ [Event.free buffer.pContext] ∧
      (∀ e ∈ pre, isFree e = false) ∧
      framesOf pre =
        List.range' voice.src.curBufferOffset (endReadOf voice buffer toDecode decoded) ∧
      List.count (Event.OnLoopEnd buffer.pContext) pre = 0 ∧
      (hasCallback voice (fun cb => cb.OnBufferEnd) = true →
        List.count (Event.OnBufferEnd buffer.pContext) pre = 1) := by
  refine ⟨(if voice.src.curBufferOffset = buffer.PlayBegin ∧
      hasCallback voice (fun cb => cb.OnBufferStart) = true then
      [Event.OnBufferStart buffer.pContext] else []) ++
    [Event.decode buffer.pContext voice.src.curBufferOffset
      (endReadOf voice buffer toDecode decoded) false] ++
    ((if hasCallback voice (fun cb => cb.OnBufferEnd) = true then
        [Event.OnBufferEnd buffer.pContext] else []) ++
      (if buffer.Flags &&& K.FAUDIO_END_OF_STREAM ≠ 0 ∧
          hasCallback voice (fun cb => cb.OnStreamEnd) = true then
        [Event.OnStreamEnd] else [])), ?_, ?_, ?_, ?_, ?_⟩
  · unfold bodyEvents
    rw [if_pos h1, if_neg h2]
    simp only [List.append_assoc]
  · split_ifs <;> simp_all [isFree, or_imp, forall_and]
  · split_ifs <;> simp [framesOf, framesOf_append]
  · split_ifs <;> simp [List.count_cons]
  · intro h
    rw [if_pos h]
    split_ifs <;> simp [List.count_cons]

theorem loopSeq_advance (b : FAudioBuffer) (LC o n : Nat)
    (h : o + n ≤ (if LC > 0 then b.LoopBegin + b.LoopLength else b.PlayBegin + b.PlayLength)) :
    List.range' o n ++ loopSeq b LC (o + n) = loopSeq b LC o := by
  unfold loopSeq
  by_cases hLC : LC = 0
  · rw [if_pos hLC, if_pos hLC]
    rw [if_neg (show ¬ LC > 0 by omega)] at h
    rw [List.range'_append_1]
    congr 1; omega
  · rw [if_neg hLC, if_neg hLC]
    rw [if_pos (show LC > 0 by omega)] at h
    rw [← List.append_assoc, List.range'_append_1]
    congr 2; omega

theorem loopSeq_rewind (b : FAudioBuffer) (LC o : Nat) (hLC : 0 < LC) :
    List.range' o (b.LoopBegin + b.LoopLength - o) ++ loopSeq b (LC - 1) b.LoopBegin =
      loopSeq b LC o := by
  unfold loopSeq
  rw [if_neg (show ¬ LC = 0 by omega)]
  by_cases h1 : LC - 1 = 0
  · rw [if_pos h1, h1]
    simp
  · rw [if_neg h1]
    obtain ⟨m, rfl⟩ : ∃ m, LC = m + 2 := ⟨LC - 2, by omega⟩
    have e1 : m + 2 - 1 = m + 1 := by omega
    have e2 : m + 1 - 1 = m := by omega
    have e3 : b.LoopBegin + b.LoopLength - b.LoopBegin = b.LoopLength := by omega
    rw [e1, e2, e3, List.replicate_succ, List.flatten_cons]
    simp only [List.append_assoc]

theorem hasCallback_body (K : Env) (voice : FAudioSourceVoice) (audio : FAudio)
    (buffer : FAudioBuffer) (next : List FAudioBuffer) (toDecode decoded : Nat)
    (f : FAudioVoiceCallback → Bool) :
    hasCallback (DecodeBuffers_body K voice audio buffer next toDecode decoded).1 f =
      hasCallback voice f := by
  unfold hasCallback
  rw [(DecodeBuffers_body_sameVoice K voice audio buffer next toDecode decoded).callback]

theorem DecodeBuffers_body_headInv (K : Env) (b0 : FAudioBuffer) (tail : List FAudioBuffer)
    (off0 : Nat) (hwf : WellFormed b0) (hC : b0.LoopCount < K.FAUDIO_LOOP_INFINITE)
    (voice : FAudioSourceVoice) (audio : FAudio) (buffer : FAudioBuffer)
    (next : List FAudioBuffer) (toDecode decoded : Nat)
    (hq : voice.src.bufferList = buffer :: next) (hd : decoded < toDecode)
    (hT : toDecode < 2 ^ 32) (ev : List Event) (hinv : HeadInv b0 tail off0 voice ev) :
    HeadInv b0 tail off0 (DecodeBuffers_body K voice audio buffer next toDecode decoded).1
      (ev ++ bodyEvents K voice buffer toDecode decoded) := by
  have hdec : sub32 toDecode decoded = toDecode - decoded := by
    simp only [sub32, wrap32]; omega
  rcases hinv with ⟨LC, ⟨hq1, hLC, hlo, hhi⟩, hnf, hfr, hcl, hcb0⟩ |
    ⟨ev0, rest, hev, hnf, hfr, hcl, hcbe, htail⟩
  · rw [hq] at hq1
    obtain ⟨hb, hn⟩ := List.cons.inj hq1
    subst hn
    have hPB : buffer.PlayBegin = b0.PlayBegin := by rw [hb]
    have hPL : buffer.PlayLength = b0.PlayLength := by rw [hb]
    have hLB : buffer.LoopBegin = b0.LoopBegin := by rw [hb]
    have hLL : buffer.LoopLength = b0.LoopLength := by rw [hb]
    have hLCb : buffer.LoopCount = LC := by rw [hb]
    have hctx : buffer.pContext = b0.pContext := by rw [hb]
    have h1 := hwf.begin_le
    have h2 := hwf.end_le
    have h3 := hwf.end_lt
    have hend : bufferEnd buffer =
        (if LC > 0 then b0.LoopBegin + b0.LoopLength else b0.PlayBegin + b0.PlayLength) := by
      unfold bufferEnd
      rw [hLCb, hPB, hPL, hLB, hLL]
      split_ifs <;> (simp only [wrap32]; omega)
    have hav : avail voice buffer =
        (if LC > 0 then b0.LoopBegin + b0.LoopLength else b0.PlayBegin + b0.PlayLength) -
          voice.src.curBufferOffset := by
      unfold avail
      rw [hend]
      split_ifs at hhi ⊢ <;> (simp only [sub32, wrap32]; omega)
    have her : endReadOf voice buffer toDecode decoded =
        min (avail voice buffer) (toDecode - decoded) := by
      unfold endReadOf; rw [FAudio_min_eq, hdec]
    by_cases hlt : endReadOf voice buffer toDecode decoded < toDecode - decoded
    · have here : endReadOf voice buffer toDecode decoded = avail voice buffer := by
        rw [her] at hlt ⊢; omega
      by_cases hlc : LC > 0
      · -- the loop region ends: rewind
        left
        refine ⟨LC - 1, ⟨?_, by omega, ?_, ?_⟩, ?_, ?_, ?_, ?_⟩
        · rw [DecodeBuffers_body_queue]
          unfold bodyQueue
          rw [hdec, if_pos hlt, if_pos (by rw [hLCb]; exact hlc), if_pos (by rw [hLCb]; omega)]
          have e : sub32 buffer.LoopCount 1 = LC - 1 := by
            rw [hLCb]; have := hwf.count_lt; simp only [sub32, wrap32]; omega
          rw [e, hb]
        · rw [DecodeBuffers_body_offset]
          unfold bodyOffset
          rw [hdec, if_pos hlt, if_pos (by rw [hLCb]; exact hlc), hLB]
          exact h1
        · rw [DecodeBuffers_body_offset]
          unfold bodyOffset
          rw [hdec, if_pos hlt, if_pos (by rw [hLCb]; exact hlc), hLB]
          split_ifs <;> omega
        · intro e he
          rw [List.mem_append] at he
          rcases he with he | he
          · exact hnf e he
          · exact noFree_bodyEvents K voice buffer toDecode decoded
              (by rw [hLCb]; intro h; exact h.2 hlc) e he
        · rw [framesOf_append, framesOf_bodyEvents, DecodeBuffers_body_offset]
          unfold bodyOffset
          rw [hdec, if_pos hlt, if_pos (by rw [hLCb]; exact hlc), hLB, here, hav, if_pos hlc,
            List.append_assoc, loopSeq_rewind b0 LC _ hlc, hfr]
        · intro hcbk
          rw [hasCallback_body] at hcbk
          have := hcl hcbk
          rw [List.count_append, ← hctx, count_OnLoopEnd_bodyEvents, hdec,
            if_pos ⟨hlt, by rw [hLCb]; exact hlc, hcbk⟩, hctx]
          omega
        · rw [List.count_append, hcb0, ← hctx, count_OnBufferEnd_bodyEvents, hdec,
            if_neg (by rw [hLCb]; intro h; exact h.2.1 hlc)]
      · -- the play region ends: the buffer leaves the queue
        right
        have hLC0 : LC = 0 := by omega
        obtain ⟨pre, hpre, hpnf, hpfr, hpcl, hpcb⟩ := bodyEvents_end K voice buffer toDecode
          decoded (by rw [hdec]; exact hlt) (by rw [hLCb]; exact hlc)
        refine ⟨ev ++ pre, [], ?_, ?_, ?_, ?_, ?_, ?_⟩
        · rw [hpre, hctx]; simp
        · intro e he
          rw [List.mem_append] at he
          rcases he with he | he
          · exact hnf e he
          · exact hpnf e he
        · rw [framesOf_append, hpfr, ← hfr, here, hav, if_neg hlc]
          congr 1
          unfold loopSeq
          rw [if_pos hLC0]
        · intro hcbk
          rw [hasCallback_body] at hcbk
          have := hcl hcbk
          rw [List.count_append, ← hctx, hpcl, hctx]
          omega
        · intro hcbk
          rw [hasCallback_body] at hcbk
          rw [List.count_append, hcb0, ← hctx, hpcb hcbk]
        · intro _
          refine ⟨rfl, ?_⟩
          rw [DecodeBuffers_body_queue]
          unfold bodyQueue
          rw [hdec, if_pos hlt, if_neg (by rw [hLCb]; exact hlc)]
          assumption
    · -- the request ends inside the region
      left
      have here : endReadOf voice buffer toDecode decoded = toDecode - decoded := by
        rw [her] at hlt ⊢; omega
      have hle : toDecode - decoded ≤ avail voice buffer := by
        rw [her] at hlt; omega
      have hoff : (DecodeBuffers_body K voice audio buffer next toDecode
          decoded).1.src.curBufferOffset = voice.src.curBufferOffset + (toDecode - decoded) := by
        rw [DecodeBuffers_body_offset]
        unfold bodyOffset
        rw [hdec, if_neg hlt, here]
        rw [hav] at hle
        simp only [wrap32]
        split_ifs at hle hhi <;> omega
      refine ⟨LC, ⟨?_, hLC, ?_, ?_⟩, ?_, ?_, ?_, ?_⟩
      · rw [DecodeBuffers_body_queue]
        unfold bodyQueue
        rw [hdec, if_neg hlt, hq, hb]
      · rw [hoff]; omega
      · rw [hoff]
        rw [hav] at hle
        split_ifs at hle hhi ⊢ <;> omega
      · intro e he
        rw [List.mem_append] at he
        rcases he with he | he
        · exact hnf e he
        · exact noFree_bodyEvents K voice buffer toDecode decoded
            (by rw [hdec]; intro h; exact hlt h.1) e he
      · rw [framesOf_append, framesOf_bodyEvents, hoff, here, List.append_assoc,
          loopSeq_advance b0 LC _ _ (by rw [hav] at hle; split_ifs at hle hhi ⊢ <;> omega), hfr]
      · intro hcbk
        rw [hasCallback_body] at hcbk
        have := hcl hcbk
        rw [List.count_append, ← hctx, count_OnLoopEnd_bodyEvents, hdec,
          if_neg (by intro h; exact hlt h.1), hctx]
        omega
      · rw [List.count_append, hcb0, ← hctx, count_OnBufferEnd_bodyEvents, hdec,
          if_neg (by intro h; exact hlt h.1)]
  · right
    refine ⟨ev0, rest ++ bodyEvents K voice buffer toDecode decoded, ?_, hnf, hfr, ?_, ?_, ?_⟩
    · rw [hev]; simp
    · intro h; rw [hasCallback_body] at h; exact hcl h
    · intro h; rw [hasCallback_body] at h; exact hcbe h
    · intro ht
      have := (htail ht).2
      rw [hq] at this
      exact absurd this (by simp)

theorem DecodeBuffers_loop_headInv (K : Env) (b0 : FAudioBuffer) (tail : List FAudioBuffer)
    (off0 : Nat) (hwf : WellFormed b0) (hC : b0.LoopCount < K.FAUDIO_LOOP_INFINITE)
    (toDecode : Nat) (hT : toDecode < 2 ^ 32) :
    ∀ (fuel : Nat) (voice : FAudioSourceVoice) (audio : FAudio) (decoded : Nat)
      (r : FAudioSourceVoice × FAudio × Nat) (ev : List Event),
      decoded ≤ toDecode → HeadInv b0 tail off0 voice ev →
      DecodeBuffers_loop K toDecode fuel voice audio decoded = some r →
      ∃ ev1, r.2.1.log = audio.log ++ ev1 ∧ HeadInv b0 tail off0 r.1 (ev ++ ev1) ∧
        (framesOf ev1).length + decoded = r.2.2 ∧ r.2.2 ≤ toDecode ∧
        (r.1.src.bufferList ≠ [] → r.2.2 = toDecode) := by
  intro fuel
  induction fuel with
  | zero => intro voice audio decoded r ev _ _ h; simp [DecodeBuffers_loop] at h
  | succ n ih =>
    intro voice audio decoded r ev hd hinv h
    unfold DecodeBuffers_loop at h
    cases hq : voice.src.bufferList with
    | nil =>
      rw [hq] at h
      simp only [Option.some.injEq] at h
      subst h
      exact ⟨[], by simp, by simpa using hinv, by simp [framesOf], hd, by simp [hq]⟩
    | cons buffer next =>
      rw [hq] at h
      simp only [] at h
      by_cases hlt : decoded < toDecode
      · rw [if_pos hlt] at h
        have hdec : sub32 toDecode decoded = toDecode - decoded := by
          simp only [sub32, wrap32]; omega
        have hle : endReadOf voice buffer toDecode decoded ≤ toDecode - decoded := by
          unfold endReadOf; rw [FAudio_min_eq, hdec]; exact Nat.min_le_right _ _
        have hdd : (DecodeBuffers_body K voice audio buffer next toDecode decoded).2.2 =
            decoded + endReadOf voice buffer toDecode decoded := by
          rw [DecodeBuffers_body_decoded]; simp only [wrap32]; omega
        obtain ⟨ev1, h1, h2, h3, h4, h5⟩ := ih _ _ _ r (ev ++ bodyEvents K voice buffer toDecode
          decoded) (by rw [hdd]; omega)
          (DecodeBuffers_body_headInv K b0 tail off0 hwf hC voice audio buffer next toDecode
            decoded hq hlt hT ev hinv) h
        refine ⟨bodyEvents K voice buffer toDecode decoded ++ ev1, ?_, ?_, ?_, h4, h5⟩
        · rw [h1, DecodeBuffers_body_log, List.append_assoc]
        · rw [← List.append_assoc]; exact h2
        · rw [framesOf_append, framesOf_bodyEvents, List.length_append, List.length_range']
          rw [hdd] at h3
          omega
      · rw [if_neg hlt] at h
        simp only [Option.some.injEq] at h
        subst h
        exact ⟨[], by simp, by simpa using hinv, by simp [framesOf], hd,
          fun _ => by simp only []; omega⟩

theorem HeadInv_padding (K : Env) (b0 : FAudioBuffer) (tail : List FAudioBuffer)
    (off0 : Nat) (voice : FAudioSourceVoice) (audio : FAudio) (decoded : Nat)
    (ev : List Event) (hinv : HeadInv b0 tail off0 voice ev) :
    ∃ ev1, (DecodeBuffers_padding K voice audio decoded).log = audio.log ++ ev1 ∧
      HeadInv b0 tail off0 voice (ev ++ ev1) ∧ framesOf ev1 = [] := by
  unfold DecodeBuffers_padding
  cases hq : voice.src.bufferList with
  | nil => exact ⟨[], by simp, by simpa using hinv, rfl⟩
  | cons buffer next =>
    simp only []
    refine ⟨[Event.decode buffer.pContext voice.src.curBufferOffset
      (FAudio_min (sub32 (bufferEnd buffer) voice.src.curBufferOffset)
        K.EXTRA_DECODE_PADDING) true], rfl, ?_, by simp [framesOf]⟩
    rcases hinv with ⟨LC, hal, hnf, hfr, hcl, hcb0⟩ | ⟨ev0, rest, hev, hnf, hfr, hcl, hcbe, htail⟩
    · left
      refine ⟨LC, hal, ?_, ?_, ?_, ?_⟩
      · intro e he
        rw [List.mem_append] at he
        rcases he with he | he
        · exact hnf e he
        · simp only [List.mem_singleton] at he; subst he; rfl
      · rw [framesOf_append]; simpa [framesOf] using hfr
      · intro h
        have := hcl h
        rw [List.count_append]
        simpa [List.count_cons] using this
      · rw [List.count_append, hcb0]
        simp [List.count_cons]
    · right
      refine ⟨ev0, rest ++ [Event.decode buffer.pContext voice.src.curBufferOffset
        (FAudio_min (sub32 (bufferEnd buffer) voice.src.curBufferOffset)
          K.EXTRA_DECODE_PADDING) true], by rw [hev]; simp, hnf, hfr, hcl, hcbe, ?_⟩
      intro ht
      have := (htail ht).2
      rw [hq] at this
      exact absurd this (by simp)

theorem DecodeBuffers_headInv (K : Env) (b0 : FAudioBuffer) (tail : List FAudioBuffer)
    (off0 : Nat) (hwf : WellFormed b0) (hC : b0.LoopCount < K.FAUDIO_LOOP_INFINITE)
    (toDecode : Nat) (hT : toDecode < 2 ^ 32) (fuel : Nat) (voice : FAudioSourceVoice)
    (audio : FAudio) (r : FAudioSourceVoice × FAudio × Nat) (ev : List Event)
    (hinv : HeadInv b0 tail off0 voice ev)
    (h : FAudio_INTERNAL_DecodeBuffers K fuel voice audio toDecode = some r) :
    ∃ ev1, r.2.1.log = audio.log ++ ev1 ∧ HeadInv b0 tail off0 r.1 (ev ++ ev1) ∧
      (framesOf ev1).length = r.2.2 ∧ r.2.2 ≤ toDecode ∧
      (r.1.src.bufferList ≠ [] → r.2.2 = toDecode) := by
  unfold FAudio_INTERNAL_DecodeBuffers at h
  cases hl : DecodeBuffers_loop K toDecode fuel voice audio 0 with
  | none => simp [hl] at h
  | some r1 =>
    simp only [hl, Option.map_some', Option.some.injEq] at h
    subst h
    obtain ⟨ev1, h1, h2, h3, h4, h5⟩ := DecodeBuffers_loop_headInv K b0 tail off0 hwf hC toDecode
      hT fuel voice audio 0 r1 ev (Nat.zero_le _) hinv hl
    obtain ⟨ev2, h6, h7, h8⟩ := HeadInv_padding K b0 tail off0 r1.1 r1.2.1 r1.2.2 (ev ++ ev1) h2
    refine ⟨ev1 ++ ev2, ?_, ?_, ?_, h4, h5⟩
    · simp only []; rw [h6, h1, List.append_assoc]
    · simp only []; rw [← List.append_assoc]; exact h7
    · rw [framesOf_append, h8, List.append_nil]; simpa using h3

theorem DecodeBuffers_terminates (K : Env) (toDecode : Nat) (hT : toDecode < 2 ^ 32)
    (fuel : Nat) (voice : FAudioSourceVoice) (audio : FAudio)
    (hp : ∀ b ∈ voice.src.bufferList, Playable K b)
    (hf : 2 * toDecode + 2 * queueWeight K voice.src.bufferList + 1 < fuel) :
    ∃ r, FAudio_INTERNAL_DecodeBuffers K fuel voice audio toDecode = some r ∧
      (∀ b ∈ r.1.src.bufferList, Playable K b) ∧
      queueWeight K r.1.src.bufferList ≤ queueWeight K voice.src.bufferList := by
  have hm : loopMeasure K voice toDecode 0 < fuel := by
    unfold loopMeasure
    have := stallFlag_le_one voice
    omega
  obtain ⟨r, hr, h1, _, _, h4⟩ := DecodeBuffers_loop_terminates K toDecode hT fuel voice audio 0
    hp (Nat.zero_le _) hm
  refine ⟨(r.1, DecodeBuffers_padding K r.1 r.2.1 r.2.2, r.2.2), ?_, h1, h4⟩
  unfold FAudio_INTERNAL_DecodeBuffers
  rw [hr]
  rfl

theorem DecodeBuffers_nil (K : Env) (fuel : Nat) (voice : FAudioSourceVoice) (audio : FAudio)
    (toDecode : Nat) (r : FAudioSourceVoice × FAudio × Nat)
    (hq : voice.src.bufferList = [])
    (h : FAudio_INTERNAL_DecodeBuffers K fuel voice audio toDecode = some r) :
    r.1 = voice ∧ r.2.1.log = audio.log := by
  unfold FAudio_INTERNAL_DecodeBuffers at h
  cases fuel with
  | zero => simp [DecodeBuffers_loop] at h
  | succ n =>
    unfold DecodeBuffers_loop at h
    rw [hq] at h
    simp only [Option.map_some', Option.some.injEq] at h
    subst h
    refine ⟨rfl, ?_⟩
    simp only [DecodeBuffers_padding, hq]

theorem DecodeBuffers_run_nil (K : Env) (fuel : Nat) :
    ∀ (reqs : List Nat) (voice : FAudioSourceVoice) (audio : FAudio)
      (r : FAudioSourceVoice × FAudio),
      voice.src.bufferList = [] → DecodeBuffers_run K fuel reqs voice audio = some r →
      r.1 = voice ∧ r.2.log = audio.log := by
  intro reqs
  induction reqs with
  | nil =>
    intro voice audio r _ h
    simp only [DecodeBuffers_run, Option.some.injEq] at h
    subst h
    exact ⟨rfl, rfl⟩
  | cons n rest ih =>
    intro voice audio r hq h
    unfold DecodeBuffers_run at h
    cases hd : FAudio_INTERNAL_DecodeBuffers K fuel voice audio n with
    | none => simp [hd] at h
    | some r1 =>
      rw [hd] at h
      simp only [] at h
      obtain ⟨h1, h2⟩ := DecodeBuffers_nil K fuel voice audio n r1 hq hd
      obtain ⟨h3, h4⟩ := ih r1.1 r1.2.1 r (by rw [h1]; exact hq) h
      exact ⟨h3.trans h1, h4.trans h2⟩

/-- Successive requests on a queue whose head is the well-formed buffer `b0`
with a finite loop count: with enough fuel every call returns, and the account
of `b0` holds afterwards. -/
theorem DecodeBuffers_run_headInv (K : Env) (b0 : FAudioBuffer) (tail : List FAudioBuffer)
    (off0 : Nat) (hwf : WellFormed b0) (hC : b0.LoopCount < K.FAUDIO_LOOP_INFINITE)
    (fuel : Nat) :
    ∀ (reqs : List Nat) (voice : FAudioSourceVoice) (audio : FAudio) (ev : List Event),
      HeadInv b0 tail off0 voice ev →
      (∀ b ∈ voice.src.bufferList, Playable K b) →
      (∀ n ∈ reqs, n < 2 ^ 32 ∧ 2 * n + 2 * queueWeight K voice.src.bufferList + 1 < fuel) →
      ∃ v1 a1 ev1, DecodeBuffers_run K fuel reqs voice audio = some (v1, a1) ∧
        a1.log = audio.log ++ ev1 ∧ HeadInv b0 tail off0 v1 (ev ++ ev1) ∧
        (framesOf ev1).length ≤ reqs.sum ∧
        (v1.src.bufferList ≠ [] → (framesOf ev1).length = reqs.sum) := by
  intro reqs
  induction reqs with
  | nil =>
    intro voice audio ev hinv _ _
    exact ⟨voice, audio, [], rfl, by simp, by simpa using hinv, by simp [framesOf],
      fun _ => by simp [framesOf]⟩
  | cons n rest ih =>
    intro voice audio ev hinv hp hreq
    obtain ⟨hn32, hnf⟩ := hreq n (by simp)
    obtain ⟨r, hr, hp1, hw1⟩ := DecodeBuffers_terminates K n hn32 fuel voice audio hp hnf
    obtain ⟨ev1, h1, h2, h3, h4, h5⟩ := DecodeBuffers_headInv K b0 tail off0 hwf hC n hn32 fuel
      voice audio r ev hinv hr
    obtain ⟨v1, a1, ev2, h6, h7, h8, h9, h10⟩ := ih r.1 r.2.1 (ev ++ ev1) h2 hp1
      (fun m hm => by
        obtain ⟨hm1, hm2⟩ := hreq m (by simp [hm])
        exact ⟨hm1, by omega⟩)
    refine ⟨v1, a1, ev1 ++ ev2, ?_, ?_, ?_, ?_, ?_⟩
    · unfold DecodeBuffers_run
      rw [hr]
      exact h6
    · rw [h7, h1, List.append_assoc]
    · rw [← List.append_assoc]; exact h8
    · rw [framesOf_append, List.length_append, List.sum_cons]; omega
    · intro hne
      rw [framesOf_append, List.length_append, List.sum_cons, h10 hne, h3]
      have : r.1.src.bufferList ≠ [] := by
        intro hnil
        have := (DecodeBuffers_run_nil K fuel rest r.1 r.2.1 (v1, a1) hnil h6).1
        simp only [] at this
        rw [this] at hne
        exact hne hnil
      rw [h5 this]

theorem HeadInv_init (b : FAudioBuffer) (tail : List FAudioBuffer) (voice : FAudioSourceVoice)
    (hwf : WellFormed b) (hq : voice.src.bufferList = b :: tail)
    (hoff : voice.src.curBufferOffset = b.PlayBegin) :
    HeadInv b tail b.PlayBegin voice [] := by
  left
  refine ⟨b.LoopCount, ⟨hq, Nat.le_refl _, by omega, ?_⟩, by simp, ?_, by simp, by simp⟩
  · have := hwf.begin_le
    have := hwf.end_le
    rw [hoff]
    split_ifs <;> omega
  · rw [hoff]; simp [framesOf]

theorem Playable_of_wellFormed (K : Env) (b : FAudioBuffer) (hwf : WellFormed b)
    (hC : b.LoopCount < K.FAUDIO_LOOP_INFINITE) : Playable K b := by
  have := hwf.begin_le
  have := hwf.end_le
  have := hwf.end_lt
  constructor
  · omega
  · omega
  · omega
  · exact hwf.count_lt
  · intro h; omega

theorem loopSeq_length (b : FAudioBuffer) (hC0 : 0 < b.LoopCount) :
    (loopSeq b b.LoopCount b.PlayBegin).length =
      (b.LoopBegin + b.LoopLength - b.PlayBegin) + (b.LoopCount - 1) * b.LoopLength +
        (b.PlayBegin + b.PlayLength - b.LoopBegin) := by
  unfold loopSeq
  rw [if_neg (show ¬ b.LoopCount = 0 by omega)]
  simp [List.length_flatten]
  omega

/-- C6. A head buffer with `LoopBegin = 0`, loop length `L > 0`, a finite loop
count `C > 0` and its loop region inside its play region, played from
`PlayBegin`: whatever the sequence of requests, every call of
`FAudio_INTERNAL_DecodeBuffers` returns, and either the buffer is still the head
of the queue and the frames decoded from it are as many as were requested, at
most `PlayLength + C * L`, or the buffer has been freed and exactly
`PlayLength + C * L` frames were decoded before that. -/
theorem c6_finite_loop_length (K : Env) (b : FAudioBuffer) (tail : List FAudioBuffer)
    (voice : FAudioSourceVoice) (audio : FAudio) (reqs : List Nat) (fuel : Nat)
    (hLB : b.LoopBegin = 0) (hL : 0 < b.LoopLength) (hC0 : 0 < b.LoopCount)
    (hC : b.LoopCount < K.FAUDIO_LOOP_INFINITE) (hwf : WellFormed b)
    (hq : voice.src.bufferList = b :: tail) (hoff : voice.src.curBufferOffset = b.PlayBegin)
    (htail : ∀ t ∈ tail, Playable K t)
    (hreq : ∀ n ∈ reqs, n < 2 ^ 32 ∧ 2 * n + 2 * queueWeight K (b :: tail) + 1 < fuel) :
    ∃ v1 a1 ev, DecodeBuffers_run K fuel reqs voice audio = some (v1, a1) ∧
      a1.log = audio.log ++ ev ∧
      (((∀ e ∈ ev, isFree e = false) ∧
          (∃ LC, v1.src.bufferList = { b with LoopCount := LC } :: tail) ∧
          (framesOf ev).length = reqs.sum ∧
          reqs.sum ≤ b.PlayLength + b.LoopCount * b.LoopLength) ∨
        (∃ ev0 rest, ev = ev0 ++ Event.free b.pContext :: rest ∧
          (∀ e ∈ ev0, isFree e = false) ∧
          (framesOf ev0).length = b.PlayLength + b.LoopCount * b.LoopLength)) := by
  have hlen : (loopSeq b b.LoopCount b.PlayBegin).length =
      b.PlayLength + b.LoopCount * b.LoopLength := by
    rw [loopSeq_length b hC0]
    have := hwf.begin_le
    obtain ⟨m, hm⟩ : ∃ m, b.LoopCount = m + 1 := ⟨b.LoopCount - 1, by omega⟩
    rw [hm, Nat.succ_mul]
    simp only [Nat.add_sub_cancel]
    omega
  obtain ⟨v1, a1, ev, h1, h2, h3, h4, h5⟩ := DecodeBuffers_run_headInv K b tail b.PlayBegin hwf
    hC fuel reqs voice audio [] (HeadInv_init b tail voice hwf hq hoff)
    (by
      intro t ht
      rw [hq] at ht
      rcases List.mem_cons.mp ht with rfl | ht
      · exact Playable_of_wellFormed K t hwf hC
      · exact htail t ht)
    (by rw [hq]; exact hreq)
  refine ⟨v1, a1, ev, h1, h2, ?_⟩
  simp only [List.nil_append] at h3
  rcases h3 with ⟨LC, hal, hnf, hfr, _, _⟩ | ⟨ev0, rest, hev, hnf, hfr, _, _, _⟩
  · left
    have hne : v1.src.bufferList ≠ [] := by rw [hal.1]; simp
    have := congrArg List.length hfr
    rw [List.length_append, hlen] at this
    refine ⟨hnf, ⟨LC, hal.1⟩, h5 hne, ?_⟩
    rw [← h5 hne]; omega
  · right
    exact ⟨ev0, rest, hev, hnf, by rw [hfr, hlen]⟩


theorem DecodeBuffers_run_same (K : Env) (fuel : Nat) :
    ∀ (reqs : List Nat) (voice : FAudioSourceVoice) (audio : FAudio)
      (r : FAudioSourceVoice × FAudio),
      DecodeBuffers_run K fuel reqs voice audio = some r →
      SameVoice voice r.1 ∧ SameEngine audio r.2 := by
  intro reqs
  induction reqs with
  | nil =>
    intro voice audio r h
    simp only [DecodeBuffers_run, Option.some.injEq] at h
    subst h
    exact ⟨SameVoice.reflV _, SameEngine.reflE _⟩
  | cons n rest ih =>
    intro voice audio r h
    unfold DecodeBuffers_run at h
    cases hd : FAudio_INTERNAL_DecodeBuffers K fuel voice audio n with
    | none => simp [hd] at h
    | some r1 =>
      rw [hd] at h
      simp only [] at h
      obtain ⟨h1, h2⟩ := DecodeBuffers_same K fuel voice audio n r1 hd
      obtain ⟨h3, h4⟩ := ih r1.1 r1.2.1 r h
      exact ⟨h1.transV h3, h2.transE h4⟩

/-- C8. A single queued buffer with `PlayBegin = 0`, `PlayLength = 100`,
`LoopBegin = 50`, `LoopLength = 50`, `LoopCount = 2`: whatever the sequence of
requests, every call of `FAudio_INTERNAL_DecodeBuffers` returns and the frames
decoded so far are a prefix of `0..99, 50..99, 50..99`; once more than 200
frames have been requested the queue is empty, the buffer has been freed, the
frames decoded are exactly `0..99, 50..99, 50..99`, `OnLoopEnd` has fired twice
and `OnBufferEnd` once. -/
theorem c8_looped_buffer (K : Env) (b : FAudioBuffer) (voice : FAudioSourceVoice)
    (audio : FAudio) (cb : FAudioVoiceCallback) (reqs : List Nat) (fuel : Nat)
    (hPB : b.PlayBegin = 0) (hPL : b.PlayLength = 100) (hLB : b.LoopBegin = 50)
    (hLL : b.LoopLength = 50) (hLC : b.LoopCount = 2) (hINF : 2 < K.FAUDIO_LOOP_INFINITE)
    (hq : voice.src.bufferList = [b]) (hoff : voice.src.curBufferOffset = 0)
    (hcb : voice.src.callback = some cb) (hcb1 : cb.OnLoopEnd = true)
    (hcb2 : cb.OnBufferEnd = true)
    (hreq : ∀ n ∈ reqs, n < 2 ^ 32 ∧ 2 * n + 7 < fuel) :
    ∃ v1 a1 ev, DecodeBuffers_run K fuel reqs voice audio = some (v1, a1) ∧
      a1.log = audio.log ++ ev ∧
      framesOf ev <+: List.range' 0 100 ++ List.range' 50 50 ++ List.range' 50 50 ∧
      (200 < reqs.sum →
        v1.src.bufferList = [] ∧
        Event.free b.pContext ∈ ev ∧
        framesOf ev = List.range' 0 100 ++ List.range' 50 50 ++ List.range' 50 50 ∧
        List.count (Event.OnLoopEnd b.pContext) ev = 2 ∧
        List.count (Event.OnBufferEnd b.pContext) ev = 1) := by
  have hwf : WellFormed b := by
    constructor <;> omega
  have hC : b.LoopCount < K.FAUDIO_LOOP_INFINITE := by omega
  have hseq : loopSeq b b.LoopCount b.PlayBegin =
      List.range' 0 100 ++ List.range' 50 50 ++ List.range' 50 50 := by
    unfold loopSeq
    rw [hPB, hPL, hLB, hLL, hLC]
    simp
  have hW : queueWeight K [b] = 3 := by
    simp only [queueWeight, hLC, if_pos hINF]
  obtain ⟨v1, a1, ev, h1, h2, h3, h4, h5⟩ := DecodeBuffers_run_headInv K b [] b.PlayBegin hwf
    hC fuel reqs voice audio [] (HeadInv_init b [] voice hwf hq (by rw [hoff, hPB]))
    (by
      intro t ht
      rw [hq] at ht
      rcases List.mem_cons.mp ht with rfl | ht
      · exact Playable_of_wellFormed K t hwf hC
      · simp at ht)
    (by
      rw [hq, hW]
      intro n hn
      obtain ⟨h, h'⟩ := hreq n hn
      exact ⟨h, by omega⟩)
  refine ⟨v1, a1, ev, h1, h2, ?_⟩
  simp only [List.nil_append] at h3
  have hL : ∀ v : FAudioSourceVoice, v.src.callback = some cb →
      hasCallback v (fun cb => cb.OnLoopEnd) = true ∧
      hasCallback v (fun cb => cb.OnBufferEnd) = true := by
    intro v hv
    unfold hasCallback
    rw [hv]
    exact ⟨hcb1, hcb2⟩
  unfold HeadInv at h3
  rw [hseq] at h3
  rcases h3 with ⟨LC, hal, hnf, hfr, _, _⟩ | ⟨ev0, rest, hev, hnf, hfr, hcl, hcbe, htail⟩
  · have hne : v1.src.bufferList ≠ [] := by rw [hal.1]; simp
    have hlen := congrArg List.length hfr
    rw [List.length_append] at hlen
    simp only [List.length_append, List.length_range'] at hlen
    refine ⟨⟨_, hfr⟩, ?_⟩
    intro h
    have := h5 hne
    omega
  · obtain ⟨hrest, hnil⟩ := htail rfl
    subst hrest
    have hfe : framesOf ev = List.range' 0 100 ++ List.range' 50 50 ++ List.range' 50 50 := by
      rw [hev, framesOf_append, hfr]; simp [framesOf]
    refine ⟨by rw [hfe], ?_⟩
    intro _
    have hv1 : v1.src.callback = some cb := by
      rw [(DecodeBuffers_run_same K fuel reqs voice audio (v1, a1) h1).1.callback, hcb]
    refine ⟨hnil, by rw [hev]; simp, hfe, ?_, ?_⟩
    · rw [hev, List.count_append, hcl (hL v1 hv1).1, hLC]
      simp [List.count_cons]
    · rw [hev, List.count_append, hcbe (hL v1 hv1).2]
      simp [List.count_cons]


/-! ## A head buffer that loops forever -/

theorem bodyEvents_infinite (K : Env) (voice : FAudioSourceVoice) (buffer : FAudioBuffer)
    (toDecode decoded : Nat) (hinf : K.FAUDIO_LOOP_INFINITE ≤ buffer.LoopCount)
    (hpos : 0 < K.FAUDIO_LOOP_INFINITE) :
    ∀ e ∈ bodyEvents K voice buffer toDecode decoded,
      isFree e = false ∧ ∀ c, e ≠ Event.OnBufferEnd c := by
  have hlc : buffer.LoopCount > 0 := by omega
  unfold bodyEvents
  rw [if_pos hlc]
  split_ifs <;> simp_all [isFree, or_imp, forall_and]

theorem DecodeBuffers_body_infinite (K : Env) (voice : FAudioSourceVoice) (audio : FAudio)
    (buffer : FAudioBuffer) (next : List FAudioBuffer) (toDecode decoded : Nat)
    (hq : voice.src.bufferList = buffer :: next)
    (hinf : K.FAUDIO_LOOP_INFINITE ≤ buffer.LoopCount) (hpos : 0 < K.FAUDIO_LOOP_INFINITE)
    (hLL : 0 < buffer.LoopLength)
    (hLL32 : buffer.LoopLength < 2 ^ 32)
    (hd : decoded < toDecode) (hT : toDecode < 2 ^ 32) :
    (DecodeBuffers_body K voice audio buffer next toDecode decoded).1.src.bufferList =
      buffer :: next ∧
    (DecodeBuffers_body K voice audio buffer next toDecode decoded).2.2 ≤ toDecode ∧
    2 * (toDecode - (DecodeBuffers_body K voice audio buffer next toDecode decoded).2.2) +
        stallFlag (DecodeBuffers_body K voice audio buffer next toDecode decoded).1 <
      2 * (toDecode - decoded) + stallFlag voice := by
  have hlc : buffer.LoopCount > 0 := by omega
  have hdec : sub32 toDecode decoded = toDecode - decoded := by
    simp only [sub32, wrap32]; omega
  have hle : endReadOf voice buffer toDecode decoded ≤ toDecode - decoded := by
    unfold endReadOf; rw [FAudio_min_eq, hdec]; exact Nat.min_le_right _ _
  have hdd : (DecodeBuffers_body K voice audio buffer next toDecode decoded).2.2 =
      decoded + endReadOf voice buffer toDecode decoded := by
    rw [DecodeBuffers_body_decoded]; simp only [wrap32]; omega
  have hqq : (DecodeBuffers_body K voice audio buffer next toDecode decoded).1.src.bufferList =
      buffer :: next := by
    rw [DecodeBuffers_body_queue]
    simp only [bodyQueue, if_pos hlc,
      if_neg (show ¬ buffer.LoopCount < K.FAUDIO_LOOP_INFINITE by omega), hq, ite_self]
  refine ⟨hqq, by omega, ?_⟩
  have hf := stallFlag_le_one (DecodeBuffers_body K voice audio buffer next toDecode decoded).1
  have hF : stallFlag voice = if avail voice buffer = 0 then 1 else 0 := by
    unfold stallFlag; rw [hq]
  rw [hdd]
  by_cases hlt : endReadOf voice buffer toDecode decoded < toDecode - decoded
  · have hav : endReadOf voice buffer toDecode decoded = avail voice buffer := by
      unfold endReadOf at hlt ⊢; rw [FAudio_min_eq, hdec] at hlt ⊢; omega
    have hoff : (DecodeBuffers_body K voice audio buffer next toDecode
        decoded).1.src.curBufferOffset = buffer.LoopBegin := by
      rw [DecodeBuffers_body_offset]; unfold bodyOffset
      rw [hdec, if_pos hlt, if_pos hlc]
    have hF1 : stallFlag (DecodeBuffers_body K voice audio buffer next toDecode decoded).1
        = 0 := by
      unfold stallFlag
      rw [hqq]
      simp only []
      unfold avail bufferEnd
      rw [hoff, if_pos hlc, if_neg]
      simp only [sub32, wrap32]; omega
    rw [hF1, hF]
    by_cases ha0 : avail voice buffer = 0
    · rw [if_pos ha0]; omega
    · rw [if_neg ha0]; omega
  · omega

theorem DecodeBuffers_loop_infinite (K : Env) (buffer : FAudioBuffer)
    (next : List FAudioBuffer) (toDecode : Nat)
    (hinf : K.FAUDIO_LOOP_INFINITE ≤ buffer.LoopCount) (hpos : 0 < K.FAUDIO_LOOP_INFINITE)
    (hLL : 0 < buffer.LoopLength)
    (hLL32 : buffer.LoopLength < 2 ^ 32) (hT : toDecode < 2 ^ 32) :
    ∀ (fuel : Nat) (voice : FAudioSourceVoice) (audio : FAudio) (decoded : Nat),
      voice.src.bufferList = buffer :: next → decoded ≤ toDecode →
      2 * (toDecode - decoded) + stallFlag voice < fuel →
      ∃ r ev, DecodeBuffers_loop K toDecode fuel voice audio decoded = some r ∧
        r.1.src.bufferList = buffer :: next ∧ r.2.1.log = audio.log ++ ev ∧
        ∀ e ∈ ev, isFree e = false ∧ ∀ c, e ≠ Event.OnBufferEnd c := by
  intro fuel
  induction fuel with
  | zero => intro voice audio decoded _ _ h; omega
  | succ n ih =>
    intro voice audio decoded hq hd hm
    unfold DecodeBuffers_loop
    rw [hq]
    simp only []
    by_cases hlt : decoded < toDecode
    · rw [if_pos hlt]
      obtain ⟨h1, h2, h3⟩ := DecodeBuffers_body_infinite K voice audio buffer next toDecode
        decoded hq hinf hpos hLL hLL32 hlt hT
      obtain ⟨r, ev, hr, hr1, hr2, hr3⟩ := ih _ (DecodeBuffers_body K voice audio buffer next
        toDecode decoded).2.1 _ h1 h2 (by omega)
      refine ⟨r, bodyEvents K voice buffer toDecode decoded ++ ev, hr, hr1, ?_, ?_⟩
      · rw [hr2, DecodeBuffers_body_log, List.append_assoc]
      · intro e he
        rw [List.mem_append] at he
        rcases he with he | he
        · exact bodyEvents_infinite K voice buffer toDecode decoded hinf hpos e he
        · exact hr3 e he
    · rw [if_neg hlt]
      exact ⟨(voice, audio, decoded), [], rfl, hq, by simp, by simp⟩

theorem DecodeBuffers_infinite (K : Env) (buffer : FAudioBuffer)
    (next : List FAudioBuffer) (toDecode : Nat)
    (hinf : K.FAUDIO_LOOP_INFINITE ≤ buffer.LoopCount) (hpos : 0 < K.FAUDIO_LOOP_INFINITE)
    (hLL : 0 < buffer.LoopLength)
    (hLL32 : buffer.LoopLength < 2 ^ 32) (hT : toDecode < 2 ^ 32)
    (fuel : Nat) (voice : FAudioSourceVoice) (audio : FAudio)
    (hq : voice.src.bufferList = buffer :: next) (hf : 2 * toDecode + 1 < fuel) :
    ∃ r ev, FAudio_INTERNAL_DecodeBuffers K fuel voice audio toDecode = some r ∧
      r.1.src.bufferList = buffer :: next ∧ r.2.1.log = audio.log ++ ev ∧
      ∀ e ∈ ev, isFree e = false ∧ ∀ c, e ≠ Event.OnBufferEnd c := by
  have hs := stallFlag_le_one voice
  obtain ⟨r, ev, hr, h1, h2, h3⟩ := DecodeBuffers_loop_infinite K buffer next toDecode hinf hpos
    hLL hLL32 hT fuel voice audio 0 hq (Nat.zero_le _) (by omega)
  refine ⟨(r.1, DecodeBuffers_padding K r.1 r.2.1 r.2.2, r.2.2),
    ev ++ [Event.decode buffer.pContext r.1.src.curBufferOffset
      (FAudio_min (sub32 (bufferEnd buffer) r.1.src.curBufferOffset)
        K.EXTRA_DECODE_PADDING) true], ?_, h1, ?_, ?_⟩
  · unfold FAudio_INTERNAL_DecodeBuffers
    rw [hr]; rfl
  · simp only [DecodeBuffers_padding, h1, h2, List.append_assoc]
  · intro e he
    rw [List.mem_append] at he
    rcases he with he | he
    · exact h3 e he
    · simp only [List.mem_singleton] at he
      subst he
      exact ⟨rfl, fun c h => by cases h⟩

/-- C7. A head buffer whose loop count is `FAUDIO_LOOP_INFINITE` and whose
loop region is not empty: whatever the sequence of requests, every call of
`FAudio_INTERNAL_DecodeBuffers` returns, and afterwards the buffer, with its
loop count unchanged, is still the head of the queue, nothing has been freed
and `OnBufferEnd` has not fired. -/
theorem c7_infinite_loop_never_advances (K : Env) (b : FAudioBuffer)
    (tail : List FAudioBuffer) (voice : FAudioSourceVoice) (audio : FAudio)
    (reqs : List Nat) (fuel : Nat)
    (hLC : b.LoopCount = K.FAUDIO_LOOP_INFINITE) (hpos : 0 < K.FAUDIO_LOOP_INFINITE)
    (hLL : 0 < b.LoopLength) (hLL32 : b.LoopLength < 2 ^ 32)
    (hq : voice.src.bufferList = b :: tail)
    (hreq : ∀ n ∈ reqs, n < 2 ^ 32 ∧ 2 * n + 1 < fuel) :
    ∃ v1 a1 ev, DecodeBuffers_run K fuel reqs voice audio = some (v1, a1) ∧
      v1.src.bufferList = b :: tail ∧
      (∃ b1, v1.src.bufferList.head? = some b1 ∧
        b1.LoopCount = K.FAUDIO_LOOP_INFINITE) ∧
      a1.log = audio.log ++ ev ∧
      ∀ e ∈ ev, isFree e = false ∧ ∀ c, e ≠ Event.OnBufferEnd c := by
  induction reqs generalizing voice audio with
  | nil =>
    refine ⟨voice, audio, [], rfl, hq, ⟨b, ?_, hLC⟩, by simp, by simp⟩
    rw [hq]; rfl
  | cons n rest ih =>
    obtain ⟨hn, hnf⟩ := hreq n (by simp)
    obtain ⟨r, ev, hr, h1, h2, h3⟩ := DecodeBuffers_infinite K b tail n (by omega) hpos hLL
      hLL32 hn fuel voice audio hq hnf
    obtain ⟨v1, a1, ev1, h4, h5, h6, h7, h8⟩ := ih r.1 r.2.1 h1
      (fun m hm => hreq m (by simp [hm]))
    refine ⟨v1, a1, ev ++ ev1, ?_, h5, h6, ?_, ?_⟩
    · unfold DecodeBuffers_run
      rw [hr]
      exact h4
    · rw [h7, h2, List.append_assoc]
    · intro e he
      rw [List.mem_append] at he
      rcases he with he | he
      · exact h3 e he
      · exact h8 e he


/-! ## End of stream -/

theorem DecodeBuffers_body_dec (K : Env) (voice : FAudioSourceVoice) (audio : FAudio)
    (buffer : FAudioBuffer) (next : List FAudioBuffer) (toDecode decoded : Nat) :
    (DecodeBuffers_body K voice audio buffer next toDecode decoded).1.src.curBufferOffsetDec =
      if endReadOf voice buffer toDecode decoded < sub32 toDecode decoded ∧
          ¬ buffer.LoopCount > 0 ∧ buffer.Flags &&& K.FAUDIO_END_OF_STREAM ≠ 0
      then 0 else voice.src.curBufferOffsetDec := by
  by_cases h1 : endReadOf voice buffer toDecode decoded < sub32 toDecode decoded
  · by_cases h2 : buffer.LoopCount > 0
    · rw [if_neg (by intro hh; exact hh.2.1 h2)]
      unfold endReadOf avail at h1
      unfold DecodeBuffers_body
      simp only [if_pos h1, if_pos h2]
    · by_cases h3 : buffer.Flags &&& K.FAUDIO_END_OF_STREAM ≠ 0
      · rw [if_pos ⟨h1, h2, h3⟩]
        unfold endReadOf avail at h1
        unfold DecodeBuffers_body
        simp only [if_pos h1, if_neg h2, if_pos h3]
        cases next <;> rfl
      · rw [if_neg (by intro hh; exact h3 hh.2.2)]
        unfold endReadOf avail at h1
        unfold DecodeBuffers_body
        simp only [if_pos h1, if_neg h2, if_neg h3]
        cases next <;> rfl
  · rw [if_neg (by intro hh; exact h1 hh.1)]
    unfold endReadOf avail at h1
    unfold DecodeBuffers_body
    simp only [if_neg h1]

theorem bodyEvents_noStreamEnd (K : Env) (voice : FAudioSourceVoice) (buffer : FAudioBuffer)
    (toDecode decoded : Nat) (h : buffer.Flags &&& K.FAUDIO_END_OF_STREAM = 0) :
    Event.OnStreamEnd ∉ bodyEvents K voice buffer toDecode decoded := by
  unfold bodyEvents
  split_ifs <;> simp_all

theorem bodyQueue_flags (K : Env) (voice : FAudioSourceVoice) (buffer : FAudioBuffer)
    (next : List FAudioBuffer) (toDecode decoded : Nat)
    (hq : voice.src.bufferList = buffer :: next)
    (h : ∀ b ∈ voice.src.bufferList, b.Flags &&& K.FAUDIO_END_OF_STREAM = 0) :
    ∀ b ∈ bodyQueue K voice buffer next toDecode decoded,
      b.Flags &&& K.FAUDIO_END_OF_STREAM = 0 := by
  rw [hq] at h
  unfold bodyQueue
  split_ifs
  · intro b hb
    rcases List.mem_cons.mp hb with rfl | hb
    · exact h buffer (by simp)
    · exact h b (by simp [hb])
  · exact h
  · intro b hb; exact h b (by simp [hb])
  · rw [hq]; exact h

theorem DecodeBuffers_loop_noFlag (K : Env) (toDecode : Nat) :
    ∀ (fuel : Nat) (voice : FAudioSourceVoice) (audio : FAudio) (decoded : Nat)
      (r : FAudioSourceVoice × FAudio × Nat),
      (∀ b ∈ voice.src.bufferList, b.Flags &&& K.FAUDIO_END_OF_STREAM = 0) →
      DecodeBuffers_loop K toDecode fuel voice audio decoded = some r →
      r.1.src.curBufferOffsetDec = voice.src.curBufferOffsetDec ∧
      ∃ ev, r.2.1.log = audio.log ++ ev ∧ Event.OnStreamEnd ∉ ev := by
  intro fuel
  induction fuel with
  | zero => intro voice audio decoded r _ h; simp [DecodeBuffers_loop] at h
  | succ n ih =>
    intro voice audio decoded r hfl h
    unfold DecodeBuffers_loop at h
    cases hq : voice.src.bufferList with
    | nil =>
      rw [hq] at h
      simp only [Option.some.injEq] at h
      subst h
      exact ⟨rfl, [], by simp, by simp⟩
    | cons buffer next =>
      rw [hq] at h
      simp only [] at h
      by_cases hlt : decoded < toDecode
      · rw [if_pos hlt] at h
        have hb0 : buffer.Flags &&& K.FAUDIO_END_OF_STREAM = 0 := hfl buffer (by rw [hq]; simp)
        obtain ⟨h1, ev, h2, h3⟩ := ih _ _ _ r
          (by rw [DecodeBuffers_body_queue]
              exact bodyQueue_flags K voice buffer next toDecode decoded hq hfl) h
        rw [DecodeBuffers_body_dec, if_neg (by intro hh; exact hh.2.2 hb0)] at h1
        refine ⟨h1, bodyEvents K voice buffer toDecode decoded ++ ev, ?_, ?_⟩
        · rw [h2, DecodeBuffers_body_log, List.append_assoc]
        · rw [List.mem_append]
          intro hh
          rcases hh with hh | hh
          · exact bodyEvents_noStreamEnd K voice buffer toDecode decoded hb0 hh
          · exact h3 hh
      · rw [if_neg hlt] at h
        simp only [Option.some.injEq] at h
        subst h
        exact ⟨rfl, [], by simp, by simp⟩

/-- C9. When a pass of the loop of `FAudio_INTERNAL_DecodeBuffers` finishes a
head buffer with `LoopCount = 0` (`endRead < decoding`): if its flags contain
`FAUDIO_END_OF_STREAM`, `curBufferOffsetDec` becomes 0, the buffer leaves the
queue, and `OnBufferEnd` fires, followed by `OnStreamEnd`, before the buffer is
freed; if they do not, `curBufferOffsetDec` is unchanged, the buffer leaves the
queue, `OnBufferEnd` fires and `OnStreamEnd` does not. A whole call on a queue in
which no buffer carries the flag leaves `curBufferOffsetDec` unchanged and fires
no `OnStreamEnd`. -/
theorem c9_end_of_stream (K : Env) (voice : FAudioSourceVoice) (audio : FAudio)
    (buffer : FAudioBuffer) (next : List FAudioBuffer) (toDecode decoded : Nat)
    (cb : FAudioVoiceCallback)
    (hfin : endReadOf voice buffer toDecode decoded < sub32 toDecode decoded)
    (hLC : buffer.LoopCount = 0)
    (hcb : voice.src.callback = some cb) (hcb1 : cb.OnBufferEnd = true)
    (hcb2 : cb.OnStreamEnd = true) :
    (buffer.Flags &&& K.FAUDIO_END_OF_STREAM ≠ 0 →
      (DecodeBuffers_body K voice audio buffer next toDecode decoded).1.src.curBufferOffsetDec
        = 0 ∧
      (DecodeBuffers_body K voice audio buffer next toDecode decoded).1.src.bufferList = next ∧
      ∃ pre, (DecodeBuffers_body K voice audio buffer next toDecode decoded).2.1.log =
        audio.log ++ pre ++ [Event.OnBufferEnd buffer.pContext, Event.OnStreamEnd,
          Event.free buffer.pContext]) ∧
    (buffer.Flags &&& K.FAUDIO_END_OF_STREAM = 0 →
      (DecodeBuffers_body K voice audio buffer next toDecode decoded).1.src.curBufferOffsetDec
        = voice.src.curBufferOffsetDec ∧
      (DecodeBuffers_body K voice audio buffer next toDecode decoded).1.src.bufferList = next ∧
      (∃ pre, (DecodeBuffers_body K voice audio buffer next toDecode decoded).2.1.log =
        audio.log ++ pre ++ [Event.OnBufferEnd buffer.pContext, Event.free buffer.pContext]) ∧
      Event.OnStreamEnd ∉ bodyEvents K voice buffer toDecode decoded) ∧
    (∀ (fuel : Nat) (r : FAudioSourceVoice × FAudio × Nat),
      (∀ b ∈ voice.src.bufferList, b.Flags &&& K.FAUDIO_END_OF_STREAM = 0) →
      FAudio_INTERNAL_DecodeBuffers K fuel voice audio toDecode = some r →
      r.1.src.curBufferOffsetDec = voice.src.curBufferOffsetDec ∧
      ∃ ev, r.2.1.log = audio.log ++ ev ∧ Event.OnStreamEnd ∉ ev) := by
  have hlc : ¬ buffer.LoopCount > 0 := by omega
  have hB : hasCallback voice (fun cb => cb.OnBufferEnd) = true := by
    unfold hasCallback; rw [hcb]; exact hcb1
  have hS : hasCallback voice (fun cb => cb.OnStreamEnd) = true := by
    unfold hasCallback; rw [hcb]; exact hcb2
  have hqn : (DecodeBuffers_body K voice audio buffer next toDecode decoded).1.src.bufferList
      = next := by
    rw [DecodeBuffers_body_queue]
    unfold bodyQueue
    rw [if_pos hfin, if_neg hlc]
  refine ⟨?_, ?_, ?_⟩
  · intro hflag
    refine ⟨?_, hqn, ?_⟩
    · rw [DecodeBuffers_body_dec, if_pos ⟨hfin, hlc, hflag⟩]
    · refine ⟨(if voice.src.curBufferOffset = buffer.PlayBegin ∧
          hasCallback voice (fun cb => cb.OnBufferStart) = true then
          [Event.OnBufferStart buffer.pContext] else []) ++
        [Event.decode buffer.pContext voice.src.curBufferOffset
          (endReadOf voice buffer toDecode decoded) false], ?_⟩
      rw [DecodeBuffers_body_log]
      unfold bodyEvents
      rw [if_pos hfin, if_neg hlc, if_pos hB,
        if_pos (show buffer.Flags &&& K.FAUDIO_END_OF_STREAM ≠ 0 ∧
          hasCallback voice (fun cb => cb.OnStreamEnd) = true from ⟨hflag, hS⟩)]
      simp only [List.append_assoc, List.singleton_append, List.cons_append, List.nil_append]
  · intro hflag
    refine ⟨?_, hqn, ?_, bodyEvents_noStreamEnd K voice buffer toDecode decoded hflag⟩
    · rw [DecodeBuffers_body_dec, if_neg (by intro hh; exact hh.2.2 hflag)]
    · refine ⟨(if voice.src.curBufferOffset = buffer.PlayBegin ∧
          hasCallback voice (fun cb => cb.OnBufferStart) = true then
          [Event.OnBufferStart buffer.pContext] else []) ++
        [Event.decode buffer.pContext voice.src.curBufferOffset
          (endReadOf voice buffer toDecode decoded) false], ?_⟩
      rw [DecodeBuffers_body_log]
      unfold bodyEvents
      rw [if_pos hfin, if_neg hlc, if_pos hB,
        if_neg (show ¬ (buffer.Flags &&& K.FAUDIO_END_OF_STREAM ≠ 0 ∧
          hasCallback voice (fun cb => cb.OnStreamEnd) = true) from fun hh => hh.1 hflag)]
      simp only [List.append_assoc, List.singleton_append, List.cons_append, List.nil_append,
        List.append_nil]
  · intro fuel r hfl h
    unfold FAudio_INTERNAL_DecodeBuffers at h
    cases hl : DecodeBuffers_loop K toDecode fuel voice audio 0 with
    | none => simp [hl] at h
    | some r1 =>
      simp only [hl, Option.map_some', Option.some.injEq] at h
      subst h
      obtain ⟨h1, ev, h2, h3⟩ := DecodeBuffers_loop_noFlag K toDecode fuel voice audio 0 r1 hfl hl
      refine ⟨h1, ?_⟩
      simp only []
      unfold DecodeBuffers_padding
      cases hq : r1.1.src.bufferList with
      | nil => exact ⟨ev, h2, h3⟩
      | cons b1 n1 =>
        simp only []
        refine ⟨ev ++ [Event.decode b1.pContext r1.1.src.curBufferOffset
          (FAudio_min (sub32 (bufferEnd b1) r1.1.src.curBufferOffset)
            K.EXTRA_DECODE_PADDING) true], ?_, ?_⟩
        · rw [h2, List.append_assoc]
        · simp [h3]

/-- Witness for C3: two frames of the half-rate example voice. -/
theorem c3_resample_closed_form_witness :
    (FAudio_INTERNAL_ResamplePCM exampleVoice exampleAudio 0 2).1.src.resampleOffset =
        wrap64 (exampleVoice.src.resampleOffset + 2 * exampleVoice.src.resampleStep) ∧
      (FAudio_INTERNAL_ResamplePCM exampleVoice exampleAudio 0 2).2.1.resampleCache (0 + 1) =
        exampleAudio.decodeCache 1 ∧
      (FAudio_INTERNAL_ResamplePCM exampleVoice exampleAudio 0 2).2.1.resampleCache
          (0 + exampleVoice.src.format.nChannels + 1) =
        (exampleAudio.decodeCache 1 +
          exampleAudio.decodeCache (exampleVoice.src.format.nChannels + 1)) / 2 :=
  have h := c3_resample_closed_form exampleVoice exampleAudio 0 2 (by decide) (by decide)
  ⟨h.2.1, (h.2.2.2 rfl rfl 1 (by decide)).1 (by decide),
    (h.2.2.2 rfl rfl 1 (by decide)).2 (by decide)⟩

/-- Witness for C5: two mono blocks of 36 bytes with the predictors 0 and 1,
split at frame 40; the floats are the same with zeroes behind the coefficient
tables. -/
theorem c5_msadpcm_split_witness :
    (∃ x y,
      FAudio_INTERNAL_DecodeMonoMSADPCM exampleOverrun
          FAudio_INTERNAL_Convert_S16_To_F32_Scalar 121
          exampleAdpcmBuffer 0 (40 - 0) exampleAdpcmFormat = some x ∧
      FAudio_INTERNAL_DecodeMonoMSADPCM exampleOverrun
          FAudio_INTERNAL_Convert_S16_To_F32_Scalar 121
          exampleAdpcmBuffer 40 (120 - 40) exampleAdpcmFormat = some y ∧
      FAudio_INTERNAL_DecodeMonoMSADPCM exampleOverrun
          FAudio_INTERNAL_Convert_S16_To_F32_Scalar 121
          exampleAdpcmBuffer 0 (120 - 0) exampleAdpcmFormat = some (x ++ y)) ∧
    FAudio_INTERNAL_DecodeMonoMSADPCM { behind1 := fun _ => 0, behind2 := fun _ => 0 }
        FAudio_INTERNAL_Convert_S16_To_F32_Scalar 121
        exampleAdpcmBuffer 0 (120 - 0) exampleAdpcmFormat =
      FAudio_INTERNAL_DecodeMonoMSADPCM exampleOverrun
        FAudio_INTERNAL_Convert_S16_To_F32_Scalar 121
        exampleAdpcmBuffer 0 (120 - 0) exampleAdpcmFormat :=
  have h := c5_msadpcm_split exampleOverrun (fun s => (s : Sample) * DIVBY32768)
    exampleAdpcmBuffer exampleAdpcmFormat 0 40 120 121 (by decide) (by decide) (by decide)
    (by decide)
  ⟨h.1 (by decide) (by decide),
    h.2.2.1 (by decide) (by decide)
      (fun q => by
        show exampleAdpcmData (q * 36) % 256 < 7
        unfold exampleAdpcmData
        rw [if_pos (by omega)]
        omega) _⟩

/-- Witness for C6: the buffer whose first 50 frames loop twice, drained by
requests of 120 frames. -/
theorem c6_finite_loop_length_witness :
    ∃ v1 a1 ev,
      DecodeBuffers_run exampleEnv 400 [120, 120] (exampleVoiceWith [exampleLoopBuffer])
          exampleAudio = some (v1, a1) ∧
      a1.log = exampleAudio.log ++ ev ∧
      (((∀ e ∈ ev, isFree e = false) ∧
          (∃ LC, v1.src.bufferList = [{ exampleLoopBuffer with LoopCount := LC }]) ∧
          (framesOf ev).length = [120, 120].sum ∧
          [120, 120].sum ≤
            exampleLoopBuffer.PlayLength +
              exampleLoopBuffer.LoopCount * exampleLoopBuffer.LoopLength) ∨
        (∃ ev0 rest, ev = ev0 ++ Event.free exampleLoopBuffer.pContext :: rest ∧
          (∀ e ∈ ev0, isFree e = false) ∧
          (framesOf ev0).length =
            exampleLoopBuffer.PlayLength +
              exampleLoopBuffer.LoopCount * exampleLoopBuffer.LoopLength)) :=
  c6_finite_loop_length exampleEnv exampleLoopBuffer [] (exampleVoiceWith [exampleLoopBuffer])
    exampleAudio [120, 120] 400 rfl (by decide) (by decide) (by decide)
    ⟨by decide, by decide, by decide, by decide⟩ rfl rfl
    (fun _ h => absurd h (List.not_mem_nil _)) (by decide)

/-- Witness for C7: the buffer that loops for ever, after three requests. -/
theorem c7_infinite_loop_never_advances_witness :
    ∃ v1 a1 ev,
      DecodeBuffers_run exampleEnv 1000 [480, 480, 480]
          (exampleVoiceWith [exampleInfiniteBuffer]) exampleAudio = some (v1, a1) ∧
      v1.src.bufferList = [exampleInfiniteBuffer] ∧
      (∃ b1, v1.src.bufferList.head? = some b1 ∧
        b1.LoopCount = exampleEnv.FAUDIO_LOOP_INFINITE) ∧
      a1.log = exampleAudio.log ++ ev ∧
      ∀ e ∈ ev, isFree e = false ∧ ∀ c, e ≠ Event.OnBufferEnd c :=
  c7_infinite_loop_never_advances exampleEnv exampleInfiniteBuffer []
    (exampleVoiceWith [exampleInfiniteBuffer]) exampleAudio [480, 480, 480] 1000
    rfl (by decide) (by decide) (by decide) rfl (by decide)

/-- Witness for C8: the example buffer drained by requests of 100 and 150
frames. -/
theorem c8_looped_buffer_witness :
    ∃ v1 a1 ev,
      DecodeBuffers_run exampleEnv 400 [100, 150] exampleVoice exampleAudio = some (v1, a1) ∧
      a1.log = exampleAudio.log ++ ev ∧
      framesOf ev <+: List.range' 0 100 ++ List.range' 50 50 ++ List.range' 50 50 ∧
      (200 < [100, 150].sum →
        v1.src.bufferList = [] ∧ Event.free exampleBuffer.pContext ∈ ev ∧
        framesOf ev = List.range' 0 100 ++ List.range' 50 50 ++ List.range' 50 50 ∧
        List.count (Event.OnLoopEnd exampleBuffer.pContext) ev = 2 ∧
        List.count (Event.OnBufferEnd exampleBuffer.pContext) ev = 1) :=
  c8_looped_buffer exampleEnv exampleBuffer exampleVoice exampleAudio exampleCallback
    [100, 150] 400 rfl rfl rfl rfl rfl (by decide) rfl rfl rfl rfl rfl (by decide)

/-- Witness for C9: the last buffer of a stream, 100 frames long, finished by a
request of 200 frames. -/
theorem c9_end_of_stream_witness :
    (DecodeBuffers_body exampleEnv (exampleVoiceWith [exampleLastBuffer]) exampleAudio
        exampleLastBuffer [] 200 0).1.src.curBufferOffsetDec = 0 ∧
      (DecodeBuffers_body exampleEnv (exampleVoiceWith [exampleLastBuffer]) exampleAudio
        exampleLastBuffer [] 200 0).1.src.bufferList = [] ∧
      ∃ pre, (DecodeBuffers_body exampleEnv (exampleVoiceWith [exampleLastBuffer]) exampleAudio
          exampleLastBuffer [] 200 0).2.1.log =
        exampleAudio.log ++ pre ++ [Event.OnBufferEnd exampleLastBuffer.pContext,
          Event.OnStreamEnd, Event.free exampleLastBuffer.pContext] :=
  (c9_end_of_stream exampleEnv (exampleVoiceWith [exampleLastBuffer]) exampleAudio
    exampleLastBuffer [] 200 0 exampleCallback (by decide) rfl rfl rfl rfl).1 (by decide)

/-! ## The sample converters -/

theorem Convert_U8_getD (src : List Nat) (k : Nat) (h : k < src.length) :
    (FAudio_INTERNAL_Convert_U8_To_F32_Scalar src).getD k 0 = (src.getD k 0 : ℚ) / 128 - 1 := by
  unfold FAudio_INTERNAL_Convert_U8_To_F32_Scalar DIVBY128
  simp only [List.getD_eq_getElem?_getD, List.getElem?_map, List.getElem?_eq_getElem h,
    Option.map_some', Option.getD_some]
  ring

theorem roundHalfAway_natCast (n : Nat) : roundHalfAway (n : ℚ) = (n : Int) := by
  unfold roundHalfAway
  rw [if_pos (by positivity)]
  have h : ((n : ℚ) + 1 / 2) = (((n : Int) : ℚ) + 1 / 2) := by push_cast; rfl
  rw [h, Int.floor_int_add]
  norm_num

/-- C18: the scalar converter of 8-bit samples stores one float per input byte,
`dst[k] = src[k] / 128 - 1` exactly; so 128 gives 0, 0 gives -1 and 255 gives
127/128, and rounding `(dst[k] + 1) * 128` half away from zero gives `src[k]`
back. -/
theorem c18_u8_to_f32_exact (src : List Nat) :
    (FAudio_INTERNAL_Convert_U8_To_F32_Scalar src).length = src.length ∧
    (∀ k, k < src.length →
      (FAudio_INTERNAL_Convert_U8_To_F32_Scalar src).getD k 0 = (src.getD k 0 : ℚ) / 128 - 1 ∧
      roundHalfAway (((FAudio_INTERNAL_Convert_U8_To_F32_Scalar src).getD k 0 + 1) * 128) =
        (src.getD k 0 : Int)) ∧
    FAudio_INTERNAL_Convert_U8_To_F32_Scalar [128, 0, 255] = [0, -1, 127 / 128] ∧
    ∀ b, b < 256 →
      ∃ x, FAudio_INTERNAL_Convert_U8_To_F32_Scalar [b] = [x] ∧ -1 ≤ x ∧ x < 1 ∧
        roundHalfAway ((x + 1) * 128) = (b : Int) := by
  refine ⟨by unfold FAudio_INTERNAL_Convert_U8_To_F32_Scalar; exact List.length_map _ _, ?_, ?_, ?_⟩
  · intro k hk
    rw [Convert_U8_getD src k hk]
    refine ⟨rfl, ?_⟩
    have h : (((src.getD k 0 : ℚ) / 128 - 1 + 1) * 128) = ((src.getD k 0 : Nat) : ℚ) := by
      field_simp
    rw [h, roundHalfAway_natCast]
  · unfold FAudio_INTERNAL_Convert_U8_To_F32_Scalar DIVBY128
    norm_num
  · intro b hb
    refine ⟨(b : ℚ) / 128 - 1, ?_, ?_, ?_, ?_⟩
    · unfold FAudio_INTERNAL_Convert_U8_To_F32_Scalar DIVBY128
      simp only [List.map_cons, List.map_nil]
      congr 1
      ring
    · have : (0 : ℚ) ≤ (b : ℚ) / 128 := by positivity
      linarith
    · have h1 : (b : ℚ) < 256 := by exact_mod_cast hb
      have : (b : ℚ) / 128 < 2 := by
        rw [div_lt_iff₀ (by norm_num)]
        linarith
      linarith
    · have h : (((b : ℚ) / 128 - 1 + 1) * 128) = (b : ℚ) := by field_simp
      rw [h, roundHalfAway_natCast]

theorem Convert_S16_getD (src : List Int) (k : Nat) (h : k < src.length) :
    (FAudio_INTERNAL_Convert_S16_To_F32_Scalar src).getD k 0 = (src.getD k 0 : ℚ) / 32768 := by
  unfold FAudio_INTERNAL_Convert_S16_To_F32_Scalar DIVBY32768
  simp only [List.getD_eq_getElem?_getD, List.getElem?_map, List.getElem?_eq_getElem h,
    Option.map_some', Option.getD_some]
  ring

/-- C19: the scalar converter of 16-bit samples stores one float per input
short, `dst[k] = src[k] / 32768` exactly; so -32768 gives -1 and 32767 gives
32767/32768, and `dst[k] * 32768` is `src[k]` again. -/
theorem c19_s16_to_f32_exact (src : List Int) :
    (FAudio_INTERNAL_Convert_S16_To_F32_Scalar src).length = src.length ∧
    (∀ k, k < src.length →
      (FAudio_INTERNAL_Convert_S16_To_F32_Scalar src).getD k 0 = (src.getD k 0 : ℚ) / 32768 ∧
      (FAudio_INTERNAL_Convert_S16_To_F32_Scalar src).getD k 0 * 32768 = (src.getD k 0 : ℚ)) ∧
    FAudio_INTERNAL_Convert_S16_To_F32_Scalar [-32768, 32767] = [-1, 32767 / 32768] ∧
    ∀ s : Int, -32768 ≤ s → s ≤ 32767 →
      ∃ x, FAudio_INTERNAL_Convert_S16_To_F32_Scalar [s] = [x] ∧ -1 ≤ x ∧ x < 1 ∧
        x * 32768 = (s : ℚ) := by
  refine ⟨by unfold FAudio_INTERNAL_Convert_S16_To_F32_Scalar; exact List.length_map _ _, ?_, ?_, ?_⟩
  · intro k hk
    rw [Convert_S16_getD src k hk]
    refine ⟨rfl, ?_⟩
    field_simp
  · unfold FAudio_INTERNAL_Convert_S16_To_F32_Scalar DIVBY32768
    norm_num
  · intro s h1 h2
    have h1q : (-32768 : ℚ) ≤ (s : ℚ) := by exact_mod_cast h1
    have h2q : (s : ℚ) ≤ 32767 := by exact_mod_cast h2
    refine ⟨(s : ℚ) / 32768, ?_, ?_, ?_, ?_⟩
    · unfold FAudio_INTERNAL_Convert_S16_To_F32_Scalar DIVBY32768
      simp only [List.map_cons, List.map_nil]
      congr 1
      ring
    · rw [le_div_iff₀ (by norm_num)]
      linarith
    · rw [div_lt_iff₀ (by norm_num)]
      linarith
    · field_simp

/-! ## The SSE2 converter -/

theorem readU8_lt (src : ByteBuf) (p : Nat) : readU8 src p < 256 := by
  unfold readU8
  omega

theorem writeAt_of_out (buf : FloatBuf) (off : Nat) (vals : List Sample) (k : Nat)
    (h : k < off ∨ off + vals.length ≤ k) : writeAt buf off vals k = buf k := by
  unfold writeAt
  rw [if_neg]; omega

theorem toInt32_small (x : Nat) (h : x < 2 ^ 31) : toInt32 x = (x : Int) := by
  unfold toInt32
  have h1 : x % 2 ^ 32 = x := Nat.mod_eq_of_lt (by omega)
  rw [h1, if_pos h]

theorem low_byte (a b : Nat) (ha : a < 256) :
    ((a + 256 * b) <<< 8 % 65536) >>> 8 = a := by
  rw [Nat.shiftLeft_eq, Nat.shiftRight_eq_div_pow]
  omega

theorem high_byte (a b : Nat) (ha : a < 256) : (a + 256 * b) >>> 8 = b := by
  rw [Nat.shiftRight_eq_div_pow]
  omega

theorem Convert_U8_To_F32_SSE2_block_spec (src : ByteBuf) (p : Nat) (dst : FloatBuf) :
    Convert_U8_To_F32_SSE2_block src p dst = convertedRange src dst p (p + 16) := by
  have hlo : ∀ a b, ((readU8 src a + 256 * readU8 src b) <<< 8 % 65536) >>> 8 = readU8 src a :=
    fun a b => low_byte _ _ (readU8_lt _ _)
  have hhi : ∀ a b, (readU8 src a + 256 * readU8 src b) >>> 8 = readU8 src b :=
    fun a b => high_byte _ _ (readU8_lt _ _)
  have hint : ∀ q, toInt32 (readU8 src q) = (readU8 src q : Int) := by
    intro q
    exact toInt32_small _ (by have := readU8_lt src q; omega)
  funext k
  unfold Convert_U8_To_F32_SSE2_block
  simp only [_mm_load_si128, _mm_slli_epi16, _mm_srli_epi16, _mm_unpacklo_epi16,
    _mm_unpackhi_epi16, _mm_cvtepi32_ps, _mm_mul_ps, _mm_add_ps, _mm_unpacklo_ps,
    _mm_unpackhi_ps, _mm_store_ps, _mm_setzero_si128, _mm_set1_ps, List.range, List.range.loop,
    List.map, List.getD_cons_zero, List.getD_cons_succ, List.replicate, List.zipWith,
    Nat.mul_zero, Nat.mul_one, Nat.add_zero, hlo, hhi, hint]
  by_cases hk : p ≤ k ∧ k < p + 16
  · obtain ⟨d, rfl⟩ : ∃ d, k = p + d := ⟨k - p, by omega⟩
    have hd : d < 16 := by omega
    interval_cases d <;>
      simp [writeAt, convertedRange, convertU8, sub_eq_add_neg, Nat.add_assoc]
  · unfold convertedRange
    rw [if_neg hk, writeAt_of_out, writeAt_of_out, writeAt_of_out, writeAt_of_out] <;>
      simp only [List.length_cons, List.length_nil] <;> omega

theorem convertedRange_update (src : ByteBuf) (dst : FloatBuf) (lo i : Nat) (h : lo ≤ i) :
    convertedRange src (Function.update dst i (convertU8 (readU8 src i))) lo i =
      convertedRange src dst lo (i + 1) := by
  funext k
  unfold convertedRange
  by_cases hk : k = i
  · subst hk
    rw [if_neg (by omega), if_pos (by omega), Function.update_same]
  · rw [Function.update_noteq hk]
    by_cases h1 : lo ≤ k ∧ k < i
    · rw [if_pos h1, if_pos (by omega)]
    · rw [if_neg h1, if_neg (by omega)]

theorem convertedRange_join (src : ByteBuf) (dst : FloatBuf) (lo mid hi : Nat)
    (h1 : lo ≤ mid) (h2 : mid ≤ hi) :
    convertedRange src (convertedRange src dst mid hi) lo mid = convertedRange src dst lo hi := by
  funext k
  unfold convertedRange
  by_cases h3 : lo ≤ k ∧ k < mid
  · rw [if_pos h3, if_pos (by omega)]
  · rw [if_neg h3]
    by_cases h4 : mid ≤ k ∧ k < hi
    · rw [if_pos h4, if_pos (by omega)]
    · rw [if_neg h4, if_neg (by omega)]

theorem convertedRange_empty (src : ByteBuf) (dst : FloatBuf) (i : Nat) :
    convertedRange src dst i i = dst := by
  funext k
  unfold convertedRange
  rw [if_neg (by omega)]

theorem Convert_U8_To_F32_SSE2_align_spec (dstAddr : Nat) (src : ByteBuf) :
    ∀ (i : Nat) (dst : FloatBuf), 0 < i →
      ∃ j, j ≤ i ∧
        Convert_U8_To_F32_SSE2_align dstAddr src i ((i : Int) - 1) dst =
          some (j, (j : Int) - 1, convertedRange src dst j i) := by
  intro i
  induction i with
  | zero => intro dst h; omega
  | succ i ih =>
    intro dst _
    unfold Convert_U8_To_F32_SSE2_align
    have hp : (((i + 1 : Nat) : Int) - 1) = (i : Int) := by push_cast; ring
    rw [hp]
    split_ifs with h1 h2
    · omega
    · rw [Int.toNat_ofNat]
      rcases Nat.eq_zero_or_pos i with h0 | h0
      · subst h0
        refine ⟨0, by omega, ?_⟩
        unfold Convert_U8_To_F32_SSE2_align
        rw [← convertedRange_update src dst 0 0 (le_refl 0), convertedRange_empty]
      · obtain ⟨j, hj, e⟩ := ih (Function.update dst i (convertU8 (readU8 src i))) h0
        refine ⟨j, by omega, ?_⟩
        rw [e, convertedRange_update src dst j i hj]
    · refine ⟨i + 1, le_refl _, ?_⟩
      rw [convertedRange_empty, hp]

theorem Convert_U8_To_F32_SSE2_blocks_spec (src : ByteBuf) :
    ∀ (fuel i : Nat) (dst : FloatBuf), i ≤ fuel → i < 2 ^ 32 →
      ∃ j, j ≤ i ∧
        Convert_U8_To_F32_SSE2_blocks src fuel i ((i : Int) - 16) dst =
          some (j, (j : Int) - 16, convertedRange src dst j i) := by
  intro fuel
  induction fuel with
  | zero =>
    intro i dst h1 _
    have h0 : i = 0 := by omega
    subst h0
    refine ⟨0, le_refl _, ?_⟩
    unfold Convert_U8_To_F32_SSE2_blocks
    rw [if_neg (by rw [toInt32_small 0 (by norm_num)]; norm_num), convertedRange_empty]
  | succ fuel ih =>
    intro i dst h1 h2
    unfold Convert_U8_To_F32_SSE2_blocks
    by_cases hc : 16 ≤ toInt32 i
    · rw [if_pos hc]
      have hi : i < 2 ^ 31 := by
        by_contra hn
        unfold toInt32 at hc
        rw [Nat.mod_eq_of_lt h2, if_neg hn] at hc
        omega
      rw [toInt32_small i hi] at hc
      have h16 : 16 ≤ i := by omega
      rw [if_neg (by omega)]
      have hp : ((i : Int) - 16).toNat = i - 16 := by omega
      have hq : ((i : Int) - 16 - 16) = (((i - 16 : Nat) : Int) - 16) := by omega
      rw [hp, hq, Convert_U8_To_F32_SSE2_block_spec]
      obtain ⟨j, hj, e⟩ := ih (i - 16) (convertedRange src dst (i - 16) (i - 16 + 16))
        (by omega) (by omega)
      refine ⟨j, by omega, ?_⟩
      rw [e, convertedRange_join src dst j (i - 16) (i - 16 + 16) hj (by omega)]
      have : i - 16 + 16 = i := by omega
      rw [this]
    · rw [if_neg hc]
      exact ⟨i, le_refl _, by rw [convertedRange_empty]⟩

theorem Convert_U8_To_F32_SSE2_rest_spec (src : ByteBuf) :
    ∀ (i : Nat) (dst : FloatBuf),
      Convert_U8_To_F32_SSE2_rest src i ((i : Int) - 1) dst =
        some (convertedRange src dst 0 i) := by
  intro i
  induction i with
  | zero =>
    intro dst
    unfold Convert_U8_To_F32_SSE2_rest
    rw [convertedRange_empty]
  | succ i ih =>
    intro dst
    unfold Convert_U8_To_F32_SSE2_rest
    have hp : (((i + 1 : Nat) : Int) - 1) = (i : Int) := by push_cast; ring
    rw [hp, if_neg (by omega), Int.toNat_ofNat, ih,
      convertedRange_update src dst 0 i (Nat.zero_le _)]

theorem Convert_U8_To_F32_SSE2_blocks_zero (src : ByteBuf) (p : Int) (dst : FloatBuf) :
    Convert_U8_To_F32_SSE2_blocks src 0 0 p dst = some (0, p, dst) := by
  unfold Convert_U8_To_F32_SSE2_blocks
  rw [if_neg (by rw [toInt32_small 0 (by norm_num)]; norm_num)]

theorem Convert_U8_To_F32_SSE2_tail_zero (srcAddr dstAddr : Nat) (src : ByteBuf) (dst : FloatBuf)
    (p : Int) :
    (match Convert_U8_To_F32_SSE2_align dstAddr src 0 p dst with
    | none => none
    | some (i, p, dst) =>
      let p := p - 15
      let r : Option (Nat × Int × FloatBuf) :=
        if ((srcAddr : Int) + p) % 16 = 0 then Convert_U8_To_F32_SSE2_blocks src i i p dst
        else some (i, p, dst)
      match r with
      | none => none
      | some (i, p, dst) => Convert_U8_To_F32_SSE2_rest src i (p + 15) dst) = some dst := by
  unfold Convert_U8_To_F32_SSE2_align
  simp only []
  rw [Convert_U8_To_F32_SSE2_blocks_zero]
  split_ifs <;> (simp only []; unfold Convert_U8_To_F32_SSE2_rest; rfl)
theorem Convert_U8_To_F32_SSE2_spec (srcAddr dstAddr : Nat) (src : ByteBuf) (dst : FloatBuf)
    (len : Nat) (hlen : len < 2 ^ 32) :
    FAudio_INTERNAL_Convert_U8_To_F32_SSE2 srcAddr dstAddr src dst len =
      some (convertedRange src dst 0 len) := by
  unfold FAudio_INTERNAL_Convert_U8_To_F32_SSE2
  have hw : wrap32 len = len := Nat.mod_eq_of_lt hlen
  rcases Nat.eq_zero_or_pos len with h0 | h0
  · rw [hw, h0, convertedRange_empty]
    exact Convert_U8_To_F32_SSE2_tail_zero srcAddr dstAddr src dst _
  · have hs : ((sub32 len 1 : Nat) : Int) = (len : Int) - 1 := by
      unfold sub32 wrap32
      omega
    simp only [hw, hs]
    obtain ⟨i, hi, e⟩ := Convert_U8_To_F32_SSE2_align_spec dstAddr src len dst h0
    rw [e]
    simp only []
    have hp : ((i : Int) - 1 - 15) = (i : Int) - 16 := by ring
    rw [hp]
    obtain ⟨j, hj, e2⟩ := Convert_U8_To_F32_SSE2_blocks_spec src i i
      (convertedRange src dst i len) (le_refl _) (by omega)
    rw [e2]
    have hq : ((j : Int) - 16 + 15) = (j : Int) - 1 := by ring
    have hq2 : ((i : Int) - 16 + 15) = (i : Int) - 1 := by ring
    split_ifs
    · simp only [hq]
      rw [Convert_U8_To_F32_SSE2_rest_spec, convertedRange_join src _ 0 j i (Nat.zero_le _) hj,
        convertedRange_join src dst 0 i len (Nat.zero_le _) hi]
    · simp only [hq2]
      rw [Convert_U8_To_F32_SSE2_rest_spec,
        convertedRange_join src dst 0 i len (Nat.zero_le _) hi]

/-- C20: for every length that fits the `uint32_t` parameter, every content of
the source and every address of `src` and `dst`, the SSE2 converter of 8-bit
samples returns, stores `dst[k] = src[k] / 128 - 1` for every `k < len`, which
are the floats the scalar converter stores, and leaves every float from
`dst[len]` on as it was. -/
theorem c20_sse2_u8_equals_scalar (srcAddr dstAddr : Nat) (src : ByteBuf) (dst : FloatBuf)
    (len : Nat) (hlen : len < 2 ^ 32) :
    ∃ out, FAudio_INTERNAL_Convert_U8_To_F32_SSE2 srcAddr dstAddr src dst len = some out ∧
      (∀ k, k < len → out k = (readU8 src k : ℚ) / 128 - 1) ∧
      (List.range len).map out =
        FAudio_INTERNAL_Convert_U8_To_F32_Scalar ((List.range len).map (readU8 src)) ∧
      ∀ k, len ≤ k → out k = dst k := by
  refine ⟨_, Convert_U8_To_F32_SSE2_spec srcAddr dstAddr src dst len hlen, ?_, ?_, ?_⟩
  · intro k hk
    unfold convertedRange convertU8 DIVBY128
    rw [if_pos ⟨Nat.zero_le _, hk⟩]
    ring
  · unfold FAudio_INTERNAL_Convert_U8_To_F32_Scalar
    rw [List.map_map]
    apply List.map_congr_left
    intro k hk
    rw [List.mem_range] at hk
    unfold convertedRange convertU8
    rw [if_pos ⟨Nat.zero_le _, hk⟩]
    rfl
  · intro k hk
    unfold convertedRange
    rw [if_neg (by omega)]

/-- Witness for C20: 40 bytes whose source address lets the vector loop run. -/
theorem c20_sse2_u8_equals_scalar_witness :
    ∃ out, FAudio_INTERNAL_Convert_U8_To_F32_SSE2 10 8 (fun k => 7 * k + 250) (fun _ => 5) 40 =
        some out ∧
      (∀ k, k < 40 → out k = (readU8 (fun k => 7 * k + 250) k : ℚ) / 128 - 1) ∧
      (List.range 40).map out =
        FAudio_INTERNAL_Convert_U8_To_F32_Scalar
          ((List.range 40).map (readU8 (fun k => 7 * k + 250))) ∧
      ∀ k, 40 ≤ k → out k = (fun _ => (5 : Sample)) k :=
  c20_sse2_u8_equals_scalar 10 8 (fun k => 7 * k + 250) (fun _ => 5) 40 (by decide)

/-! ## A source voice with an empty queue -/

theorem MixSource_step_src (voice : FAudioSourceVoice) (audio : FAudio) :
    (MixSource_step voice audio).src.bufferList = voice.src.bufferList ∧
    (MixSource_step voice audio).src.callback = voice.src.callback ∧
    (MixSource_step voice audio).src.decodeSamples = voice.src.decodeSamples := by
  unfold MixSource_step
  split_ifs <;> exact ⟨rfl, rfl, rfl⟩

theorem hasCallback_congr (v v1 : FAudioSourceVoice) (f : FAudioVoiceCallback → Bool)
    (h : v1.src.callback = v.src.callback) : hasCallback v1 f = hasCallback v f := by
  unfold hasCallback
  rw [h]

/-- C13: `FAudio_INTERNAL_MixSource` on a source voice whose queue is empty
returns; the engine afterwards is the engine before with at most two events
more in its log, so the output of the master voice and the input cache of every
submix voice are unchanged; the queue is still empty; the events are
`OnVoiceProcessingPassStart` and then `OnVoiceProcessingPassEnd`, each once for
a callback table that has it set and not at all otherwise. -/
theorem c13_queue_underrun (K : Env) (fuel : Nat) (voice : FAudioSourceVoice) (audio : FAudio)
    (hq : voice.src.bufferList = []) :
    ∃ v1 a1 ev, FAudio_INTERNAL_MixSource K fuel voice audio = some (v1, a1) ∧
      a1 = { audio with log := audio.log ++ ev } ∧
      a1.master.master.output = audio.master.master.output ∧
      a1.submixes = audio.submixes ∧
      (∀ out, sendTarget a1 out = sendTarget audio out) ∧
      v1.src.bufferList = [] ∧
      ev =
        (if hasCallback voice (fun cb => cb.OnVoiceProcessingPassStart) = true then
          [Event.OnVoiceProcessingPassStart (voice.src.decodeSamples * 2)] else []) ++
        (if hasCallback voice (fun cb => cb.OnVoiceProcessingPassEnd) = true then
          [Event.OnVoiceProcessingPassEnd] else []) ∧
      (∀ cb, voice.src.callback = some cb → cb.OnVoiceProcessingPassStart = true →
        cb.OnVoiceProcessingPassEnd = true →
        ev = [Event.OnVoiceProcessingPassStart (voice.src.decodeSamples * 2),
          Event.OnVoiceProcessingPassEnd]) := by
  obtain ⟨h1, h2, h3⟩ := MixSource_step_src voice audio
  have hs := hasCallback_congr voice (MixSource_step voice audio)
    (fun cb => cb.OnVoiceProcessingPassStart) h2
  have he := hasCallback_congr voice (MixSource_step voice audio)
    (fun cb => cb.OnVoiceProcessingPassEnd) h2
  have hcb : ∀ cb, voice.src.callback = some cb → cb.OnVoiceProcessingPassStart = true →
      cb.OnVoiceProcessingPassEnd = true →
      hasCallback voice (fun cb => cb.OnVoiceProcessingPassStart) = true ∧
      hasCallback voice (fun cb => cb.OnVoiceProcessingPassEnd) = true := by
    intro cb e1 e2 e3
    unfold hasCallback
    rw [e1]
    exact ⟨e2, e3⟩
  unfold FAudio_INTERNAL_MixSource
  simp only []
  have hq1 : (MixSource_step voice audio).src.bufferList = [] := h1.trans hq
  rw [hq1]
  simp only [hs, h3]
  unfold MixSource_end
  simp only [he]
  by_cases c1 : hasCallback voice (fun cb => cb.OnVoiceProcessingPassStart) = true <;>
    by_cases c2 : hasCallback voice (fun cb => cb.OnVoiceProcessingPassEnd) = true
  all_goals
    simp only [c1, c2, if_true, if_false]
    refine ⟨_, _, _, rfl, ?_, rfl, rfl, ?_, ?_, rfl, ?_⟩
    · simp
    · intro out
      cases out <;> rfl
    · exact hq1
    · intro cb e1 e2 e3
      have := hcb cb e1 e2 e3
      simp_all

/-- Witness for C13: the example voice with an empty queue. -/
theorem c13_queue_underrun_witness :
    ∃ v1 a1 ev, FAudio_INTERNAL_MixSource exampleEnv 10 (exampleVoiceWith []) exampleAudio =
        some (v1, a1) ∧
      a1.master.master.output = exampleAudio.master.master.output ∧
      a1.submixes = exampleAudio.submixes ∧
      v1.src.bufferList = [] ∧
      ev = [Event.OnVoiceProcessingPassStart ((exampleVoiceWith []).src.decodeSamples * 2),
        Event.OnVoiceProcessingPassEnd] :=
  match c13_queue_underrun exampleEnv 10 (exampleVoiceWith []) exampleAudio rfl with
  | ⟨v1, a1, ev, h1, _, h3, h4, _, h6, _, h8⟩ =>
    ⟨v1, a1, ev, h1, h3, h4, h6, h8 exampleCallback rfl rfl rfl⟩

/-! ## The two arrays of an effect chain -/

theorem processCalls_append (a b : List Event) :
    processCalls (a ++ b) = processCalls a ++ processCalls b := by
  induction a with
  | nil => rfl
  | cons e es ih => cases e <;> simp [processCalls, ih]

theorem ResizeEffectChainCache_log (audio : FAudio) (samples : Nat) :
    (FAudio_INTERNAL_ResizeEffectChainCache audio samples).log = audio.log := by
  unfold FAudio_INTERNAL_ResizeEffectChainCache
  split_ifs <;> rfl

theorem ChainState_store_log (c : ChainState) (p : BufferPtr) (x : FloatBuf) :
    (c.store p x).audio.log = c.audio.log := by
  cases p <;> rfl

theorem ProcessEffectChain_body_src (samples i : Nat) (slot : EffectSlot) (c : ChainState) :
    (ProcessEffectChain_body samples i slot c).2.srcParams.pBuffer =
      (ProcessEffectChain_body samples i slot c).2.dstParams.pBuffer := by
  unfold ProcessEffectChain_body
  rfl

theorem map_set_of_key {α : Type 1} {β : Type} (f : α → β) :
    ∀ (l : List α) (k : Nat) (v v1 : α), l.get? k = some v → f v1 = f v →
      (l.set k v1).map f = l.map f := by
  intro l
  induction l with
  | nil => intro k v v1 h; simp at h
  | cons a rest ih =>
    intro k v v1 h hf
    cases k with
    | zero =>
      simp only [List.get?_cons_zero, Option.some.injEq] at h
      subst h
      simp [hf]
    | succ k =>
      simp only [List.get?_cons_succ] at h
      simp only [List.set_cons_succ, List.map_cons]
      rw [ih k v v1 h hf]

theorem get?_of_map_eq {α : Type 1} {β : Type} (f : α → β) :
    ∀ (l l1 : List α) (k : Nat) (v : α), l1.map f = l.map f → l.get? k = some v →
      ∃ v1, l1.get? k = some v1 ∧ f v1 = f v := by
  intro l l1 k v h hk
  have h1 : (l1.map f).get? k = (l.map f).get? k := by rw [h]
  rw [List.get?_eq_getElem?, List.get?_eq_getElem?, List.getElem?_map, List.getElem?_map, ← List.get?_eq_getElem?, ← List.get?_eq_getElem?, hk] at h1
  cases h2 : l1.get? k with
  | none => rw [h2] at h1; simp at h1
  | some v1 =>
    rw [h2] at h1
    simp only [Option.map_some', Option.some.injEq] at h1
    exact ⟨v1, rfl, h1⟩

theorem setSendTarget_keys (audio : FAudio) (out : VoiceRef) (stream : FloatBuf) :
    (setSendTarget audio out stream).submixes.map submixKey = audio.submixes.map submixKey := by
  unfold setSendTarget
  cases out with
  | master => rfl
  | submix k =>
    simp only []
    cases h : audio.submixes.get? k with
    | none => rfl
    | some v =>
      simp only []
      refine map_set_of_key submixKey audio.submixes k v _ h ?_
      rfl

theorem mixSends_keys (K : Env) (term : Nat → Nat → Nat → Nat → Sample)
    (mixed outputChannels : Nat) :
    ∀ (sends : List FAudioSendDescriptor) (i : Nat) (audio : FAudio),
      (mixSends K term mixed outputChannels i sends audio).submixes.map submixKey =
        audio.submixes.map submixKey := by
  intro sends
  induction sends with
  | nil => intro i audio; rfl
  | cons send rest ih =>
    intro i audio
    unfold mixSends
    simp only []
    rw [ih]
    cases h : sendTarget audio send.pOutputVoice with
    | none => rfl
    | some t => exact setSendTarget_keys _ _ _

theorem ChainState_store_submixes (c : ChainState) (p : BufferPtr) (x : FloatBuf) :
    (c.store p x).audio.submixes = c.audio.submixes := by
  cases p <;> rfl

theorem ProcessEffectChain_body_submixes (samples i : Nat) (slot : EffectSlot)
    (c : ChainState) :
    (ProcessEffectChain_body samples i slot c).2.audio.submixes = c.audio.submixes := by
  unfold ProcessEffectChain_body
  simp only [ChainState_store_submixes]
  unfold FAudio_INTERNAL_ResizeEffectChainCache
  split_ifs <;> rfl

theorem ProcessEffectChain_loop_submixes (samples : Nat) :
    ∀ (effects : List EffectSlot) (i : Nat) (c : ChainState),
      (ProcessEffectChain_loop samples i effects c).2.audio.submixes = c.audio.submixes := by
  intro effects
  induction effects with
  | nil => intro i c; rfl
  | cons slot rest ih =>
    intro i c
    unfold ProcessEffectChain_loop
    simp only []
    rw [ih, ProcessEffectChain_body_submixes]

theorem ProcessEffectChain_submixes (K : Env) (effects : List EffectSlot) (audio : FAudio)
    (channels sampleRate : Nat) (buffer : FloatBuf) (samples : Nat) :
    (FAudio_INTERNAL_ProcessEffectChain K effects audio channels sampleRate buffer
      samples).2.1.submixes = audio.submixes := by
  unfold FAudio_INTERNAL_ProcessEffectChain
  exact ProcessEffectChain_loop_submixes samples effects 0 _

theorem MixSubmix_end_spec (audio : FAudio) (idx : Nat) (v : FAudioSubmixVoice)
    (h : audio.submixes.get? idx = some v) :
    (MixSubmix_end audio idx).submixes.map submixKey = audio.submixes.map submixKey ∧
    ∃ v1, (MixSubmix_end audio idx).submixes.get? idx = some v1 ∧
      v1.mix.inputSamples = v.mix.inputSamples ∧
      ∀ k, k < v.mix.inputSamples → v1.mix.inputCache k = 0 := by
  unfold MixSubmix_end
  rw [h]
  simp only []
  refine ⟨?_, { v with mix := { v.mix with
    inputCache := FAudio_zero v.mix.inputCache 0 v.mix.inputSamples } }, ?_, rfl, ?_⟩
  · refine map_set_of_key submixKey audio.submixes idx v _ h ?_
    rfl
  · have hlt : idx < audio.submixes.length := by
      rw [List.get?_eq_some] at h
      exact h.1
    rw [List.get?_eq_getElem?, List.getElem?_set_self hlt]
  · intro k hk
    simp only [FAudio_zero]
    rw [if_pos ⟨Nat.zero_le _, by omega⟩]

/-- The engine that `FAudio_INTERNAL_MixSubmix` hands to its last statement,
on a voice with a send and an input channel. -/
theorem MixSubmix_before_end (K : Env) (audio : FAudio) (idx : Nat) (voice : FAudioSubmixVoice)
    (h : audio.submixes.get? idx = some voice) (hs : voice.sends.length ≠ 0)
    (hc : voice.mix.inputChannels ≠ 0) :
    ∃ a3, FAudio_INTERNAL_MixSubmix K audio idx = some (MixSubmix_end a3 idx) ∧
      a3.submixes.map submixKey = audio.submixes.map submixKey := by
  unfold FAudio_INTERNAL_MixSubmix
  rw [h]
  simp only [hs, hc, if_false]
  refine ⟨_, rfl, ?_⟩
  rw [mixSends_keys]
  simp only []
  split_ifs <;> (try rw [ProcessEffectChain_submixes]) <;>
    (refine map_set_of_key submixKey audio.submixes idx voice _ h ?_; rfl)

/-- C16: `FAudio_INTERNAL_MixSubmix` on a submix voice of the engine returns
(unless the voice has a send and no input channel, a division by zero), and
afterwards the first `inputSamples` floats of the input cache of the voice are
zero: on the early exit of a voice without sends as on the full path. -/
theorem c16_submix_input_cache_reset (K : Env) (audio : FAudio) (idx : Nat)
    (voice : FAudioSubmixVoice) (h : audio.submixes.get? idx = some voice)
    (hdiv : voice.sends.length = 0 ∨ voice.mix.inputChannels ≠ 0) :
    ∃ a1 v1, FAudio_INTERNAL_MixSubmix K audio idx = some a1 ∧
      a1.submixes.get? idx = some v1 ∧
      v1.mix.inputSamples = voice.mix.inputSamples ∧
      ∀ k, k < voice.mix.inputSamples → v1.mix.inputCache k = 0 := by
  by_cases hs : voice.sends.length = 0
  · obtain ⟨_, v1, e1, e2, e3⟩ := MixSubmix_end_spec audio idx voice h
    refine ⟨MixSubmix_end audio idx, v1, ?_, e1, e2, e3⟩
    unfold FAudio_INTERNAL_MixSubmix
    rw [h]
    simp only [hs, if_true]
  · have hc : voice.mix.inputChannels ≠ 0 := by
      rcases hdiv with h1 | h1
      · exact absurd h1 hs
      · exact h1
    obtain ⟨a3, e, hk⟩ := MixSubmix_before_end K audio idx voice h hs hc
    obtain ⟨v3, g1, g2⟩ := get?_of_map_eq submixKey audio.submixes a3.submixes idx voice hk h
    obtain ⟨_, v1, e1, e2, e3⟩ := MixSubmix_end_spec a3 idx v3 g1
    have g3 : v3.mix.inputSamples = voice.mix.inputSamples := congrArg Prod.fst g2
    refine ⟨MixSubmix_end a3 idx, v1, e, e1, e2.trans g3, ?_⟩
    intro k hk2
    exact e3 k (by omega)

/-- Witness for C16: the example submix voice, whose input cache holds ones. -/
theorem c16_submix_input_cache_reset_witness :
    ∃ a1 v1, FAudio_INTERNAL_MixSubmix exampleEnv (exampleAudioWith [exampleSubmix] 0) 0 =
        some a1 ∧
      a1.submixes.get? 0 = some v1 ∧
      v1.mix.inputSamples = exampleSubmix.mix.inputSamples ∧
      ∀ k, k < exampleSubmix.mix.inputSamples → v1.mix.inputCache k = 0 :=
  c16_submix_input_cache_reset exampleEnv (exampleAudioWith [exampleSubmix] 0) 0 exampleSubmix
    rfl (Or.inr (by decide))

/-! ## The order of the submix voices in a tick -/

theorem MixSubmix_keys (K : Env) (audio a1 : FAudio) (idx : Nat)
    (h : FAudio_INTERNAL_MixSubmix K audio idx = some a1) :
    a1.submixes.map submixKey = audio.submixes.map submixKey := by
  cases hg : audio.submixes.get? idx with
  | none =>
    unfold FAudio_INTERNAL_MixSubmix at h
    rw [hg] at h
    simp only [Option.some.injEq] at h
    rw [← h]
  | some voice =>
    by_cases hs : voice.sends.length = 0
    · unfold FAudio_INTERNAL_MixSubmix at h
      rw [hg] at h
      simp only [hs, if_true, Option.some.injEq] at h
      rw [← h]
      exact (MixSubmix_end_spec audio idx voice hg).1
    · by_cases hc : voice.mix.inputChannels = 0
      · unfold FAudio_INTERNAL_MixSubmix at h
        rw [hg] at h
        simp only [hs, hc, if_true, if_false] at h
        exact absurd h (by simp)
      · obtain ⟨a3, e, hk⟩ := MixSubmix_before_end K audio idx voice hg hs hc
        rw [e] at h
        simp only [Option.some.injEq] at h
        rw [← h]
        obtain ⟨v3, g1, _⟩ := get?_of_map_eq submixKey audio.submixes a3.submixes idx voice hk hg
        rw [(MixSubmix_end_spec a3 idx v3 g1).1, hk]

theorem stage_of_get? (audio : FAudio) (k : Nat) :
    ((audio.submixes.map submixKey).get? k).map (fun x => x.2.1) =
      (audio.submixes.get? k).map (fun v => v.mix.processingStage) := by
  rw [List.get?_eq_getElem?, List.getElem?_map, ← List.get?_eq_getElem?]
  cases audio.submixes.get? k <;> rfl

theorem UpdateEngine_stage_spec (K : Env) (i : Nat) :
    ∀ (idxs : List Nat) (audio : FAudio),
      UpdateEngine_stage K i idxs audio =
        MixSubmix_seq K (stageMembers (audio.submixes.map submixKey) i idxs) audio := by
  intro idxs
  induction idxs with
  | nil => intro audio; rfl
  | cons k rest ih =>
    intro audio
    unfold UpdateEngine_stage stageMembers
    rw [List.filter_cons, stage_of_get?]
    cases hg : audio.submixes.get? k with
    | none =>
      simp only [Option.map_none', decide_False, Bool.false_eq_true, if_false]
      exact ih audio
    | some submix =>
      simp only [Option.map_some', Option.some.injEq]
      by_cases hst : submix.mix.processingStage = i
      · simp only [hst, decide_True, if_true]
        unfold MixSubmix_seq
        cases hm : FAudio_INTERNAL_MixSubmix K audio k with
        | none => rfl
        | some audio1 =>
          simp only []
          rw [ih audio1, MixSubmix_keys K audio audio1 k hm]
          rfl
      · simp only [hst, decide_False, Bool.false_eq_true, if_false]
        exact ih audio

theorem MixSubmix_seq_append (K : Env) :
    ∀ (a b : List Nat) (audio : FAudio),
      MixSubmix_seq K (a ++ b) audio =
        (MixSubmix_seq K a audio).bind (MixSubmix_seq K b) := by
  intro a
  induction a with
  | nil => intro b audio; rfl
  | cons k rest ih =>
    intro b audio
    simp only [List.cons_append, MixSubmix_seq]
    cases FAudio_INTERNAL_MixSubmix K audio k with
    | none => rfl
    | some audio1 => exact ih b audio1

theorem MixSubmix_seq_keys (K : Env) :
    ∀ (a : List Nat) (audio a1 : FAudio), MixSubmix_seq K a audio = some a1 →
      a1.submixes.map submixKey = audio.submixes.map submixKey := by
  intro a
  induction a with
  | nil =>
    intro audio a1 h
    simp only [MixSubmix_seq, Option.some.injEq] at h
    rw [h]
  | cons k rest ih =>
    intro audio a1 h
    simp only [MixSubmix_seq] at h
    cases hm : FAudio_INTERNAL_MixSubmix K audio k with
    | none => rw [hm] at h; exact absurd h (by simp)
    | some audio1 =>
      rw [hm] at h
      rw [ih audio1 a1 h, MixSubmix_keys K audio audio1 k hm]

theorem UpdateEngine_submixes_spec (K : Env) :
    ∀ (stages : List Nat) (audio : FAudio),
      UpdateEngine_submixes K stages audio =
        MixSubmix_seq K (stages.flatMap (fun i =>
          stageMembers (audio.submixes.map submixKey) i
            (List.range (audio.submixes.map submixKey).length))) audio := by
  intro stages
  induction stages with
  | nil => intro audio; rfl
  | cons i rest ih =>
    intro audio
    unfold UpdateEngine_submixes
    rw [List.flatMap_cons, MixSubmix_seq_append, UpdateEngine_stage_spec, List.length_map]
    cases hm : MixSubmix_seq K (stageMembers (audio.submixes.map submixKey) i
        (List.range audio.submixes.length)) audio with
    | none => rfl
    | some audio1 =>
      simp only [Option.some_bind]
      rw [ih audio1, MixSubmix_seq_keys K _ audio audio1 hm]
      simp only [List.length_map]

theorem mem_stageMembers (keys : List (Nat × Nat × Nat)) (i k : Nat) :
    k ∈ stageMembers keys i (List.range keys.length) ↔ k < keys.length ∧ stageOf keys k = i := by
  unfold stageMembers stageOf
  rw [List.mem_filter, List.mem_range]
  constructor
  · rintro ⟨h1, h2⟩
    refine ⟨h1, ?_⟩
    have h3 := of_decide_eq_true h2
    rw [h3]
    rfl
  · rintro ⟨h1, h2⟩
    refine ⟨h1, decide_eq_true ?_⟩
    have h3 : keys.get? k = some (keys.get ⟨k, h1⟩) := List.get?_eq_get h1
    rw [h3] at h2 ⊢
    simp only [Option.map_some', Option.getD_some] at h2 ⊢
    rw [h2]

theorem mem_submixOrder (keys : List (Nat × Nat × Nat)) (S k : Nat) :
    k ∈ submixOrder keys S ↔ k < keys.length ∧ stageOf keys k ≤ S := by
  unfold submixOrder
  rw [List.mem_flatMap]
  constructor
  · rintro ⟨i, hi, hk⟩
    rw [List.mem_range] at hi
    rw [mem_stageMembers] at hk
    exact ⟨hk.1, by omega⟩
  · rintro ⟨h1, h2⟩
    exact ⟨stageOf keys k, List.mem_range.2 (by omega), (mem_stageMembers keys _ k).2 ⟨h1, rfl⟩⟩

theorem pairwise_submixOrder (keys : List (Nat × Nat × Nat)) (S : Nat) :
    List.Pairwise (fun a b => stageOf keys a < stageOf keys b ∨
      (stageOf keys a = stageOf keys b ∧ a < b)) (submixOrder keys S) := by
  unfold submixOrder
  rw [List.pairwise_flatMap]
  constructor
  · intro i _
    have h1 : List.Pairwise (fun a b => a < b) (stageMembers keys i (List.range keys.length)) :=
      List.Pairwise.filter _ (List.pairwise_lt_range keys.length)
    refine List.Pairwise.imp_of_mem ?_ h1
    intro a b ha hb hab
    rw [mem_stageMembers] at ha hb
    exact Or.inr ⟨ha.2.trans hb.2.symm, hab⟩
  · refine List.Pairwise.imp ?_ (List.pairwise_lt_range (S + 1))
    intro i1 i2 h12 x hx y hy
    rw [mem_stageMembers] at hx hy
    exact Or.inl (by omega)

theorem nodup_submixOrder (keys : List (Nat × Nat × Nat)) (S : Nat) :
    (submixOrder keys S).Nodup := by
  refine List.Pairwise.imp ?_ (pairwise_submixOrder keys S)
  intro a b h hab
  subst hab
  rcases h with h | h <;> omega

/-- A tick as the sequence of its parts. -/
theorem UpdateEngine_eq (K : Env) (fuel : Nat) (audio : FAudio) (output : FloatBuf) :
    FAudio_INTERNAL_UpdateEngine K fuel audio output =
      (if audio.active = false then some (audio, output)
      else
        (UpdateEngine_sources K fuel audio.sources (UpdateEngine_start audio output)).bind
          (fun r =>
            (MixSubmix_seq K (submixOrder (r.2.submixes.map submixKey) r.2.submixStages)
              { r.2 with sources := r.1 }).map (UpdateEngine_finish K))) := by
  unfold FAudio_INTERNAL_UpdateEngine
  by_cases ha : audio.active = false
  · rw [if_pos ha, if_pos ha]
  · rw [if_neg ha, if_neg ha]
    show (match UpdateEngine_sources K fuel audio.sources (UpdateEngine_start audio output) with
      | none => none
      | some (sources, audio3) =>
        match UpdateEngine_submixes K (List.range (audio3.submixStages + 1))
            { audio3 with sources := sources } with
        | none => none
        | some audio5 => some (UpdateEngine_finish K audio5)) = _
    cases UpdateEngine_sources K fuel audio.sources (UpdateEngine_start audio output) with
    | none => rfl
    | some r =>
      obtain ⟨sources, audio3⟩ := r
      simp only [Option.some_bind]
      rw [UpdateEngine_submixes_spec]
      have e : submixOrder (audio3.submixes.map submixKey) audio3.submixStages =
          (List.range (audio3.submixStages + 1)).flatMap (fun i =>
            stageMembers (List.map submixKey audio3.submixes) i
              (List.range (List.map submixKey audio3.submixes).length)) := rfl
      rw [e]
      cases MixSubmix_seq K
          ((List.range (audio3.submixStages + 1)).flatMap fun i =>
            stageMembers (List.map submixKey audio3.submixes) i
              (List.range (List.map submixKey audio3.submixes).length))
          { audio3 with sources := sources } with
      | none => rfl
      | some a5 => rfl

/-- C11: a tick of `FAudio_INTERNAL_UpdateEngine` on an active engine is: the
source voices, then `FAudio_INTERNAL_MixSubmix` on the list positions of
`submixOrder`, one call after the other, then the master part. In
`submixOrder` every position of the list whose stage is at most `submixStages`
occurs exactly once and no other position occurs; the stages along it do not
decrease, and positions of equal stage are in list order. -/
theorem c11_submix_stage_order (K : Env) (fuel : Nat) (audio : FAudio) (output : FloatBuf) :
    FAudio_INTERNAL_UpdateEngine K fuel audio output =
      (if audio.active = false then some (audio, output)
      else
        (UpdateEngine_sources K fuel audio.sources (UpdateEngine_start audio output)).bind
          (fun r =>
            (MixSubmix_seq K (submixOrder (r.2.submixes.map submixKey) r.2.submixStages)
              { r.2 with sources := r.1 }).map (UpdateEngine_finish K))) ∧
    (∀ (keys : List (Nat × Nat × Nat)) (S : Nat),
      (∀ k, k ∈ submixOrder keys S ↔ k < keys.length ∧ stageOf keys k ≤ S) ∧
      (∀ k, k < keys.length → stageOf keys k ≤ S → List.count k (submixOrder keys S) = 1) ∧
      List.Pairwise (fun a b => stageOf keys a < stageOf keys b ∨
        (stageOf keys a = stageOf keys b ∧ a < b)) (submixOrder keys S)) ∧
    submixOrder ([exampleSubmixAt 1, exampleSubmixAt 0, exampleSubmixAt 1, exampleSubmixAt 0,
      exampleSubmixAt 2].map submixKey) 1 = [1, 3, 0, 2] := by
  refine ⟨UpdateEngine_eq K fuel audio output, ?_, by decide⟩
  · intro keys S
    refine ⟨mem_submixOrder keys S, ?_, pairwise_submixOrder keys S⟩
    intro k h1 h2
    exact List.count_eq_one_of_mem (nodup_submixOrder keys S) ((mem_submixOrder keys S k).2 ⟨h1, h2⟩)

/-! ## The mix into a send -/

theorem mixInner_spec (K : Env) (term : Nat → Nat → Nat → Sample) (j co oChan : Nat) :
    ∀ (n : Nat) (s : FloatBuf),
      (List.range n).foldl (fun s ci =>
        Function.update s (j * oChan + co)
          (FAudio_clamp (s (j * oChan + co) + term j co ci)
            (-K.FAUDIO_MAX_VOLUME_LEVEL) K.FAUDIO_MAX_VOLUME_LEVEL)) s =
      Function.update s (j * oChan + co) (mixValue K term n j co (s (j * oChan + co))) := by
  intro n
  induction n with
  | zero =>
    intro s
    simp [mixValue]
  | succ n ih =>
    intro s
    rw [List.range_succ, List.foldl_append, ih]
    simp only [List.foldl_cons, List.foldl_nil, Function.update_same, Function.update_idem]
    unfold mixValue
    rw [List.range_succ, List.foldl_append]
    rfl

theorem mixMiddle_spec (K : Env) (term : Nat → Nat → Nat → Sample)
    (j oChan outputChannels : Nat) :
    ∀ (c : Nat) (s : FloatBuf) (k : Nat),
      (List.range c).foldl (fun s co =>
        (List.range outputChannels).foldl (fun s ci =>
          Function.update s (j * oChan + co)
            (FAudio_clamp (s (j * oChan + co) + term j co ci)
              (-K.FAUDIO_MAX_VOLUME_LEVEL) K.FAUDIO_MAX_VOLUME_LEVEL)) s) s k =
      if j * oChan ≤ k ∧ k < j * oChan + c then
        mixValue K term outputChannels j (k - j * oChan) (s k)
      else s k := by
  intro c
  induction c with
  | zero =>
    intro s k
    rw [if_neg (by omega)]
    rfl
  | succ c ih =>
    intro s k
    rw [List.range_succ, List.foldl_append]
    simp only [List.foldl_cons, List.foldl_nil]
    rw [mixInner_spec]
    by_cases hk : k = j * oChan + c
    · subst hk
      rw [Function.update_same, ih, if_neg (by omega), if_pos (by omega)]
      congr 1
      omega
    · rw [Function.update_noteq hk, ih]
      by_cases h1 : j * oChan ≤ k ∧ k < j * oChan + c
      · rw [if_pos h1, if_pos (by omega)]
      · rw [if_neg h1, if_neg (by omega)]

/-- What the three loops of the mix leave at index `k` of `stream`. -/
theorem mixIntoStream_apply (K : Env) (term : Nat → Nat → Nat → Sample)
    (oChan outputChannels : Nat) :
    ∀ (mixed : Nat) (stream : FloatBuf) (k : Nat),
      mixIntoStream K term mixed oChan outputChannels stream k =
        if k < mixed * oChan then
          mixValue K term outputChannels (k / oChan) (k % oChan) (stream k)
        else stream k := by
  intro mixed
  induction mixed with
  | zero =>
    intro stream k
    rw [if_neg (by omega)]
    rfl
  | succ m ih =>
    intro stream k
    unfold mixIntoStream at ih ⊢
    rw [List.range_succ, List.foldl_append]
    simp only [List.foldl_cons, List.foldl_nil]
    rw [mixMiddle_spec, ih]
    have hm : (m + 1) * oChan = m * oChan + oChan := by ring
    by_cases h1 : m * oChan ≤ k ∧ k < m * oChan + oChan
    · have ho : 0 < oChan := by omega
      have hk : k = (k - m * oChan) + m * oChan := by omega
      have hd : k / oChan = m := by
        rw [hk, Nat.add_mul_div_right _ _ ho, Nat.div_eq_of_lt (by omega)]
        omega
      have hr : k % oChan = k - m * oChan := by
        conv_lhs => rw [hk]
        rw [Nat.add_mul_mod_self_right, Nat.mod_eq_of_lt (by omega)]
      rw [if_pos h1, if_neg (by omega), if_pos (by omega), hd, hr]
    · rw [if_neg h1]
      by_cases h2 : k < m * oChan
      · rw [if_pos h2, if_pos (by omega)]
      · rw [if_neg h2, if_neg (by omega)]

/-! ## The volume of a submix voice -/

theorem submixScaled_eq (K : Env) (audio : FAudio) (voice : FAudioSubmixVoice) :
    (if voice.volume ≠ 1 then
        applyVolume K voice.volume (submixResampled K voice) (submixResampleOut K audio voice)
      else submixResampleOut K audio voice) = submixScaled K audio voice := by
  funext k
  unfold submixScaled applyVolume
  by_cases h : voice.volume ≠ 1
  · rw [if_pos h]
    by_cases h2 : k < submixResampled K voice
    · rw [if_pos h2, if_pos ⟨h, h2⟩]
    · rw [if_neg h2, if_neg (fun c => h2 c.2)]
  · rw [if_neg h, if_neg (fun c => h c.1)]

theorem MixSubmix_end_master (audio : FAudio) (idx : Nat) :
    (MixSubmix_end audio idx).master = audio.master := by
  unfold MixSubmix_end
  cases audio.submixes.get? idx <;> rfl

theorem MixSubmix_unfold (K : Env) (audio : FAudio) (idx : Nat) (voice : FAudioSubmixVoice)
    (h : audio.submixes.get? idx = some voice) (hs : voice.sends.length ≠ 0)
    (hc : voice.mix.inputChannels ≠ 0) :
    FAudio_INTERNAL_MixSubmix K audio idx =
      some (MixSubmix_end
        (mixSends K
          (fun i j co ci =>
            effectOutput (submixMixInput K audio idx voice) (submixEffects K audio voice).2.2.2
                (j * voice.outputChannels + ci) *
              voice.channelVolume ci * voice.sendCoefficients i (co * voice.outputChannels + ci))
          (submixResampled K voice / voice.mix.inputChannels) voice.outputChannels 0 voice.sends
          (submixMixInput K audio idx voice)) idx) := by
  unfold FAudio_INTERNAL_MixSubmix
  rw [h]
  simp only [hs, hc, if_false]
  have e := submixScaled_eq K audio voice
  unfold submixResampled submixResampleOut at e
  rw [e]
  rfl

/-- C17: `FAudio_INTERNAL_MixSubmix`, on a voice with a send and an input
channel, feeds the filter and the effect chain with the resampler output, each
float multiplied by the volume of the voice and clamped when the volume is not
1 (`submixScaled`), and then mixes the result into the sends with products of
the sample, `channelVolume[ci]` and the send coefficient only. So for a voice
without filter and effects whose one send goes to the master voice, the output
of the master voice receives `scaled * channelVolume[ci] * coefficient`, the
volume entering once, through `scaled`. -/
theorem c17_submix_volume_once (K : Env) (audio : FAudio) (idx : Nat)
    (voice : FAudioSubmixVoice) (h : audio.submixes.get? idx = some voice)
    (hs : voice.sends.length ≠ 0) (hc : voice.mix.inputChannels ≠ 0) :
    FAudio_INTERNAL_MixSubmix K audio idx =
      some (MixSubmix_end
        (mixSends K
          (fun i j co ci =>
            effectOutput (submixMixInput K audio idx voice) (submixEffects K audio voice).2.2.2
                (j * voice.outputChannels + ci) *
              voice.channelVolume ci * voice.sendCoefficients i (co * voice.outputChannels + ci))
          (submixResampled K voice / voice.mix.inputChannels) voice.outputChannels 0 voice.sends
          (submixMixInput K audio idx voice)) idx) ∧
    (∀ send, voice.sends = [send] → send.pOutputVoice = VoiceRef.master →
      voice.flags &&& K.FAUDIO_VOICE_USEFILTER = 0 → voice.effects = [] →
      ∃ a1, FAudio_INTERNAL_MixSubmix K audio idx = some a1 ∧
        ∀ k, a1.master.master.output k =
          if k < submixResampled K voice / voice.mix.inputChannels *
              audio.master.master.inputChannels then
            mixValue K
              (fun j co ci =>
                submixScaled K audio voice (j * voice.outputChannels + ci) *
                  voice.channelVolume ci *
                  voice.sendCoefficients 0 (co * voice.outputChannels + ci))
              voice.outputChannels (k / audio.master.master.inputChannels)
              (k % audio.master.master.inputChannels) (audio.master.master.output k)
          else audio.master.master.output k) := by
  refine ⟨MixSubmix_unfold K audio idx voice h hs hc, ?_⟩
  intro send hsend hout hflt heff
  refine ⟨_, MixSubmix_unfold K audio idx voice h hs hc, ?_⟩
  intro k
  rw [MixSubmix_end_master]
  have hF : submixFiltered K audio voice = (voice.filterState, submixScaled K audio voice) := by
    unfold submixFiltered
    rw [if_neg (by simp [hflt])]
  have hE : submixEffects K audio voice =
      (voice.effects, { audio with resampleCache := submixScaled K audio voice },
        submixScaled K audio voice, BufferPtr.buffer) := by
    unfold submixEffects
    rw [if_neg (by simp [heff]), hF]
  have hI1 : (submixMixInput K audio idx voice).master = audio.master := by
    unfold submixMixInput
    rw [hE]
  have hI2 : (submixMixInput K audio idx voice).resampleCache = submixScaled K audio voice := by
    unfold submixMixInput
    rw [hE]
  rw [hsend]
  unfold mixSends mixSends
  simp only [hout, sendTarget, setSendTarget]
  rw [hI1, hE]
  simp only [effectOutput, hI2]
  rw [mixIntoStream_apply]

/-- Witness for C17: the example submix voice with volume 2 and a resampler
that copies the input cache. -/
theorem c17_submix_volume_once_witness :
    ∃ a1, FAudio_INTERNAL_MixSubmix exampleEnvCopy (exampleAudioWith [exampleSubmixLoud] 0) 0 =
        some a1 ∧
      ∀ k, a1.master.master.output k =
        if k < submixResampled exampleEnvCopy exampleSubmixLoud /
            exampleSubmixLoud.mix.inputChannels *
            (exampleAudioWith [exampleSubmixLoud] 0).master.master.inputChannels then
          mixValue exampleEnvCopy
            (fun j co ci =>
              submixScaled exampleEnvCopy (exampleAudioWith [exampleSubmixLoud] 0)
                  exampleSubmixLoud (j * exampleSubmixLoud.outputChannels + ci) *
                exampleSubmixLoud.channelVolume ci *
                exampleSubmixLoud.sendCoefficients 0 (co * exampleSubmixLoud.outputChannels + ci))
            exampleSubmixLoud.outputChannels
            (k / (exampleAudioWith [exampleSubmixLoud] 0).master.master.inputChannels)
            (k % (exampleAudioWith [exampleSubmixLoud] 0).master.master.inputChannels)
            ((exampleAudioWith [exampleSubmixLoud] 0).master.master.output k)
        else (exampleAudioWith [exampleSubmixLoud] 0).master.master.output k :=
  (c17_submix_volume_once exampleEnvCopy (exampleAudioWith [exampleSubmixLoud] 0) 0
    exampleSubmixLoud rfl (by decide) (by decide)).2
    { Flags := 0, pOutputVoice := VoiceRef.master } rfl rfl (by decide) rfl

/-! ## A tick without voices -/

theorem UpdateEngine_submixes_nil (K : Env) :
    ∀ (stages : List Nat) (audio : FAudio), audio.submixes = [] →
      UpdateEngine_submixes K stages audio = some audio := by
  intro stages
  induction stages with
  | nil => intro audio _; rfl
  | cons i rest ih =>
    intro audio h
    unfold UpdateEngine_submixes
    rw [h]
    simp only [List.length_nil, List.range_zero, UpdateEngine_stage]
    exact ih audio h

theorem UpdateEngine_master_plain (K : Env) (audio : FAudio) (hvol : audio.master.volume = 1)
    (heff : audio.master.effects = []) :
    (UpdateEngine_master K audio).master.master.output = audio.master.master.output := by
  unfold UpdateEngine_master
  simp [hvol, heff]

/-- Counterexample for C12: the example engine (two channels, 480 frames, no
source and no submix voices, master volume 1, no master effects) and an array
`out` that holds ones before the call: it holds ones afterwards, not zeroes. -/
theorem c12_silent_tick_counterexample :
    ¬ ∃ a1 out1, FAudio_INTERNAL_UpdateEngine exampleEnv 10 exampleAudio (fun _ => 1) =
        some (a1, out1) ∧ ∀ k, k < 960 → out1 k = 0 := by
  rintro ⟨a1, out1, h, hz⟩
  have h0 := hz 0 (by norm_num)
  have e : FAudio_INTERNAL_UpdateEngine exampleEnv 10 exampleAudio (fun _ => 1) =
      some (UpdateEngine_finish exampleEnv (UpdateEngine_start exampleAudio (fun _ => 1))) := by
    unfold FAudio_INTERNAL_UpdateEngine
    rw [if_neg (by decide)]
    show (match UpdateEngine_sources exampleEnv 10 [] (UpdateEngine_start exampleAudio _) with
      | none => none
      | some (sources, audio3) =>
        match UpdateEngine_submixes exampleEnv (List.range (audio3.submixStages + 1))
            { audio3 with sources := sources } with
        | none => none
        | some audio5 => some (UpdateEngine_finish exampleEnv audio5)) = _
    simp only [UpdateEngine_sources]
    rw [UpdateEngine_submixes_nil exampleEnv _ _ rfl]
    rfl
  rw [e] at h
  simp only [Option.some.injEq] at h
  have h2 : out1 =
      (UpdateEngine_finish exampleEnv (UpdateEngine_start exampleAudio (fun _ => 1))).2 := by
    rw [h]
  have h1 : out1 0 = 1 := by
    rw [h2]
    show (UpdateEngine_master exampleEnv
      (UpdateEngine_start exampleAudio (fun _ => 1))).master.master.output 0 = 1
    rw [UpdateEngine_master_plain exampleEnv (UpdateEngine_start exampleAudio (fun _ => 1))
      rfl rfl]
    rfl
  rw [h1] at h0
  exact absurd h0 (by norm_num)

/-- C12, as amended: on an active engine without source voices, without
submix voices, with master volume 1 and without master effects, one call of
`FAudio_INTERNAL_UpdateEngine` returns and leaves every float of `out` as it
was; so `out` holds zeroes afterwards when it held zeroes before. -/
theorem c12_silent_tick_keeps_output (K : Env) (fuel : Nat) (audio : FAudio) (out : FloatBuf)
    (hact : audio.active = true) (hsrc : audio.sources = []) (hsub : audio.submixes = [])
    (hvol : audio.master.volume = 1) (heff : audio.master.effects = []) :
    ∃ a1 out1, FAudio_INTERNAL_UpdateEngine K fuel audio out = some (a1, out1) ∧
      out1 = out ∧
      ∀ n, (∀ k, k < n → out k = 0) → ∀ k, k < n → out1 k = 0 := by
  have e : FAudio_INTERNAL_UpdateEngine K fuel audio out =
      some (UpdateEngine_finish K (UpdateEngine_start audio out)) := by
    unfold FAudio_INTERNAL_UpdateEngine
    rw [if_neg (by simp [hact])]
    show (match UpdateEngine_sources K fuel audio.sources (UpdateEngine_start audio out) with
      | none => none
      | some (sources, audio3) =>
        match UpdateEngine_submixes K (List.range (audio3.submixStages + 1))
            { audio3 with sources := sources } with
        | none => none
        | some audio5 => some (UpdateEngine_finish K audio5)) = _
    rw [hsrc]
    simp only [UpdateEngine_sources]
    have hst : ({ UpdateEngine_start audio out with sources := [] } : FAudio) =
        UpdateEngine_start audio out := by
      unfold UpdateEngine_start
      simp only [hsrc]
    rw [hst, UpdateEngine_submixes_nil K _ (UpdateEngine_start audio out)
      (show (UpdateEngine_start audio out).submixes = [] from hsub)]
  have ho : (UpdateEngine_finish K (UpdateEngine_start audio out)).2 = out := by
    show (UpdateEngine_master K (UpdateEngine_start audio out)).master.master.output = out
    rw [UpdateEngine_master_plain K (UpdateEngine_start audio out)
      (show (UpdateEngine_start audio out).master.volume = 1 from hvol)
      (show (UpdateEngine_start audio out).master.effects = [] from heff)]
    rfl
  refine ⟨_, _, e, ho, ?_⟩
  intro n hz k hk
  exact (congrFun ho k).trans (hz k hk)

/-- Witness for C12 as amended: the example engine and an array of zeroes. -/
theorem c12_silent_tick_keeps_output_witness :
    ∃ a1 out1, FAudio_INTERNAL_UpdateEngine exampleEnv 10 exampleAudio (fun _ => 0) =
        some (a1, out1) ∧ ∀ k, k < 960 → out1 k = 0 :=
  match c12_silent_tick_keeps_output exampleEnv 10 exampleAudio (fun _ => 0) rfl rfl rfl rfl
    rfl with
  | ⟨a1, out1, h1, _, h3⟩ => ⟨a1, out1, h1, h3 960 (fun _ _ => rfl)⟩

/-! ## The status of an effect -/

/-- Counterexample for C14: a chain of one effect whose `LockForProcess`
returns the status 1 and whose `Process` copies its input; the array handed to
the next stage holds the ones of the input, not zeroes. -/
theorem c14_effect_failure_counterexample :
    Event.LockForProcess 0 2 2 1 1 ∈
        (FAudio_INTERNAL_ProcessEffectChain exampleEnv [exampleFailingSlot] exampleAudio 2 48000
          (fun _ => 1) 1).2.1.log ∧
      (FAudio_INTERNAL_ProcessEffectChain exampleEnv [exampleFailingSlot] exampleAudio 2 48000
        (fun _ => 1) 1).2.2.2 = BufferPtr.buffer ∧
      ¬ ∀ k, k < 2 →
        (FAudio_INTERNAL_ProcessEffectChain exampleEnv [exampleFailingSlot] exampleAudio 2 48000
          (fun _ => 1) 1).2.2.1 k = 0 := by
  refine ⟨by decide, rfl, ?_⟩
  intro h
  have h0 := h 0 (by norm_num)
  have h1 : (FAudio_INTERNAL_ProcessEffectChain exampleEnv [exampleFailingSlot] exampleAudio 2
      48000 (fun _ => 1) 1).2.2.1 0 = 1 := rfl
  rw [h1] at h0
  exact absurd h0 (by norm_num)

theorem ProcessEffectChain_body_status (samples i : Nat) (slot : EffectSlot) (c : ChainState)
    (status : Nat) :
    (ProcessEffectChain_body samples i (withLockStatus slot status) c).2.buffer =
      (ProcessEffectChain_body samples i slot c).2.buffer ∧
    (ProcessEffectChain_body samples i (withLockStatus slot status) c).2.audio.effectChainCache =
      (ProcessEffectChain_body samples i slot c).2.audio.effectChainCache ∧
    (ProcessEffectChain_body samples i (withLockStatus slot status) c).2.dstParams =
      (ProcessEffectChain_body samples i slot c).2.dstParams ∧
    (ProcessEffectChain_body samples i (withLockStatus slot status) c).2.srcParams =
      (ProcessEffectChain_body samples i slot c).2.srcParams ∧
    (ProcessEffectChain_body samples i (withLockStatus slot status) c).2.srcFmt =
      (ProcessEffectChain_body samples i slot c).2.srcFmt ∧
    (ProcessEffectChain_body samples i (withLockStatus slot status) c).2.dstFmt =
      (ProcessEffectChain_body samples i slot c).2.dstFmt := by
  unfold ProcessEffectChain_body withLockStatus
  refine ⟨rfl, rfl, rfl, rfl, rfl, rfl⟩

theorem ResizeEffectChainCache_cache (audio : FAudio) (samples : Nat) :
    (FAudio_INTERNAL_ResizeEffectChainCache audio samples).effectChainCache =
      audio.effectChainCache := by
  unfold FAudio_INTERNAL_ResizeEffectChainCache
  split_ifs <;> rfl

theorem ProcessEffectChain_body_handed (samples i : Nat) (slot : EffectSlot) (c : ChainState)
    (status : Nat) :
    (ProcessEffectChain_body samples i (withLockStatus slot status) c).2.srcParams.pBuffer =
      chainDst slot c ∧
    (ProcessEffectChain_body samples i (withLockStatus slot status) c).2.deref
        (chainDst slot c) = (effectProcessed samples slot c).1 ∧
    (ProcessEffectChain_body samples i (withLockStatus slot status) c).2.srcParams.BufferFlags =
      (effectProcessed samples slot c).2.1 ∧
    (ProcessEffectChain_body samples i
        (withLockStatus slot status) c).2.srcParams.ValidFrameCount =
      (effectProcessed samples slot c).2.2 ∧
    (ProcessEffectChain_body samples i (withLockStatus slot status) c).2.srcFmt =
      chainDstFmt slot c := by
  unfold ProcessEffectChain_body withLockStatus chainDst chainDstFmt effectProcessed
    effectLocked chainDstFmt chainDst
  cases hb : c.dstParams.pBuffer <;> by_cases h1 : slot.inPlaceProcessing = 0 <;>
    by_cases h3 : slot.parameterUpdates = 0 <;>
    simp [hb, h1, h3, otherBuffer, ChainState.deref, ChainState.store,
      ResizeEffectChainCache_cache]

theorem ProcessEffectChain_body_events (samples i : Nat) (slot : EffectSlot) (c : ChainState)
    (status : Nat) :
    (ProcessEffectChain_body samples i (withLockStatus slot status) c).2.audio.log =
      c.audio.log ++
        ((if slot.parameterUpdates ≠ 0 then
            [Event.SetParameters i slot.parameters slot.parameterSizes]
          else []) ++
        [Event.LockForProcess i c.srcFmt.nChannels (chainDstFmt slot c).nChannels samples status,
          Event.Process i c.srcParams.pBuffer (chainDst slot c) slot.desc.InitialState,
          Event.UnlockForProcess i]) := by
  unfold ProcessEffectChain_body withLockStatus chainDst chainDstFmt
  cases hb : c.dstParams.pBuffer <;> by_cases h1 : slot.inPlaceProcessing = 0 <;>
    by_cases h3 : slot.parameterUpdates = 0 <;>
    simp [hb, h1, h3, otherBuffer, ChainState_store_log, ResizeEffectChainCache_log]

theorem ProcessEffectChain_loop_append (samples : Nat) :
    ∀ (xs ys : List EffectSlot) (i : Nat) (c : ChainState),
      (ProcessEffectChain_loop samples i (xs ++ ys) c).2 =
        (ProcessEffectChain_loop samples (i + xs.length) ys
          (ProcessEffectChain_loop samples i xs c).2).2 := by
  intro xs
  induction xs with
  | nil => intro ys i c; rfl
  | cons x xs ih =>
    intro ys i c
    have h := ih ys (i + 1) (ProcessEffectChain_body samples i x c).2
    have e : i + 1 + xs.length = i + (xs.length + 1) := by omega
    rw [e] at h
    exact h

theorem ProcessEffectChain_last (K : Env) (effects : List EffectSlot) (slot : EffectSlot)
    (audio : FAudio) (channels sampleRate : Nat) (buffer : FloatBuf) (samples : Nat) :
    FAudio_INTERNAL_ProcessEffectChain K (effects ++ [slot]) audio channels sampleRate buffer
        samples =
      ((ProcessEffectChain_loop samples 0 (effects ++ [slot])
          (chainStart K audio channels sampleRate buffer samples)).1,
        (ProcessEffectChain_body samples effects.length slot
          (ProcessEffectChain_loop samples 0 effects
            (chainStart K audio channels sampleRate buffer samples)).2).2.audio,
        (ProcessEffectChain_body samples effects.length slot
          (ProcessEffectChain_loop samples 0 effects
            (chainStart K audio channels sampleRate buffer samples)).2).2.buffer,
        (ProcessEffectChain_body samples effects.length slot
          (ProcessEffectChain_loop samples 0 effects
            (chainStart K audio channels sampleRate buffer samples)).2).2.dstParams.pBuffer) := by
  have h := ProcessEffectChain_loop_append samples effects [slot] 0
    (chainStart K audio channels sampleRate buffer samples)
  rw [Nat.zero_add] at h
  have e : ∀ c, (ProcessEffectChain_loop samples effects.length [slot] c).2 =
      (ProcessEffectChain_body samples effects.length slot c).2 := fun c => rfl
  rw [e] at h
  show (_, (ProcessEffectChain_loop samples 0 (effects ++ [slot])
      (chainStart K audio channels sampleRate buffer samples)).2.audio,
    (ProcessEffectChain_loop samples 0 (effects ++ [slot])
      (chainStart K audio channels sampleRate buffer samples)).2.buffer,
    (ProcessEffectChain_loop samples 0 (effects ++ [slot])
      (chainStart K audio channels sampleRate buffer samples)).2.dstParams.pBuffer) = _
  rw [h]
  rfl

theorem effectOutput_deref (c : ChainState) (p : BufferPtr) :
    effectOutput { c.audio with resampleCache := c.buffer } p = c.deref p := by
  cases p <;> rfl

/-- C14, as amended: `FAudio_INTERNAL_ProcessEffectChain` does not look at the
status that `LockForProcess` of effect `i` returns (`Process` returns none).
Whatever the status is, the chain calls `LockForProcess`, then `Process` and
then `UnlockForProcess` of the effect, after `SetParameters` if the update flag
is set; the array handed to the next stage is the output array of the effect
and holds what `Process` stored in it, with the flags and the frame count that
`Process` stored and with the output format; array, parameters, format and
`Process` calls are the same as for the effect with its own status; and when
the effect is the last one of a chain, the pointer which the function returns
is that output array, holding what `Process` stored. -/
theorem c14_effect_status_ignored (samples i : Nat) (slot : EffectSlot) (c : ChainState)
    (status : Nat) :
    (ProcessEffectChain_body samples i (withLockStatus slot status) c).2.audio.log =
      c.audio.log ++
        ((if slot.parameterUpdates ≠ 0 then
            [Event.SetParameters i slot.parameters slot.parameterSizes]
          else []) ++
        [Event.LockForProcess i c.srcFmt.nChannels (chainDstFmt slot c).nChannels samples status,
          Event.Process i c.srcParams.pBuffer (chainDst slot c) slot.desc.InitialState,
          Event.UnlockForProcess i]) ∧
    (ProcessEffectChain_body samples i (withLockStatus slot status) c).2.srcParams.pBuffer =
      chainDst slot c ∧
    (ProcessEffectChain_body samples i (withLockStatus slot status) c).2.deref
        (chainDst slot c) = (effectProcessed samples slot c).1 ∧
    (ProcessEffectChain_body samples i (withLockStatus slot status) c).2.srcParams.BufferFlags =
      (effectProcessed samples slot c).2.1 ∧
    (ProcessEffectChain_body samples i
        (withLockStatus slot status) c).2.srcParams.ValidFrameCount =
      (effectProcessed samples slot c).2.2 ∧
    (ProcessEffectChain_body samples i (withLockStatus slot status) c).2.srcFmt =
      chainDstFmt slot c ∧
    (ProcessEffectChain_body samples i (withLockStatus slot status) c).2.deref
        (ProcessEffectChain_body samples i (withLockStatus slot status) c).2.srcParams.pBuffer =
      (ProcessEffectChain_body samples i slot c).2.deref
        (ProcessEffectChain_body samples i slot c).2.srcParams.pBuffer ∧
    (ProcessEffectChain_body samples i (withLockStatus slot status) c).2.srcParams =
      (ProcessEffectChain_body samples i slot c).2.srcParams ∧
    (ProcessEffectChain_body samples i (withLockStatus slot status) c).2.srcFmt =
      (ProcessEffectChain_body samples i slot c).2.srcFmt ∧
    processCalls (ProcessEffectChain_body samples i (withLockStatus slot status) c).2.audio.log =
      processCalls (ProcessEffectChain_body samples i slot c).2.audio.log ∧
    (∀ (K : Env) (effects : List EffectSlot) (audio : FAudio) (channels sampleRate : Nat)
        (buffer : FloatBuf),
      (FAudio_INTERNAL_ProcessEffectChain K (effects ++ [withLockStatus slot status]) audio
          channels sampleRate buffer samples).2.2.2 =
        chainDst slot (ProcessEffectChain_loop samples 0 effects
          (chainStart K audio channels sampleRate buffer samples)).2 ∧
      effectOutput
          { (FAudio_INTERNAL_ProcessEffectChain K (effects ++ [withLockStatus slot status]) audio
              channels sampleRate buffer samples).2.1 with
            resampleCache :=
              (FAudio_INTERNAL_ProcessEffectChain K (effects ++ [withLockStatus slot status])
                audio channels sampleRate buffer samples).2.2.1 }
          (FAudio_INTERNAL_ProcessEffectChain K (effects ++ [withLockStatus slot status]) audio
            channels sampleRate buffer samples).2.2.2 =
        (effectProcessed samples slot (ProcessEffectChain_loop samples 0 effects
          (chainStart K audio channels sampleRate buffer samples)).2).1) := by
  obtain ⟨g1, g2, g3, g4, g5⟩ := ProcessEffectChain_body_handed samples i slot c status
  obtain ⟨h1, h2, _, h4, h5, _⟩ := ProcessEffectChain_body_status samples i slot c status
  refine ⟨ProcessEffectChain_body_events samples i slot c status, g1, g2, g3, g4, g5, ?_, h4, h5,
    ?_, ?_⟩
  · rw [h4]
    cases (ProcessEffectChain_body samples i slot c).2.srcParams.pBuffer
    · exact h1
    · exact h2
  · unfold ProcessEffectChain_body withLockStatus
    simp only [processCalls_append]
    rfl
  · intro K effects audio channels sampleRate buffer
    obtain ⟨k1, k2, _⟩ := ProcessEffectChain_body_handed samples effects.length slot
      (ProcessEffectChain_loop samples 0 effects
        (chainStart K audio channels sampleRate buffer samples)).2 status
    rw [ProcessEffectChain_last]
    have e : (ProcessEffectChain_body samples effects.length (withLockStatus slot status)
        (ProcessEffectChain_loop samples 0 effects
          (chainStart K audio channels sampleRate buffer samples)).2).2.dstParams.pBuffer =
        chainDst slot (ProcessEffectChain_loop samples 0 effects
          (chainStart K audio channels sampleRate buffer samples)).2 := by
      rw [← ProcessEffectChain_body_src]
      exact k1
    refine ⟨e, ?_⟩
    show effectOutput _ (ProcessEffectChain_body samples effects.length
      (withLockStatus slot status) (ProcessEffectChain_loop samples 0 effects
        (chainStart K audio channels sampleRate buffer samples)).2).2.dstParams.pBuffer = _
    rw [e, ← k2]
    exact effectOutput_deref _ _

/-- Witness for C14 as amended: the effect whose `LockForProcess` returns the
status 1 and whose `Process` copies its input, alone in a chain over an array
of ones: `Process` is called and the array returned holds the ones. -/
theorem c14_effect_status_ignored_witness :
    Event.Process 0 BufferPtr.buffer BufferPtr.buffer 1 ∈
        (ProcessEffectChain_body 1 0 (withLockStatus exampleFailingSlot 1)
          (chainStart exampleEnv exampleAudio 2 48000 (fun _ => 1) 1)).2.audio.log ∧
      (ProcessEffectChain_body 1 0 (withLockStatus exampleFailingSlot 1)
        (chainStart exampleEnv exampleAudio 2 48000 (fun _ => 1) 1)).2.deref
          BufferPtr.buffer 0 = 1 :=
  have h := c14_effect_status_ignored 1 0 exampleFailingSlot
    (chainStart exampleEnv exampleAudio 2 48000 (fun _ => 1) 1) 1
  ⟨by rw [h.1]; decide, congrFun h.2.2.1 0⟩

/-! ## The range of the output -/

theorem Kept_refl (K : Env) (a : FAudio) : Kept K a a :=
  ⟨rfl, rfl, rfl, fun _ h => h⟩

theorem Kept_trans {K : Env} {a a1 a2 : FAudio} (h : Kept K a a1) (h1 : Kept K a1 a2) :
    Kept K a a2 :=
  ⟨h1.voice.trans h.voice, h1.channels.trans h.channels, h1.updateSize.trans h.updateSize,
    fun k hk => h1.range k (h.range k hk)⟩

theorem Kept_of_master {K : Env} {a a1 : FAudio} (h : a1.master = a.master)
    (hu : a1.updateSize = a.updateSize) : Kept K a a1 :=
  ⟨by rw [h], by rw [h], hu, fun k hk => by rw [h]; exact hk⟩

theorem FAudio_clamp_inRange (K : Env) (h0 : 0 ≤ K.FAUDIO_MAX_VOLUME_LEVEL) (x : Sample) :
    InRange K (FAudio_clamp x (-K.FAUDIO_MAX_VOLUME_LEVEL) K.FAUDIO_MAX_VOLUME_LEVEL) := by
  unfold FAudio_clamp InRange
  split_ifs with h1 h2
  · constructor <;> linarith
  · constructor <;> linarith
  · constructor <;> linarith

theorem mixValue_inRange (K : Env) (h0 : 0 ≤ K.FAUDIO_MAX_VOLUME_LEVEL)
    (term : Nat → Nat → Nat → Sample) (j co : Nat) :
    ∀ (n : Nat) (x : Sample), InRange K x → InRange K (mixValue K term n j co x) := by
  intro n
  induction n with
  | zero => intro x hx; exact hx
  | succ n ih =>
    intro x hx
    unfold mixValue
    rw [List.range_succ, List.foldl_append]
    exact FAudio_clamp_inRange K h0 _

theorem setSendTarget_kept (K : Env) (audio : FAudio) (out : VoiceRef) (stream : FloatBuf)
    (h : out = VoiceRef.master →
      ∀ k, InRange K (audio.master.master.output k) → InRange K (stream k)) :
    Kept K audio (setSendTarget audio out stream) := by
  unfold setSendTarget
  cases out with
  | master => exact ⟨rfl, rfl, rfl, h rfl⟩
  | submix k =>
    simp only []
    cases audio.submixes.get? k with
    | none => exact Kept_refl K audio
    | some v => exact ⟨rfl, rfl, rfl, fun _ hk => hk⟩

theorem mixSends_kept (K : Env) (h0 : 0 ≤ K.FAUDIO_MAX_VOLUME_LEVEL)
    (term : Nat → Nat → Nat → Nat → Sample) (mixed outputChannels : Nat) :
    ∀ (sends : List FAudioSendDescriptor) (i : Nat) (audio : FAudio),
      Kept K audio (mixSends K term mixed outputChannels i sends audio) := by
  intro sends
  induction sends with
  | nil => intro i audio; exact Kept_refl K audio
  | cons send rest ih =>
    intro i audio
    unfold mixSends
    simp only []
    refine Kept_trans ?_ (ih (i + 1) _)
    cases hst : sendTarget audio send.pOutputVoice with
    | none => exact Kept_refl K audio
    | some t =>
      obtain ⟨stream, oChan⟩ := t
      simp only []
      apply setSendTarget_kept
      intro hm k hk
      rw [hm] at hst
      simp only [sendTarget, Option.some.injEq, Prod.mk.injEq] at hst
      rw [mixIntoStream_apply]
      split_ifs
      · apply mixValue_inRange K h0
        rw [← hst.1]
        exact hk
      · rw [← hst.1]
        exact hk

/-- The effect chain changes the scratch array, its size and the log of the
engine, and nothing else of it. -/
theorem ProcessEffectChain_body_engine (samples i : Nat) (slot : EffectSlot) (c : ChainState) :
    ∃ n x l, (ProcessEffectChain_body samples i slot c).2.audio =
      { c.audio with effectChainSamples := n, effectChainCache := x, log := l } := by
  unfold ProcessEffectChain_body
  by_cases h1 : slot.inPlaceProcessing = 0 <;> cases hb : c.dstParams.pBuffer <;>
    simp only [h1, hb, if_true, if_false, ChainState.store,
      FAudio_INTERNAL_ResizeEffectChainCache] <;>
    (try split_ifs) <;> exact ⟨_, _, _, rfl⟩

theorem ProcessEffectChain_loop_engine (samples : Nat) :
    ∀ (effects : List EffectSlot) (i : Nat) (c : ChainState),
      ∃ n x l, (ProcessEffectChain_loop samples i effects c).2.audio =
        { c.audio with effectChainSamples := n, effectChainCache := x, log := l } := by
  intro effects
  induction effects with
  | nil => intro i c; exact ⟨_, _, _, rfl⟩
  | cons slot rest ih =>
    intro i c
    unfold ProcessEffectChain_loop
    simp only []
    obtain ⟨n, x, l, e⟩ := ih (i + 1) (ProcessEffectChain_body samples i slot c).2
    obtain ⟨n1, x1, l1, e1⟩ := ProcessEffectChain_body_engine samples i slot c
    rw [e, e1]
    exact ⟨_, _, _, rfl⟩

theorem ProcessEffectChain_engine (K : Env) (effects : List EffectSlot) (audio : FAudio)
    (channels sampleRate : Nat) (buffer : FloatBuf) (samples : Nat) :
    ∃ n x l, (FAudio_INTERNAL_ProcessEffectChain K effects audio channels sampleRate buffer
      samples).2.1 = { audio with effectChainSamples := n, effectChainCache := x, log := l } := by
  unfold FAudio_INTERNAL_ProcessEffectChain
  exact ProcessEffectChain_loop_engine samples effects 0 _

theorem MixSubmix_end_updateSize (audio : FAudio) (idx : Nat) :
    (MixSubmix_end audio idx).updateSize = audio.updateSize := by
  unfold MixSubmix_end
  cases audio.submixes.get? idx <;> rfl

theorem submixMixInput_kept (K : Env) (audio : FAudio) (idx : Nat) (voice : FAudioSubmixVoice) :
    Kept K audio (submixMixInput K audio idx voice) := by
  unfold submixMixInput submixEffects
  split_ifs
  · obtain ⟨n, x, l, e⟩ := ProcessEffectChain_engine K voice.effects
      { audio with resampleCache := (submixFiltered K audio voice).2 }
      voice.mix.inputChannels voice.mix.inputSampleRate (submixFiltered K audio voice).2
      (submixResampled K voice / voice.mix.inputChannels)
    simp only [e]
    exact Kept_of_master rfl rfl
  · exact Kept_of_master rfl rfl

theorem MixSubmix_kept (K : Env) (h0 : 0 ≤ K.FAUDIO_MAX_VOLUME_LEVEL) (audio a1 : FAudio)
    (idx : Nat) (h : FAudio_INTERNAL_MixSubmix K audio idx = some a1) : Kept K audio a1 := by
  cases hg : audio.submixes.get? idx with
  | none =>
    unfold FAudio_INTERNAL_MixSubmix at h
    rw [hg] at h
    simp only [Option.some.injEq] at h
    rw [← h]
    exact Kept_refl K audio
  | some voice =>
    by_cases hs : voice.sends.length = 0
    · unfold FAudio_INTERNAL_MixSubmix at h
      rw [hg] at h
      simp only [hs, if_true, Option.some.injEq] at h
      rw [← h]
      exact Kept_of_master (MixSubmix_end_master audio idx) (MixSubmix_end_updateSize audio idx)
    · by_cases hc : voice.mix.inputChannels = 0
      · unfold FAudio_INTERNAL_MixSubmix at h
        rw [hg] at h
        simp only [hs, hc, if_true, if_false] at h
        exact absurd h (by simp)
      · rw [MixSubmix_unfold K audio idx voice hg hs hc] at h
        simp only [Option.some.injEq] at h
        rw [← h]
        refine Kept_trans ?_
          (Kept_of_master (MixSubmix_end_master _ idx) (MixSubmix_end_updateSize _ idx))
        exact Kept_trans (submixMixInput_kept K audio idx voice)
          (mixSends_kept K h0 _ _ _ voice.sends 0 _)

theorem MixSubmix_seq_kept (K : Env) (h0 : 0 ≤ K.FAUDIO_MAX_VOLUME_LEVEL) :
    ∀ (idxs : List Nat) (audio a1 : FAudio), MixSubmix_seq K idxs audio = some a1 →
      Kept K audio a1 := by
  intro idxs
  induction idxs with
  | nil =>
    intro audio a1 h
    simp only [MixSubmix_seq, Option.some.injEq] at h
    rw [← h]
    exact Kept_refl K audio
  | cons k rest ih =>
    intro audio a1 h
    simp only [MixSubmix_seq] at h
    cases hm : FAudio_INTERNAL_MixSubmix K audio k with
    | none => rw [hm] at h; exact absurd h (by simp)
    | some audio1 =>
      rw [hm] at h
      exact Kept_trans (MixSubmix_kept K h0 audio audio1 k hm) (ih audio1 a1 h)

theorem MixSource_resample_engine (voice : FAudioSourceVoice) (audio : FAudio)
    (mixed pos toDecode : Nat) :
    (MixSource_resample voice audio mixed pos toDecode).2.1.master = audio.master ∧
    (MixSource_resample voice audio mixed pos toDecode).2.1.updateSize = audio.updateSize := by
  unfold MixSource_resample FAudio_INTERNAL_ResamplePCM
  simp only []
  split_ifs <;> exact ⟨rfl, rfl⟩

theorem MixSource_loop_engine (K : Env) (dfuel : Nat) :
    ∀ (fuel : Nat) (voice : FAudioSourceVoice) (audio : FAudio) (mixed pos : Nat)
      (r : FAudioSourceVoice × FAudio × Nat),
      MixSource_loop K dfuel fuel voice audio mixed pos = some r →
      r.2.1.master = audio.master ∧ r.2.1.updateSize = audio.updateSize := by
  intro fuel
  induction fuel with
  | zero =>
    intro voice audio mixed pos r h
    simp [MixSource_loop] at h
  | succ fuel ih =>
    intro voice audio mixed pos r h
    unfold MixSource_loop at h
    split_ifs at h with hc
    · cases hd : FAudio_INTERNAL_DecodeBuffers K dfuel voice audio
          (MixSource_toDecode voice mixed) with
      | none => rw [hd] at h; exact absurd h (by simp)
      | some r1 =>
        obtain ⟨voice1, audio1, toDecode⟩ := r1
        rw [hd] at h
        simp only [] at h
        split_ifs at h with hz
        have hs := (DecodeBuffers_same K dfuel voice audio _ _ hd).2
        have hs1 : audio1.master = audio.master := hs.master
        have hs2 : audio1.updateSize = audio.updateSize := hs.updateSize
        obtain ⟨e1, e2⟩ := ih _ _ _ _ r h
        obtain ⟨g1, g2⟩ := MixSource_resample_engine voice1 audio1 mixed pos toDecode
        exact ⟨e1.trans (g1.trans hs1), e2.trans (g2.trans hs2)⟩
    · simp only [Option.some.injEq] at h
      rw [← h]
      exact ⟨rfl, rfl⟩

theorem MixSource_end_kept (K : Env) (voice : FAudioSourceVoice) (audio : FAudio) :
    Kept K audio (MixSource_end voice audio).2 := by
  unfold MixSource_end
  split_ifs <;> exact Kept_of_master rfl rfl

theorem MixSource_output_kept (K : Env) (h0 : 0 ≤ K.FAUDIO_MAX_VOLUME_LEVEL)
    (voice : FAudioSourceVoice) (audio : FAudio) (mixed : Nat) :
    Kept K audio (MixSource_output K voice audio mixed).2 := by
  unfold MixSource_output
  by_cases h1 : mixed = 0
  · rw [if_pos h1]
    exact MixSource_end_kept K voice audio
  · rw [if_neg h1]
    by_cases h2 : voice.sends.length = 0
    · rw [if_pos h2]
      exact MixSource_end_kept K voice audio
    · rw [if_neg h2]
      simp only []
      refine Kept_trans ?_ (MixSource_end_kept K _ _)
      refine Kept_trans ?_ (mixSends_kept K h0 _ _ _ voice.sends 0 _)
      by_cases h3 : voice.effects.length > 0
      · simp only [h3, if_true]
        obtain ⟨n, x, l, e⟩ := ProcessEffectChain_engine K voice.effects
          { audio with resampleCache :=
              (if voice.flags &&& K.FAUDIO_VOICE_USEFILTER ≠ 0 then
                FAudio_INTERNAL_FilterVoice voice.filter voice.filterState audio.resampleCache
                  mixed voice.src.format.nChannels
              else (voice.filterState, audio.resampleCache)).2 }
          voice.src.format.nChannels voice.src.format.nSamplesPerSec
          (if voice.flags &&& K.FAUDIO_VOICE_USEFILTER ≠ 0 then
                FAudio_INTERNAL_FilterVoice voice.filter voice.filterState audio.resampleCache
                  mixed voice.src.format.nChannels
              else (voice.filterState, audio.resampleCache)).2 mixed
        rw [e]
        exact Kept_of_master rfl rfl
      · simp only [h3, if_false]
        exact Kept_of_master rfl rfl

theorem MixSource_kept (K : Env) (h0 : 0 ≤ K.FAUDIO_MAX_VOLUME_LEVEL) (fuel : Nat)
    (voice : FAudioSourceVoice) (audio : FAudio) (r : FAudioSourceVoice × FAudio)
    (h : FAudio_INTERNAL_MixSource K fuel voice audio = some r) : Kept K audio r.2 := by
  unfold FAudio_INTERNAL_MixSource at h
  simp only [] at h
  have hlog : ∀ b : Bool, Kept K audio
      (if b = true then { audio with log := audio.log ++
        [Event.OnVoiceProcessingPassStart ((MixSource_step voice audio).src.decodeSamples * 2)] }
      else audio) := by
    intro b
    split_ifs
    · exact Kept_of_master rfl rfl
    · exact Kept_refl K audio
  cases hq : (MixSource_step voice audio).src.bufferList with
  | nil =>
    rw [hq] at h
    simp only [Option.some.injEq] at h
    rw [← h]
    exact Kept_trans (hlog _) (MixSource_end_kept K _ _)
  | cons b rest =>
    rw [hq] at h
    simp only [Option.map_eq_some'] at h
    obtain ⟨r1, hl, hr⟩ := h
    rw [← hr]
    obtain ⟨e1, e2⟩ := MixSource_loop_engine K fuel fuel _ _ 0 0 r1 hl
    exact Kept_trans (Kept_trans (hlog _) (Kept_of_master e1 e2))
      (MixSource_output_kept K h0 r1.1 r1.2.1 r1.2.2)

theorem UpdateEngine_sources_kept (K : Env) (h0 : 0 ≤ K.FAUDIO_MAX_VOLUME_LEVEL) (fuel : Nat) :
    ∀ (sources : List FAudioSourceVoice) (audio : FAudio)
      (r : List FAudioSourceVoice × FAudio),
      UpdateEngine_sources K fuel sources audio = some r → Kept K audio r.2 := by
  intro sources
  induction sources with
  | nil =>
    intro audio r h
    simp only [UpdateEngine_sources, Option.some.injEq] at h
    rw [← h]
    exact Kept_refl K audio
  | cons source rest ih =>
    intro audio r h
    unfold UpdateEngine_sources at h
    split_ifs at h
    · cases hm : FAudio_INTERNAL_MixSource K fuel source audio with
      | none => rw [hm] at h; exact absurd h (by simp)
      | some r1 =>
        obtain ⟨source1, audio1⟩ := r1
        rw [hm] at h
        simp only [Option.map_eq_some'] at h
        obtain ⟨r2, h2, h3⟩ := h
        rw [← h3]
        exact Kept_trans (MixSource_kept K h0 fuel source audio _ hm) (ih audio1 r2 h2)
    · simp only [Option.map_eq_some'] at h
      obtain ⟨r2, h2, h3⟩ := h
      rw [← h3]
      exact ih audio r2 h2


theorem UpdateEngine_no_voices (K : Env) (fuel : Nat) (audio : FAudio) (out : FloatBuf)
    (hact : audio.active = true) (hsrc : audio.sources = []) (hsub : audio.submixes = []) :
    FAudio_INTERNAL_UpdateEngine K fuel audio out =
      some (UpdateEngine_finish K (UpdateEngine_start audio out)) := by
  rw [UpdateEngine_eq, if_neg (by simp [hact]), hsrc]
  simp only [UpdateEngine_sources, Option.some_bind]
  have hst : ({ UpdateEngine_start audio out with sources := [] } : FAudio) =
      UpdateEngine_start audio out := by
    unfold UpdateEngine_start
    simp only [hsrc]
  have hk : (UpdateEngine_start audio out).submixes = [] := hsub
  have ho : ∀ S, submixOrder (List.map submixKey []) S = [] := by
    intro S
    simp [submixOrder, stageMembers]
  rw [hst, hk, ho]
  rfl

/-- Counterexample for C10: the example engine (active, no source and no submix
voices, master volume 1, no master effects, volume limit `2^24`) and an array
`out` that holds `2^25`, a value of the type `float`, before the call: the call
returns and the first float of `out` is still `2^25`, above the limit. -/
theorem c10_output_range_counterexample :
    ∃ a1 out1, FAudio_INTERNAL_UpdateEngine exampleEnv 10 exampleAudio (fun _ => 33554432) =
        some (a1, out1) ∧
      ¬ (-exampleEnv.FAUDIO_MAX_VOLUME_LEVEL ≤ out1 0 ∧
        out1 0 ≤ exampleEnv.FAUDIO_MAX_VOLUME_LEVEL) := by
  refine ⟨(UpdateEngine_finish exampleEnv
      (UpdateEngine_start exampleAudio (fun _ => 33554432))).1,
    (UpdateEngine_finish exampleEnv (UpdateEngine_start exampleAudio (fun _ => 33554432))).2,
    UpdateEngine_no_voices exampleEnv 10 exampleAudio _ rfl rfl rfl, ?_⟩
  have h1 : (UpdateEngine_finish exampleEnv
      (UpdateEngine_start exampleAudio (fun _ => 33554432))).2 0 = 33554432 := by
    show (UpdateEngine_master exampleEnv
      (UpdateEngine_start exampleAudio (fun _ => 33554432))).master.master.output 0 = 33554432
    rw [UpdateEngine_master_plain exampleEnv _ rfl rfl]
    rfl
  rw [h1]
  intro h
  have h2 : exampleEnv.FAUDIO_MAX_VOLUME_LEVEL = 16777216 := rfl
  rw [h2] at h
  exact absurd h.2 (by norm_num)

theorem UpdateEngine_finish_output (K : Env) (audio : FAudio)
    (heff : audio.master.effects = []) :
    (UpdateEngine_finish K audio).2 =
      (if audio.master.volume ≠ 1 then
        applyVolume K audio.master.volume
          (wrap32 (audio.updateSize * audio.master.master.inputChannels))
          audio.master.master.output
      else audio.master.master.output) := by
  unfold UpdateEngine_finish UpdateEngine_master
  simp [heff]

/-- C10, as amended: after a call of `FAudio_INTERNAL_UpdateEngine` that
returns, on an active engine without master effects (a volume limit that is not
negative, `updateSize * masterChannels` below `2^32`), each of the
`updateSize * masterChannels` samples of the output buffer lies within the
volume limits when the master volume is not 1, and for master volume 1 each of
these samples that was within the limits before the call is within them
afterwards; this for every set of source and submix voices. -/
theorem c10_output_range (K : Env) (fuel : Nat) (audio a1 : FAudio) (out out1 : FloatBuf)
    (h0 : 0 ≤ K.FAUDIO_MAX_VOLUME_LEVEL) (hact : audio.active = true)
    (heff : audio.master.effects = [])
    (hN : audio.updateSize * audio.master.master.inputChannels < 2 ^ 32)
    (hret : FAudio_INTERNAL_UpdateEngine K fuel audio out = some (a1, out1)) :
    (audio.master.volume ≠ 1 →
      ∀ k, k < audio.updateSize * audio.master.master.inputChannels → InRange K (out1 k)) ∧
    (audio.master.volume = 1 →
      ∀ k, InRange K (out k) → InRange K (out1 k)) := by
  rw [UpdateEngine_eq, if_neg (by simp [hact])] at hret
  simp only [Option.bind_eq_some, Option.map_eq_some'] at hret
  obtain ⟨r, hsrc, a5, hsub, hfin⟩ := hret
  have k1 := UpdateEngine_sources_kept K h0 fuel audio.sources _ r hsrc
  have k2 := MixSubmix_seq_kept K h0 _ _ a5 hsub
  have k3 : Kept K r.2 ({ r.2 with sources := r.1 } : FAudio) := Kept_of_master rfl rfl
  have hkept : Kept K (UpdateEngine_start audio out) a5 :=
    Kept_trans (Kept_trans k1 k3) k2
  have hv : a5.master.volume = audio.master.volume := congrArg FAudioVoice.volume hkept.voice
  have he : a5.master.effects = [] :=
    (congrArg FAudioVoice.effects hkept.voice).trans heff
  have hc : a5.master.master.inputChannels = audio.master.master.inputChannels := hkept.channels
  have hu : a5.updateSize = audio.updateSize := hkept.updateSize
  have ho : out1 = (UpdateEngine_finish K a5).2 := by rw [hfin]
  rw [ho, UpdateEngine_finish_output K a5 he, hv, hu, hc]
  constructor
  · intro hvol k hk
    rw [if_pos hvol]
    unfold applyVolume
    rw [if_pos (by unfold wrap32; rw [Nat.mod_eq_of_lt hN]; exact hk)]
    exact FAudio_clamp_inRange K h0 _
  · intro hvol k hk
    rw [if_neg (by simp [hvol])]
    exact hkept.range k hk


/-! ## A buffer that does not loop -/

theorem writeAt_getD (buf : FloatBuf) (off : Nat) (vals : List Sample) (k : Nat)
    (h : k < vals.length) : writeAt buf off vals (off + k) = vals.getD k 0 := by
  unfold writeAt
  rw [if_pos (by omega)]
  congr 1
  omega

theorem FAudio_zero_of_lt (buf : FloatBuf) (off n k : Nat) (h : k < off) :
    FAudio_zero buf off n k = buf k := by
  unfold FAudio_zero
  rw [if_neg]; omega

/-- What one pass of the loop of `FAudio_INTERNAL_DecodeBuffers` leaves in the
decode cache below the end of the frames it decoded. -/
theorem DecodeBuffers_body_cache (K : Env) (voice : FAudioSourceVoice) (audio : FAudio)
    (buffer : FAudioBuffer) (next : List FAudioBuffer) (toDecode decoded : Nat)
    (hlen : (voice.src.decode buffer voice.src.curBufferOffset
      (endReadOf voice buffer toDecode decoded) voice.src.format).length =
        endReadOf voice buffer toDecode decoded * voice.src.format.nChannels)
    (k : Nat) (hk : k < endReadOf voice buffer toDecode decoded * voice.src.format.nChannels) :
    (DecodeBuffers_body K voice audio buffer next toDecode decoded).2.1.decodeCache
        (decoded * voice.src.format.nChannels + k) =
      (voice.src.decode buffer voice.src.curBufferOffset
        (endReadOf voice buffer toDecode decoded) voice.src.format).getD k 0 := by
  unfold endReadOf avail at hlen hk
  have hz : decoded * voice.src.format.nChannels + k <
      (decoded + FAudio_min (sub32 (bufferEnd buffer) voice.src.curBufferOffset)
        (sub32 toDecode decoded)) * voice.src.format.nChannels := by
    rw [Nat.add_mul]; omega
  unfold DecodeBuffers_body endReadOf avail
  cases next <;>
    (simp only []; split_ifs <;>
      simp only [FAudio_zero_of_lt _ _ _ _ hz, writeAt_getD _ _ _ _ (by rw [hlen]; exact hk)])

theorem DecodeBuffers_padding_cache (K : Env) (voice : FAudioSourceVoice) (audio : FAudio)
    (decoded k : Nat) (hk : k < decoded * voice.src.format.nChannels) :
    (DecodeBuffers_padding K voice audio decoded).decodeCache k = audio.decodeCache k := by
  unfold DecodeBuffers_padding
  split
  · simp only []
    split_ifs
    · rw [FAudio_zero_of_lt _ _ _ _ hk, writeAt_of_lt _ _ _ _ hk]
    · rw [writeAt_of_lt _ _ _ _ hk]
  · simp only []
    rw [FAudio_zero_of_lt _ _ _ _ hk]

theorem DecodeBuffers_loop_cons (K : Env) (toDecode fuel : Nat) (voice : FAudioSourceVoice)
    (audio : FAudio) (decoded : Nat) (buffer : FAudioBuffer) (next : List FAudioBuffer)
    (hq : voice.src.bufferList = buffer :: next) (hlt : decoded < toDecode) :
    DecodeBuffers_loop K toDecode (fuel + 1) voice audio decoded =
      DecodeBuffers_loop K toDecode fuel
        (DecodeBuffers_body K voice audio buffer next toDecode decoded).1
        (DecodeBuffers_body K voice audio buffer next toDecode decoded).2.1
        (DecodeBuffers_body K voice audio buffer next toDecode decoded).2.2 := by
  rw [DecodeBuffers_loop]
  split
  · rename_i h; rw [hq] at h; cases h
  · rename_i b n h
    rw [hq] at h
    obtain ⟨h1, h2⟩ := List.cons.inj h
    subst h1 h2
    rw [if_pos hlt]

theorem DecodeBuffers_loop_done (K : Env) (toDecode fuel : Nat) (voice : FAudioSourceVoice)
    (audio : FAudio) (decoded : Nat)
    (h : voice.src.bufferList = [] ∨ ¬ decoded < toDecode) :
    DecodeBuffers_loop K toDecode (fuel + 1) voice audio decoded =
      some (voice, audio, decoded) := by
  rw [DecodeBuffers_loop]
  split
  · rfl
  · rename_i b n hq
    rcases h with h | h
    · rw [hq] at h; cases h
    · rw [if_neg h]

theorem DecodeBuffers_of_loop (K : Env) (fuel : Nat) (voice : FAudioSourceVoice)
    (audio : FAudio) (toDecode : Nat) (v : FAudioSourceVoice) (a : FAudio) (d : Nat)
    (h : DecodeBuffers_loop K toDecode fuel voice audio 0 = some (v, a, d)) :
    FAudio_INTERNAL_DecodeBuffers K fuel voice audio toDecode =
      some (v, DecodeBuffers_padding K v a d, d) := by
  unfold FAudio_INTERNAL_DecodeBuffers
  rw [h]
  rfl


theorem DecodeBuffers_one_pass (K : Env) (voice : FAudioSourceVoice) (audio : FAudio)
    (b : FAudioBuffer) (next : List FAudioBuffer) (toDecode fuel : Nat)
    (hq : voice.src.bufferList = b :: next) (hT0 : 0 < toDecode)
    (hstop : (DecodeBuffers_body K voice audio b next toDecode 0).1.src.bufferList = [] ∨
      ¬ (DecodeBuffers_body K voice audio b next toDecode 0).2.2 < toDecode) :
    FAudio_INTERNAL_DecodeBuffers K (fuel + 1 + 1) voice audio toDecode =
      some ((DecodeBuffers_body K voice audio b next toDecode 0).1,
        DecodeBuffers_padding K (DecodeBuffers_body K voice audio b next toDecode 0).1
          (DecodeBuffers_body K voice audio b next toDecode 0).2.1
          (DecodeBuffers_body K voice audio b next toDecode 0).2.2,
        (DecodeBuffers_body K voice audio b next toDecode 0).2.2) :=
  DecodeBuffers_of_loop K (fuel + 1 + 1) voice audio toDecode
    (DecodeBuffers_body K voice audio b next toDecode 0).1
    (DecodeBuffers_body K voice audio b next toDecode 0).2.1
    (DecodeBuffers_body K voice audio b next toDecode 0).2.2
    (Eq.trans (DecodeBuffers_loop_cons K toDecode (fuel + 1) voice audio 0 b next hq hT0)
      (DecodeBuffers_loop_done K toDecode fuel
        (DecodeBuffers_body K voice audio b next toDecode 0).1
        (DecodeBuffers_body K voice audio b next toDecode 0).2.1
        (DecodeBuffers_body K voice audio b next toDecode 0).2.2 hstop))

/-- One call of `FAudio_INTERNAL_DecodeBuffers` on a queue that holds a single
buffer without loops, with a decoder that reads the frames `inp`: the count
returned, the queue afterwards and the frames in the decode cache. -/
theorem DecodeBuffers_single (K : Env) (voice : FAudioSourceVoice) (audio : FAudio)
    (b : FAudioBuffer) (toDecode fuel : Nat) (inp : Nat → Sample)
    (hq : voice.src.bufferList = [b]) (hLC : b.LoopCount = 0)
    (hhi : voice.src.curBufferOffset ≤ b.PlayBegin + b.PlayLength)
    (h32 : b.PlayBegin + b.PlayLength < 2 ^ 32)
    (hT0 : 0 < toDecode) (hT : toDecode < 2 ^ 32) (hfuel : 2 ≤ fuel)
    (hdec : ∀ off n, off + n ≤ b.PlayBegin + b.PlayLength →
      voice.src.decode b off n voice.src.format =
        (List.range (n * voice.src.format.nChannels)).map
          (fun i => inp (off * voice.src.format.nChannels + i))) :
    ∃ v1 a1 d, FAudio_INTERNAL_DecodeBuffers K fuel voice audio toDecode = some (v1, a1, d) ∧
      d = min toDecode (b.PlayBegin + b.PlayLength - voice.src.curBufferOffset) ∧
      SameVoice voice v1 ∧ SameEngine audio a1 ∧
      (toDecode ≤ b.PlayBegin + b.PlayLength - voice.src.curBufferOffset →
        v1.src.bufferList = [b] ∧
        v1.src.curBufferOffset = voice.src.curBufferOffset + toDecode) ∧
      (b.PlayBegin + b.PlayLength - voice.src.curBufferOffset < toDecode →
        v1.src.bufferList = []) ∧
      (∀ k, k < min toDecode (b.PlayBegin + b.PlayLength - voice.src.curBufferOffset) *
          voice.src.format.nChannels →
        a1.decodeCache k = inp (voice.src.curBufferOffset * voice.src.format.nChannels + k)) := by
  obtain ⟨m, rfl⟩ : ∃ m, fuel = m + 1 + 1 := ⟨fuel - 2, by omega⟩
  have hsub : sub32 toDecode 0 = toDecode := by simp only [sub32, wrap32]; omega
  have hav : avail voice b = b.PlayBegin + b.PlayLength - voice.src.curBufferOffset := by
    unfold avail bufferEnd
    rw [if_neg (by omega)]
    simp only [sub32, wrap32]; omega
  have her : endReadOf voice b toDecode 0 =
      min toDecode (b.PlayBegin + b.PlayLength - voice.src.curBufferOffset) := by
    unfold endReadOf
    rw [FAudio_min_eq, hsub, hav, Nat.min_comm]
  have hbq := DecodeBuffers_body_queue K voice audio b [] toDecode 0
  have hbo := DecodeBuffers_body_offset K voice audio b [] toDecode 0
  have hbd := DecodeBuffers_body_decoded K voice audio b [] toDecode 0
  have hin : voice.src.curBufferOffset + endReadOf voice b toDecode 0 ≤
      b.PlayBegin + b.PlayLength := by
    rw [her]; omega
  have hbc := DecodeBuffers_body_cache K voice audio b [] toDecode 0
    (by rw [hdec _ _ hin]; simp)
  rw [her] at hin
  have hsv := DecodeBuffers_body_sameVoice K voice audio b [] toDecode 0
  have hse := DecodeBuffers_body_sameEngine K voice audio b [] toDecode 0
  rw [her] at hbd hbc
  unfold bodyQueue at hbq
  unfold bodyOffset at hbo
  rw [hsub, her] at hbq hbo
  have hbd2 : (DecodeBuffers_body K voice audio b [] toDecode 0).2.2 =
      min toDecode (b.PlayBegin + b.PlayLength - voice.src.curBufferOffset) := by
    rw [hbd]; simp only [wrap32]; omega
  have hstop : (DecodeBuffers_body K voice audio b [] toDecode 0).1.src.bufferList = [] ∨
      ¬ (DecodeBuffers_body K voice audio b [] toDecode 0).2.2 < toDecode := by
    by_cases hc : toDecode ≤ b.PlayBegin + b.PlayLength - voice.src.curBufferOffset
    · right
      rw [hbd2]; omega
    · left
      rw [hbq, if_pos (show min toDecode (b.PlayBegin + b.PlayLength -
        voice.src.curBufferOffset) < toDecode by omega),
        if_neg (show ¬ b.LoopCount > 0 by omega)]
  refine ⟨(DecodeBuffers_body K voice audio b [] toDecode 0).1,
    DecodeBuffers_padding K (DecodeBuffers_body K voice audio b [] toDecode 0).1
      (DecodeBuffers_body K voice audio b [] toDecode 0).2.1
      (DecodeBuffers_body K voice audio b [] toDecode 0).2.2,
    (DecodeBuffers_body K voice audio b [] toDecode 0).2.2,
    DecodeBuffers_one_pass K voice audio b [] toDecode m hq hT0 hstop, hbd2, hsv,
    SameEngine.transE hse (DecodeBuffers_padding_sameEngine K
      (DecodeBuffers_body K voice audio b [] toDecode 0).1
      (DecodeBuffers_body K voice audio b [] toDecode 0).2.1
      (DecodeBuffers_body K voice audio b [] toDecode 0).2.2), ?_, ?_, ?_⟩
  · intro hc
    constructor
    · rw [hbq, if_neg (show ¬ min toDecode (b.PlayBegin + b.PlayLength -
        voice.src.curBufferOffset) < toDecode by omega), hq]
    · rw [hbo, if_neg (show ¬ min toDecode (b.PlayBegin + b.PlayLength -
        voice.src.curBufferOffset) < toDecode by omega), Nat.min_eq_left hc]
      simp only [wrap32]; omega
  · intro hc
    rw [hbq, if_pos (show min toDecode (b.PlayBegin + b.PlayLength -
        voice.src.curBufferOffset) < toDecode by omega),
      if_neg (show ¬ b.LoopCount > 0 by omega)]
  · intro k hk
    rw [DecodeBuffers_padding_cache K _ _ _ k
      (by rw [hbd2, hsv.format]; exact hk)]
    have := hbc k hk
    rw [Nat.zero_mul, Nat.zero_add] at this
    rw [this, hdec _ _ hin, List.getD_eq_getElem?_getD, List.getElem?_map,
      List.getElem?_range hk]
    rfl
/-! ## One tick at a whole-number rate -/

theorem MixSource_toResample_integer (voice : FAudioSourceVoice) (k d : Nat)
    (hstep : voice.src.resampleStep = k * 2 ^ 32)
    (hdec : voice.src.curBufferOffsetDec = 0) (hR : voice.src.resampleSamples < 2 ^ 32)
    (hd : d ≤ voice.src.resampleSamples * k) (hd32 : d < 2 ^ 32) :
    MixSource_toResample voice 0 d = d / k := by
  unfold MixSource_toResample
  simp only [shl_prec, hdec, hstep, FAudio_min_eq]
  have h1 : wrap64 (d * 2 ^ 32) = d * 2 ^ 32 := by unfold wrap64; omega
  have h2 : sub64 (d * 2 ^ 32) 0 = d * 2 ^ 32 := by unfold sub64 wrap64; omega
  have h3 : sub32 voice.src.resampleSamples 0 = voice.src.resampleSamples := by
    unfold sub32 wrap32; omega
  rw [h1, h2, h3, Nat.mul_div_mul_right _ _ (by norm_num : 0 < 2 ^ 32)]
  apply Nat.min_eq_left
  apply Nat.div_le_of_le_mul
  rw [Nat.mul_comm]
  exact hd

theorem MixSource_resample_queue (voice : FAudioSourceVoice) (audio : FAudio)
    (mixed pos toDecode : Nat) :
    (MixSource_resample voice audio mixed pos toDecode).1.src.bufferList =
      voice.src.bufferList ∧
    (MixSource_resample voice audio mixed pos toDecode).1.src.resampleStep =
      voice.src.resampleStep ∧
    (MixSource_resample voice audio mixed pos toDecode).1.src.resampleSamples =
      voice.src.resampleSamples ∧
    (MixSource_resample voice audio mixed pos toDecode).1.src.format = voice.src.format ∧
    (MixSource_resample voice audio mixed pos toDecode).1.src.decode = voice.src.decode := by
  unfold MixSource_resample FAudio_INTERNAL_ResamplePCM
  simp only []
  split_ifs <;> cases voice.src.bufferList <;> exact ⟨rfl, rfl, rfl, rfl, rfl⟩

theorem MixSource_resample_offsets (voice : FAudioSourceVoice) (audio : FAudio)
    (mixed pos toDecode : Nat) :
    (voice.src.bufferList = [] →
      (MixSource_resample voice audio mixed pos toDecode).1.src.curBufferOffsetDec = 0 ∧
      (MixSource_resample voice audio mixed pos toDecode).1.src.curBufferOffset = 0) ∧
    (voice.src.bufferList ≠ [] →
      (MixSource_resample voice audio mixed pos toDecode).1.src.curBufferOffsetDec =
        wrap64 (voice.src.curBufferOffsetDec +
          wrap64 (MixSource_toResample voice mixed toDecode * voice.src.resampleStep)) %
            2 ^ 32 ∧
      (MixSource_resample voice audio mixed pos toDecode).1.src.curBufferOffset =
        voice.src.curBufferOffset) := by
  unfold MixSource_resample FAudio_INTERNAL_ResamplePCM
  simp only []
  split_ifs <;> cases h : voice.src.bufferList <;> simp [and_mask]

theorem MixSource_resample_resampleOffset (voice : FAudioSourceVoice) (audio : FAudio)
    (mixed pos toDecode : Nat) (hstep : voice.src.resampleStep + 2 ^ 32 ≤ 2 ^ 64)
    (ho : voice.src.resampleOffset < 2 ^ 64) :
    (MixSource_resample voice audio mixed pos toDecode).1.src.resampleOffset =
      if voice.src.resampleStep = FIXED_ONE then voice.src.resampleOffset
      else wrap64 (voice.src.resampleOffset +
        MixSource_toResample voice mixed toDecode * voice.src.resampleStep) := by
  have hs := (ResamplePCM_loop_spec voice.src.format.nChannels voice.src.resampleStep
    audio.decodeCache hstep (MixSource_toResample voice mixed toDecode)
    { dCache := 0
      cur := voice.src.resampleOffset &&& FIXED_FRACTION_MASK
      resampleOffset := voice.src.resampleOffset
      out := audio.resampleCache
      pos := pos }
    (by simp only [and_mask]; omega) ho).1
  unfold MixSource_resample FAudio_INTERNAL_ResamplePCM
  simp only []
  split_ifs <;> cases h : voice.src.bufferList <;> simp only [] <;> first | rfl | exact hs

theorem MixSource_resample_cache (voice : FAudioSourceVoice) (audio : FAudio)
    (mixed toDecode k : Nat) (hstep : voice.src.resampleStep = k * 2 ^ 32)
    (hk32 : k < 2 ^ 32)
    (hf : voice.src.resampleOffset % 2 ^ 32 = 0) (ho : voice.src.resampleOffset < 2 ^ 64)
    (i c : Nat) (hi : i < MixSource_toResample voice mixed toDecode)
    (hc : c < voice.src.format.nChannels) :
    (MixSource_resample voice audio mixed 0 toDecode).2.1.resampleCache
        (i * voice.src.format.nChannels + c) =
      audio.decodeCache (i * k * voice.src.format.nChannels + c) := by
  by_cases h1 : voice.src.resampleStep = FIXED_ONE
  · have hk1 : k = 1 := by
      rw [hstep, FIXED_ONE_eq] at h1
      omega
    subst hk1
    unfold MixSource_resample
    simp only [h1, if_true]
    unfold FAudio_memcpy
    rw [if_pos ⟨Nat.zero_le _, by
      have := Nat.mul_le_mul_right voice.src.format.nChannels (Nat.succ_le_of_lt hi)
      rw [Nat.succ_mul] at this
      omega⟩]
    simp
  · have hs := (ResamplePCM_loop_spec voice.src.format.nChannels voice.src.resampleStep
      audio.decodeCache (by rw [hstep]; omega) (MixSource_toResample voice mixed toDecode)
      { dCache := 0
        cur := voice.src.resampleOffset &&& FIXED_FRACTION_MASK
        resampleOffset := voice.src.resampleOffset
        out := audio.resampleCache
        pos := 0 }
      (by simp only [and_mask]; omega) ho).2.2.2.2 i c hi hc
    simp only [and_mask, hf, hstep, Nat.zero_add] at hs
    have e1 : i * (k * 2 ^ 32) / 2 ^ 32 = i * k := by
      rw [← Nat.mul_assoc, Nat.mul_div_cancel _ (by norm_num : 0 < 2 ^ 32)]
    have e2 : i * (k * 2 ^ 32) % 2 ^ 32 = 0 := by
      rw [← Nat.mul_assoc, Nat.mul_mod_left]
    rw [e1, e2] at hs
    simp only [Nat.cast_zero, zero_div, mul_zero, add_zero] at hs
    unfold MixSource_resample FAudio_INTERNAL_ResamplePCM
    simp only [h1, if_false]
    simp only [and_mask, hf, hstep]
    exact hs

theorem MixSource_loop_cons (K : Env) (dfuel fuel : Nat) (voice : FAudioSourceVoice)
    (audio : FAudio) (mixed pos : Nat) (v1 : FAudioSourceVoice) (a1 : FAudio) (d : Nat)
    (hc : mixed < voice.src.resampleSamples ∧ voice.src.bufferList.isEmpty = false)
    (hd : FAudio_INTERNAL_DecodeBuffers K dfuel voice audio (MixSource_toDecode voice mixed) =
      some (v1, a1, d))
    (hs : v1.src.resampleStep ≠ 0) :
    MixSource_loop K dfuel (fuel + 1) voice audio mixed pos =
      MixSource_loop K dfuel fuel (MixSource_resample v1 a1 mixed pos d).1
        (MixSource_resample v1 a1 mixed pos d).2.1
        (MixSource_resample v1 a1 mixed pos d).2.2.1
        (MixSource_resample v1 a1 mixed pos d).2.2.2 := by
  rw [MixSource_loop, if_pos hc, hd]
  simp only []
  rw [if_neg hs]

theorem MixSource_loop_done (K : Env) (dfuel fuel : Nat) (voice : FAudioSourceVoice)
    (audio : FAudio) (mixed pos : Nat)
    (h : ¬ (mixed < voice.src.resampleSamples ∧ voice.src.bufferList.isEmpty = false)) :
    MixSource_loop K dfuel (fuel + 1) voice audio mixed pos = some (voice, audio, mixed) := by
  rw [MixSource_loop, if_neg h]

theorem MixSource_toDecode_integer (voice : FAudioSourceVoice) (k : Nat)
    (hstep : voice.src.resampleStep = k * 2 ^ 32)
    (hdec : voice.src.curBufferOffsetDec = 0) (hR0 : 0 < voice.src.resampleSamples)
    (hreq : voice.src.resampleSamples * k < 2 ^ 32) (hk : 1 ≤ k) :
    MixSource_toDecode voice 0 = voice.src.resampleSamples * k := by
  have hR : voice.src.resampleSamples < 2 ^ 32 := by
    have := Nat.le_mul_of_pos_right voice.src.resampleSamples hk
    omega
  have e : (voice.src.resampleSamples - 0) * voice.src.resampleStep =
      voice.src.resampleSamples * k * 2 ^ 32 := by
    rw [hstep, Nat.sub_zero, Nat.mul_assoc]
  rw [MixSource_toDecode_eq voice 0 hR0 hR (by rw [e, hdec]; omega), e, hdec]
  omega
/-- One tick of the decode/resample loop at a whole-number rate `k`, on a queue
that holds the buffer `b`: the number of frames it leaves in the resample
cache, the frames, and the state of the voice afterwards. -/
theorem MixSource_loop_integer (K : Env) (fuel : Nat) (voice : FAudioSourceVoice)
    (audio : FAudio) (b : FAudioBuffer) (inp : Nat → Sample) (k : Nat)
    (h : IntegerPlay voice b inp k) (hq : voice.src.bufferList = [b])
    (hhi : voice.src.curBufferOffset ≤ b.PlayBegin + b.PlayLength) (hfuel : 2 ≤ fuel) :
    ∃ v1 a1 mixed, MixSource_loop K fuel fuel voice audio 0 0 = some (v1, a1, mixed) ∧
      mixed = min voice.src.resampleSamples
        ((b.PlayBegin + b.PlayLength - voice.src.curBufferOffset) / k) ∧
      IntegerPlay v1 b inp k ∧
      v1.src.format = voice.src.format ∧
      v1.src.resampleSamples = voice.src.resampleSamples ∧
      (voice.src.resampleSamples * k ≤
          b.PlayBegin + b.PlayLength - voice.src.curBufferOffset →
        v1.src.bufferList = [b] ∧
        v1.src.curBufferOffset = voice.src.curBufferOffset + voice.src.resampleSamples * k) ∧
      (b.PlayBegin + b.PlayLength - voice.src.curBufferOffset <
          voice.src.resampleSamples * k → v1.src.bufferList = []) ∧
      (∀ i c, i < mixed → c < voice.src.format.nChannels →
        a1.resampleCache (i * voice.src.format.nChannels + c) =
          inp ((voice.src.curBufferOffset + i * k) * voice.src.format.nChannels + c)) := by
  obtain ⟨m, rfl⟩ : ∃ m, fuel = m + 1 + 1 := ⟨fuel - 2, by omega⟩
  have hk := h.k_pos
  have hR0 := h.samples_pos
  have hreq := h.request
  have hR : voice.src.resampleSamples < 2 ^ 32 := by
    have := Nat.le_mul_of_pos_right voice.src.resampleSamples hk
    omega
  have hkR : k ≤ voice.src.resampleSamples * k := Nat.le_mul_of_pos_left k hR0
  have hT := MixSource_toDecode_integer voice k h.step h.dec hR0 hreq hk
  have hT0 : 0 < voice.src.resampleSamples * k := Nat.mul_pos hR0 hk
  obtain ⟨v1, a1, d, hD, hd, hsv, _, hfull, hpart, hcache⟩ :=
    DecodeBuffers_single K voice audio b (voice.src.resampleSamples * k) (m + 1 + 1) inp hq
      h.noLoop hhi h.end32 hT0 hreq (by omega) h.decode
  rw [← hT] at hD
  have hstep1 : v1.src.resampleStep = k * 2 ^ 32 := hsv.resampleStep.trans h.step
  have hdec1 : v1.src.curBufferOffsetDec = 0 := by
    rcases hsv.dec with e | e
    · exact e.trans h.dec
    · exact e
  have hR1 : v1.src.resampleSamples = voice.src.resampleSamples := hsv.resampleSamples
  have hfmt1 : v1.src.format = voice.src.format := hsv.format
  have hro1 : v1.src.resampleOffset = voice.src.resampleOffset := hsv.resampleOffset
  have hdle : d ≤ voice.src.resampleSamples * k := by rw [hd]; exact Nat.min_le_left _ _
  have hn : MixSource_toResample v1 0 d = d / k :=
    MixSource_toResample_integer v1 k d hstep1 hdec1 (by rw [hR1]; exact hR)
      (by rw [hR1]; exact hdle) (by omega)
  have hnR : d / k ≤ voice.src.resampleSamples := by
    apply Nat.div_le_of_le_mul
    rw [Nat.mul_comm]
    exact hdle
  have hcons := MixSource_loop_cons K (m + 1 + 1) (m + 1) voice audio 0 0 v1 a1 d
    ⟨hR0, by rw [hq]; rfl⟩ hD (by rw [hstep1]; omega)
  obtain ⟨g1, g2, g3, g4, g5⟩ := MixSource_resample_queue v1 a1 0 0 d
  obtain ⟨o1, o2⟩ := MixSource_resample_offsets v1 a1 0 0 d
  have gro := MixSource_resample_resampleOffset v1 a1 0 0 d (by rw [hstep1]; omega)
    (by rw [hro1]; exact h.offset64)
  have gmix : (MixSource_resample v1 a1 0 0 d).2.2.1 = d / k := by
    rw [MixSource_resample_mixed, hn]
    unfold wrap32
    omega
  have hmixed : d / k = min voice.src.resampleSamples
      ((b.PlayBegin + b.PlayLength - voice.src.curBufferOffset) / k) := by
    rw [hd]
    by_cases hc : voice.src.resampleSamples * k ≤
        b.PlayBegin + b.PlayLength - voice.src.curBufferOffset
    · rw [Nat.min_eq_left hc, Nat.mul_div_cancel _ (by omega : 0 < k)]
      symm
      apply Nat.min_eq_left
      rw [Nat.le_div_iff_mul_le (by omega : 0 < k)]
      exact hc
    · have hc2 : b.PlayBegin + b.PlayLength - voice.src.curBufferOffset <
          voice.src.resampleSamples * k := by omega
      rw [Nat.min_eq_right (by omega)]
      symm
      apply Nat.min_eq_right
      apply Nat.div_le_of_le_mul
      rw [Nat.mul_comm]
      omega
  have hdone : ¬ ((MixSource_resample v1 a1 0 0 d).2.2.1 <
      (MixSource_resample v1 a1 0 0 d).1.src.resampleSamples ∧
      (MixSource_resample v1 a1 0 0 d).1.src.bufferList.isEmpty = false) := by
    rw [gmix, g3, hR1, g1]
    by_cases hc : voice.src.resampleSamples * k ≤
        b.PlayBegin + b.PlayLength - voice.src.curBufferOffset
    · intro hcon
      have : d = voice.src.resampleSamples * k := by rw [hd]; exact Nat.min_eq_left hc
      rw [this, Nat.mul_div_cancel _ (by omega : 0 < k)] at hcon
      omega
    · intro hcon
      rw [hpart (by omega)] at hcon
      exact absurd hcon.2 (by simp)
  refine ⟨(MixSource_resample v1 a1 0 0 d).1, (MixSource_resample v1 a1 0 0 d).2.1,
    (MixSource_resample v1 a1 0 0 d).2.2.1,
    Eq.trans hcons (MixSource_loop_done K (m + 1 + 1) m _ _ _ _ hdone),
    gmix.trans hmixed, ?_, g4.trans hfmt1, g3.trans hR1, ?_, ?_, ?_⟩
  · refine ⟨g2.trans hstep1, hk, by rw [g3, hR1]; exact hR0, by rw [g3, hR1]; exact hreq,
      ?_, ?_, ?_, h.noLoop, h.end32, ?_⟩
    · cases hv : v1.src.bufferList with
      | nil => exact (o1 hv).1
      | cons x xs =>
        rw [(o2 (by rw [hv]; simp)).1, hdec1, hn, hstep1, ← Nat.mul_assoc]
        unfold wrap64
        omega
    · rw [gro, hro1]
      split_ifs
      · exact h.frac
      · rw [hn, hstep1, ← Nat.mul_assoc]
        have := h.frac
        unfold wrap64
        omega
    · rw [gro, hro1]
      split_ifs
      · exact h.offset64
      · unfold wrap64
        omega
    · intro off n hin
      rw [g5, g4, hsv.decode, hfmt1]
      exact h.decode off n hin
  · intro hc
    rw [g1]
    have hv := (hfull (by omega)).1
    refine ⟨hv, ?_⟩
    rw [(o2 (by rw [hv]; simp)).2]
    exact (hfull (by omega)).2
  · intro hc
    rw [g1]
    exact hpart hc
  · intro i c hi hcc
    rw [gmix] at hi
    rw [← hfmt1, MixSource_resample_cache v1 a1 0 d k hstep1 (by omega)
      (by rw [hro1]; exact h.frac) (by rw [hro1]; exact h.offset64) i c (by rw [hn]; exact hi)
      (by rw [hfmt1]; exact hcc)]
    have hik : i * k + k ≤ d := by
      have h1 : (i + 1) * k ≤ d / k * k := Nat.mul_le_mul_right k hi
      have h2 : d / k * k ≤ d := Nat.div_mul_le_self d k
      rw [Nat.add_mul, Nat.one_mul] at h1
      omega
    have hlt : i * k * v1.src.format.nChannels + c <
        min (voice.src.resampleSamples * k)
          (b.PlayBegin + b.PlayLength - voice.src.curBufferOffset) *
          voice.src.format.nChannels := by
      rw [← hd, hfmt1]
      have h1 : (i * k + 1) * voice.src.format.nChannels ≤ d * voice.src.format.nChannels :=
        Nat.mul_le_mul_right _ (by omega)
      rw [Nat.add_mul, Nat.one_mul] at h1
      omega
    rw [hcache _ hlt, hfmt1]
    refine congrArg inp ?_
    rw [Nat.add_mul]
    omega
/-! ## Draining a buffer at a whole-number rate -/

theorem DecodePCM16_spec (b : FAudioBuffer) (format : FAudioWaveFormatEx) (off n : Nat)
    (h : (off + n) * format.nChannels < 2 ^ 32) :
    FAudio_INTERNAL_DecodePCM16 FAudio_INTERNAL_Convert_S16_To_F32_Scalar b off n format =
      (List.range (n * format.nChannels)).map
        (fun i => pcm16Input b (off * format.nChannels + i)) := by
  have h1 : wrap32 (n * format.nChannels) = n * format.nChannels := by
    unfold wrap32
    rw [Nat.add_mul] at h
    omega
  have h2 : wrap32 (off * format.nChannels) = off * format.nChannels := by
    unfold wrap32
    rw [Nat.add_mul] at h
    omega
  unfold FAudio_INTERNAL_DecodePCM16 FAudio_INTERNAL_Convert_S16_To_F32_Scalar pcm16Input
  rw [List.map_map, h1, h2]
  rfl

theorem MixSource_eq (K : Env) (fuel : Nat) (voice : FAudioSourceVoice) (audio : FAudio)
    (b : FAudioBuffer) (rest : List FAudioBuffer)
    (hratio : voice.src.resampleFreqRatio = voice.src.freqRatio)
    (hq : voice.src.bufferList = b :: rest) :
    FAudio_INTERNAL_MixSource K fuel voice audio =
      (MixSource_loop K fuel fuel voice (passStart voice audio) 0 0).map
        (fun r => MixSource_output K r.1 r.2.1 r.2.2) := by
  have hs : MixSource_step voice audio = voice := by
    unfold MixSource_step
    rw [if_neg (not_not.2 hratio)]
  unfold FAudio_INTERNAL_MixSource passStart
  simp only [hs]
  rw [hq]

theorem sendTarget_passStart (voice : FAudioSourceVoice) (audio : FAudio) (out : VoiceRef) :
    sendTarget (passStart voice audio) out = sendTarget audio out := by
  unfold passStart
  split_ifs
  · cases out <;> rfl
  · rfl

theorem sendTarget_of_eq (a a1 : FAudio) (out : VoiceRef) (hm : a1.master = a.master)
    (hs : a1.submixes = a.submixes) : sendTarget a1 out = sendTarget a out := by
  cases out with
  | master => simp only [sendTarget, hm]
  | submix k => simp only [sendTarget, hs]

theorem sendTarget_setSendTarget (a : FAudio) (out : VoiceRef) (stream s : FloatBuf)
    (oChan : Nat) (h : sendTarget a out = some (stream, oChan)) :
    sendTarget (setSendTarget a out s) out = some (s, oChan) := by
  cases out with
  | master =>
    simp only [sendTarget, Option.some.injEq, Prod.mk.injEq] at h
    simp only [sendTarget, setSendTarget, h.2]
  | submix k =>
    simp only [sendTarget, Option.map_eq_some'] at h
    obtain ⟨v, hv, he⟩ := h
    simp only [Prod.mk.injEq] at he
    have hlt : k < a.submixes.length := by
      rw [List.get?_eq_some] at hv
      exact hv.1
    simp only [sendTarget, setSendTarget, hv]
    rw [List.get?_eq_getElem?, List.getElem?_set_self hlt]
    simp only [Option.map_some', he.2]

theorem MixSource_resample_base (voice : FAudioSourceVoice) (audio : FAudio)
    (mixed pos toDecode : Nat) :
    (MixSource_resample voice audio mixed pos toDecode).1.toFAudioVoice = voice.toFAudioVoice ∧
    (MixSource_resample voice audio mixed pos toDecode).2.1.master = audio.master ∧
    (MixSource_resample voice audio mixed pos toDecode).2.1.submixes = audio.submixes := by
  unfold MixSource_resample FAudio_INTERNAL_ResamplePCM
  simp only []
  split_ifs <;> exact ⟨rfl, rfl, rfl⟩

theorem MixSource_loop_base (K : Env) (dfuel : Nat) :
    ∀ (fuel : Nat) (voice : FAudioSourceVoice) (audio : FAudio) (mixed pos : Nat)
      (r : FAudioSourceVoice × FAudio × Nat),
      MixSource_loop K dfuel fuel voice audio mixed pos = some r →
      r.1.toFAudioVoice = voice.toFAudioVoice ∧ r.2.1.master = audio.master ∧
        r.2.1.submixes = audio.submixes := by
  intro fuel
  induction fuel with
  | zero =>
    intro voice audio mixed pos r h
    simp [MixSource_loop] at h
  | succ fuel ih =>
    intro voice audio mixed pos r h
    unfold MixSource_loop at h
    split_ifs at h with hc
    · cases hd : FAudio_INTERNAL_DecodeBuffers K dfuel voice audio
          (MixSource_toDecode voice mixed) with
      | none => rw [hd] at h; exact absurd h (by simp)
      | some r1 =>
        obtain ⟨voice1, audio1, toDecode⟩ := r1
        rw [hd] at h
        simp only [] at h
        split_ifs at h with hz
        have hs := DecodeBuffers_same K dfuel voice audio _ _ hd
        have hs0 : voice1.toFAudioVoice = voice.toFAudioVoice := hs.1.base
        have hs1 : audio1.master = audio.master := hs.2.master
        have hs2 : audio1.submixes = audio.submixes := hs.2.submixes
        obtain ⟨e0, e1, e2⟩ := ih _ _ _ _ r h
        obtain ⟨g0, g1, g2⟩ := MixSource_resample_base voice1 audio1 mixed pos toDecode
        exact ⟨e0.trans (g0.trans hs0), e1.trans (g1.trans hs1), e2.trans (g2.trans hs2)⟩
    · simp only [Option.some.injEq] at h
      rw [← h]
      exact ⟨rfl, rfl, rfl⟩

theorem sendTarget_MixSource_end (voice : FAudioSourceVoice) (audio : FAudio)
    (out : VoiceRef) :
    sendTarget (MixSource_end voice audio).2 out = sendTarget audio out := by
  unfold MixSource_end
  split_ifs
  · cases out <;> rfl
  · rfl

/-- The array of the one send of a source voice without filter and effects
after the output part of `FAudio_INTERNAL_MixSource`. -/
theorem MixSource_output_single (K : Env) (v : FAudioSourceVoice) (a : FAudio) (mixed : Nat)
    (send : FAudioSendDescriptor) (stream : FloatBuf) (oChan : Nat)
    (hm : mixed ≠ 0) (hsend : v.sends = [send])
    (hflt : v.flags &&& K.FAUDIO_VOICE_USEFILTER = 0) (heff : v.effects = [])
    (ht : sendTarget a send.pOutputVoice = some (stream, oChan)) :
    sendTarget (MixSource_output K v a mixed).2 send.pOutputVoice =
      some (mixIntoStream K
        (fun j co ci =>
          a.resampleCache (j * v.outputChannels + ci) * v.channelVolume ci * v.volume *
            v.sendCoefficients 0 (co * v.outputChannels + ci))
        mixed oChan v.outputChannels stream, oChan) := by
  have ht2 : sendTarget ({ a with resampleCache := a.resampleCache } : FAudio)
      send.pOutputVoice = some (stream, oChan) := ht
  unfold MixSource_output
  rw [if_neg hm, if_neg (by rw [hsend]; simp)]
  simp only [hflt, heff, hsend, ne_eq, not_true_eq_false, if_false, List.length_nil,
    gt_iff_lt, Nat.lt_irrefl, effectOutput]
  rw [sendTarget_MixSource_end]
  unfold mixSends mixSends
  simp only [ht2]
  exact sendTarget_setSendTarget _ _ stream _ oChan ht2

theorem FAudio_clamp_of_inRange (K : Env) (x : Sample) (h : InRange K x) :
    FAudio_clamp x (-K.FAUDIO_MAX_VOLUME_LEVEL) K.FAUDIO_MAX_VOLUME_LEVEL = x := by
  unfold FAudio_clamp
  rw [if_neg (not_lt.2 h.2), if_neg (not_lt.2 h.1)]

theorem mixValue_eq_sum (K : Env) (term : Nat → Nat → Nat → Sample) (j co : Nat) :
    ∀ (n : Nat),
      (∀ m, m ≤ n → InRange K (((List.range m).map (term j co)).sum)) →
      mixValue K term n j co 0 = ((List.range n).map (term j co)).sum := by
  intro n
  induction n with
  | zero => intro _; rfl
  | succ n ih =>
    intro h
    have h1 := ih (fun m hm => h m (Nat.le_succ_of_le hm))
    have h2 := h (n + 1) (le_refl _)
    unfold mixValue at h1 ⊢
    rw [List.range_succ, List.foldl_append, h1]
    rw [List.range_succ] at h2
    rw [List.map_append, List.sum_append] at h2 ⊢
    simp only [List.map_cons, List.map_nil, List.sum_cons, List.sum_nil, add_zero,
      List.foldl_cons, List.foldl_nil] at h2 ⊢
    exact FAudio_clamp_of_inRange K _ h2

theorem pcm16Input_range (b : FAudioBuffer) (m : Nat) :
    -1 ≤ pcm16Input b m ∧ pcm16Input b m ≤ 1 := by
  unfold pcm16Input DIVBY32768
  have h1 : -32768 ≤ readS16 b.pAudioData (2 * m) := by
    unfold readS16 toInt16
    omega
  have h2 : readS16 b.pAudioData (2 * m) ≤ 32767 := by
    unfold readS16 toInt16
    omega
  have h1q : (-32768 : ℚ) ≤ (readS16 b.pAudioData (2 * m) : ℚ) := by exact_mod_cast h1
  have h2q : (readS16 b.pAudioData (2 * m) : ℚ) ≤ 32767 := by exact_mod_cast h2
  constructor <;> linarith

/-- The general part of C1: the array of the send after one call. -/
theorem MixSource_pass_through (K : Env) (fuel : Nat) (voice : FAudioSourceVoice)
    (audio : FAudio) (b : FAudioBuffer) (inp : Nat → Sample) (send : FAudioSendDescriptor)
    (stream : FloatBuf) (oChan : Nat)
    (h : IntegerPlay voice b inp 1) (hq : voice.src.bufferList = [b])
    (hhi : voice.src.curBufferOffset ≤ b.PlayBegin + b.PlayLength)
    (hratio : voice.src.resampleFreqRatio = voice.src.freqRatio)
    (hflt : voice.flags &&& K.FAUDIO_VOICE_USEFILTER = 0) (heff : voice.effects = [])
    (hsend : voice.sends = [send])
    (htarget : sendTarget audio send.pOutputVoice = some (stream, oChan))
    (hch : voice.outputChannels = voice.src.format.nChannels) (hfuel : 2 ≤ fuel) :
    ∃ v1 a1 stream1, FAudio_INTERNAL_MixSource K fuel voice audio = some (v1, a1) ∧
      sendTarget a1 send.pOutputVoice = some (stream1, oChan) ∧
      ∀ j co, j < min voice.src.resampleSamples
          (b.PlayBegin + b.PlayLength - voice.src.curBufferOffset) → co < oChan →
        stream (j * oChan + co) = 0 →
        (∀ m, m ≤ voice.outputChannels →
          InRange K (mixSum voice
            (fun m => inp (voice.src.curBufferOffset * voice.src.format.nChannels + m))
            j co m)) →
        stream1 (j * oChan + co) =
          mixSum voice
            (fun m => inp (voice.src.curBufferOffset * voice.src.format.nChannels + m))
            j co voice.outputChannels := by
  obtain ⟨v1, a1, mixed, hl, hmix, _, _, _, _, _, hcache⟩ :=
    MixSource_loop_integer K fuel voice (passStart voice audio) b inp 1 h hq hhi hfuel
  rw [Nat.div_one] at hmix
  obtain ⟨hb, hm1, hs1⟩ := MixSource_loop_base K fuel fuel voice (passStart voice audio) 0 0
    (v1, a1, mixed) hl
  have ht1 : sendTarget a1 send.pOutputVoice = some (stream, oChan) := by
    rw [sendTarget_of_eq (passStart voice audio) a1 _ hm1 hs1, sendTarget_passStart]
    exact htarget
  have hM : FAudio_INTERNAL_MixSource K fuel voice audio =
      some ((MixSource_output K v1 a1 mixed).1, (MixSource_output K v1 a1 mixed).2) := by
    rw [MixSource_eq K fuel voice audio b [] hratio hq, hl]
    rfl
  by_cases hm0 : mixed = 0
  · refine ⟨_, _, stream, hM, ?_, ?_⟩
    · unfold MixSource_output
      rw [if_pos hm0, sendTarget_MixSource_end]
      exact ht1
    · intro j co hj
      rw [← hmix, hm0] at hj
      omega
  · have hsend1 : v1.sends = [send] := (congrArg FAudioVoice.sends hb).trans hsend
    have hflt1 : v1.flags &&& K.FAUDIO_VOICE_USEFILTER = 0 := by
      rw [congrArg FAudioVoice.flags hb]
      exact hflt
    have heff1 : v1.effects = [] := (congrArg FAudioVoice.effects hb).trans heff
    have hout := MixSource_output_single K v1 a1 mixed send stream oChan hm0 hsend1 hflt1
      heff1 ht1
    have hoc : v1.outputChannels = voice.outputChannels := congrArg FAudioVoice.outputChannels hb
    have hcv : v1.channelVolume = voice.channelVolume := congrArg FAudioVoice.channelVolume hb
    have hvol : v1.volume = voice.volume := congrArg FAudioVoice.volume hb
    have hco : v1.sendCoefficients = voice.sendCoefficients :=
      congrArg FAudioVoice.sendCoefficients hb
    rw [hoc, hcv, hvol, hco] at hout
    refine ⟨_, _, _, hM, hout, ?_⟩
    intro j co hj hco2 hz hsum
    rw [← hmix] at hj
    have hk : j * oChan + co < mixed * oChan := by
      have h1 : (j + 1) * oChan ≤ mixed * oChan := Nat.mul_le_mul_right _ hj
      rw [Nat.add_mul, Nat.one_mul] at h1
      omega
    have ho : 0 < oChan := by omega
    have hdiv : (j * oChan + co) / oChan = j := by
      rw [Nat.add_comm, Nat.add_mul_div_right _ _ ho, Nat.div_eq_of_lt hco2, Nat.zero_add]
    have hmod : (j * oChan + co) % oChan = co := by
      rw [Nat.add_comm, Nat.add_mul_mod_self_right, Nat.mod_eq_of_lt hco2]
    have hterm : ∀ m, m ≤ voice.outputChannels →
        ((List.range m).map (fun ci =>
          a1.resampleCache (j * voice.outputChannels + ci) * voice.channelVolume ci *
            voice.volume * voice.sendCoefficients 0 (co * voice.outputChannels + ci))).sum =
        mixSum voice
          (fun m => inp (voice.src.curBufferOffset * voice.src.format.nChannels + m)) j co m := by
      intro m hm
      unfold mixSum
      refine congrArg List.sum ?_
      apply List.map_congr_left
      intro ci hci
      rw [List.mem_range] at hci
      have hc := hcache j ci hj (by rw [← hch]; omega)
      rw [hch, hc, Nat.mul_one, Nat.add_mul, Nat.add_assoc]
    rw [mixIntoStream_apply, if_pos hk, hdiv, hmod, hz, mixValue_eq_sum K _ j co
      voice.outputChannels (fun m hm => by rw [hterm m hm]; exact hsum m hm)]
    exact hterm voice.outputChannels (le_refl _)

theorem mixSum_identity (K : Env) (voice : FAudioSourceVoice) (decoded : Nat → Sample)
    (j co : Nat) (hoc : voice.outputChannels = 2) (hvol : voice.volume = 1)
    (hcv : ∀ ci, voice.channelVolume ci = 1)
    (hid : ∀ co ci, co < 2 → ci < 2 →
      voice.sendCoefficients 0 (co * 2 + ci) = if co = ci then 1 else 0)
    (hco : co < 2) (hr : InRange K (decoded (j * 2 + co))) (h0 : InRange K 0) :
    (∀ m, m ≤ voice.outputChannels → InRange K (mixSum voice decoded j co m)) ∧
    mixSum voice decoded j co voice.outputChannels = decoded (j * 2 + co) := by
  have e0 : mixSum voice decoded j co 0 = 0 := rfl
  have e1 : mixSum voice decoded j co 1 = if co = 0 then decoded (j * 2 + co) else 0 := by
    unfold mixSum
    interval_cases co <;> simp [hoc, hvol, hcv, hid 0 0, hid 1 0, List.range_succ]
  have e2 : mixSum voice decoded j co 2 = decoded (j * 2 + co) := by
    unfold mixSum
    interval_cases co <;> simp [hoc, hvol, hcv, hid 0 0, hid 0 1, hid 1 0, hid 1 1,
      List.range_succ]
  rw [hoc]
  refine ⟨?_, e2⟩
  intro m hm
  interval_cases m
  · rw [e0]; exact h0
  · rw [e1]
    split_ifs
    · exact hr
    · exact h0
  · rw [e2]; exact hr

/-- C1: one call of `FAudio_INTERNAL_MixSource` on a source voice with the
stepping value `2^32` and both fractions zero (`IntegerPlay` for `k = 1`), a
queue of one buffer without a loop, no filter, no effects and one send returns,
and for every
mixed frame `j` and destination channel `co` whose float was zero before the
call it leaves `stream[j * oChan + co]` equal to the sum over `ci` of
`decoded[j * outCh + ci] * channelVolume[ci] * volume *
sendCoefficients[0][co * outCh + ci]`, provided the partial sums stay within
the volume limits; `decoded` are the samples the decoder reads from the current
offset on. For a stereo 16-bit PCM buffer, a stereo destination, volume 1,
channel volumes 1 and the identity matrix that is the input short divided by
32768. -/
theorem c1_source_pass_through (K : Env) (fuel : Nat) (voice : FAudioSourceVoice)
    (audio : FAudio) (b : FAudioBuffer) (inp : Nat → Sample) (send : FAudioSendDescriptor)
    (stream : FloatBuf) (oChan : Nat)
    (h : IntegerPlay voice b inp 1) (hq : voice.src.bufferList = [b])
    (hhi : voice.src.curBufferOffset ≤ b.PlayBegin + b.PlayLength)
    (hratio : voice.src.resampleFreqRatio = voice.src.freqRatio)
    (hflt : voice.flags &&& K.FAUDIO_VOICE_USEFILTER = 0) (heff : voice.effects = [])
    (hsend : voice.sends = [send])
    (htarget : sendTarget audio send.pOutputVoice = some (stream, oChan))
    (hch : voice.outputChannels = voice.src.format.nChannels) (hfuel : 2 ≤ fuel) :
    ∃ v1 a1 stream1, FAudio_INTERNAL_MixSource K fuel voice audio = some (v1, a1) ∧
      sendTarget a1 send.pOutputVoice = some (stream1, oChan) ∧
      (∀ j co, j < min voice.src.resampleSamples
          (b.PlayBegin + b.PlayLength - voice.src.curBufferOffset) → co < oChan →
        stream (j * oChan + co) = 0 →
        (∀ m, m ≤ voice.outputChannels →
          InRange K (mixSum voice
            (fun m => inp (voice.src.curBufferOffset * voice.src.format.nChannels + m))
            j co m)) →
        stream1 (j * oChan + co) =
          mixSum voice
            (fun m => inp (voice.src.curBufferOffset * voice.src.format.nChannels + m))
            j co voice.outputChannels) ∧
      (inp = pcm16Input b → voice.src.format.nChannels = 2 → oChan = 2 →
        voice.volume = 1 → (∀ ci, voice.channelVolume ci = 1) →
        (∀ co ci, co < 2 → ci < 2 →
          voice.sendCoefficients 0 (co * 2 + ci) = if co = ci then 1 else 0) →
        1 ≤ K.FAUDIO_MAX_VOLUME_LEVEL →
        ∀ j co, j < min voice.src.resampleSamples
            (b.PlayBegin + b.PlayLength - voice.src.curBufferOffset) → co < 2 →
          stream (j * 2 + co) = 0 →
          stream1 (j * 2 + co) =
            (readS16 b.pAudioData (2 * ((voice.src.curBufferOffset + j) * 2 + co)) : ℚ) /
              32768) := by
  obtain ⟨v1, a1, stream1, hM, ht, hgen⟩ := MixSource_pass_through K fuel voice audio b inp
    send stream oChan h hq hhi hratio hflt heff hsend htarget hch hfuel
  refine ⟨v1, a1, stream1, hM, ht, hgen, ?_⟩
  intro hinp hn ho hvol hcv hid hmax j co hj hco hz
  subst ho
  have hoc : voice.outputChannels = 2 := hch.trans hn
  have hin : ∀ x, InRange K (pcm16Input b x) := by
    intro x
    have := pcm16Input_range b x
    unfold InRange
    constructor <;> linarith [this.1, this.2]
  have h0 : InRange K 0 := by
    unfold InRange
    constructor <;> linarith
  have hsum := mixSum_identity K voice
    (fun m => inp (voice.src.curBufferOffset * voice.src.format.nChannels + m)) j co hoc hvol
    hcv hid hco (by rw [hinp]; exact hin _) h0
  rw [hgen j co hj hco hz hsum.1, hsum.2, hinp, hn]
  have e : voice.src.curBufferOffset * 2 + (j * 2 + co) =
      (voice.src.curBufferOffset + j) * 2 + co := by omega
  beta_reduce
  rw [e]
  unfold pcm16Input DIVBY32768
  ring

/-- Witness for C1: the example voice at the output rate with a 16-bit PCM
buffer of 480 stereo frames, sent to the master voice of the example engine. -/
theorem c1_source_pass_through_witness :
    ∃ v1 a1 stream1, FAudio_INTERNAL_MixSource exampleEnv 10 exampleTickVoice exampleAudio =
        some (v1, a1) ∧
      sendTarget a1 VoiceRef.master = some (stream1, 2) ∧
      stream1 (479 * 2 + 1) =
        (readS16 exampleTickBuffer.pAudioData (2 * ((0 + 479) * 2 + 1)) : ℚ) / 32768 :=
  match c1_source_pass_through exampleEnv 10 exampleTickVoice exampleAudio exampleTickBuffer
    (pcm16Input exampleTickBuffer) { Flags := 0, pOutputVoice := VoiceRef.master }
    (fun _ => 0) 2
    ⟨by decide, by decide, by decide, by decide, rfl, by decide, by decide, rfl, by decide,
      fun off n hin => DecodePCM16_spec exampleTickBuffer exampleFormat off n
        (by
          have h2 := hin
          simp only [exampleTickBuffer, examplePlainBuffer, exampleBuffer] at h2
          simp only [exampleFormat]
          omega)⟩
    rfl (by decide) rfl (by decide) rfl rfl rfl rfl (by decide) with
  | ⟨v1, a1, stream1, h1, h2, _, h4⟩ =>
    ⟨v1, a1, stream1, h1, h2,
      h4 rfl rfl rfl rfl (fun _ => rfl)
        (fun co ci h1 h2 => by
          interval_cases co <;> interval_cases ci <;>
            simp [exampleTickVoice, exampleUnitVoice, exampleVoice, exampleBase])
        (by norm_num [exampleEnv]) 479 1 (by decide) (by decide) rfl⟩

/-! ## The channel mask -/

/-- C27, as stated, fails: with the speaker constants of `<ksmedia.h>`,
`get_channel_mask` returns a mask that is not zero for three channels. -/
theorem c27_channel_mask_counterexample : get_channel_mask exampleMasks 3 ≠ 0 := by
  decide

/-- C27, amended: `get_channel_mask` returns the mono, stereo, quad, 5.1 and
7.1 masks for 1, 2, 4, 6 and 8 channels; for 3, 5 and 7 channels it returns the
stereo mask with the low-frequency speaker, the quad mask with the
low-frequency speaker and the 5.1 mask with the back-centre speaker; it returns
0 for no channel and for every channel count above 8. -/
theorem c27_channel_mask (M : SpeakerMasks) :
    get_channel_mask M 1 = M.KSAUDIO_SPEAKER_MONO ∧
    get_channel_mask M 2 = M.KSAUDIO_SPEAKER_STEREO ∧
    get_channel_mask M 4 = M.KSAUDIO_SPEAKER_QUAD ∧
    get_channel_mask M 6 = M.KSAUDIO_SPEAKER_5POINT1 ∧
    get_channel_mask M 8 = M.KSAUDIO_SPEAKER_7POINT1_SURROUND ∧
    get_channel_mask M 3 = M.KSAUDIO_SPEAKER_STEREO ||| M.SPEAKER_LOW_FREQUENCY ∧
    get_channel_mask M 5 = M.KSAUDIO_SPEAKER_QUAD ||| M.SPEAKER_LOW_FREQUENCY ∧
    get_channel_mask M 7 = M.KSAUDIO_SPEAKER_5POINT1 ||| M.SPEAKER_BACK_CENTER ∧
    get_channel_mask M 0 = 0 ∧
    ∀ channels, 8 < channels → get_channel_mask M channels = 0 := by
  refine ⟨rfl, rfl, rfl, rfl, rfl, rfl, rfl, rfl, rfl, ?_⟩
  intro channels h
  obtain ⟨n, rfl⟩ : ∃ n, channels = n + 9 := ⟨channels - 9, by omega⟩
  rfl

/-! ## The MSADPCM recurrence: `FAudio_INTERNAL_ParseNibble` -/

theorem signedNibble_eq (nibble : Nat) (h : nibble < 16) :
    (if nibble &&& 0x08 ≠ 0 then (nibble : Int) - 0x10 else (nibble : Int)) =
      if nibble < 8 then (nibble : Int) else (nibble : Int) - 16 := by
  interval_cases nibble <;> decide

theorem tdiv_256 (m : Int) :
    (0 ≤ m ∧ Int.tdiv m 256 = m / 256) ∨ (m < 0 ∧ Int.tdiv m 256 = -((-m) / 256)) := by
  by_cases h : 0 ≤ m
  · exact Or.inl ⟨h, Int.tdiv_eq_ediv h (by norm_num)⟩
  · right
    refine ⟨by omega, ?_⟩
    have e := Int.neg_tdiv (-m) 256
    rw [Int.neg_neg] at e
    rw [e, Int.tdiv_eq_ediv (by omega) (by norm_num)]

theorem FAudio_clamp_int (x lo hi : Int) (h : lo ≤ hi) :
    FAudio_clamp x lo hi = max lo (min hi x) := by
  unfold FAudio_clamp
  rw [max_def, min_def]
  split_ifs <;> omega

theorem AdaptCoeff_bound (predictor : Nat) (s1 s2 : Int) (hp : predictor < 7)
    (h1 : -32768 ≤ s1 ∧ s1 ≤ 32767) (h2 : -32768 ≤ s2 ∧ s2 ≤ 32767) :
    (-(2 ^ 24) ≤ s1 * AdaptCoeff_1.getD predictor 0 ∧
      s1 * AdaptCoeff_1.getD predictor 0 ≤ 2 ^ 24) ∧
    (-(2 ^ 24) ≤ s2 * AdaptCoeff_2.getD predictor 0 ∧
      s2 * AdaptCoeff_2.getD predictor 0 ≤ 2 ^ 24) := by
  interval_cases predictor <;> simp [AdaptCoeff_1, AdaptCoeff_2] <;> omega

theorem wrapInt32_of_range (x : Int) (h1 : -(2 ^ 31) ≤ x) (h2 : x < 2 ^ 31) :
    wrapInt32 x = x := by
  unfold wrapInt32
  omega

/-- C29: for every nibble below 16, every predictor below 7 and every 16-bit
`delta`, `sample1` and `sample2`, `FAudio_INTERNAL_ParseNibble` returns the
prediction `(sample1 * C1[p] + sample2 * C2[p]) / 256`, truncated toward zero,
plus the signed nibble times `delta`, limited to the range from -32768 to
32767; afterwards `sample2` holds the old `sample1` and `sample1` the sample
returned. The sums it forms fit 32 bits. -/
theorem c29_parse_nibble_recurrence (M : AdaptCoeffOverrun) (nibble predictor : Nat)
    (s : NibbleState) (hn : nibble < 16) (hp : predictor < 7)
    (hd : -32768 ≤ s.delta ∧ s.delta ≤ 32767)
    (h1 : -32768 ≤ s.sample1 ∧ s.sample1 ≤ 32767)
    (h2 : -32768 ≤ s.sample2 ∧ s.sample2 ≤ 32767) :
    (FAudio_INTERNAL_ParseNibble M nibble predictor s).1 =
      max (-32768) (min 32767
        (Int.tdiv
          (s.sample1 * ([256, 512, 0, 192, 240, 460, 392] : List Int).getD predictor 0 +
            s.sample2 * ([0, -256, 0, 64, 0, -208, -232] : List Int).getD predictor 0) 256 +
          (if nibble < 8 then (nibble : Int) else (nibble : Int) - 16) * s.delta)) ∧
    (FAudio_INTERNAL_ParseNibble M nibble predictor s).2.sample2 = s.sample1 ∧
    (FAudio_INTERNAL_ParseNibble M nibble predictor s).2.sample1 =
      (FAudio_INTERNAL_ParseNibble M nibble predictor s).1 ∧
    (-(2 : Int) ^ 31 ≤
        s.sample1 * ([256, 512, 0, 192, 240, 460, 392] : List Int).getD predictor 0 +
          s.sample2 * ([0, -256, 0, 64, 0, -208, -232] : List Int).getD predictor 0 ∧
      s.sample1 * ([256, 512, 0, 192, 240, 460, 392] : List Int).getD predictor 0 +
          s.sample2 * ([0, -256, 0, 64, 0, -208, -232] : List Int).getD predictor 0 <
        2 ^ 31) ∧
    (-(2 : Int) ^ 31 ≤
        Int.tdiv
          (s.sample1 * ([256, 512, 0, 192, 240, 460, 392] : List Int).getD predictor 0 +
            s.sample2 * ([0, -256, 0, 64, 0, -208, -232] : List Int).getD predictor 0) 256 +
          (if nibble < 8 then (nibble : Int) else (nibble : Int) - 16) * s.delta ∧
      Int.tdiv
          (s.sample1 * ([256, 512, 0, 192, 240, 460, 392] : List Int).getD predictor 0 +
            s.sample2 * ([0, -256, 0, 64, 0, -208, -232] : List Int).getD predictor 0) 256 +
          (if nibble < 8 then (nibble : Int) else (nibble : Int) - 16) * s.delta < 2 ^ 31) := by
  obtain ⟨hb1, hb2⟩ := AdaptCoeff_bound predictor s.sample1 s.sample2 hp h1 h2
  have hc1 : ([256, 512, 0, 192, 240, 460, 392] : List Int) = AdaptCoeff_1 := rfl
  have hc2 : ([0, -256, 0, 64, 0, -208, -232] : List Int) = AdaptCoeff_2 := rfl
  have e : (FAudio_INTERNAL_ParseNibble M nibble predictor s).1 =
      FAudio_clamp
        (wrapInt32 (Int.tdiv (wrapInt32
          (wrapInt32 (s.sample1 * readCoeff AdaptCoeff_1 M.behind1 predictor) +
            wrapInt32 (s.sample2 * readCoeff AdaptCoeff_2 M.behind2 predictor))) 256 +
          (if nibble &&& 0x08 ≠ 0 then (nibble : Int) - 0x10 else (nibble : Int)) * s.delta))
        (-32768) 32767 := rfl
  rw [readCoeff_inside AdaptCoeff_1 M.behind1 predictor hp,
    readCoeff_inside AdaptCoeff_2 M.behind2 predictor hp] at e
  obtain ⟨m1, hm1⟩ : ∃ m1, m1 = s.sample1 * AdaptCoeff_1.getD predictor 0 := ⟨_, rfl⟩
  obtain ⟨m2, hm2⟩ : ∃ m2, m2 = s.sample2 * AdaptCoeff_2.getD predictor 0 := ⟨_, rfl⟩
  rw [← hm1] at hb1 e
  rw [← hm2] at hb2 e
  rw [wrapInt32_of_range m1 (by omega) (by omega), wrapInt32_of_range m2 (by omega) (by omega),
    wrapInt32_of_range (m1 + m2) (by omega) (by omega)] at e
  obtain ⟨m, hm⟩ : ∃ m, m = m1 + m2 := ⟨_, rfl⟩
  have hb : -(2 ^ 25) ≤ m ∧ m ≤ 2 ^ 25 := by
    rw [hm]
    constructor <;> omega
  rw [← hm] at e
  have hq : -(2 ^ 17) ≤ Int.tdiv m 256 ∧ Int.tdiv m 256 ≤ 2 ^ 17 := by
    rcases tdiv_256 m with ⟨h3, h4⟩ | ⟨h3, h4⟩ <;> rw [h4] <;> omega
  have hs : -(2 ^ 19) ≤ (if nibble < 8 then (nibble : Int) else (nibble : Int) - 16) * s.delta ∧
      (if nibble < 8 then (nibble : Int) else (nibble : Int) - 16) * s.delta ≤ 2 ^ 19 := by
    interval_cases nibble <;> simp <;> omega
  rw [signedNibble_eq nibble hn,
    wrapInt32_of_range _ (by omega) (by omega)] at e
  refine ⟨?_, rfl, rfl, ?_, ?_⟩
  · rw [e, hc1, hc2, ← hm1, ← hm2, ← hm, FAudio_clamp_int _ _ _ (by norm_num)]
  · rw [hc1, hc2, ← hm1, ← hm2, ← hm]
    constructor <;> omega
  · rw [hc1, hc2, ← hm1, ← hm2, ← hm]
    constructor <;> omega

/-- Witness for C29: nibble 9 (the signed nibble -7), predictor 1. -/
theorem c29_parse_nibble_recurrence_witness :
    (FAudio_INTERNAL_ParseNibble exampleOverrun 9 1 { delta := 30, sample1 := 1000, sample2 := 900 }).1 = 890 ∧
    (FAudio_INTERNAL_ParseNibble exampleOverrun 9 1 { delta := 30, sample1 := 1000, sample2 := 900 }).2.sample2
      = 1000 ∧
    (FAudio_INTERNAL_ParseNibble exampleOverrun 9 1 { delta := 30, sample1 := 1000, sample2 := 900 }).2.sample1
      = 890 :=
  have h := c29_parse_nibble_recurrence exampleOverrun 9 1 { delta := 30, sample1 := 1000, sample2 := 900 }
    (by decide) (by decide) (by decide) (by decide) (by decide)
  ⟨h.1.trans (by decide), h.2.1, h.2.2.1.trans (h.1.trans (by decide))⟩
/-- C30, as stated, fails: for nibble 8 and `delta = 10923` the quotient
`768 * 10923 / 256` is 32769, which the cast to `int16_t` turns into -32767, so
`FAudio_INTERNAL_ParseNibble` leaves `delta = 16`. -/
theorem c30_delta_adaptation_counterexample :
    (FAudio_INTERNAL_ParseNibble exampleOverrun 8 0 { delta := 10923, sample1 := 0, sample2 := 0 }).2.delta =
        16 ∧
      max (16 : Int)
        (([230, 230, 230, 230, 307, 409, 512, 614, 768, 614, 512, 409, 307, 230, 230, 230] :
          List Int).getD 8 0 * 10923 / 256) = 32769 := by
  decide

/-- C30, amended: for every nibble below 16 and every 16-bit `delta`,
`FAudio_INTERNAL_ParseNibble` forms the product `AdaptionTable[nibble] * delta`
and its quotient by 256 (truncated toward zero) without 32-bit wrap-around,
stores the quotient in the 16-bit `delta`, which reduces it modulo `2 ^ 16` to
the range from -32768 to 32767, and then raises `delta` to 16 when it is
smaller. The value left is `max(16, AdaptionTable[nibble] * delta / 256)`
whenever that quotient lies in the range from -32768 to 32767, as it does for
every `delta` from -10922 to 10922. -/
theorem c30_delta_adaptation (M : AdaptCoeffOverrun) (nibble predictor : Nat)
    (s : NibbleState) (hn : nibble < 16)
    (hd : -32768 ≤ s.delta ∧ s.delta ≤ 32767) :
    (-(2 : Int) ^ 31 ≤
        ([230, 230, 230, 230, 307, 409, 512, 614, 768, 614, 512, 409, 307, 230, 230, 230] :
          List Int).getD nibble 0 * s.delta ∧
      ([230, 230, 230, 230, 307, 409, 512, 614, 768, 614, 512, 409, 307, 230, 230, 230] :
          List Int).getD nibble 0 * s.delta < 2 ^ 31) ∧
    (FAudio_INTERNAL_ParseNibble M nibble predictor s).2.delta =
      max 16 (toInt16 (Int.tdiv
        (([230, 230, 230, 230, 307, 409, 512, 614, 768, 614, 512, 409, 307, 230, 230, 230] :
          List Int).getD nibble 0 * s.delta) 256)) ∧
    (-32768 ≤ Int.tdiv
        (([230, 230, 230, 230, 307, 409, 512, 614, 768, 614, 512, 409, 307, 230, 230, 230] :
          List Int).getD nibble 0 * s.delta) 256 ∧
      Int.tdiv
        (([230, 230, 230, 230, 307, 409, 512, 614, 768, 614, 512, 409, 307, 230, 230, 230] :
          List Int).getD nibble 0 * s.delta) 256 ≤ 32767 →
      (FAudio_INTERNAL_ParseNibble M nibble predictor s).2.delta =
        max 16 (Int.tdiv
          (([230, 230, 230, 230, 307, 409, 512, 614, 768, 614, 512, 409, 307, 230, 230, 230] :
            List Int).getD nibble 0 * s.delta) 256)) ∧
    (-10922 ≤ s.delta ∧ s.delta ≤ 10922 →
      -32768 ≤ Int.tdiv
        (([230, 230, 230, 230, 307, 409, 512, 614, 768, 614, 512, 409, 307, 230, 230, 230] :
          List Int).getD nibble 0 * s.delta) 256 ∧
      Int.tdiv
        (([230, 230, 230, 230, 307, 409, 512, 614, 768, 614, 512, 409, 307, 230, 230, 230] :
          List Int).getD nibble 0 * s.delta) 256 ≤ 32767) := by
  have ht : ([230, 230, 230, 230, 307, 409, 512, 614, 768, 614, 512, 409, 307, 230, 230, 230] :
      List Int) = AdaptionTable := rfl
  have e : (FAudio_INTERNAL_ParseNibble M nibble predictor s).2.delta =
      (if toInt16 (Int.tdiv (AdaptionTable.getD nibble 0 * s.delta) 256) < 16 then 16
        else toInt16 (Int.tdiv (AdaptionTable.getD nibble 0 * s.delta) 256)) := rfl
  rw [ht, e]
  obtain ⟨t, hteq⟩ : ∃ t, t = AdaptionTable.getD nibble 0 := ⟨_, rfl⟩
  have htb : 230 ≤ t ∧ t ≤ 768 := by
    rw [hteq]
    interval_cases nibble <;> simp [AdaptionTable]
  rw [← hteq]
  obtain ⟨m, hm⟩ : ∃ m, m = t * s.delta := ⟨_, rfl⟩
  have hmb : -(768 * 32768) ≤ m ∧ m ≤ 768 * 32767 := by
    rw [hm]
    constructor <;> nlinarith [hd.1, hd.2, htb.1, htb.2]
  rw [← hm]
  have hmax : ∀ x : Int, (if x < 16 then 16 else x) = max 16 x := by
    intro x
    rw [max_def]
    split_ifs <;> omega
  refine ⟨⟨by omega, by omega⟩, hmax _, ?_, ?_⟩
  · intro hq
    rw [hmax]
    have : toInt16 (Int.tdiv m 256) = Int.tdiv m 256 := by
      unfold toInt16
      omega
    rw [this]
  · intro hle
    have h5 : m ≤ 768 * 10922 := by
      rw [hm]
      nlinarith [hd.1, hle.2, htb.1, htb.2]
    have h6 : -(768 * 10922) ≤ m := by
      rw [hm]
      nlinarith [hd.1, hle.1, htb.1, htb.2]
    rcases tdiv_256 m with ⟨h3, h4⟩ | ⟨h3, h4⟩ <;> rw [h4] <;> omega

/-- Witness for C30: nibble 8 multiplies `delta = 100` by three. -/
theorem c30_delta_adaptation_witness :
    (FAudio_INTERNAL_ParseNibble exampleOverrun 8 0 { delta := 100, sample1 := 0, sample2 := 0 }).2.delta =
      300 :=
  ((c30_delta_adaptation exampleOverrun 8 0 { delta := 100, sample1 := 0, sample2 := 0 } (by decide)
    (by decide)).2.2.1 (by decide)).trans (by decide)

/-! ## The filter -/

theorem FilterVoice_frames (filter : FAudioFilterParameters)
    (filterState : Nat → FAudioFilterState) (samples : FloatBuf) (numSamples numChannels : Nat) :
    FAudio_INTERNAL_FilterVoice filter filterState samples numSamples numChannels =
      (List.range numSamples).foldl
        (fun acc j => filterFrame filter numChannels j numChannels acc) (filterState, samples) :=
  rfl

theorem filterFrame_succ (filter : FAudioFilterParameters) (numChannels j m : Nat)
    (acc : (Nat → FAudioFilterState) × FloatBuf) :
    filterFrame filter numChannels j (m + 1) acc =
      (Function.update (filterFrame filter numChannels j m acc).1 m
          (FilterVoice_sample filter ((filterFrame filter numChannels j m acc).1 m)
            ((filterFrame filter numChannels j m acc).2 (wrap32 (j * numChannels + m)))).1,
        Function.update (filterFrame filter numChannels j m acc).2
          (wrap32 (j * numChannels + m))
          (FilterVoice_sample filter ((filterFrame filter numChannels j m acc).1 m)
            ((filterFrame filter numChannels j m acc).2 (wrap32 (j * numChannels + m)))).2) := by
  unfold filterFrame
  rw [List.range_succ, List.foldl_append]
  rfl

/-- One frame of the filter: channel `ci` below `m` goes one step on the sample
at `j * numChannels + ci`; nothing else changes. -/
theorem filterFrame_spec (filter : FAudioFilterParameters) (numChannels j : Nat)
    (hj : (j + 1) * numChannels ≤ 2 ^ 32) (acc : (Nat → FAudioFilterState) × FloatBuf) :
    ∀ m, m ≤ numChannels →
      (∀ ci, (filterFrame filter numChannels j m acc).1 ci =
        if ci < m then
          (FilterVoice_sample filter (acc.1 ci) (acc.2 (j * numChannels + ci))).1
        else acc.1 ci) ∧
      (∀ k, (filterFrame filter numChannels j m acc).2 k =
        if j * numChannels ≤ k ∧ k < j * numChannels + m then
          (FilterVoice_sample filter (acc.1 (k - j * numChannels)) (acc.2 k)).2
        else acc.2 k) := by
  intro m
  induction m with
  | zero =>
    intro _
    constructor
    · intro ci
      rw [if_neg (by omega)]
      rfl
    · intro k
      rw [if_neg (by omega)]
      rfl
  | succ m ih =>
    intro hm
    obtain ⟨h1, h2⟩ := ih (by omega)
    have hw : wrap32 (j * numChannels + m) = j * numChannels + m := by
      unfold wrap32
      rw [Nat.succ_mul] at hj
      omega
    rw [filterFrame_succ, hw]
    have e1 := h1 m
    rw [if_neg (by omega)] at e1
    have e2 := h2 (j * numChannels + m)
    rw [if_neg (by omega)] at e2
    constructor
    · intro ci
      simp only []
      by_cases hc : ci = m
      · subst hc
        rw [Function.update_same, if_pos (by omega), e1, e2]
      · rw [Function.update_noteq hc, h1 ci]
        by_cases hlt : ci < m
        · rw [if_pos hlt, if_pos (by omega)]
        · rw [if_neg hlt, if_neg (by omega)]
    · intro k
      simp only []
      by_cases hc : k = j * numChannels + m
      · subst hc
        rw [Function.update_same, if_pos (by omega), e1, e2, Nat.add_sub_cancel_left]
      · rw [Function.update_noteq hc, h2 k]
        by_cases hlt : j * numChannels ≤ k ∧ k < j * numChannels + m
        · rw [if_pos hlt, if_pos (by omega)]
        · rw [if_neg hlt, if_neg (by omega)]

theorem FilterVoice_succ (filter : FAudioFilterParameters)
    (filterState : Nat → FAudioFilterState) (samples : FloatBuf) (n numChannels : Nat) :
    FAudio_INTERNAL_FilterVoice filter filterState samples (n + 1) numChannels =
      filterFrame filter numChannels n numChannels
        (FAudio_INTERNAL_FilterVoice filter filterState samples n numChannels) := by
  rw [FilterVoice_frames, FilterVoice_frames, List.range_succ, List.foldl_append]
  rfl

/-- The filter, channel by channel: after `n` frames the state of channel `ci`
is the state of that channel run over its own samples, sample `j` of the
channel is the output of its step `j`, and nothing else changes. -/
theorem FilterVoice_spec (filter : FAudioFilterParameters)
    (filterState : Nat → FAudioFilterState) (samples : FloatBuf) (numChannels : Nat) :
    ∀ n, n * numChannels ≤ 2 ^ 32 →
      (∀ ci, (FAudio_INTERNAL_FilterVoice filter filterState samples n numChannels).1 ci =
        if ci < numChannels then
          channelState filter (filterState ci) (fun j => samples (j * numChannels + ci)) n
        else filterState ci) ∧
      (∀ j ci, ci < numChannels →
        (FAudio_INTERNAL_FilterVoice filter filterState samples n numChannels).2
            (j * numChannels + ci) =
          if j < n then
            (FilterVoice_sample filter
              (channelState filter (filterState ci) (fun j => samples (j * numChannels + ci)) j)
              (samples (j * numChannels + ci))).2
          else samples (j * numChannels + ci)) ∧
      (∀ k, n * numChannels ≤ k →
        (FAudio_INTERNAL_FilterVoice filter filterState samples n numChannels).2 k =
          samples k) := by
  intro n
  induction n with
  | zero =>
    intro _
    refine ⟨?_, ?_, ?_⟩
    · intro ci
      split_ifs <;> rfl
    · intro j ci _
      rw [if_neg (by omega)]
      rfl
    · intro k _
      rfl
  | succ n ih =>
    intro hn
    have hn1 : n * numChannels ≤ 2 ^ 32 := by
      rw [Nat.succ_mul] at hn
      omega
    obtain ⟨h1, h2, h3⟩ := ih hn1
    obtain ⟨f1, f2⟩ := filterFrame_spec filter numChannels n hn
      (FAudio_INTERNAL_FilterVoice filter filterState samples n numChannels) numChannels
      (le_refl _)
    rw [FilterVoice_succ]
    refine ⟨?_, ?_, ?_⟩
    · intro ci
      rw [f1 ci]
      by_cases hc : ci < numChannels
      · rw [if_pos hc, if_pos hc, h1 ci, if_pos hc, h2 n ci hc, if_neg (by omega)]
        rfl
      · rw [if_neg hc, if_neg hc, h1 ci, if_neg hc]
    · intro j ci hc
      rw [f2]
      have hmul : j < n → j * numChannels + numChannels ≤ n * numChannels := by
        intro hlt
        have := Nat.mul_le_mul_right numChannels (Nat.succ_le_of_lt hlt)
        rw [Nat.succ_mul] at this
        exact this
      have hmul2 : n < j → n * numChannels + numChannels ≤ j * numChannels := by
        intro hlt
        have := Nat.mul_le_mul_right numChannels (Nat.succ_le_of_lt hlt)
        rw [Nat.succ_mul] at this
        exact this
      rcases Nat.lt_trichotomy j n with hlt | heq | hgt
      · have := hmul hlt
        rw [if_neg (by omega), h2 j ci hc, if_pos hlt, if_pos (by omega)]
      · subst heq
        rw [if_pos (by omega), if_pos (by omega), Nat.add_sub_cancel_left, h1 ci, if_pos hc,
          h2 j ci hc, if_neg (by omega)]
      · have := hmul2 hgt
        rw [if_neg (by omega), h2 j ci hc, if_neg (by omega), if_neg (by omega)]
    · intro k hk
      rw [Nat.succ_mul] at hk
      rw [f2, if_neg (by omega), h3 k (by omega)]

theorem channelState_congr (filter : FAudioFilterParameters) (st : FAudioFilterState)
    (x y : Nat → Sample) : ∀ n, (∀ j, j < n → x j = y j) →
      channelState filter st x n = channelState filter st y n := by
  intro n
  induction n with
  | zero => intro _; rfl
  | succ n ih =>
    intro h
    unfold channelState
    rw [ih (fun j hj => h j (by omega)), h n (by omega)]

theorem channelState_add (filter : FAudioFilterParameters) (st : FAudioFilterState)
    (x : Nat → Sample) (n1 : Nat) : ∀ n2,
      channelState filter st x (n1 + n2) =
        channelState filter (channelState filter st x n1) (fun j => x (n1 + j)) n2 := by
  intro n2
  induction n2 with
  | zero => rfl
  | succ n ih =>
    rw [← Nat.add_assoc]
    unfold channelState
    rw [ih]

/-- C24: on `numSamples` frames of `numChannels` channels whose indices fit 32
bits, `FAudio_INTERNAL_FilterVoice` takes every channel `ci` through one step
per frame: from the state `(L, B)` and the input `x` of that channel to
`L' = L + F * B`, `H' = x - L' - OneOverQ * B`, `B' = F * H' + B` and
`N' = L' + H'`, the sample being overwritten with the component that the filter
type selects. The state and the outputs of a channel are those of the channel
run on its own samples from its own state, so they are the same for any other
states and samples that agree on that channel. -/
theorem c24_filter_step (filter : FAudioFilterParameters)
    (filterState : Nat → FAudioFilterState) (samples : FloatBuf) (numSamples numChannels : Nat)
    (hN : numSamples * numChannels ≤ 2 ^ 32) :
    (∀ (st : FAudioFilterState) (x : Sample),
      (FilterVoice_sample filter st x).1 FAudioFilterType.FAudioLowPassFilter =
        st FAudioFilterType.FAudioLowPassFilter +
          filter.Frequency * st FAudioFilterType.FAudioBandPassFilter ∧
      (FilterVoice_sample filter st x).1 FAudioFilterType.FAudioHighPassFilter =
        x - (FilterVoice_sample filter st x).1 FAudioFilterType.FAudioLowPassFilter -
          filter.OneOverQ * st FAudioFilterType.FAudioBandPassFilter ∧
      (FilterVoice_sample filter st x).1 FAudioFilterType.FAudioBandPassFilter =
        filter.Frequency *
            (FilterVoice_sample filter st x).1 FAudioFilterType.FAudioHighPassFilter +
          st FAudioFilterType.FAudioBandPassFilter ∧
      (FilterVoice_sample filter st x).1 FAudioFilterType.FAudioNotchFilter =
        (FilterVoice_sample filter st x).1 FAudioFilterType.FAudioLowPassFilter +
          (FilterVoice_sample filter st x).1 FAudioFilterType.FAudioHighPassFilter ∧
      (FilterVoice_sample filter st x).2 = (FilterVoice_sample filter st x).1 filter.Type_) ∧
    (∀ j ci, j < numSamples → ci < numChannels →
      (FAudio_INTERNAL_FilterVoice filter filterState samples numSamples numChannels).2
          (j * numChannels + ci) =
        (FilterVoice_sample filter
          (channelState filter (filterState ci) (fun i => samples (i * numChannels + ci)) j)
          (samples (j * numChannels + ci))).2) ∧
    (∀ ci, ci < numChannels →
      (FAudio_INTERNAL_FilterVoice filter filterState samples numSamples numChannels).1 ci =
        channelState filter (filterState ci) (fun i => samples (i * numChannels + ci))
          numSamples) ∧
    (∀ ci, numChannels ≤ ci →
      (FAudio_INTERNAL_FilterVoice filter filterState samples numSamples numChannels).1 ci =
        filterState ci) ∧
    (∀ k, numSamples * numChannels ≤ k →
      (FAudio_INTERNAL_FilterVoice filter filterState samples numSamples numChannels).2 k =
        samples k) ∧
    (∀ (filterState2 : Nat → FAudioFilterState) (samples2 : FloatBuf) (ci : Nat),
      ci < numChannels → filterState2 ci = filterState ci →
      (∀ j, j < numSamples → samples2 (j * numChannels + ci) = samples (j * numChannels + ci)) →
      (FAudio_INTERNAL_FilterVoice filter filterState2 samples2 numSamples numChannels).1 ci =
        (FAudio_INTERNAL_FilterVoice filter filterState samples numSamples numChannels).1 ci ∧
      ∀ j, j < numSamples →
        (FAudio_INTERNAL_FilterVoice filter filterState2 samples2 numSamples numChannels).2
            (j * numChannels + ci) =
          (FAudio_INTERNAL_FilterVoice filter filterState samples numSamples numChannels).2
            (j * numChannels + ci)) := by
  obtain ⟨h1, h2, h3⟩ := FilterVoice_spec filter filterState samples numChannels numSamples hN
  refine ⟨?_, ?_, ?_, ?_, h3, ?_⟩
  · intro st x
    exact ⟨rfl, rfl, rfl, add_comm _ _, rfl⟩
  · intro j ci hj hc
    rw [h2 j ci hc, if_pos hj]
  · intro ci hc
    rw [h1 ci, if_pos hc]
  · intro ci hc
    rw [h1 ci, if_neg (by omega)]
  · intro filterState2 samples2 ci hc hst hx
    obtain ⟨g1, g2, _⟩ :=
      FilterVoice_spec filter filterState2 samples2 numChannels numSamples hN
    constructor
    · rw [g1 ci, h1 ci, if_pos hc, if_pos hc, hst]
      exact channelState_congr filter _ _ _ numSamples hx
    · intro j hj
      rw [g2 j ci hc, h2 j ci hc, if_pos hj, if_pos hj, hst, hx j hj,
        channelState_congr filter _ _ _ j (fun i hi => hx i (by omega))]

/-- Witness for C24: two stereo frames of ones through the example low-pass
filter from the zero state; the second sample of the left channel is `1/4`. -/
theorem c24_filter_step_witness :
    (FAudio_INTERNAL_FilterVoice exampleFilter (fun _ _ => 0) (fun _ => 1) 2 2).2 2 = 1 / 4 :=
  ((c24_filter_step exampleFilter (fun _ _ => 0) (fun _ => 1) 2 2 (by decide)).2.1 1 0
    (by decide) (by decide)).trans
    (by norm_num [channelState, FilterVoice_sample, exampleFilter])

/-- C25: for frames whose indices fit 32 bits, running
`FAudio_INTERNAL_FilterVoice` on the first `n1` frames and then, with the state
it left, on the `n2` frames that follow gives the state and the samples of one
call on all `n1 + n2` frames; a call on no frame changes nothing. -/
theorem c25_filter_state_persists (filter : FAudioFilterParameters)
    (filterState : Nat → FAudioFilterState) (samples : FloatBuf) (n1 n2 numChannels : Nat)
    (hN : (n1 + n2) * numChannels ≤ 2 ^ 32) :
    (FAudio_INTERNAL_FilterVoice filter filterState samples (n1 + n2) numChannels).1 =
      (FAudio_INTERNAL_FilterVoice filter
        (FAudio_INTERNAL_FilterVoice filter filterState samples n1 numChannels).1
        (fun k => (FAudio_INTERNAL_FilterVoice filter filterState samples n1 numChannels).2
          (n1 * numChannels + k)) n2 numChannels).1 ∧
    (∀ k, k < n1 * numChannels →
      (FAudio_INTERNAL_FilterVoice filter filterState samples (n1 + n2) numChannels).2 k =
        (FAudio_INTERNAL_FilterVoice filter filterState samples n1 numChannels).2 k) ∧
    (∀ k,
      (FAudio_INTERNAL_FilterVoice filter filterState samples (n1 + n2) numChannels).2
          (n1 * numChannels + k) =
        (FAudio_INTERNAL_FilterVoice filter
          (FAudio_INTERNAL_FilterVoice filter filterState samples n1 numChannels).1
          (fun k => (FAudio_INTERNAL_FilterVoice filter filterState samples n1 numChannels).2
            (n1 * numChannels + k)) n2 numChannels).2 k) ∧
    FAudio_INTERNAL_FilterVoice filter filterState samples 0 numChannels =
      (filterState, samples) := by
  have hb1 : n1 * numChannels ≤ 2 ^ 32 := by
    rw [Nat.add_mul] at hN
    omega
  have hb2 : n2 * numChannels ≤ 2 ^ 32 := by
    rw [Nat.add_mul] at hN
    omega
  obtain ⟨a1, a2, a3⟩ := FilterVoice_spec filter filterState samples numChannels (n1 + n2) hN
  obtain ⟨b1, b2, b3⟩ := FilterVoice_spec filter filterState samples numChannels n1 hb1
  obtain ⟨c1, c2, c3⟩ := FilterVoice_spec filter
    (FAudio_INTERNAL_FilterVoice filter filterState samples n1 numChannels).1
    (fun k => (FAudio_INTERNAL_FilterVoice filter filterState samples n1 numChannels).2
      (n1 * numChannels + k)) numChannels n2 hb2
  have hx : ∀ ci j, (FAudio_INTERNAL_FilterVoice filter filterState samples n1 numChannels).2
      (n1 * numChannels + (j * numChannels + ci)) = samples ((n1 + j) * numChannels + ci) := by
    intro ci j
    rw [b3 _ (by omega), Nat.add_mul, Nat.add_assoc]
  have hst : ∀ ci, ci < numChannels → ∀ j,
      channelState filter
        ((FAudio_INTERNAL_FilterVoice filter filterState samples n1 numChannels).1 ci)
        (fun j => (FAudio_INTERNAL_FilterVoice filter filterState samples n1 numChannels).2
          (n1 * numChannels + (j * numChannels + ci))) j =
      channelState filter (filterState ci) (fun i => samples (i * numChannels + ci))
        (n1 + j) := by
    intro ci hc j
    rw [channelState_add, b1 ci, if_pos hc]
    exact channelState_congr filter _ _ _ j (fun i _ => hx ci i)
  refine ⟨?_, ?_, ?_, rfl⟩
  · funext ci
    rw [a1 ci, c1 ci]
    by_cases hc : ci < numChannels
    · rw [if_pos hc, if_pos hc, hst ci hc n2]
    · rw [if_neg hc, if_neg hc, b1 ci, if_neg hc]
  · intro k hk
    have hpos : 0 < numChannels := by
      rcases Nat.eq_zero_or_pos numChannels with h0 | h0
      · rw [h0] at hk
        omega
      · exact h0
    have hdm := Nat.div_add_mod' k numChannels
    have hmod := Nat.mod_lt k hpos
    have hdiv : k / numChannels < n1 := (Nat.div_lt_iff_lt_mul hpos).2 hk
    rw [← hdm, a2 _ _ hmod, b2 _ _ hmod, if_pos (by omega), if_pos hdiv]
  · intro k
    by_cases hk : k < n2 * numChannels
    · have hpos : 0 < numChannels := by
        rcases Nat.eq_zero_or_pos numChannels with h0 | h0
        · rw [h0] at hk
          omega
        · exact h0
      have hdm := Nat.div_add_mod' k numChannels
      have hmod := Nat.mod_lt k hpos
      have hdiv : k / numChannels < n2 := (Nat.div_lt_iff_lt_mul hpos).2 hk
      have e : n1 * numChannels + k = (n1 + k / numChannels) * numChannels + k % numChannels := by
        rw [Nat.add_mul]
        omega
      rw [e]
      conv_rhs => rw [← hdm]
      rw [a2 _ _ hmod, c2 _ _ hmod, if_pos (by omega), if_pos hdiv, hst _ hmod, hx]
    · rw [a3 _ (by rw [Nat.add_mul]; omega), c3 _ (by omega), b3 _ (by omega)]

/-- Witness for C25: one stereo frame and then one more, against two frames at
once, through the example low-pass filter. -/
theorem c25_filter_state_persists_witness :
    (FAudio_INTERNAL_FilterVoice exampleFilter (fun _ _ => 0) (fun _ => 1) (1 + 1) 2).2
        (1 * 2 + 0) =
      (FAudio_INTERNAL_FilterVoice exampleFilter
        (FAudio_INTERNAL_FilterVoice exampleFilter (fun _ _ => 0) (fun _ => 1) 1 2).1
        (fun k => (FAudio_INTERNAL_FilterVoice exampleFilter (fun _ _ => 0) (fun _ => 1) 1 2).2
          (1 * 2 + k)) 1 2).2 0 :=
  (c25_filter_state_persists exampleFilter (fun _ _ => 0) (fun _ => 1) 1 1 2
    (by decide)).2.2.1 0

/-! ## The PCM decoders -/

theorem DecodePCM8_spec (b : FAudioBuffer) (format : FAudioWaveFormatEx) (off n : Nat)
    (h : (off + n) * format.nChannels < 2 ^ 32) :
    FAudio_INTERNAL_DecodePCM8 FAudio_INTERNAL_Convert_U8_To_F32_Scalar b off n format =
      (List.range (n * format.nChannels)).map
        (fun i => (readU8 b.pAudioData (off * format.nChannels + i) : Sample) * DIVBY128 - 1) := by
  have h1 : wrap32 (n * format.nChannels) = n * format.nChannels := by
    unfold wrap32
    rw [Nat.add_mul] at h
    omega
  have h2 : wrap32 (off * format.nChannels) = off * format.nChannels := by
    unfold wrap32
    rw [Nat.add_mul] at h
    omega
  unfold FAudio_INTERNAL_DecodePCM8 FAudio_INTERNAL_Convert_U8_To_F32_Scalar
  rw [List.map_map, h1, h2]
  rfl

theorem DecodePCM32F_spec (readF32 : ByteBuf → Nat → Sample) (b : FAudioBuffer)
    (format : FAudioWaveFormatEx) (off n : Nat) (h : (off + n) * format.nChannels < 2 ^ 32) :
    FAudio_INTERNAL_DecodePCM32F readF32 b off n format =
      (List.range (n * format.nChannels)).map
        (fun i => readF32 b.pAudioData (4 * (off * format.nChannels + i))) := by
  have h1 : wrap64 (4 * n * format.nChannels) / 4 = n * format.nChannels := by
    unfold wrap64
    rw [Nat.add_mul] at h
    rw [Nat.mul_assoc]
    omega
  have h2 : wrap32 (off * format.nChannels) = off * format.nChannels := by
    unfold wrap32
    rw [Nat.add_mul] at h
    omega
  unfold FAudio_INTERNAL_DecodePCM32F
  rw [h1, h2]

/-- Frames `[a, a + m)` followed by frames `[a + m, a + n)` of an interleaved
stream are frames `[a, a + n)`. -/
theorem frames_append (f : Nat → Sample) (c a m n : Nat) (hm : m ≤ n) :
    (List.range (m * c)).map (fun i => f (a * c + i)) ++
        (List.range ((n - m) * c)).map (fun i => f ((a + m) * c + i)) =
      (List.range (n * c)).map (fun i => f (a * c + i)) := by
  have e : n * c = m * c + (n - m) * c := by
    rw [← Nat.add_mul]
    congr 1
    omega
  rw [e, List.range_add, List.map_append, List.map_map]
  congr 1
  apply List.map_congr_left
  intro i _
  simp only [Function.comp]
  rw [Nat.add_mul, Nat.add_assoc]

/-- C23: for frames that lie within a buffer of less than `2 ^ 32` samples,
`FAudio_INTERNAL_DecodePCM8`, `FAudio_INTERNAL_DecodePCM16` and
`FAudio_INTERNAL_DecodePCM32F` (with the scalar converters) store exactly
`samples * nChannels` floats, float `i` being the converted element
`curOffset * nChannels + i` of the audio data: the byte over 128 minus one, the
short over 32768, the float itself. Decoding the first `mid` frames and then
the frames from `curOffset + mid` on gives what decoding all of them gives. -/
theorem c23_pcm_decoders (readF32 : ByteBuf → Nat → Sample) (buffer : FAudioBuffer)
    (format : FAudioWaveFormatEx) (curOffset samples : Nat)
    (hin : (curOffset + samples) * format.nChannels < 2 ^ 32) :
    ((FAudio_INTERNAL_DecodePCM8 FAudio_INTERNAL_Convert_U8_To_F32_Scalar buffer curOffset
        samples format).length = samples * format.nChannels ∧
      (FAudio_INTERNAL_DecodePCM16 FAudio_INTERNAL_Convert_S16_To_F32_Scalar buffer curOffset
        samples format).length = samples * format.nChannels ∧
      (FAudio_INTERNAL_DecodePCM32F readF32 buffer curOffset samples format).length =
        samples * format.nChannels) ∧
    (∀ i, i < samples * format.nChannels →
      (FAudio_INTERNAL_DecodePCM8 FAudio_INTERNAL_Convert_U8_To_F32_Scalar buffer curOffset
          samples format).getD i 0 =
        (readU8 buffer.pAudioData (curOffset * format.nChannels + i) : ℚ) / 128 - 1 ∧
      (FAudio_INTERNAL_DecodePCM16 FAudio_INTERNAL_Convert_S16_To_F32_Scalar buffer curOffset
          samples format).getD i 0 =
        (readS16 buffer.pAudioData (2 * (curOffset * format.nChannels + i)) : ℚ) / 32768 ∧
      (FAudio_INTERNAL_DecodePCM32F readF32 buffer curOffset samples format).getD i 0 =
        readF32 buffer.pAudioData (4 * (curOffset * format.nChannels + i))) ∧
    (∀ mid, mid ≤ samples →
      FAudio_INTERNAL_DecodePCM8 FAudio_INTERNAL_Convert_U8_To_F32_Scalar buffer curOffset
            mid format ++
          FAudio_INTERNAL_DecodePCM8 FAudio_INTERNAL_Convert_U8_To_F32_Scalar buffer
            (curOffset + mid) (samples - mid) format =
        FAudio_INTERNAL_DecodePCM8 FAudio_INTERNAL_Convert_U8_To_F32_Scalar buffer curOffset
          samples format ∧
      FAudio_INTERNAL_DecodePCM16 FAudio_INTERNAL_Convert_S16_To_F32_Scalar buffer curOffset
            mid format ++
          FAudio_INTERNAL_DecodePCM16 FAudio_INTERNAL_Convert_S16_To_F32_Scalar buffer
            (curOffset + mid) (samples - mid) format =
        FAudio_INTERNAL_DecodePCM16 FAudio_INTERNAL_Convert_S16_To_F32_Scalar buffer curOffset
          samples format ∧
      FAudio_INTERNAL_DecodePCM32F readF32 buffer curOffset mid format ++
          FAudio_INTERNAL_DecodePCM32F readF32 buffer (curOffset + mid) (samples - mid) format =
        FAudio_INTERNAL_DecodePCM32F readF32 buffer curOffset samples format) := by
  rw [DecodePCM8_spec buffer format curOffset samples hin,
    DecodePCM16_spec buffer format curOffset samples hin,
    DecodePCM32F_spec readF32 buffer format curOffset samples hin]
  refine ⟨⟨by simp, by simp, by simp⟩, ?_, ?_⟩
  · intro i hi
    refine ⟨?_, ?_, ?_⟩
    · rw [List.getD_eq_getElem?_getD, List.getElem?_map, List.getElem?_range hi,
        Option.map_some', Option.getD_some]
      unfold DIVBY128
      ring
    · rw [List.getD_eq_getElem?_getD, List.getElem?_map, List.getElem?_range hi,
        Option.map_some', Option.getD_some]
      unfold pcm16Input DIVBY32768
      ring
    · rw [List.getD_eq_getElem?_getD, List.getElem?_map, List.getElem?_range hi,
        Option.map_some', Option.getD_some]
  · intro mid hmid
    have hb1 : (curOffset + mid) * format.nChannels < 2 ^ 32 :=
      Nat.lt_of_le_of_lt (Nat.mul_le_mul_right _ (by omega)) hin
    have hb2 : (curOffset + mid + (samples - mid)) * format.nChannels < 2 ^ 32 := by
      have : curOffset + mid + (samples - mid) = curOffset + samples := by omega
      rw [this]
      exact hin
    rw [DecodePCM8_spec buffer format curOffset mid hb1,
      DecodePCM16_spec buffer format curOffset mid hb1,
      DecodePCM32F_spec readF32 buffer format curOffset mid hb1,
      DecodePCM8_spec buffer format (curOffset + mid) (samples - mid) hb2,
      DecodePCM16_spec buffer format (curOffset + mid) (samples - mid) hb2,
      DecodePCM32F_spec readF32 buffer format (curOffset + mid) (samples - mid) hb2]
    exact ⟨frames_append (fun k => (readU8 buffer.pAudioData k : Sample) * DIVBY128 - 1)
        format.nChannels curOffset mid samples hmid,
      frames_append (pcm16Input buffer) format.nChannels curOffset mid samples hmid,
      frames_append (fun k => readF32 buffer.pAudioData (4 * k)) format.nChannels curOffset
        mid samples hmid⟩

/-- Witness for C23: frames 3 to 12 of the example buffer, stereo, split after
four frames. -/
theorem c23_pcm_decoders_witness :
    (FAudio_INTERNAL_DecodePCM16 FAudio_INTERNAL_Convert_S16_To_F32_Scalar exampleBuffer 3 10
      exampleFormat).length = 20 ∧
    FAudio_INTERNAL_DecodePCM8 FAudio_INTERNAL_Convert_U8_To_F32_Scalar exampleBuffer 3 4
          exampleFormat ++
        FAudio_INTERNAL_DecodePCM8 FAudio_INTERNAL_Convert_U8_To_F32_Scalar exampleBuffer
          (3 + 4) (10 - 4) exampleFormat =
      FAudio_INTERNAL_DecodePCM8 FAudio_INTERNAL_Convert_U8_To_F32_Scalar exampleBuffer 3 10
        exampleFormat :=
  have h := c23_pcm_decoders (fun _ _ => 0) exampleBuffer exampleFormat 3 10 (by decide)
  ⟨h.1.2.1, (h.2.2 4 (by decide)).1⟩

/-! ## The other SIMD converters -/

theorem filledRange_update (f : Nat → Sample) (dst : FloatBuf) (lo i : Nat) (h : lo ≤ i) :
    filledRange f (Function.update dst i (f i)) lo i = filledRange f dst lo (i + 1) := by
  funext k
  unfold filledRange
  by_cases hk : k = i
  · subst hk
    rw [if_neg (by omega), if_pos (by omega), Function.update_same]
  · rw [Function.update_noteq hk]
    by_cases h1 : lo ≤ k ∧ k < i
    · rw [if_pos h1, if_pos (by omega)]
    · rw [if_neg h1, if_neg (by omega)]

theorem filledRange_join (f : Nat → Sample) (dst : FloatBuf) (lo mid hi : Nat)
    (h1 : lo ≤ mid) (h2 : mid ≤ hi) :
    filledRange f (filledRange f dst mid hi) lo mid = filledRange f dst lo hi := by
  funext k
  unfold filledRange
  by_cases h3 : lo ≤ k ∧ k < mid
  · rw [if_pos h3, if_pos (by omega)]
  · rw [if_neg h3]
    by_cases h4 : mid ≤ k ∧ k < hi
    · rw [if_pos h4, if_pos (by omega)]
    · rw [if_neg h4, if_neg (by omega)]

theorem filledRange_empty (f : Nat → Sample) (dst : FloatBuf) (i : Nat) :
    filledRange f dst i i = dst := by
  funext k
  unfold filledRange
  rw [if_neg (by omega)]

theorem Convert_SIMD_align_spec (w : Nat) (conv : Nat → Sample) (dstAddr : Nat) :
    ∀ (i : Nat) (dst : FloatBuf), 0 < i →
      ∃ j, j ≤ i ∧
        Convert_SIMD_align w conv dstAddr i ((i : Int) - 1) dst =
          some (j, (j : Int) - 1, filledRange conv dst j i) := by
  intro i
  induction i with
  | zero => intro dst h; omega
  | succ i ih =>
    intro dst _
    unfold Convert_SIMD_align
    have hp : (((i + 1 : Nat) : Int) - 1) = (i : Int) := by push_cast; ring
    rw [hp]
    split_ifs with h1 h2
    · omega
    · rw [Int.toNat_ofNat]
      rcases Nat.eq_zero_or_pos i with h0 | h0
      · subst h0
        refine ⟨0, by omega, ?_⟩
        unfold Convert_SIMD_align
        rw [← filledRange_update conv dst 0 0 (le_refl 0), filledRange_empty]
      · obtain ⟨j, hj, e⟩ := ih (Function.update dst i (conv i)) h0
        refine ⟨j, by omega, ?_⟩
        rw [e, filledRange_update conv dst j i hj]
    · refine ⟨i + 1, le_refl _, ?_⟩
      rw [filledRange_empty, hp]

theorem Convert_SIMD_blocks_spec (w : Nat) (conv : Nat → Sample)
    (block : Nat → FloatBuf → FloatBuf)
    (hblock : ∀ p dst, block p dst = filledRange conv dst p (p + (w + 1))) :
    ∀ (fuel i : Nat) (dst : FloatBuf), i ≤ fuel → i < 2 ^ 32 →
      ∃ j, j ≤ i ∧
        Convert_SIMD_blocks w block fuel i ((i : Int) - (w + 1)) dst =
          some (j, (j : Int) - (w + 1), filledRange conv dst j i) := by
  intro fuel
  induction fuel with
  | zero =>
    intro i dst h1 _
    have h0 : i = 0 := by omega
    subst h0
    refine ⟨0, le_refl _, ?_⟩
    unfold Convert_SIMD_blocks
    rw [if_neg (by rw [toInt32_small 0 (by norm_num)]; omega), filledRange_empty]
  | succ fuel ih =>
    intro i dst h1 h2
    unfold Convert_SIMD_blocks
    by_cases hc : ((w : Int) + 1) ≤ toInt32 i
    · rw [if_pos hc]
      have hi : i < 2 ^ 31 := by
        by_contra hn
        unfold toInt32 at hc
        rw [Nat.mod_eq_of_lt h2, if_neg hn] at hc
        omega
      rw [toInt32_small i hi] at hc
      have hw : w + 1 ≤ i := by omega
      rw [if_neg (by omega)]
      have hp : ((i : Int) - (w + 1)).toNat = i - (w + 1) := by omega
      have hq : ((i : Int) - (w + 1) - (w + 1)) = (((i - (w + 1) : Nat) : Int) - (w + 1)) := by
        omega
      rw [hp, hq, hblock]
      obtain ⟨j, hj, e⟩ := ih (i - (w + 1))
        (filledRange conv dst (i - (w + 1)) (i - (w + 1) + (w + 1))) (by omega) (by omega)
      refine ⟨j, by omega, ?_⟩
      rw [e, filledRange_join conv dst j (i - (w + 1)) (i - (w + 1) + (w + 1)) hj (by omega)]
      have : i - (w + 1) + (w + 1) = i := by omega
      rw [this]
    · rw [if_neg hc]
      exact ⟨i, le_refl _, by rw [filledRange_empty]⟩

theorem Convert_SIMD_rest_spec (conv : Nat → Sample) :
    ∀ (i : Nat) (dst : FloatBuf),
      Convert_SIMD_rest conv i ((i : Int) - 1) dst = some (filledRange conv dst 0 i) := by
  intro i
  induction i with
  | zero =>
    intro dst
    unfold Convert_SIMD_rest
    rw [filledRange_empty]
  | succ i ih =>
    intro dst
    unfold Convert_SIMD_rest
    have hp : (((i + 1 : Nat) : Int) - 1) = (i : Int) := by push_cast; ring
    rw [hp, if_neg (by omega), Int.toNat_ofNat, ih,
      filledRange_update conv dst 0 i (Nat.zero_le _)]

theorem Convert_SIMD_blocks_zero (w : Nat) (block : Nat → FloatBuf → FloatBuf) (p : Int)
    (dst : FloatBuf) : Convert_SIMD_blocks w block 0 0 p dst = some (0, p, dst) := by
  unfold Convert_SIMD_blocks
  rw [if_neg (by rw [toInt32_small 0 (by norm_num)]; omega)]

theorem Convert_SIMD_tail_zero (w size : Nat) (conv : Nat → Sample)
    (block : Nat → FloatBuf → FloatBuf) (srcAddr dstAddr : Nat) (dst : FloatBuf) (p : Int) :
    (match Convert_SIMD_align w conv dstAddr 0 p dst with
    | none => none
    | some (i, p, dst) =>
      let p := p - w
      let r : Option (Nat × Int × FloatBuf) :=
        if ((srcAddr : Int) + size * p) % 16 = 0 then Convert_SIMD_blocks w block i i p dst
        else some (i, p, dst)
      match r with
      | none => none
      | some (i, p, dst) => Convert_SIMD_rest conv i (p + w) dst) = some dst := by
  unfold Convert_SIMD_align
  simp only []
  rw [Convert_SIMD_blocks_zero]
  split_ifs <;> (simp only []; unfold Convert_SIMD_rest; rfl)

/-- A converter built from the three loops, whose vector round stores the
floats `conv k` at its sixteen or eight indices, returns and stores `conv k` at
every index below `len`. -/
theorem Convert_SIMD_spec (w size : Nat) (conv : Nat → Sample)
    (block : Nat → FloatBuf → FloatBuf)
    (hblock : ∀ p dst, block p dst = filledRange conv dst p (p + (w + 1)))
    (srcAddr dstAddr : Nat) (dst : FloatBuf) (len : Nat) (hlen : len < 2 ^ 32) :
    Convert_SIMD w size conv block srcAddr dstAddr dst len =
      some (filledRange conv dst 0 len) := by
  unfold Convert_SIMD
  have hw : wrap32 len = len := Nat.mod_eq_of_lt hlen
  rcases Nat.eq_zero_or_pos len with h0 | h0
  · rw [hw, h0, filledRange_empty]
    exact Convert_SIMD_tail_zero w size conv block srcAddr dstAddr dst _
  · have hs : ((sub32 len 1 : Nat) : Int) = (len : Int) - 1 := by
      unfold sub32 wrap32
      omega
    simp only [hw, hs]
    obtain ⟨i, hi, e⟩ := Convert_SIMD_align_spec w conv dstAddr len dst h0
    rw [e]
    simp only []
    have hp : ((i : Int) - 1 - w) = (i : Int) - (w + 1) := by ring
    rw [hp]
    obtain ⟨j, hj, e2⟩ := Convert_SIMD_blocks_spec w conv block hblock i i
      (filledRange conv dst i len) (le_refl _) (by omega)
    rw [e2]
    have hq : ((j : Int) - (w + 1) + w) = (j : Int) - 1 := by ring
    have hq2 : ((i : Int) - (w + 1) + w) = (i : Int) - 1 := by ring
    split_ifs
    · simp only [hq]
      rw [Convert_SIMD_rest_spec, filledRange_join conv _ 0 j i (Nat.zero_le _) hj,
        filledRange_join conv dst 0 i len (Nat.zero_le _) hi]
    · simp only [hq2]
      rw [Convert_SIMD_rest_spec, filledRange_join conv dst 0 i len (Nat.zero_le _) hi]

theorem Convert_S16_To_F32_NEON_block_spec (src : ByteBuf) (p : Nat) (dst : FloatBuf) :
    Convert_S16_To_F32_NEON_block src p dst = filledRange (convertS16 src) dst p (p + 8) := by
  funext k
  unfold Convert_S16_To_F32_NEON_block
  simp only [vld1q_s16, vget_low_s16, vget_high_s16, vmovl_s16, vcvtq_f32_s32, vmulq_f32,
    vdupq_n_f32, vst1q_f32, List.range, List.range.loop, List.map, List.take, List.drop,
    List.replicate, List.zipWith, Nat.add_zero]
  by_cases hk : p ≤ k ∧ k < p + 8
  · obtain ⟨d, rfl⟩ : ∃ d, k = p + d := ⟨k - p, by omega⟩
    have hd : d < 8 := by omega
    interval_cases d <;> simp [writeAt, filledRange, convertS16, Nat.add_assoc]
  · unfold filledRange
    rw [if_neg hk, writeAt_of_out, writeAt_of_out] <;>
      simp only [List.length_cons, List.length_nil] <;> omega

theorem sext_low (v u : Nat) :
    toInt32 (Int.toNat (toInt32 (((v + 65536 * u) <<< 16 % 2 ^ 32) % 65536 +
      65536 * (((v + 65536 * u) <<< 16 % 2 ^ 32) / 65536 % 65536)) / 2 ^ 16 % 2 ^ 32) % 65536 +
      65536 * (Int.toNat (toInt32 (((v + 65536 * u) <<< 16 % 2 ^ 32) % 65536 +
      65536 * (((v + 65536 * u) <<< 16 % 2 ^ 32) / 65536 % 65536)) / 2 ^ 16 % 2 ^ 32) /
        65536 % 65536)) = toInt16 (v : Int) := by
  rw [Nat.shiftLeft_eq]
  unfold toInt32 toInt16
  split_ifs <;> omega

theorem sext_high (v u : Nat) (hv : v < 65536) (hu : u < 65536) :
    toInt32 (Int.toNat (toInt32 (v + 65536 * u) / 2 ^ 16 % 2 ^ 32) % 65536 +
      65536 * (Int.toNat (toInt32 (v + 65536 * u) / 2 ^ 16 % 2 ^ 32) / 65536 % 65536)) =
      toInt16 (u : Int) := by
  unfold toInt32 toInt16
  split_ifs <;> omega

theorem S16_SSE2_lanes (v0 v1 v2 v3 v4 v5 v6 v7 : Nat) (h0 : v0 < 65536) (h1 : v1 < 65536)
    (h2 : v2 < 65536) (h3 : v3 < 65536) (h4 : v4 < 65536) (h5 : v5 < 65536) (h6 : v6 < 65536)
    (h7 : v7 < 65536) :
    _mm_cvtepi32_ps (_mm_unpacklo_epi32
        (_mm_srai_epi32 (_mm_slli_epi32 [v0, v1, v2, v3, v4, v5, v6, v7] 16) 16)
        (_mm_srai_epi32 [v0, v1, v2, v3, v4, v5, v6, v7] 16)) =
      [((toInt16 v0 : Int) : Sample), ((toInt16 v1 : Int) : Sample),
        ((toInt16 v2 : Int) : Sample), ((toInt16 v3 : Int) : Sample)] ∧
    _mm_cvtepi32_ps (_mm_unpackhi_epi32
        (_mm_srai_epi32 (_mm_slli_epi32 [v0, v1, v2, v3, v4, v5, v6, v7] 16) 16)
        (_mm_srai_epi32 [v0, v1, v2, v3, v4, v5, v6, v7] 16)) =
      [((toInt16 v4 : Int) : Sample), ((toInt16 v5 : Int) : Sample),
        ((toInt16 v6 : Int) : Sample), ((toInt16 v7 : Int) : Sample)] := by
  simp only [_mm_slli_epi32, _mm_srai_epi32, _mm_unpacklo_epi32, _mm_unpackhi_epi32,
    _mm_cvtepi32_ps, lanes16, lanes32, List.range, List.range.loop, List.map,
    List.getD_cons_zero, List.getD_cons_succ, Nat.mul_zero, Nat.mul_one, Nat.add_zero,
    Nat.zero_add]
  rw [sext_low v0 v1, sext_high v0 v1 h0 h1, sext_low v2 v3, sext_high v2 v3 h2 h3,
    sext_low v4 v5, sext_high v4 v5 h4 h5, sext_low v6 v7, sext_high v6 v7 h6 h7]
  exact ⟨rfl, rfl⟩

theorem readS16_lane (src : ByteBuf) (q : Nat) :
    readU8 src q + 256 * readU8 src (q + 1) < 65536 ∧
      toInt16 ((readU8 src q + 256 * readU8 src (q + 1) : Nat) : Int) = readS16 src q := by
  have h0 := readU8_lt src q
  have h1 := readU8_lt src (q + 1)
  exact ⟨by omega, rfl⟩

theorem Convert_S16_To_F32_SSE2_block_spec (src : ByteBuf) (p : Nat) (dst : FloatBuf) :
    Convert_S16_To_F32_SSE2_block src p dst = filledRange (convertS16 src) dst p (p + 8) := by
  funext k
  unfold Convert_S16_To_F32_SSE2_block
  simp only [_mm_load_si128, List.range, List.range.loop, List.map]
  obtain ⟨e1, e2⟩ := S16_SSE2_lanes
    (readU8 src (2 * p + 2 * 0) + 256 * readU8 src (2 * p + 2 * 0 + 1)) (readU8 src (2 * p + 2 * 1) + 256 * readU8 src (2 * p + 2 * 1 + 1)) (readU8 src (2 * p + 2 * 2) + 256 * readU8 src (2 * p + 2 * 2 + 1)) (readU8 src (2 * p + 2 * 3) + 256 * readU8 src (2 * p + 2 * 3 + 1)) (readU8 src (2 * p + 2 * 4) + 256 * readU8 src (2 * p + 2 * 4 + 1)) (readU8 src (2 * p + 2 * 5) + 256 * readU8 src (2 * p + 2 * 5 + 1)) (readU8 src (2 * p + 2 * 6) + 256 * readU8 src (2 * p + 2 * 6 + 1)) (readU8 src (2 * p + 2 * 7) + 256 * readU8 src (2 * p + 2 * 7 + 1))
    (readS16_lane src (2 * p + 2 * 0)).1 (readS16_lane src (2 * p + 2 * 1)).1 (readS16_lane src (2 * p + 2 * 2)).1 (readS16_lane src (2 * p + 2 * 3)).1 (readS16_lane src (2 * p + 2 * 4)).1 (readS16_lane src (2 * p + 2 * 5)).1 (readS16_lane src (2 * p + 2 * 6)).1 (readS16_lane src (2 * p + 2 * 7)).1
  rw [e1, e2, (readS16_lane src (2 * p + 2 * 0)).2, (readS16_lane src (2 * p + 2 * 1)).2, (readS16_lane src (2 * p + 2 * 2)).2, (readS16_lane src (2 * p + 2 * 3)).2, (readS16_lane src (2 * p + 2 * 4)).2, (readS16_lane src (2 * p + 2 * 5)).2, (readS16_lane src (2 * p + 2 * 6)).2, (readS16_lane src (2 * p + 2 * 7)).2]
  simp only [_mm_mul_ps, _mm_store_ps, _mm_set1_ps, List.replicate, List.zipWith]
  by_cases hk : p ≤ k ∧ k < p + 8
  · obtain ⟨d, rfl⟩ : ∃ d, k = p + d := ⟨k - p, by omega⟩
    have hd : d < 8 := by omega
    interval_cases d <;> simp [writeAt, filledRange, convertS16, Nat.add_assoc, Nat.mul_add]
  · unfold filledRange
    rw [if_neg hk, writeAt_of_out, writeAt_of_out] <;>
      simp only [List.length_cons, List.length_nil] <;> omega

/-- C22: for every length that fits the `uint32_t` parameter, every content of
the source and every address of `src` and `dst`, the SSE2 and the NEON
converter of 16-bit samples both return and store `dst[k] = src[k] / 32768` for
every `k < len`, which are the floats the scalar converter stores, and leave
every float from `dst[len]` on as it was. -/
theorem c22_simd_s16_equals_scalar (srcAddr dstAddr : Nat) (src : ByteBuf) (dst : FloatBuf)
    (len : Nat) (hlen : len < 2 ^ 32) :
    ∃ out, FAudio_INTERNAL_Convert_S16_To_F32_SSE2 srcAddr dstAddr src dst len = some out ∧
      FAudio_INTERNAL_Convert_S16_To_F32_NEON srcAddr dstAddr src dst len = some out ∧
      (∀ k, k < len → out k = (readS16 src (2 * k) : ℚ) / 32768) ∧
      (List.range len).map out =
        FAudio_INTERNAL_Convert_S16_To_F32_Scalar
          ((List.range len).map (fun k => readS16 src (2 * k))) ∧
      ∀ k, len ≤ k → out k = dst k := by
  refine ⟨_, Convert_SIMD_spec 7 2 (convertS16 src) _
      (Convert_S16_To_F32_SSE2_block_spec src) srcAddr dstAddr dst len hlen,
    Convert_SIMD_spec 7 2 (convertS16 src) _
      (Convert_S16_To_F32_NEON_block_spec src) srcAddr dstAddr dst len hlen, ?_, ?_, ?_⟩
  · intro k hk
    unfold filledRange convertS16 DIVBY32768
    rw [if_pos ⟨Nat.zero_le _, hk⟩]
    ring
  · unfold FAudio_INTERNAL_Convert_S16_To_F32_Scalar
    rw [List.map_map]
    apply List.map_congr_left
    intro k hk
    rw [List.mem_range] at hk
    unfold filledRange convertS16
    rw [if_pos ⟨Nat.zero_le _, hk⟩]
    rfl
  · intro k hk
    unfold filledRange
    rw [if_neg (by omega)]

/-- Witness for C22: 20 shorts whose addresses let the vector loop run. -/
theorem c22_simd_s16_equals_scalar_witness :
    ∃ out, FAudio_INTERNAL_Convert_S16_To_F32_SSE2 8 0 (fun k => 7 * k + 250) (fun _ => 5) 20 =
        some out ∧
      FAudio_INTERNAL_Convert_S16_To_F32_NEON 8 0 (fun k => 7 * k + 250) (fun _ => 5) 20 =
        some out ∧
      (∀ k, k < 20 → out k = (readS16 (fun k => 7 * k + 250) (2 * k) : ℚ) / 32768) ∧
      (List.range 20).map out =
        FAudio_INTERNAL_Convert_S16_To_F32_Scalar
          ((List.range 20).map (fun k => readS16 (fun k => 7 * k + 250) (2 * k))) ∧
      ∀ k, 20 ≤ k → out k = (fun _ => (5 : Sample)) k :=
  c22_simd_s16_equals_scalar 8 0 (fun k => 7 * k + 250) (fun _ => 5) 20 (by decide)

/-- One round of the vector loop of the NEON converter of 8-bit samples: float
`4 * a + b` of the sixteen is made from byte `4 * (3 - a) + b`, and it is that
byte minus `1/128`. -/
theorem Convert_U8_To_F32_NEON_block_spec (src : ByteBuf) (p : Nat) (dst : FloatBuf)
    (a b : Nat) (ha : a < 4) (hb : b < 4) :
    Convert_U8_To_F32_NEON_block src p dst (p + (4 * a + b)) =
      (readU8 src (p + (4 * (3 - a) + b)) : ℚ) - 1 / 128 := by
  unfold Convert_U8_To_F32_NEON_block
  simp only [vld1q_u8, vget_high_u8, vget_low_u8, vmovl_u8, vget_high_u16, vget_low_u16,
    vmovl_u16, vcvtq_f32_u32, vmlsq_f32, vdupq_n_f32, vst1q_f32, List.range, List.range.loop,
    List.map, List.take, List.drop, List.replicate, List.zipWith, Nat.add_zero]
  interval_cases a <;> interval_cases b <;> simp [writeAt, DIVBY128, Nat.add_assoc]

/-- C21 fails on the code: on sixteen bytes `0, 1, ..., 15` at aligned
addresses the NEON converter of 8-bit samples returns with
`dst[0] = 12 - 1/128`, made from byte 12, where the scalar converter stores
`0/128 - 1 = -1`. -/
theorem c21_neon_u8_diverges :
    ∃ out, FAudio_INTERNAL_Convert_U8_To_F32_NEON 0 0 (fun k => k) (fun _ => 0) 16 = some out ∧
      out 0 = 12 - 1 / 128 ∧
      (FAudio_INTERNAL_Convert_U8_To_F32_Scalar
        ((List.range 16).map (readU8 (fun k => k)))).getD 0 0 = -1 := by
  refine ⟨Convert_U8_To_F32_NEON_block (fun k => k) 0 (fun _ => 0), ?_, ?_, ?_⟩
  · unfold FAudio_INTERNAL_Convert_U8_To_F32_NEON Convert_SIMD
    simp [Convert_SIMD_align, Convert_SIMD_blocks, Convert_SIMD_rest, wrap32, sub32, toInt32]
  · have h := Convert_U8_To_F32_NEON_block_spec (fun k => k) 0 (fun _ => 0) 0 0 (by decide)
      (by decide)
    rw [h]
    norm_num [readU8]
  · norm_num [FAudio_INTERNAL_Convert_U8_To_F32_Scalar, readU8, DIVBY128, List.range,
      List.range.loop]

/-! ## The look-ahead frames behind the decoded ones -/

theorem DecodeBuffers_body_cache_full (K : Env) (voice : FAudioSourceVoice) (audio : FAudio)
    (buffer : FAudioBuffer) (next : List FAudioBuffer) (toDecode decoded : Nat)
    (h : ¬ endReadOf voice buffer toDecode decoded < sub32 toDecode decoded) :
    (DecodeBuffers_body K voice audio buffer next toDecode decoded).2.1.decodeCache =
      writeAt audio.decodeCache (decoded * voice.src.format.nChannels)
        (voice.src.decode buffer voice.src.curBufferOffset
          (endReadOf voice buffer toDecode decoded) voice.src.format) := by
  unfold endReadOf avail at h
  unfold DecodeBuffers_body endReadOf avail
  simp only []
  rw [if_neg h]

/-- The look-ahead part of `FAudio_INTERNAL_DecodeBuffers` when the head buffer
has fewer frames left than `EXTRA_DECODE_PADDING`: the frames are decoded behind
the `decoded` ones, and then `EXTRA_DECODE_PADDING - endRead * nChannels` floats
are cleared from the same place on. -/
theorem DecodeBuffers_padding_short (K : Env) (voice : FAudioSourceVoice) (audio : FAudio)
    (decoded : Nat) (b : FAudioBuffer) (rest : List FAudioBuffer) (off rem : Nat)
    (format : FAudioWaveFormatEx) (dec : FAudioDecodeCallback) (cache : FloatBuf)
    (hq : voice.src.bufferList = b :: rest) (hoff : voice.src.curBufferOffset = off)
    (hfmt : voice.src.format = format) (hdec : voice.src.decode = dec)
    (hcache : audio.decodeCache = cache)
    (hrem : sub32 (bufferEnd b) off = rem) (h : rem < K.EXTRA_DECODE_PADDING) :
    (DecodeBuffers_padding K voice audio decoded).decodeCache =
      FAudio_zero (writeAt cache (decoded * format.nChannels) (dec b off rem format))
        (decoded * format.nChannels) (sub32 K.EXTRA_DECODE_PADDING (rem * format.nChannels)) := by
  subst hoff hfmt hdec hcache hrem
  unfold DecodeBuffers_padding
  split
  · rename_i b1 r1 h1
    rw [hq] at h1
    obtain ⟨e1, _⟩ := List.cons.inj h1
    subst e1
    simp only []
    have e : FAudio_min (sub32 (bufferEnd b) voice.src.curBufferOffset) K.EXTRA_DECODE_PADDING =
        sub32 (bufferEnd b) voice.src.curBufferOffset := by
      rw [FAudio_min_eq]
      exact Nat.min_eq_left (Nat.le_of_lt h)
    rw [e, if_pos h]
  · rename_i h1
    rw [hq] at h1
    cases h1

/-- A call of `FAudio_INTERNAL_DecodeBuffers` that stops `rem` frames before
the end of the only buffer, for `rem` below `EXTRA_DECODE_PADDING`: the decode
cache afterwards. -/
theorem DecodeBuffers_short_tail (K : Env) (voice : FAudioSourceVoice) (audio : FAudio)
    (b : FAudioBuffer) (toDecode fuel : Nat)
    (hq : voice.src.bufferList = [b]) (hLC : b.LoopCount = 0)
    (h32 : b.PlayBegin + b.PlayLength < 2 ^ 32) (hT0 : 0 < toDecode)
    (hrem : voice.src.curBufferOffset + toDecode < b.PlayBegin + b.PlayLength)
    (hpad : b.PlayBegin + b.PlayLength - (voice.src.curBufferOffset + toDecode) <
      K.EXTRA_DECODE_PADDING)
    (hfuel : 2 ≤ fuel) :
    ∃ v1 a1 d, FAudio_INTERNAL_DecodeBuffers K fuel voice audio toDecode = some (v1, a1, d) ∧
      d = toDecode ∧ v1.src.bufferList = [b] ∧
      a1.decodeCache =
        FAudio_zero
          (writeAt
            (writeAt audio.decodeCache (0 * voice.src.format.nChannels)
              (voice.src.decode b voice.src.curBufferOffset toDecode voice.src.format))
            (toDecode * voice.src.format.nChannels)
            (voice.src.decode b (voice.src.curBufferOffset + toDecode)
              (b.PlayBegin + b.PlayLength - (voice.src.curBufferOffset + toDecode))
              voice.src.format))
          (toDecode * voice.src.format.nChannels)
          (sub32 K.EXTRA_DECODE_PADDING
            ((b.PlayBegin + b.PlayLength - (voice.src.curBufferOffset + toDecode)) *
              voice.src.format.nChannels)) := by
  obtain ⟨m, rfl⟩ : ∃ m, fuel = m + 1 + 1 := ⟨fuel - 2, by omega⟩
  have hsub : sub32 toDecode 0 = toDecode := by simp only [sub32, wrap32]; omega
  have hend : bufferEnd b = b.PlayBegin + b.PlayLength := by
    unfold bufferEnd
    rw [if_neg (by omega)]
    simp only [wrap32]; omega
  have hav : avail voice b = b.PlayBegin + b.PlayLength - voice.src.curBufferOffset := by
    unfold avail
    rw [hend]
    simp only [sub32, wrap32]; omega
  have her : endReadOf voice b toDecode 0 = toDecode := by
    unfold endReadOf
    rw [FAudio_min_eq, hsub, hav]
    omega
  have hno : ¬ endReadOf voice b toDecode 0 < sub32 toDecode 0 := by
    rw [her, hsub]; omega
  have hbq : (DecodeBuffers_body K voice audio b [] toDecode 0).1.src.bufferList = [b] :=
    (DecodeBuffers_body_queue K voice audio b [] toDecode 0).trans
      (by unfold bodyQueue; rw [if_neg hno, hq])
  have hbo : (DecodeBuffers_body K voice audio b [] toDecode 0).1.src.curBufferOffset =
      voice.src.curBufferOffset + toDecode :=
    (DecodeBuffers_body_offset K voice audio b [] toDecode 0).trans
      (by unfold bodyOffset; rw [if_neg hno, her]; simp only [wrap32]; omega)
  have hbd : (DecodeBuffers_body K voice audio b [] toDecode 0).2.2 = toDecode :=
    (DecodeBuffers_body_decoded K voice audio b [] toDecode 0).trans
      (by rw [her]; simp only [wrap32]; omega)
  have hbc : (DecodeBuffers_body K voice audio b [] toDecode 0).2.1.decodeCache =
      writeAt audio.decodeCache (0 * voice.src.format.nChannels)
        (voice.src.decode b voice.src.curBufferOffset toDecode voice.src.format) :=
    (DecodeBuffers_body_cache_full K voice audio b [] toDecode 0 hno).trans (by rw [her])
  have hsv := DecodeBuffers_body_sameVoice K voice audio b [] toDecode 0
  have hstop : (DecodeBuffers_body K voice audio b [] toDecode 0).1.src.bufferList = [] ∨
      ¬ (DecodeBuffers_body K voice audio b [] toDecode 0).2.2 < toDecode :=
    Or.inr (by rw [hbd]; omega)
  have hr : sub32 (bufferEnd b) (voice.src.curBufferOffset + toDecode) =
      b.PlayBegin + b.PlayLength - (voice.src.curBufferOffset + toDecode) := by
    rw [hend]
    simp only [sub32, wrap32]; omega
  have hpc := DecodeBuffers_padding_short K
    (DecodeBuffers_body K voice audio b [] toDecode 0).1
    (DecodeBuffers_body K voice audio b [] toDecode 0).2.1
    (DecodeBuffers_body K voice audio b [] toDecode 0).2.2 b []
    (voice.src.curBufferOffset + toDecode)
    (b.PlayBegin + b.PlayLength - (voice.src.curBufferOffset + toDecode))
    voice.src.format voice.src.decode
    (writeAt audio.decodeCache (0 * voice.src.format.nChannels)
      (voice.src.decode b voice.src.curBufferOffset toDecode voice.src.format))
    hbq hbo hsv.format hsv.decode hbc hr hpad
  exact ⟨(DecodeBuffers_body K voice audio b [] toDecode 0).1,
    DecodeBuffers_padding K (DecodeBuffers_body K voice audio b [] toDecode 0).1
      (DecodeBuffers_body K voice audio b [] toDecode 0).2.1
      (DecodeBuffers_body K voice audio b [] toDecode 0).2.2,
    (DecodeBuffers_body K voice audio b [] toDecode 0).2.2,
    DecodeBuffers_one_pass K voice audio b [] toDecode m hq hT0 hstop, hbd, hbq,
    hpc.trans (congrArg (fun d =>
      FAudio_zero
        (writeAt
          (writeAt audio.decodeCache (0 * voice.src.format.nChannels)
            (voice.src.decode b voice.src.curBufferOffset toDecode voice.src.format))
          (d * voice.src.format.nChannels)
          (voice.src.decode b (voice.src.curBufferOffset + toDecode)
            (b.PlayBegin + b.PlayLength - (voice.src.curBufferOffset + toDecode))
            voice.src.format))
        (d * voice.src.format.nChannels)
        (sub32 K.EXTRA_DECODE_PADDING
          ((b.PlayBegin + b.PlayLength - (voice.src.curBufferOffset + toDecode)) *
            voice.src.format.nChannels))) hbd)⟩

/-- C28 fails on the code. The example voice, stereo, plays a buffer of 100
frames from frame 0; a call for 99 frames returns 99 and leaves one frame for
the look-ahead. The clearing that follows has the length `2 - 1 * 2 = 0`, so the
floats 200 and 201 of the second look-ahead frame keep what the decode cache
held before, 50 and 201/4, where zeros are due. With the mono format the
clearing has the length `2 - 1 * 1 = 1` and starts at the look-ahead frame
itself: float 99, decoded as -7197/16384, is cleared, and float 100 keeps the
25 it held before. -/
theorem c28_decode_padding_diverges :
    (∃ v a, FAudio_INTERNAL_DecodeBuffers exampleEnv 10 exampleUnitVoice exampleAudio 99 =
        some (v, a, 99) ∧
      v.src.bufferList = [examplePlainBuffer] ∧
      a.decodeCache 200 = 50 ∧ a.decodeCache 201 = 201 / 4) ∧
    (∃ v a, FAudio_INTERNAL_DecodeBuffers exampleEnv 10 exampleMonoVoice exampleAudio 99 =
        some (v, a, 99) ∧
      v.src.bufferList = [examplePlainBuffer] ∧
      exampleMonoVoice.src.decode examplePlainBuffer 99 1 exampleMonoFormat =
        [-7197 / 16384] ∧
      a.decodeCache 99 = 0 ∧ a.decodeCache 100 = 25) := by
  constructor
  · obtain ⟨v1, a1, d, h1, h2, h3, h4⟩ := DecodeBuffers_short_tail exampleEnv exampleUnitVoice
      exampleAudio examplePlainBuffer 99 10 rfl rfl (by decide) (by decide) (by decide)
      (by decide) (by decide)
    subst h2
    refine ⟨v1, a1, h1, h3, ?_, ?_⟩
    · rw [h4]
      simp [FAudio_zero, writeAt, sub32, wrap32, exampleEnv, exampleUnitVoice, exampleVoice,
        examplePlainBuffer, exampleBuffer, exampleFormat, exampleAudio,
        FAudio_INTERNAL_DecodePCM16, FAudio_INTERNAL_Convert_S16_To_F32_Scalar]
      norm_num
    · rw [h4]
      simp [FAudio_zero, writeAt, sub32, wrap32, exampleEnv, exampleUnitVoice, exampleVoice,
        examplePlainBuffer, exampleBuffer, exampleFormat, exampleAudio,
        FAudio_INTERNAL_DecodePCM16, FAudio_INTERNAL_Convert_S16_To_F32_Scalar]
  · obtain ⟨v1, a1, d, h1, h2, h3, h4⟩ := DecodeBuffers_short_tail exampleEnv exampleMonoVoice
      exampleAudio examplePlainBuffer 99 10 rfl rfl (by decide) (by decide) (by decide)
      (by decide) (by decide)
    subst h2
    refine ⟨v1, a1, h1, h3, ?_, ?_, ?_⟩
    · simp [exampleMonoVoice, exampleUnitVoice, exampleVoice, exampleMonoFormat, exampleFormat,
        examplePlainBuffer, exampleBuffer, FAudio_INTERNAL_DecodePCM16,
        FAudio_INTERNAL_Convert_S16_To_F32_Scalar, wrap32, readS16, readU8, toInt16,
        DIVBY32768, List.range, List.range.loop]
      norm_num
    · rw [h4]
      simp [FAudio_zero, writeAt, sub32, wrap32, exampleEnv, exampleMonoVoice, exampleUnitVoice,
        exampleVoice, exampleMonoFormat, examplePlainBuffer, exampleBuffer, exampleFormat,
        exampleAudio, FAudio_INTERNAL_DecodePCM16, FAudio_INTERNAL_Convert_S16_To_F32_Scalar]
    · rw [h4]
      simp [FAudio_zero, writeAt, sub32, wrap32, exampleEnv, exampleMonoVoice, exampleUnitVoice,
        exampleVoice, exampleMonoFormat, examplePlainBuffer, exampleBuffer, exampleFormat,
        exampleAudio, FAudio_INTERNAL_DecodePCM16, FAudio_INTERNAL_Convert_S16_To_F32_Scalar]
      norm_num

/-! ## The buffer offset stays in the region being played -/

theorem bodyQueue_wellFormed (K : Env) (voice : FAudioSourceVoice) (b : FAudioBuffer)
    (next : List FAudioBuffer) (toDecode decoded : Nat)
    (hq : voice.src.bufferList = b :: next) (hwf : ∀ x ∈ b :: next, WellFormed x) :
    ∀ x ∈ bodyQueue K voice b next toDecode decoded, WellFormed x := by
  have hb := hwf b (List.mem_cons_self _ _)
  have hn : ∀ x ∈ next, WellFormed x := fun x hx => hwf x (List.mem_cons_of_mem _ hx)
  unfold bodyQueue
  split_ifs with h1 h2 h3
  · intro x hx
    rcases List.mem_cons.1 hx with e | e
    · subst e
      exact ⟨hb.begin_le, hb.end_le, hb.end_lt, by simp only [sub32, wrap32]; omega⟩
    · exact hn x e
  · intro x hx
    rcases List.mem_cons.1 hx with e | e
    · subst e
      exact hb
    · exact hn x e
  · exact hn
  · rw [hq]
    exact hwf

theorem bodyOffset_inRegion (K : Env) (voice : FAudioSourceVoice) (b : FAudioBuffer)
    (next : List FAudioBuffer) (toDecode decoded : Nat)
    (hq : voice.src.bufferList = b :: next) (hwf : ∀ x ∈ b :: next, WellFormed x)
    (hoff : OffsetInRegion (b :: next) voice.src.curBufferOffset) :
    OffsetInRegion (bodyQueue K voice b next toDecode decoded)
      (bodyOffset voice b next toDecode decoded) := by
  have hb := hwf b (List.mem_cons_self _ _)
  have h1 := hb.begin_le
  have h2 := hb.end_le
  have h3 := hb.end_lt
  obtain ⟨o1, o2, o3⟩ := hoff
  have hle : voice.src.curBufferOffset + endReadOf voice b toDecode decoded ≤ bufferEnd b ∧
      bufferEnd b ≤ b.PlayBegin + b.PlayLength ∧
      (b.LoopCount > 0 → bufferEnd b = b.LoopBegin + b.LoopLength) := by
    unfold endReadOf avail
    rw [FAudio_min_eq]
    unfold bufferEnd
    by_cases hc : b.LoopCount > 0
    · have := o3 hc
      rw [if_pos hc]
      simp only [sub32, wrap32]
      refine ⟨?_, ?_, ?_⟩ <;> omega
    · rw [if_neg hc]
      simp only [sub32, wrap32]
      refine ⟨?_, ?_, ?_⟩ <;> omega
  obtain ⟨l1, l2, l3⟩ := hle
  unfold bodyQueue bodyOffset
  split_ifs with c1 c2 c3
  · show b.PlayBegin ≤ b.LoopBegin ∧ b.LoopBegin ≤ b.PlayBegin + b.PlayLength ∧
      (_ → b.LoopBegin ≤ b.LoopBegin + b.LoopLength)
    exact ⟨h1, by omega, fun _ => by omega⟩
  · exact ⟨h1, by omega, fun _ => by omega⟩
  · cases next with
    | nil => trivial
    | cons b2 rest =>
      have hb2 := hwf b2 (List.mem_cons_of_mem _ (List.mem_cons_self _ _))
      have := hb2.begin_le
      show b2.PlayBegin ≤ b2.PlayBegin ∧ b2.PlayBegin ≤ b2.PlayBegin + b2.PlayLength ∧
        (_ → b2.PlayBegin ≤ b2.LoopBegin + b2.LoopLength)
      exact ⟨le_refl _, by omega, fun _ => by omega⟩
  · rw [hq]
    have e : wrap32 (voice.src.curBufferOffset + endReadOf voice b toDecode decoded) =
        voice.src.curBufferOffset + endReadOf voice b toDecode decoded := by
      unfold wrap32
      omega
    rw [e]
    exact ⟨by omega, by omega, fun hc => by have := l3 hc; omega⟩

theorem DecodeBuffers_loop_inRegion (K : Env) (toDecode : Nat) :
    ∀ (fuel : Nat) (voice : FAudioSourceVoice) (audio : FAudio) (decoded : Nat)
      (r : FAudioSourceVoice × FAudio × Nat),
      (∀ x ∈ voice.src.bufferList, WellFormed x) →
      OffsetInRegion voice.src.bufferList voice.src.curBufferOffset →
      DecodeBuffers_loop K toDecode fuel voice audio decoded = some r →
      (∀ x ∈ r.1.src.bufferList, WellFormed x) ∧
        OffsetInRegion r.1.src.bufferList r.1.src.curBufferOffset := by
  intro fuel
  induction fuel with
  | zero => intro voice audio decoded r _ _ h; simp [DecodeBuffers_loop] at h
  | succ n ih =>
    intro voice audio decoded r hwf hoff h
    unfold DecodeBuffers_loop at h
    split at h
    · cases h; exact ⟨hwf, hoff⟩
    · rename_i b next hq
      split at h
      · rw [hq] at hwf hoff
        refine ih _ _ _ _ ?_ ?_ h
        · rw [DecodeBuffers_body_queue]
          exact bodyQueue_wellFormed K voice b next toDecode decoded hq hwf
        · rw [DecodeBuffers_body_queue, DecodeBuffers_body_offset]
          exact bodyOffset_inRegion K voice b next toDecode decoded hq hwf hoff
      · cases h; exact ⟨hwf, hoff⟩

theorem Playable_of_loop_pos (K : Env) (b : FAudioBuffer) (hwf : WellFormed b)
    (hC : K.FAUDIO_LOOP_INFINITE ≤ b.LoopCount → 0 < b.LoopLength) : Playable K b := by
  have := hwf.begin_le
  have := hwf.end_le
  have := hwf.end_lt
  exact ⟨by omega, by omega, by omega, hwf.count_lt, hC⟩

/-- C26: on a queue of well-formed buffers (the loop region inside the play
region, 32-bit fields) with the buffer offset in the play region of the head
buffer, and not behind the end of its loop region while its loop count is
positive, every call of `FAudio_INTERNAL_DecodeBuffers` that returns leaves a
queue of well-formed buffers and, when the queue is not empty, a buffer offset
in the play region of the buffer that is then the head, not behind the end of
its loop region while its loop count is positive. The call returns, given
enough fuel, for every request below `2 ^ 32` when no buffer loops for ever
over an empty loop region. -/
theorem c26_buffer_offset_invariant (K : Env) (voice : FAudioSourceVoice) (audio : FAudio)
    (toDecode : Nat) (hwf : ∀ b ∈ voice.src.bufferList, WellFormed b)
    (hoff : OffsetInRegion voice.src.bufferList voice.src.curBufferOffset) :
    (∀ (fuel : Nat) (r : FAudioSourceVoice × FAudio × Nat),
      FAudio_INTERNAL_DecodeBuffers K fuel voice audio toDecode = some r →
      (∀ b ∈ r.1.src.bufferList, WellFormed b) ∧
      ∀ b rest, r.1.src.bufferList = b :: rest →
        b.PlayBegin ≤ r.1.src.curBufferOffset ∧
        r.1.src.curBufferOffset ≤ b.PlayBegin + b.PlayLength ∧
        (b.LoopCount > 0 → r.1.src.curBufferOffset ≤ b.LoopBegin + b.LoopLength)) ∧
    (toDecode < 2 ^ 32 →
      (∀ b ∈ voice.src.bufferList, K.FAUDIO_LOOP_INFINITE ≤ b.LoopCount → 0 < b.LoopLength) →
      ∀ fuel, 2 * toDecode + 2 * queueWeight K voice.src.bufferList + 1 < fuel →
        ∃ r, FAudio_INTERNAL_DecodeBuffers K fuel voice audio toDecode = some r) := by
  constructor
  · intro fuel r h
    unfold FAudio_INTERNAL_DecodeBuffers at h
    cases hl : DecodeBuffers_loop K toDecode fuel voice audio 0 with
    | none => simp [hl] at h
    | some r1 =>
      simp [hl] at h
      subst h
      obtain ⟨g1, g2⟩ := DecodeBuffers_loop_inRegion K toDecode fuel voice audio 0 r1 hwf hoff hl
      refine ⟨g1, ?_⟩
      intro b rest hq
      simp only [] at hq ⊢
      rw [hq] at g2
      exact g2
  · intro hT hloop fuel hfuel
    obtain ⟨r, hr, _⟩ := DecodeBuffers_terminates K toDecode hT fuel voice audio
      (fun b hb => Playable_of_loop_pos K b (hwf b hb) (hloop b hb)) hfuel
    exact ⟨r, hr⟩

/-- Witness for C26: the example voice at the start of a buffer of 100 frames
whose second half loops twice, and a request for 120 frames. -/
theorem c26_buffer_offset_invariant_witness :
    ∃ r, FAudio_INTERNAL_DecodeBuffers exampleEnv 400 exampleVoice exampleAudio 120 = some r ∧
      ∀ b rest, r.1.src.bufferList = b :: rest →
        b.PlayBegin ≤ r.1.src.curBufferOffset ∧
        r.1.src.curBufferOffset ≤ b.PlayBegin + b.PlayLength ∧
        (b.LoopCount > 0 → r.1.src.curBufferOffset ≤ b.LoopBegin + b.LoopLength) :=
  have h := c26_buffer_offset_invariant exampleEnv exampleVoice exampleAudio 120
    (fun b hb => (List.mem_singleton.1 hb) ▸
      (⟨by decide, by decide, by decide, by decide⟩ : WellFormed exampleBuffer))
    (by
      show exampleBuffer.PlayBegin ≤ 0 ∧ 0 ≤ exampleBuffer.PlayBegin + exampleBuffer.PlayLength ∧
        (exampleBuffer.LoopCount > 0 → 0 ≤ exampleBuffer.LoopBegin + exampleBuffer.LoopLength)
      exact ⟨by decide, by decide, fun _ => by decide⟩)
  match h.2 (by decide)
    (fun b hb _ => (List.mem_singleton.1 hb) ▸ (by decide : 0 < exampleBuffer.LoopLength)) 400
    (by decide) with
  | ⟨r, hr⟩ => ⟨r, hr, (h.1 400 r hr).2⟩

/-! ## The linked list -/

theorem IsSeg_frame (heap heap1 : ListHeap) :
    ∀ (l : List (Nat × Nat)) (p q : Option Nat),
      (∀ a ∈ l.map Prod.fst, heap1 a = heap a) → IsSeg heap p l q → IsSeg heap1 p l q := by
  intro l
  induction l with
  | nil => intro p q _ h; exact h
  | cons n rest ih =>
    intro p q hf h
    obtain ⟨h1, next, h2, h3⟩ := h
    refine ⟨h1, next, ?_, ih next q (fun a ha => hf a (List.mem_cons_of_mem _ ha)) h3⟩
    rw [hf n.1 (List.mem_cons_self _ _)]
    exact h2

theorem IsSeg_append (heap : ListHeap) :
    ∀ (l1 l2 : List (Nat × Nat)) (p q r : Option Nat),
      IsSeg heap p l1 q → IsSeg heap q l2 r → IsSeg heap p (l1 ++ l2) r := by
  intro l1
  induction l1 with
  | nil => intro l2 p q r h1 h2; rw [List.nil_append]; rw [show p = q from h1]; exact h2
  | cons n rest ih =>
    intro l2 p q r h1 h2
    obtain ⟨e, next, g1, g2⟩ := h1
    exact ⟨e, next, g1, ih l2 next q r g2 h2⟩

theorem IsSeg_split (heap : ListHeap) :
    ∀ (l1 l2 : List (Nat × Nat)) (p r : Option Nat),
      IsSeg heap p (l1 ++ l2) r → ∃ q, IsSeg heap p l1 q ∧ IsSeg heap q l2 r := by
  intro l1
  induction l1 with
  | nil => intro l2 p r h; exact ⟨p, rfl, h⟩
  | cons n rest ih =>
    intro l2 p r h
    obtain ⟨e, next, g1, g2⟩ := h
    obtain ⟨q, g3, g4⟩ := ih l2 next r g2
    exact ⟨q, ⟨e, next, g1, g3⟩, g4⟩

theorem IsSeg_allocated (heap : ListHeap) :
    ∀ (l : List (Nat × Nat)) (p q : Option Nat), IsSeg heap p l q →
      ∀ a ∈ l.map Prod.fst, heap a ≠ none := by
  intro l
  induction l with
  | nil => intro p q _ a ha; simp at ha
  | cons n rest ih =>
    intro p q h a ha
    obtain ⟨_, next, g1, g2⟩ := h
    rw [List.map_cons, List.mem_cons] at ha
    rcases ha with e | e
    · rw [e, g1]; simp
    · exact ih next q g2 a e

theorem LinkedList_AddEntry_loop_spec (heap : ListHeap) :
    ∀ (l : List (Nat × Nat)) (fuel s a e : Nat),
      IsSeg heap (some s) (l ++ [(a, e)]) none → l.length < fuel →
      LinkedList_AddEntry_loop heap fuel s = some a := by
  intro l
  induction l with
  | nil =>
    intro fuel s a e h hf
    obtain ⟨m, rfl⟩ : ∃ m, fuel = m + 1 := ⟨fuel - 1, by simp at hf; omega⟩
    obtain ⟨h1, next, h2, h3⟩ := h
    simp only [Option.some.injEq] at h1
    have h4 : next = none := h3
    subst h1 h4
    unfold LinkedList_AddEntry_loop
    rw [h2]
  | cons n rest ih =>
    intro fuel s a e h hf
    obtain ⟨m, rfl⟩ : ∃ m, fuel = m + 1 := ⟨fuel - 1, by simp at hf; omega⟩
    obtain ⟨h1, next, h2, h3⟩ := h
    simp only [Option.some.injEq] at h1
    subst h1
    unfold LinkedList_AddEntry_loop
    rw [h2]
    have hne : ∃ b, next = some b := by
      cases rest with
      | nil => exact ⟨_, h3.1⟩
      | cons n2 rest2 => exact ⟨_, h3.1⟩
    obtain ⟨b, hb⟩ := hne
    subst hb
    simp only []
    exact ih m b a e h3 (by simp at hf ⊢; omega)

theorem IsSeg_last (heap : ListHeap) (l : List (Nat × Nat)) (p : Option Nat) (a e : Nat)
    (h : IsSeg heap p (l ++ [(a, e)]) none) :
    IsSeg heap p l (some a) ∧ heap a = some { entry := e, next := none } := by
  obtain ⟨q, h1, h2⟩ := IsSeg_split heap l [(a, e)] p none h
  obtain ⟨g1, next, g2, g3⟩ := h2
  have g4 : next = none := g3
  subst g4
  exact ⟨g1 ▸ h1, g2⟩

theorem LinkedList_AddEntry_spec (fuel : Nat) (heap : ListHeap) (start : Option Nat)
    (l : List (Nat × Nat)) (toAdd newEntry : Nat) (hl : IsList heap start l)
    (hfresh : heap newEntry = none) (hfuel : l.length < fuel) :
    ∃ heap1 start1, LinkedList_AddEntry fuel heap start toAdd newEntry = some (heap1, start1) ∧
      IsList heap1 start1 (l ++ [(newEntry, toAdd)]) ∧
      (∀ a, a ≠ newEntry → a ∉ l.map Prod.fst → heap1 a = heap a) := by
  obtain ⟨hseg, hnd⟩ := hl
  have hnew : newEntry ∉ l.map Prod.fst := fun hm =>
    IsSeg_allocated heap l start none hseg newEntry hm hfresh
  have hnd1 : ((l ++ [(newEntry, toAdd)]).map Prod.fst).Nodup := by
    rw [List.map_append, List.nodup_append]
    refine ⟨hnd, by simp, ?_⟩
    intro a ha hb
    simp only [List.map_cons, List.map_nil, List.mem_singleton] at hb
    exact hnew (hb ▸ ha)
  have hframe : ∀ a ∈ l.map Prod.fst,
      Function.update heap newEntry (some { entry := toAdd, next := none }) a = heap a := by
    intro a ha
    rw [Function.update_noteq]
    intro e
    exact hnew (e ▸ ha)
  unfold LinkedList_AddEntry
  rcases List.eq_nil_or_concat l with h0 | ⟨l1, n, h0⟩
  · subst h0
    have hs : start = none := hseg
    subst hs
    refine ⟨_, _, rfl, ⟨⟨rfl, none, ?_, rfl⟩, hnd1⟩, ?_⟩
    · simp only [Function.update_same]
    · intro a ha _
      simp only [Function.update_noteq ha]
  · subst h0
    rw [List.concat_eq_append] at hseg hnd hframe hnew hfuel hnd1 ⊢
    obtain ⟨a, e⟩ := n
    obtain ⟨hseg1, hlast⟩ := IsSeg_last heap l1 start a e hseg
    have hseg2 := IsSeg_frame heap _ (l1 ++ [(a, e)]) start none hframe hseg
    have hstart : ∃ s, start = some s := by
      cases l1 with
      | nil => exact ⟨_, hseg.1⟩
      | cons n2 r2 => exact ⟨_, hseg.1⟩
    obtain ⟨s, hs⟩ := hstart
    subst hs
    have hloop := LinkedList_AddEntry_loop_spec _ l1 fuel s a e hseg2
      (by simp at hfuel; omega)
    have hane : a ≠ newEntry := by
      intro e1
      apply hnew
      rw [List.map_append]
      simp [e1]
    have hnotin : a ∉ l1.map Prod.fst := by
      rw [List.map_append, List.nodup_append] at hnd
      intro hm
      exact hnd.2.2 hm (by simp)
    simp only [hloop, Function.update_noteq hane, hlast]
    refine ⟨_, _, rfl, ⟨?_, hnd1⟩, ?_⟩
    · rw [List.append_assoc]
      refine IsSeg_append _ l1 _ (some s) (some a) none ?_ ?_
      · apply IsSeg_frame heap _ l1 (some s) (some a) _ hseg1
        intro b hb
        have hb1 : b ≠ a := fun e1 => hnotin (by rw [← e1]; exact hb)
        have hb2 : b ≠ newEntry := fun e1 => hnew (by rw [List.map_append, ← e1]; simp [hb])
        rw [Function.update_noteq hb1, Function.update_noteq hb2]
      · refine ⟨rfl, some newEntry, ?_, rfl, none, ?_, rfl⟩
        · simp only [Function.update_same]
        · simp only [Function.update_noteq hane.symm, Function.update_same]
    · intro b hb hb2
      have hba : b ≠ a := by
        intro e1
        apply hb2
        rw [List.map_append]
        simp [e1]
      simp only [Function.update_noteq hba, Function.update_noteq hb]

theorem LinkedList_PrependEntry_spec (heap : ListHeap) (start : Option Nat)
    (l : List (Nat × Nat)) (toAdd newEntry : Nat) (hl : IsList heap start l)
    (hfresh : heap newEntry = none) :
    IsList (LinkedList_PrependEntry heap start toAdd newEntry).1
      (LinkedList_PrependEntry heap start toAdd newEntry).2 ((newEntry, toAdd) :: l) := by
  obtain ⟨hseg, hnd⟩ := hl
  have hnew : newEntry ∉ l.map Prod.fst := fun hm =>
    IsSeg_allocated heap l start none hseg newEntry hm hfresh
  unfold LinkedList_PrependEntry
  refine ⟨⟨rfl, start, ?_, ?_⟩, ?_⟩
  · simp only [Function.update_same]
  · apply IsSeg_frame heap _ l start none _ hseg
    intro a ha
    have ha1 : a ≠ newEntry := fun e => hnew (by rw [← e]; exact ha)
    show Function.update heap newEntry _ a = heap a
    rw [Function.update_noteq ha1]
  · rw [List.map_cons, List.nodup_cons]
    exact ⟨hnew, hnd⟩

theorem entriesOf_eraseP (x : Nat) (l : List (Nat × Nat)) :
    entriesOf (l.eraseP (fun n => n.2 == x)) = listRemoveEntry (entriesOf l) x := by
  unfold entriesOf listRemoveEntry
  induction l with
  | nil => rfl
  | cons n rest ih =>
    rw [List.eraseP_cons, List.map_cons, List.erase_cons]
    by_cases h : n.2 = x
    · simp [h]
    · have h1 : (n.2 == x) = false := by simpa using h
      simp only [h1, cond_false, List.map_cons, ih, Bool.false_eq_true, if_false]

theorem eraseP_absent (x : Nat) (l : List (Nat × Nat)) (h : x ∉ entriesOf l) :
    l.eraseP (fun n => n.2 == x) = l := by
  apply List.eraseP_of_forall_not
  intro n hn e
  apply h
  unfold entriesOf
  rw [List.mem_map]
  exact ⟨n, hn, by simpa using e⟩

theorem eraseP_added (x a : Nat) (l : List (Nat × Nat)) (h : x ∉ entriesOf l) :
    (l ++ [(a, x)]).eraseP (fun n => n.2 == x) = l := by
  rw [List.eraseP_append_right]
  · simp
  · intro n hn e
    apply h
    unfold entriesOf
    rw [List.mem_map]
    exact ⟨n, hn, by simpa using e⟩

theorem Nodup_eraseP (x : Nat) (l : List (Nat × Nat)) (h : (l.map Prod.fst).Nodup) :
    ((l.eraseP (fun n => n.2 == x)).map Prod.fst).Nodup :=
  List.Nodup.sublist (List.Sublist.map _ (List.eraseP_sublist l)) h

theorem IsSeg_start (heap heap1 : ListHeap) (l : List (Nat × Nat)) (p q r : Option Nat)
    (h1 : IsSeg heap p l r) (h2 : IsSeg heap1 q l r) : p = q := by
  cases l with
  | nil => exact Eq.trans h1 h2.symm
  | cons n rest => exact Eq.trans h1.1 h2.1.symm

theorem LinkedList_RemoveEntry_loop_spec (start : Option Nat) (x : Nat) :
    ∀ (s : List (Nat × Nat)) (fuel : Nat) (heap : ListHeap) (latest : Option Nat) (p ep : Nat),
      IsSeg heap latest s none → (s.map Prod.fst).Nodup → p ∉ s.map Prod.fst →
      heap p = some { entry := ep, next := latest } → s.length < fuel →
      (x ∉ entriesOf s →
        LinkedList_RemoveEntry_loop start x fuel heap latest (some p) =
          some (heap, start, false)) ∧
      (x ∈ entriesOf s → ∃ heap1,
        LinkedList_RemoveEntry_loop start x fuel heap latest (some p) =
          some (heap1, start, true) ∧
        IsSeg heap1 (some p) ((p, ep) :: s.eraseP (fun n => n.2 == x)) none ∧
        (∀ a, a ≠ p → a ∉ s.map Prod.fst → heap1 a = heap a)) := by
  intro s
  induction s with
  | nil =>
    intro fuel heap latest p ep hseg _ _ _ hf
    have hl : latest = none := hseg
    subst hl
    obtain ⟨m, rfl⟩ : ∃ m, fuel = m + 1 := ⟨fuel - 1, by simp at hf; omega⟩
    exact ⟨fun _ => rfl, fun h => absurd h (by simp [entriesOf])⟩
  | cons n rest ih =>
    intro fuel heap latest p ep hseg hnd hp hheap hf
    obtain ⟨m, rfl⟩ : ∃ m, fuel = m + 1 := ⟨fuel - 1, by simp at hf; omega⟩
    obtain ⟨hl, next, hn, hrest⟩ := hseg
    subst hl
    rw [List.map_cons, List.nodup_cons] at hnd
    rw [List.map_cons, List.mem_cons, not_or] at hp
    have hpn : p ≠ n.1 := hp.1
    have hih := ih m heap next n.1 n.2 hrest hnd.2 hnd.1 hn (by simp at hf; omega)
    have hne : (some n.1 : Option Nat) ≠ some p := fun e => hpn (Option.some.inj e).symm
    by_cases hx : n.2 = x
    · refine ⟨fun h => absurd (by simp [entriesOf, hx]) h, fun _ => ?_⟩
      refine ⟨Function.update (Function.update heap p (some { entry := ep, next := next }))
        n.1 none, ?_, ?_, ?_⟩
      · simp only [LinkedList_RemoveEntry_loop, hn, hx, if_true, hne, if_false, hheap]
      · have he : (n :: rest).eraseP (fun n => n.2 == x) = rest := by
          rw [List.eraseP_cons]
          simp [hx]
        rw [he]
        refine ⟨rfl, next, ?_, ?_⟩
        · rw [Function.update_noteq hpn, Function.update_same]
        · apply IsSeg_frame heap _ rest next none _ hrest
          intro a ha
          have ha1 : a ≠ n.1 := fun e => hnd.1 (by rw [← e]; exact ha)
          have ha2 : a ≠ p := fun e => hp.2 (by rw [← e]; exact ha)
          rw [Function.update_noteq ha1, Function.update_noteq ha2]
      · intro a ha1 ha2
        rw [List.map_cons, List.mem_cons, not_or] at ha2
        rw [Function.update_noteq ha2.1, Function.update_noteq ha1]
    · have hmem : x ∈ entriesOf (n :: rest) ↔ x ∈ entriesOf rest := by
        unfold entriesOf
        rw [List.map_cons, List.mem_cons]
        constructor
        · intro h
          rcases h with h | h
          · exact absurd h.symm hx
          · exact h
        · exact Or.inr
      have hstep : LinkedList_RemoveEntry_loop start x (m + 1) heap (some n.1) (some p) =
          LinkedList_RemoveEntry_loop start x m heap next (some n.1) := by
        simp only [LinkedList_RemoveEntry_loop, hn, hx, if_false]
      rw [hstep, hmem]
      refine ⟨hih.1, fun h => ?_⟩
      obtain ⟨heap1, h1, h2, h3⟩ := hih.2 h
      refine ⟨heap1, h1, ?_, ?_⟩
      · have he : (n :: rest).eraseP (fun n => n.2 == x) =
            n :: rest.eraseP (fun n => n.2 == x) := by
          have h4 : (n.2 == x) = false := by simpa using hx
          simp [List.eraseP_cons, h4]
        rw [he]
        refine ⟨rfl, some n.1, ?_, h2⟩
        rw [h3 p hpn hp.2, hheap]
      · intro a ha1 ha2
        rw [List.map_cons, List.mem_cons, not_or] at ha2
        exact h3 a ha2.1 ha2.2

theorem LinkedList_RemoveEntry_spec (fuel : Nat) (heap : ListHeap) (start : Option Nat)
    (l : List (Nat × Nat)) (x : Nat) (hl : IsList heap start l) (hfuel : l.length < fuel) :
    (x ∉ entriesOf l → LinkedList_RemoveEntry fuel heap start x = some (heap, start, false)) ∧
    (x ∈ entriesOf l → ∃ heap1 start1,
      LinkedList_RemoveEntry fuel heap start x = some (heap1, start1, true) ∧
      IsList heap1 start1 (l.eraseP (fun n => n.2 == x)) ∧
      (∀ a, a ∉ l.map Prod.fst → heap1 a = heap a)) := by
  obtain ⟨hseg, hnd⟩ := hl
  obtain ⟨m, rfl⟩ : ∃ m, fuel = m + 1 := ⟨fuel - 1, by omega⟩
  unfold LinkedList_RemoveEntry
  cases l with
  | nil =>
    have hs : start = none := hseg
    subst hs
    exact ⟨fun _ => rfl, fun h => absurd h (by simp [entriesOf])⟩
  | cons n rest =>
    obtain ⟨hs, next, hn, hrest⟩ := hseg
    subst hs
    have hnd0 := hnd
    rw [List.map_cons, List.nodup_cons] at hnd
    by_cases hx : n.2 = x
    · refine ⟨fun h => absurd (by simp [entriesOf, hx]) h, fun _ => ?_⟩
      have he : (n :: rest).eraseP (fun n => n.2 == x) = rest := by
        rw [List.eraseP_cons]
        simp [hx]
      rw [he]
      refine ⟨Function.update heap n.1 none, next, ?_, ⟨?_, hnd.2⟩, ?_⟩
      · simp only [LinkedList_RemoveEntry_loop, hn, hx, if_true]
      · apply IsSeg_frame heap _ rest next none _ hrest
        intro a ha
        have ha1 : a ≠ n.1 := fun e => hnd.1 (by rw [← e]; exact ha)
        rw [Function.update_noteq ha1]
      · intro a ha
        rw [List.map_cons, List.mem_cons, not_or] at ha
        rw [Function.update_noteq ha.1]
    · have hmem : x ∈ entriesOf (n :: rest) ↔ x ∈ entriesOf rest := by
        unfold entriesOf
        rw [List.map_cons, List.mem_cons]
        constructor
        · intro h
          rcases h with h | h
          · exact absurd h.symm hx
          · exact h
        · exact Or.inr
      have hstep : LinkedList_RemoveEntry_loop (some n.1) x (m + 1) heap (some n.1) (some n.1) =
          LinkedList_RemoveEntry_loop (some n.1) x m heap next (some n.1) := by
        simp only [LinkedList_RemoveEntry_loop, hn, hx, if_false]
      have hloop := LinkedList_RemoveEntry_loop_spec (some n.1) x rest m heap next n.1 n.2
        hrest hnd.2 hnd.1 hn (by simp at hfuel; omega)
      rw [hstep, hmem]
      refine ⟨hloop.1, fun h => ?_⟩
      obtain ⟨heap1, h1, h2, h3⟩ := hloop.2 h
      have he : (n :: rest).eraseP (fun n => n.2 == x) =
          n :: rest.eraseP (fun n => n.2 == x) := by
        have h4 : (n.2 == x) = false := by simpa using hx
        simp [List.eraseP_cons, h4]
      rw [he]
      refine ⟨heap1, some n.1, h1, ⟨h2, ?_⟩, ?_⟩
      · rw [← he]
        exact Nodup_eraseP x (n :: rest) hnd0
      · intro a ha
        rw [List.map_cons, List.mem_cons, not_or] at ha
        exact h3 a ha.1 ha.2

theorem addEntries_spec (fuel : Nat) :
    ∀ (xs : List (Nat × Nat)) (heap : ListHeap) (start : Option Nat) (l : List (Nat × Nat)),
      IsList heap start l → (∀ n ∈ xs, heap n.1 = none) → (xs.map Prod.fst).Nodup →
      l.length + xs.length ≤ fuel →
      ∃ heap1 start1, addEntries fuel heap start xs = some (heap1, start1) ∧
        IsList heap1 start1 (l ++ xs) := by
  intro xs
  induction xs with
  | nil =>
    intro heap start l hl _ _ _
    exact ⟨heap, start, rfl, by rw [List.append_nil]; exact hl⟩
  | cons n rest ih =>
    intro heap start l hl hfresh hnd hf
    rw [List.map_cons, List.nodup_cons] at hnd
    obtain ⟨heap1, start1, h1, h2, h3⟩ := LinkedList_AddEntry_spec fuel heap start l n.2 n.1 hl
      (hfresh n (List.mem_cons_self _ _)) (by simp at hf; omega)
    have hfresh1 : ∀ m ∈ rest, heap1 m.1 = none := by
      intro m hm
      have hm0 := hfresh m (List.mem_cons_of_mem _ hm)
      have hm1 : m.1 ≠ n.1 := fun e => hnd.1 (by rw [← e]; exact List.mem_map_of_mem _ hm)
      have hm2 : m.1 ∉ l.map Prod.fst := fun hin =>
        IsSeg_allocated heap l start none hl.1 m.1 hin hm0
      rw [h3 m.1 hm1 hm2, hm0]
    obtain ⟨heap2, start2, g1, g2⟩ := ih heap1 start1 (l ++ [(n.1, n.2)]) h2 hfresh1 hnd.2
      (by simp at hf ⊢; omega)
    refine ⟨heap2, start2, ?_, ?_⟩
    · simp only [addEntries, h1, g1]
    · rw [List.append_assoc] at g2
      exact g2

/-- C40: the linked-list operations refine list operations. For a list of
nodes `l` reachable from `start`, `LinkedList_AddEntry` yields the nodes
`l ++ [x]`, `LinkedList_PrependEntry` yields `x :: l`, and
`LinkedList_RemoveEntry` deletes exactly the first node whose entry is `x`
and keeps the others in order, reaching the failed assertion (with heap and
list unchanged) iff `x` does not occur; removing a freshly added entry that
was absent restores the original list, and a sequence of additions is
iterated in insertion order. -/
theorem c40_linked_list_refinement (fuel : Nat) (heap : ListHeap) (start : Option Nat)
    (l : List (Nat × Nat)) (x newEntry : Nat) (hl : IsList heap start l)
    (hfresh : heap newEntry = none) (hfuel : l.length + 1 < fuel) :
    (∃ heap1 start1, LinkedList_AddEntry fuel heap start x newEntry = some (heap1, start1) ∧
      IsList heap1 start1 (l ++ [(newEntry, x)]) ∧
      entriesOf (l ++ [(newEntry, x)]) = listAddEntry (entriesOf l) x ∧
      (x ∉ entriesOf l → ∃ heap2,
        LinkedList_RemoveEntry fuel heap1 start1 x = some (heap2, start, true) ∧
        IsList heap2 start l)) ∧
    (IsList (LinkedList_PrependEntry heap start x newEntry).1
        (LinkedList_PrependEntry heap start x newEntry).2 ((newEntry, x) :: l) ∧
      entriesOf ((newEntry, x) :: l) = listPrependEntry (entriesOf l) x) ∧
    (∃ heap1 start1 found l1,
      LinkedList_RemoveEntry fuel heap start x = some (heap1, start1, found) ∧
      IsList heap1 start1 l1 ∧ entriesOf l1 = listRemoveEntry (entriesOf l) x ∧
      (found = false ↔ x ∉ entriesOf l) ∧
      (found = false → heap1 = heap ∧ start1 = start) ∧
      (found = true → ∃ l2 n l3, l = l2 ++ n :: l3 ∧ x ∉ entriesOf l2 ∧ n.2 = x ∧
        l1 = l2 ++ l3)) ∧
    (∀ xs : List (Nat × Nat), (∀ n ∈ xs, heap n.1 = none) → (xs.map Prod.fst).Nodup →
      l.length + xs.length ≤ fuel →
      ∃ heap1 start1, addEntries fuel heap start xs = some (heap1, start1) ∧
        IsList heap1 start1 (l ++ xs) ∧
        entriesOf (l ++ xs) = entriesOf l ++ entriesOf xs) := by
  refine ⟨?_, ⟨LinkedList_PrependEntry_spec heap start l x newEntry hl hfresh, rfl⟩, ?_, ?_⟩
  · obtain ⟨heap1, start1, h1, h2, _⟩ :=
      LinkedList_AddEntry_spec fuel heap start l x newEntry hl hfresh (by omega)
    refine ⟨heap1, start1, h1, h2, by simp [entriesOf, listAddEntry], fun hx => ?_⟩
    have hmem : x ∈ entriesOf (l ++ [(newEntry, x)]) := by simp [entriesOf]
    obtain ⟨heap2, start2, g1, g2, _⟩ :=
      (LinkedList_RemoveEntry_spec fuel heap1 start1 (l ++ [(newEntry, x)]) x h2
        (by simp; omega)).2 hmem
    rw [eraseP_added x newEntry l hx] at g2
    have hs : start2 = start := IsSeg_start heap2 heap l start2 start none g2.1 hl.1
    subst hs
    exact ⟨heap2, g1, g2⟩
  · have hrem := LinkedList_RemoveEntry_spec fuel heap start l x hl (by omega)
    by_cases hx : x ∈ entriesOf l
    · obtain ⟨heap1, start1, g1, g2, _⟩ := hrem.2 hx
      refine ⟨heap1, start1, true, _, g1, g2, entriesOf_eraseP x l, ?_, ?_, fun _ => ?_⟩
      · simp [hx]
      · intro h
        exact absurd h (by simp)
      · unfold entriesOf at hx
        rw [List.mem_map] at hx
        obtain ⟨n, hn, hnx⟩ := hx
        obtain ⟨a, l2, l3, e1, e2, e3, e4⟩ :=
          List.exists_of_eraseP (p := fun n => n.2 == x) hn (by simpa using hnx)
        refine ⟨l2, a, l3, e3, ?_, by simpa using e2, e4⟩
        intro hin
        unfold entriesOf at hin
        rw [List.mem_map] at hin
        obtain ⟨b, hb, hbx⟩ := hin
        exact e1 b hb (by simpa using hbx)
    · refine ⟨heap, start, false, l, hrem.1 hx, hl, ?_, ?_, fun _ => ⟨rfl, rfl⟩, fun h => ?_⟩
      · rw [← entriesOf_eraseP, eraseP_absent x l hx]
      · simp [hx]
      · exact absurd h (by simp)
  · intro xs hxs hnd hf
    obtain ⟨heap1, start1, h1, h2⟩ := addEntries_spec fuel xs heap start l hl hxs hnd hf
    exact ⟨heap1, start1, h1, h2, by simp [entriesOf]⟩

theorem c40_linked_list_refinement_witness :
    (∃ heap1 start1, LinkedList_AddEntry 4 exampleHeap (some 1) 30 3 = some (heap1, start1) ∧
      IsList heap1 start1 (exampleNodes ++ [(3, 30)]) ∧
      entriesOf (exampleNodes ++ [(3, 30)]) = listAddEntry (entriesOf exampleNodes) 30 ∧
      (30 ∉ entriesOf exampleNodes → ∃ heap2,
        LinkedList_RemoveEntry 4 heap1 start1 30 = some (heap2, some 1, true) ∧
        IsList heap2 (some 1) exampleNodes)) ∧
    (30 ∉ entriesOf exampleNodes) ∧
    (∃ heap1 start1 found l1,
      LinkedList_RemoveEntry 4 exampleHeap (some 1) 30 = some (heap1, start1, found) ∧
      IsList heap1 start1 l1 ∧ entriesOf l1 = listRemoveEntry (entriesOf exampleNodes) 30 ∧
      (found = false ↔ 30 ∉ entriesOf exampleNodes)) :=
  have h := c40_linked_list_refinement 4 exampleHeap (some 1) exampleNodes 30 3
    ⟨⟨rfl, some 2, rfl, rfl, none, rfl, rfl⟩, by decide⟩ rfl (by decide)
  ⟨h.1, by decide, by
    obtain ⟨heap1, start1, found, l1, g1, g2, g3, g4, _⟩ := h.2.2.1
    exact ⟨heap1, start1, found, l1, g1, g2, g3, g4⟩⟩

/-! ## The device list and the device details of the Windows platform -/

theorem FAudio_PlatformQuit_loop_stuck (heap : ListHeap) (devices : DeviceHeap) (audio d : Nat)
    (node : LinkedList) (dv : FAudioPlatformDevice) (hnode : heap d = some node)
    (hdev : devices node.entry = some dv) (hne : dv.audio ≠ audio) :
    ∀ fuel device, FAudio_PlatformQuit_loop heap devices audio fuel (some d) device = none := by
  intro fuel
  induction fuel with
  | zero => intro device; rfl
  | succ m ih =>
    intro device
    simp only [FAudio_PlatformQuit_loop, hnode, hdev, hne, if_false]
    exact ih _

theorem FAudio_PlatformQuit_stuck (heap : ListHeap) (devices : DeviceHeap) (audio d : Nat)
    (node : LinkedList) (dv : FAudioPlatformDevice) (hnode : heap d = some node)
    (hdev : devices node.entry = some dv) (hne : dv.audio ≠ audio) (fuel : Nat) :
    FAudio_PlatformQuit fuel heap devices (some d) audio = none := by
  unfold FAudio_PlatformQuit
  rw [FAudio_PlatformQuit_loop_stuck heap devices audio d node dv hnode hdev hne]

/-- C38: `FAudio_PlatformQuit` on the list of the two devices of the engines 1
and 2, called for the engine 2, does not leave its search loop with any fuel
(the loop never advances from the first node), while `FAudio_PlatformStart`
finds the device; on the empty list `FAudio_PlatformQuit` reads the `next`
field of a null node. -/
theorem c38_platform_quit_diverges :
    (∀ fuel, FAudio_PlatformQuit fuel exampleHeap exampleDevices (some 1) 2 = none) ∧
    FAudio_PlatformStart exampleHeap exampleDevices 2 3 (some 1) = some (some 20) ∧
    (∀ fuel, FAudio_PlatformQuit (fuel + 1) exampleHeap exampleDevices none 2 =
      some PlatformQuitResult.nullDereference) := by
  refine ⟨fun fuel => ?_, ?_, fun fuel => ?_⟩
  · exact FAudio_PlatformQuit_stuck exampleHeap exampleDevices 2 1
      { entry := 10, next := some 2 } { audio := 1, stop_engine := false } rfl rfl
      (by decide) fuel
  · rfl
  · rfl

theorem FAudio_PlatformGetDeviceDetails_above (C : DeviceConstants) (mmdevcount : Nat)
    (mmdevids : Nat → List Nat) (index : Nat) (h : mmdevcount < index) :
    FAudio_PlatformGetDeviceDetails C mmdevcount mmdevids index = (zeroDetails, []) := by
  unfold FAudio_PlatformGetDeviceDetails FAudio_PlatformGetDeviceCount
  rw [if_pos h]

theorem FAudio_PlatformGetDeviceDetails_role (C : DeviceConstants) (mmdevcount : Nat)
    (mmdevids : Nat → List Nat) (index : Nat) (h : index ≤ mmdevcount) :
    (FAudio_PlatformGetDeviceDetails C mmdevcount mmdevids index).1.Role =
      (if index = 0 then C.GlobalDefaultDevice else C.NotDefaultDevice) ∧
    (FAudio_PlatformGetDeviceDetails C mmdevcount mmdevids index).2 = [index] := by
  unfold FAudio_PlatformGetDeviceDetails FAudio_PlatformGetDeviceCount
  rw [if_neg (by omega)]
  exact ⟨rfl, rfl⟩

/-- C39: with one device (`mmdevcount = 1`), `FAudio_PlatformGetDeviceDetails`
called with `index = 1` reads `mmdevids[1]`, which lies behind the array, and
fills the details instead of leaving them zero. -/
theorem c39_device_details_diverges :
    (FAudio_PlatformGetDeviceDetails exampleDeviceConstants 1 exampleDeviceIds 1).2 = [1] ∧
    (FAudio_PlatformGetDeviceDetails exampleDeviceConstants 1 exampleDeviceIds 1).1 ≠
      zeroDetails ∧
    (FAudio_PlatformGetDeviceDetails exampleDeviceConstants 1 exampleDeviceIds 1).1.DeviceID =
      [7] ∧
    (FAudio_PlatformGetDeviceDetails exampleDeviceConstants 1
      exampleDeviceIds 1).1.OutputFormat.Format.nChannels = 2 := by
  refine ⟨rfl, ?_, rfl, rfl⟩
  intro h
  have h1 := congrArg (fun d => d.OutputFormat.Format.nChannels) h
  exact absurd h1 (by decide)

/-! ## The geometry of an MSADPCM block -/

theorem DecodeMonoMSADPCMBlock_loop_get (M : AdaptCoeffOverrun) (data : ByteBuf) (predictor : Nat) :
    ∀ (n p : Nat) (s : NibbleState) (k : Nat), k < n →
      (DecodeMonoMSADPCMBlock_loop M data predictor n p s).2.getD (2 * k) 0 =
        (FAudio_INTERNAL_ParseNibble M (readU8 data (p + k) >>> 4) predictor
          (monoStateAfter M data predictor k p s)).1 ∧
      (DecodeMonoMSADPCMBlock_loop M data predictor n p s).2.getD (2 * k + 1) 0 =
        (FAudio_INTERNAL_ParseNibble M (readU8 data (p + k) &&& 0x0F) predictor
          (FAudio_INTERNAL_ParseNibble M (readU8 data (p + k) >>> 4) predictor
            (monoStateAfter M data predictor k p s)).2).1 := by
  intro n
  induction n with
  | zero => intro p s k hk; omega
  | succ n ih =>
    intro p s k hk
    cases k with
    | zero => exact ⟨rfl, rfl⟩
    | succ k =>
      have h := ih (p + 1)
        (FAudio_INTERNAL_ParseNibble M (readU8 data p &&& 0x0F) predictor
          (FAudio_INTERNAL_ParseNibble M (readU8 data p >>> 4) predictor s).2).2 k (by omega)
      have e : p + (k + 1) = p + 1 + k := by omega
      have e1 : 2 * (k + 1) = 2 * k + 1 + 1 := by omega
      rw [e, e1]
      simp only [DecodeMonoMSADPCMBlock_loop, monoStateAfter, List.getD_cons_succ]
      exact h

theorem DecodeStereoMSADPCMBlock_loop_get (M : AdaptCoeffOverrun) (data : ByteBuf) (lp rp : Nat) :
    ∀ (n p : Nat) (l r : NibbleState) (k : Nat), k < n →
      (DecodeStereoMSADPCMBlock_loop M data lp rp n p l r).2.getD (2 * k) 0 =
        (FAudio_INTERNAL_ParseNibble M (readU8 data (p + k) >>> 4) lp
          (channelStateAfter M data lp (fun b => b >>> 4) k p l)).1 ∧
      (DecodeStereoMSADPCMBlock_loop M data lp rp n p l r).2.getD (2 * k + 1) 0 =
        (FAudio_INTERNAL_ParseNibble M (readU8 data (p + k) &&& 0x0F) rp
          (channelStateAfter M data rp (fun b => b &&& 0x0F) k p r)).1 := by
  intro n
  induction n with
  | zero => intro p l r k hk; omega
  | succ n ih =>
    intro p l r k hk
    cases k with
    | zero => exact ⟨rfl, rfl⟩
    | succ k =>
      have h := ih (p + 1)
        (FAudio_INTERNAL_ParseNibble M (readU8 data p >>> 4) lp l).2
        (FAudio_INTERNAL_ParseNibble M (readU8 data p &&& 0x0F) rp r).2 k (by omega)
      have e : p + (k + 1) = p + 1 + k := by omega
      have e1 : 2 * (k + 1) = 2 * k + 1 + 1 := by omega
      rw [e, e1]
      simp only [DecodeStereoMSADPCMBlock_loop, channelStateAfter, List.getD_cons_succ]
      exact h

theorem DecodeMonoMSADPCM_locate (M : AdaptCoeffOverrun) (conv : List Int → List Sample) (fuel : Nat)
    (buffer : FAudioBuffer) (format : FAudioWaveFormatEx) (q m samples : Nat)
    (h7 : 7 ≤ format.nBlockAlign) (h : format.nBlockAlign < 2 ^ 31)
    (hm : m < (format.nBlockAlign - 6) * 2) :
    FAudio_INTERNAL_DecodeMonoMSADPCM M conv fuel buffer
        (q * ((format.nBlockAlign - 6) * 2) + m) samples format =
      DecodeMonoMSADPCM_loop M conv buffer.pAudioData format.nBlockAlign
        ((format.nBlockAlign - 6) * 2) fuel (q * format.nBlockAlign) m samples := by
  have e6 : wrap32 (sub32 format.nBlockAlign 6 * 2) = (format.nBlockAlign - 6) * 2 := by
    simp only [sub32, wrap32]; omega
  have hB : 0 < (format.nBlockAlign - 6) * 2 := by omega
  unfold FAudio_INTERNAL_DecodeMonoMSADPCM
  simp only [e6]
  rw [if_neg (by omega)]
  have e1 : (q * ((format.nBlockAlign - 6) * 2) + m) / ((format.nBlockAlign - 6) * 2) = q := by
    rw [Nat.add_comm, Nat.add_mul_div_right _ _ hB, Nat.div_eq_of_lt hm, Nat.zero_add]
  have e2 : (q * ((format.nBlockAlign - 6) * 2) + m) % ((format.nBlockAlign - 6) * 2) = m := by
    rw [Nat.add_comm, Nat.add_mul_mod_self_right, Nat.mod_eq_of_lt hm]
  rw [e1, e2]

theorem DecodeStereoMSADPCM_locate (M : AdaptCoeffOverrun) (conv : List Int → List Sample) (fuel : Nat)
    (buffer : FAudioBuffer) (format : FAudioWaveFormatEx) (q m samples : Nat)
    (h14 : 14 ≤ format.nBlockAlign) (h : format.nBlockAlign < 2 ^ 31)
    (hm : m < (format.nBlockAlign / 2 - 6) * 2) :
    FAudio_INTERNAL_DecodeStereoMSADPCM M conv fuel buffer
        (q * ((format.nBlockAlign / 2 - 6) * 2) + m) samples format =
      DecodeStereoMSADPCM_loop M conv buffer.pAudioData format.nBlockAlign
        ((format.nBlockAlign / 2 - 6) * 2) fuel (q * format.nBlockAlign) m samples := by
  have e6 : wrap32 (sub32 (format.nBlockAlign / 2) 6 * 2) =
      (format.nBlockAlign / 2 - 6) * 2 := by
    simp only [sub32, wrap32]; omega
  have hB : 0 < (format.nBlockAlign / 2 - 6) * 2 := by omega
  unfold FAudio_INTERNAL_DecodeStereoMSADPCM
  simp only [e6]
  rw [if_neg (by omega)]
  have e1 : (q * ((format.nBlockAlign / 2 - 6) * 2) + m) /
      ((format.nBlockAlign / 2 - 6) * 2) = q := by
    rw [Nat.add_comm, Nat.add_mul_div_right _ _ hB, Nat.div_eq_of_lt hm, Nat.zero_add]
  have e2 : (q * ((format.nBlockAlign / 2 - 6) * 2) + m) %
      ((format.nBlockAlign / 2 - 6) * 2) = m := by
    rw [Nat.add_comm, Nat.add_mul_mod_self_right, Nat.mod_eq_of_lt hm]
  rw [e1, e2]

/-- C31: MSADPCM block geometry. With `align >= 7` the mono block decoder
advances the cursor by `align` bytes and writes `(align - 6) * 2` samples:
the preamble's `sample2`, then `sample1`, then for each data byte the sample
of its high nibble before that of its low nibble. With even `align >= 14` the
stereo block decoder advances by `align` bytes and writes
`((align / 2) - 6) * 2` interleaved frames: L2, R2, L1, R1, then for each data
byte the left sample of the high nibble and the right sample of the low
nibble. The outer decoders locate block `q` and the offset `m` inside it with
exactly these frame counts. This for all data: a predictor byte of 7 or more
makes `FAudio_INTERNAL_ParseNibble` read the memory `M` behind its coefficient
tables, and the geometry is the same whatever `M` holds; with predictor bytes
below 7 the samples of the block do not depend on `M` at all. -/
theorem c31_msadpcm_block_geometry (M : AdaptCoeffOverrun) (data : ByteBuf) (buf align : Nat)
    (h : align < 2 ^ 31) :
    (7 ≤ align →
      (FAudio_INTERNAL_DecodeMonoMSADPCMBlock M data buf align).1 = buf + align ∧
      (FAudio_INTERNAL_DecodeMonoMSADPCMBlock M data buf align).2.length = (align - 6) * 2 ∧
      (FAudio_INTERNAL_DecodeMonoMSADPCMBlock M data buf align).2.getD 0 0 =
        readS16 data (buf + 5) ∧
      (FAudio_INTERNAL_DecodeMonoMSADPCMBlock M data buf align).2.getD 1 0 =
        readS16 data (buf + 3) ∧
      (∀ k, k < align - 7 →
        (FAudio_INTERNAL_DecodeMonoMSADPCMBlock M data buf align).2.getD (2 + 2 * k) 0 =
          (FAudio_INTERNAL_ParseNibble M (readU8 data (buf + 7 + k) >>> 4) (readU8 data buf)
            (monoStateAfter M data (readU8 data buf) k (buf + 7)
              { delta := readS16 data (buf + 1), sample1 := readS16 data (buf + 3),
                sample2 := readS16 data (buf + 5) })).1 ∧
        (FAudio_INTERNAL_DecodeMonoMSADPCMBlock M data buf align).2.getD (2 + 2 * k + 1) 0 =
          (FAudio_INTERNAL_ParseNibble M (readU8 data (buf + 7 + k) &&& 0x0F) (readU8 data buf)
            (FAudio_INTERNAL_ParseNibble M (readU8 data (buf + 7 + k) >>> 4) (readU8 data buf)
              (monoStateAfter M data (readU8 data buf) k (buf + 7)
                { delta := readS16 data (buf + 1), sample1 := readS16 data (buf + 3),
                  sample2 := readS16 data (buf + 5) })).2).1) ∧
      (∀ (conv : List Int → List Sample) (fuel : Nat) (buffer : FAudioBuffer)
          (format : FAudioWaveFormatEx) (q m samples : Nat), format.nBlockAlign = align →
        m < (FAudio_INTERNAL_DecodeMonoMSADPCMBlock M data buf align).2.length →
        FAudio_INTERNAL_DecodeMonoMSADPCM M conv fuel buffer
            (q * (FAudio_INTERNAL_DecodeMonoMSADPCMBlock M data buf align).2.length + m)
            samples format =
          DecodeMonoMSADPCM_loop M conv buffer.pAudioData align
            (FAudio_INTERNAL_DecodeMonoMSADPCMBlock M data buf align).2.length fuel
            (q * align) m samples) ∧
      (readU8 data buf < 7 → ∀ M1 : AdaptCoeffOverrun,
        FAudio_INTERNAL_DecodeMonoMSADPCMBlock M1 data buf align =
          FAudio_INTERNAL_DecodeMonoMSADPCMBlock M data buf align)) ∧
    (14 ≤ align → align % 2 = 0 →
      (FAudio_INTERNAL_DecodeStereoMSADPCMBlock M data buf align).1 = buf + align ∧
      (FAudio_INTERNAL_DecodeStereoMSADPCMBlock M data buf align).2.length =
        2 * ((align / 2 - 6) * 2) ∧
      (FAudio_INTERNAL_DecodeStereoMSADPCMBlock M data buf align).2.take 4 =
        [readS16 data (buf + 10), readS16 data (buf + 12), readS16 data (buf + 6),
          readS16 data (buf + 8)] ∧
      (∀ k, k < align - 14 →
        (FAudio_INTERNAL_DecodeStereoMSADPCMBlock M data buf align).2.getD (4 + 2 * k) 0 =
          (FAudio_INTERNAL_ParseNibble M (readU8 data (buf + 14 + k) >>> 4) (readU8 data buf)
            (channelStateAfter M data (readU8 data buf) (fun b => b >>> 4) k (buf + 14)
              { delta := readS16 data (buf + 2), sample1 := readS16 data (buf + 6),
                sample2 := readS16 data (buf + 10) })).1 ∧
        (FAudio_INTERNAL_DecodeStereoMSADPCMBlock M data buf align).2.getD (4 + 2 * k + 1) 0 =
          (FAudio_INTERNAL_ParseNibble M (readU8 data (buf + 14 + k) &&& 0x0F)
            (readU8 data (buf + 1))
            (channelStateAfter M data (readU8 data (buf + 1)) (fun b => b &&& 0x0F) k (buf + 14)
              { delta := readS16 data (buf + 4), sample1 := readS16 data (buf + 8),
                sample2 := readS16 data (buf + 12) })).1) ∧
      (∀ (conv : List Int → List Sample) (fuel : Nat) (buffer : FAudioBuffer)
          (format : FAudioWaveFormatEx) (q m samples : Nat), format.nBlockAlign = align →
        m < (align / 2 - 6) * 2 →
        FAudio_INTERNAL_DecodeStereoMSADPCM M conv fuel buffer
            (q * ((align / 2 - 6) * 2) + m) samples format =
          DecodeStereoMSADPCM_loop M conv buffer.pAudioData align ((align / 2 - 6) * 2) fuel
            (q * align) m samples) ∧
      (readU8 data buf < 7 → readU8 data (buf + 1) < 7 → ∀ M1 : AdaptCoeffOverrun,
        FAudio_INTERNAL_DecodeStereoMSADPCMBlock M1 data buf align =
          FAudio_INTERNAL_DecodeStereoMSADPCMBlock M data buf align)) := by
  constructor
  · intro h7
    have e7 : sub32 align 7 = align - 7 := by simp only [sub32, wrap32]; omega
    obtain ⟨h1, h2⟩ := DecodeMonoMSADPCMBlock_loop_spec M data (readU8 data buf) (align - 7)
      (buf + 7) ⟨readS16 data (buf + 1), readS16 data (buf + 3), readS16 data (buf + 5)⟩
    have hlen : (FAudio_INTERNAL_DecodeMonoMSADPCMBlock M data buf align).2.length =
        (align - 6) * 2 := by
      simp only [FAudio_INTERNAL_DecodeMonoMSADPCMBlock, List.length_cons, e7]
      rw [h2]
      omega
    refine ⟨?_, hlen, rfl, rfl, ?_, ?_, ?_⟩
    · simp only [FAudio_INTERNAL_DecodeMonoMSADPCMBlock, e7]
      rw [h1]
      omega
    · intro k hk
      have hg := DecodeMonoMSADPCMBlock_loop_get M data (readU8 data buf) (align - 7) (buf + 7)
        ⟨readS16 data (buf + 1), readS16 data (buf + 3), readS16 data (buf + 5)⟩ k hk
      have e1 : 2 + 2 * k = 2 * k + 1 + 1 := by omega
      rw [e1]
      simp only [FAudio_INTERNAL_DecodeMonoMSADPCMBlock, e7, List.getD_cons_succ]
      exact hg
    · intro conv fuel buffer format q m samples hfmt hm
      rw [hlen] at hm ⊢
      subst hfmt
      exact DecodeMonoMSADPCM_locate M conv fuel buffer format q m samples h7 h hm
    · intro hp M1
      exact DecodeMonoMSADPCMBlock_inside M M1 data buf align hp
  · intro h14 heven
    have e14 : sub32 align 14 = align - 14 := by simp only [sub32, wrap32]; omega
    obtain ⟨h1, h2⟩ := DecodeStereoMSADPCMBlock_loop_spec M data (readU8 data buf)
      (readU8 data (buf + 1)) (align - 14) (buf + 14)
      ⟨readS16 data (buf + 2), readS16 data (buf + 6), readS16 data (buf + 10)⟩
      ⟨readS16 data (buf + 4), readS16 data (buf + 8), readS16 data (buf + 12)⟩
    refine ⟨?_, ?_, rfl, ?_, ?_, ?_⟩
    · simp only [FAudio_INTERNAL_DecodeStereoMSADPCMBlock, e14]
      rw [h1]
      omega
    · simp only [FAudio_INTERNAL_DecodeStereoMSADPCMBlock, List.length_cons, e14]
      rw [h2]
      omega
    · intro k hk
      have hg := DecodeStereoMSADPCMBlock_loop_get M data (readU8 data buf)
        (readU8 data (buf + 1)) (align - 14) (buf + 14)
        ⟨readS16 data (buf + 2), readS16 data (buf + 6), readS16 data (buf + 10)⟩
        ⟨readS16 data (buf + 4), readS16 data (buf + 8), readS16 data (buf + 12)⟩ k hk
      have e1 : 4 + 2 * k = 2 * k + 1 + 1 + 1 + 1 := by omega
      rw [e1]
      simp only [FAudio_INTERNAL_DecodeStereoMSADPCMBlock, e14, List.getD_cons_succ]
      exact hg
    · intro conv fuel buffer format q m samples hfmt hm
      subst hfmt
      exact DecodeStereoMSADPCM_locate M conv fuel buffer format q m samples h14 h hm
    · intro hl hr M1
      exact DecodeStereoMSADPCMBlock_inside M M1 data buf align hl hr

/-- Witness for C31: the mono block at byte 36 of the example data (predictor
1) with its first four samples, the same with zeroes behind the coefficient
tables, the stereo block at byte 72 (predictors 2 and 2), and the stereo
decoder at frame 7 of block 3. -/
theorem c31_msadpcm_block_geometry_witness :
    ((FAudio_INTERNAL_DecodeMonoMSADPCMBlock exampleOverrun exampleAdpcmData 36 36).1 =
        36 + 36 ∧
      (FAudio_INTERNAL_DecodeMonoMSADPCMBlock exampleOverrun exampleAdpcmData 36 36).2.length =
        (36 - 6) * 2 ∧
      (FAudio_INTERNAL_DecodeMonoMSADPCMBlock exampleOverrun exampleAdpcmData 36 36).2.take 4 =
        [10793, 10279, 29223, 4467] ∧
      FAudio_INTERNAL_DecodeMonoMSADPCMBlock { behind1 := fun _ => 0, behind2 := fun _ => 0 }
          exampleAdpcmData 36 36 =
        FAudio_INTERNAL_DecodeMonoMSADPCMBlock exampleOverrun exampleAdpcmData 36 36) ∧
    ((FAudio_INTERNAL_DecodeStereoMSADPCMBlock exampleOverrun exampleAdpcmData 72 36).1 =
        72 + 36 ∧
      (FAudio_INTERNAL_DecodeStereoMSADPCMBlock exampleOverrun exampleAdpcmData 72 36).2.length =
        2 * ((36 / 2 - 6) * 2) ∧
      FAudio_INTERNAL_DecodeStereoMSADPCM exampleOverrun
          (List.map (fun s => (s : Sample) * DIVBY32768)) 5
          exampleStereoAdpcmBuffer (3 * ((36 / 2 - 6) * 2) + 7) 4 exampleStereoAdpcmFormat =
        DecodeStereoMSADPCM_loop exampleOverrun (List.map (fun s => (s : Sample) * DIVBY32768))
          exampleStereoAdpcmBuffer.pAudioData 36 ((36 / 2 - 6) * 2) 5 (3 * 36) 7 4) :=
  have h := c31_msadpcm_block_geometry exampleOverrun exampleAdpcmData 36 36 (by decide)
  have h2 := c31_msadpcm_block_geometry exampleOverrun exampleAdpcmData 72 36 (by decide)
  have hm := h.1 (by decide)
  have hs := h2.2 (by decide) (by decide)
  ⟨⟨hm.1, hm.2.1, by decide, hm.2.2.2.2.2.2 (by decide) _⟩, hs.1, hs.2.1,
    hs.2.2.2.2.1 _ 5 exampleStereoAdpcmBuffer exampleStereoAdpcmFormat 3 7 4 rfl (by decide)⟩

/-! ## Delivery of effect parameters -/

theorem effectCalls_append (a b : List Event) :
    effectCalls (a ++ b) = effectCalls a ++ effectCalls b := by
  induction a with
  | nil => rfl
  | cons e es ih => cases e <;> simp [effectCalls, ih]

theorem ProcessEffectChain_body_calls (samples i : Nat) (slot : EffectSlot) (c : ChainState) :
    (ProcessEffectChain_body samples i slot c).1.parameterUpdates = 0 ∧
    ∃ ev, (ProcessEffectChain_body samples i slot c).2.audio.log = c.audio.log ++ ev ∧
      effectCalls ev = expectedCalls i [slot] := by
  refine ⟨rfl, ?_⟩
  unfold ProcessEffectChain_body
  by_cases h3 : slot.parameterUpdates = 0
  · cases hb : c.dstParams.pBuffer <;> by_cases h1 : slot.inPlaceProcessing = 0 <;>
      (apply Exists.intro
       refine ⟨?_, ?_⟩
       · simp only [hb, h1, h3, ChainState_store_log, ResizeEffectChainCache_log, ne_eq,
          not_true_eq_false, if_true, if_false, List.append_assoc]
         rfl
       · simp [effectCalls, expectedCalls, h3])
  · cases hb : c.dstParams.pBuffer <;> by_cases h1 : slot.inPlaceProcessing = 0 <;>
      (apply Exists.intro
       refine ⟨?_, ?_⟩
       · simp only [hb, h1, h3, ChainState_store_log, ResizeEffectChainCache_log, ne_eq,
          not_false_eq_true, if_true, if_false, List.append_assoc]
         rfl
       · simp [effectCalls, expectedCalls, h3])

theorem expectedCalls_cons (i : Nat) (slot : EffectSlot) (rest : List EffectSlot) :
    expectedCalls i (slot :: rest) = expectedCalls i [slot] ++ expectedCalls (i + 1) rest := by
  simp [expectedCalls]

theorem ProcessEffectChain_loop_calls (samples : Nat) :
    ∀ (effects : List EffectSlot) (i : Nat) (c : ChainState),
      (ProcessEffectChain_loop samples i effects c).1.length = effects.length ∧
      (∀ slot ∈ (ProcessEffectChain_loop samples i effects c).1, slot.parameterUpdates = 0) ∧
      ∃ ev, (ProcessEffectChain_loop samples i effects c).2.audio.log = c.audio.log ++ ev ∧
        effectCalls ev = expectedCalls i effects := by
  intro effects
  induction effects with
  | nil =>
    intro i c
    exact ⟨rfl, fun slot h => absurd h (List.not_mem_nil _), [],
      by simp [ProcessEffectChain_loop], rfl⟩
  | cons slot rest ih =>
    intro i c
    obtain ⟨hz, ev1, hl1, hc1⟩ := ProcessEffectChain_body_calls samples i slot c
    obtain ⟨hlen, hall, ev2, hl2, hc2⟩ := ih (i + 1) (ProcessEffectChain_body samples i slot c).2
    unfold ProcessEffectChain_loop
    refine ⟨?_, ?_, ev1 ++ ev2, ?_, ?_⟩
    · show ((ProcessEffectChain_body samples i slot c).1 ::
        (ProcessEffectChain_loop samples (i + 1) rest
          (ProcessEffectChain_body samples i slot c).2).1).length = _
      rw [List.length_cons, hlen, List.length_cons]
    · intro s hs
      have hs1 : s ∈ (ProcessEffectChain_body samples i slot c).1 ::
        (ProcessEffectChain_loop samples (i + 1) rest
          (ProcessEffectChain_body samples i slot c).2).1 := hs
      rw [List.mem_cons] at hs1
      rcases hs1 with h | h
      · rw [h]
        exact hz
      · exact hall s h
    · show (ProcessEffectChain_loop samples (i + 1) rest
        (ProcessEffectChain_body samples i slot c).2).2.audio.log = _
      rw [hl2, hl1, List.append_assoc]
    · rw [effectCalls_append, hc1, hc2, ← expectedCalls_cons]

theorem expectedCalls_mem (j : Nat) (p : List Nat) (s : Nat) :
    ∀ (effects : List EffectSlot) (i : Nat),
      (j, EffectCall.set p s) ∈ expectedCalls i effects ↔
        ∃ k slot, effects.get? k = some slot ∧ j = i + k ∧ slot.parameterUpdates ≠ 0 ∧
          p = slot.parameters ∧ s = slot.parameterSizes := by
  intro effects
  induction effects with
  | nil =>
    intro i
    simp [expectedCalls]
  | cons slot rest ih =>
    intro i
    rw [expectedCalls_cons, List.mem_append, ih (i + 1)]
    constructor
    · intro h
      rcases h with h | ⟨k, slot1, h1, h2, h3⟩
      · by_cases hu : slot.parameterUpdates = 0
        · simp [expectedCalls, hu] at h
        · simp [expectedCalls, hu] at h
          exact ⟨0, slot, rfl, by omega, hu, h.2.1, h.2.2⟩
      · exact ⟨k + 1, slot1, h1, by omega, h3⟩
    · intro h
      obtain ⟨k, slot1, h1, h2, h3, h4, h5⟩ := h
      cases k with
      | zero =>
        left
        have e : slot = slot1 := by simpa using h1
        subst e
        simp [expectedCalls, h3, h2, h4, h5]
      | succ k =>
        right
        exact ⟨k, slot1, h1, by omega, h3, h4, h5⟩

theorem setCount_append (j : Nat) (a b : List (Nat × EffectCall)) :
    setCount j (a ++ b) = setCount j a + setCount j b := by
  simp [setCount]

theorem setCount_expectedCalls (j : Nat) :
    ∀ (effects : List EffectSlot) (i : Nat),
      setCount j (expectedCalls i effects) ≤ 1 ∧
      (j < i → setCount j (expectedCalls i effects) = 0) := by
  intro effects
  induction effects with
  | nil =>
    intro i
    simp [expectedCalls, setCount]
  | cons slot rest ih =>
    intro i
    obtain ⟨h1, h2⟩ := ih (i + 1)
    rw [expectedCalls_cons, setCount_append]
    have hs : setCount j (expectedCalls i [slot]) ≤ 1 ∧
        (j ≠ i → setCount j (expectedCalls i [slot]) = 0) := by
      by_cases hu : slot.parameterUpdates = 0
      · simp [expectedCalls, setCount, hu, EffectCall.isSet]
      · by_cases hj : i = j
        · simp [expectedCalls, setCount, hu, EffectCall.isSet, hj]
        · have hj1 : ¬ j = i := fun e => hj e.symm
          simp [expectedCalls, setCount, hu, EffectCall.isSet, hj, hj1]
    by_cases hj : j = i
    · have := h2 (by omega)
      omega
    · have := hs.2 hj
      refine ⟨by omega, fun hlt => ?_⟩
      have := h2 (by omega)
      omega

/-- C32: effect parameter delivery. The effect calls of one
`FAudio_INTERNAL_ProcessEffectChain` call are, for each effect in order,
`SetParameters` with the stored blob and size exactly when the effect's
`parameterUpdates` flag was set on entry, followed by `LockForProcess`,
`Process` and `UnlockForProcess`; so `SetParameters` reaches effect `i` iff
its flag was set, at most once. On return every flag of the chain is 0, and a
second call on the result calls `SetParameters` on no effect. -/
theorem c32_effect_parameter_delivery (K : Env) (effects : List EffectSlot) (audio : FAudio)
    (channels sampleRate : Nat) (buffer : FloatBuf) (samples : Nat) :
    ∃ ev,
      (FAudio_INTERNAL_ProcessEffectChain K effects audio channels sampleRate buffer
        samples).2.1.log = audio.log ++ ev ∧
      effectCalls ev = expectedCalls 0 effects ∧
      (∀ i p s, (i, EffectCall.set p s) ∈ effectCalls ev ↔
        ∃ slot, effects.get? i = some slot ∧ slot.parameterUpdates ≠ 0 ∧
          p = slot.parameters ∧ s = slot.parameterSizes) ∧
      (∀ i, setCount i (effectCalls ev) ≤ 1) ∧
      (FAudio_INTERNAL_ProcessEffectChain K effects audio channels sampleRate buffer
        samples).1.length = effects.length ∧
      (∀ slot ∈ (FAudio_INTERNAL_ProcessEffectChain K effects audio channels sampleRate buffer
        samples).1, slot.parameterUpdates = 0) ∧
      ∀ (channels2 sampleRate2 : Nat) (buffer2 : FloatBuf) (samples2 : Nat),
        ∃ ev2,
          (FAudio_INTERNAL_ProcessEffectChain K
            (FAudio_INTERNAL_ProcessEffectChain K effects audio channels sampleRate buffer
              samples).1
            (FAudio_INTERNAL_ProcessEffectChain K effects audio channels sampleRate buffer
              samples).2.1 channels2 sampleRate2 buffer2 samples2).2.1.log =
            (FAudio_INTERNAL_ProcessEffectChain K effects audio channels sampleRate buffer
              samples).2.1.log ++ ev2 ∧
          ∀ i p s, (i, EffectCall.set p s) ∉ effectCalls ev2 := by
  obtain ⟨hlen, hall, ev, hl, hc⟩ := ProcessEffectChain_loop_calls samples effects 0
    (chainStart K audio channels sampleRate buffer samples)
  refine ⟨ev, hl, hc, ?_, ?_, hlen, hall, ?_⟩
  · intro i p s
    rw [hc, expectedCalls_mem]
    constructor
    · rintro ⟨k, slot, h1, h2, h3⟩
      have e : i = k := by omega
      subst e
      exact ⟨slot, h1, h3⟩
    · rintro ⟨slot, h1, h3⟩
      exact ⟨i, slot, h1, by omega, h3⟩
  · intro i
    rw [hc]
    exact (setCount_expectedCalls i effects 0).1
  · intro channels2 sampleRate2 buffer2 samples2
    obtain ⟨_, _, ev2, hl2, hc2⟩ := ProcessEffectChain_loop_calls samples2
      (FAudio_INTERNAL_ProcessEffectChain K effects audio channels sampleRate buffer samples).1 0
      (chainStart K (FAudio_INTERNAL_ProcessEffectChain K effects audio channels sampleRate
        buffer samples).2.1 channels2 sampleRate2 buffer2 samples2)
    refine ⟨ev2, hl2, ?_⟩
    intro i p s hin
    rw [hc2, expectedCalls_mem] at hin
    obtain ⟨k, slot, h1, _, h3, _⟩ := hin
    exact h3 (hall slot (List.get?_mem h1))

/-! ## Progress and termination of the decode loop -/

theorem DecodeBuffers_loop_empty_region (K : Env) (buffer : FAudioBuffer)
    (next : List FAudioBuffer) (toDecode : Nat)
    (hinf : K.FAUDIO_LOOP_INFINITE ≤ buffer.LoopCount) (hpos : 0 < buffer.LoopCount)
    (hLL : buffer.LoopLength = 0) (hT : toDecode < 2 ^ 32) :
    ∀ (fuel : Nat) (voice : FAudioSourceVoice) (audio : FAudio) (decoded : Nat),
      voice.src.bufferList = buffer :: next → voice.src.curBufferOffset = buffer.LoopBegin →
      decoded < toDecode →
      DecodeBuffers_loop K toDecode fuel voice audio decoded = none := by
  intro fuel
  induction fuel with
  | zero => intro voice audio decoded _ _ _; rfl
  | succ n ih =>
    intro voice audio decoded hq hoff hlt
    have hav : avail voice buffer = 0 := by
      unfold avail bufferEnd
      rw [if_pos hpos, hoff, hLL]
      simp only [sub32, wrap32]
      omega
    have hend : endReadOf voice buffer toDecode decoded = 0 := by
      unfold endReadOf
      rw [FAudio_min_eq, hav]
      exact Nat.zero_min _
    have hdec : sub32 toDecode decoded = toDecode - decoded := by
      simp only [sub32, wrap32]; omega
    rw [DecodeBuffers_loop_cons K toDecode n voice audio decoded buffer next hq hlt]
    refine ih _ _ _ ?_ ?_ ?_
    · rw [DecodeBuffers_body_queue]
      unfold bodyQueue
      rw [hend, hdec, if_pos (by omega), if_pos hpos, if_neg (by omega)]
    · rw [DecodeBuffers_body_offset]
      unfold bodyOffset
      rw [hend, hdec, if_pos (by omega), if_pos hpos]
    · rw [DecodeBuffers_body_decoded, hend]
      simp only [wrap32]
      omega

theorem DecodeBuffers_body_progress (K : Env) (voice : FAudioSourceVoice) (audio : FAudio)
    (buffer : FAudioBuffer) (next : List FAudioBuffer) (toDecode decoded : Nat)
    (hwf : WellFormed buffer) (hd : decoded < toDecode) (hT : toDecode < 2 ^ 32) :
    PassProgress K buffer next decoded
      (DecodeBuffers_body K voice audio buffer next toDecode decoded).1.src.bufferList
      (DecodeBuffers_body K voice audio buffer next toDecode decoded).2.2 ∨
    (K.FAUDIO_LOOP_INFINITE ≤ buffer.LoopCount ∧ 0 < buffer.LoopCount ∧
      (DecodeBuffers_body K voice audio buffer next toDecode decoded).1.src.bufferList =
        buffer :: next ∧
      (DecodeBuffers_body K voice audio buffer next toDecode decoded).1.src.curBufferOffset =
        buffer.LoopBegin ∧
      (DecodeBuffers_body K voice audio buffer next toDecode decoded).2.2 = decoded ∧
      avail (DecodeBuffers_body K voice audio buffer next toDecode decoded).1 buffer =
        buffer.LoopLength) := by
  have hdec : sub32 toDecode decoded = toDecode - decoded := by
    simp only [sub32, wrap32]; omega
  have hle : endReadOf voice buffer toDecode decoded ≤ toDecode - decoded := by
    unfold endReadOf; rw [FAudio_min_eq, hdec]; exact Nat.min_le_right _ _
  have hdd : (DecodeBuffers_body K voice audio buffer next toDecode decoded).2.2 =
      decoded + endReadOf voice buffer toDecode decoded := by
    rw [DecodeBuffers_body_decoded]; simp only [wrap32]; omega
  have hqq := DecodeBuffers_body_queue K voice audio buffer next toDecode decoded
  have hoo := DecodeBuffers_body_offset K voice audio buffer next toDecode decoded
  by_cases h0 : 0 < endReadOf voice buffer toDecode decoded
  · left
    left
    omega
  · have hlt : endReadOf voice buffer toDecode decoded < sub32 toDecode decoded := by omega
    by_cases hlc : buffer.LoopCount > 0
    · by_cases hfin : buffer.LoopCount < K.FAUDIO_LOOP_INFINITE
      · left
        right
        left
        refine ⟨hlc, hfin, ?_⟩
        rw [hqq]
        unfold bodyQueue
        rw [if_pos hlt, if_pos hlc, if_pos hfin]
        have e : sub32 buffer.LoopCount 1 = buffer.LoopCount - 1 := by
          have := hwf.count_lt
          simp only [sub32, wrap32]; omega
        rw [e]
      · right
        have hq1 : (DecodeBuffers_body K voice audio buffer next toDecode
            decoded).1.src.bufferList = buffer :: next := by
          rw [hqq]
          unfold bodyQueue
          rw [if_pos hlt, if_pos hlc, if_neg hfin]
        have ho1 : (DecodeBuffers_body K voice audio buffer next toDecode
            decoded).1.src.curBufferOffset = buffer.LoopBegin := by
          rw [hoo]
          unfold bodyOffset
          rw [if_pos hlt, if_pos hlc]
        refine ⟨by omega, hlc, hq1, ho1, by omega, ?_⟩
        unfold avail bufferEnd
        rw [if_pos hlc, ho1]
        have := hwf.end_le
        have := hwf.end_lt
        simp only [sub32, wrap32]
        omega
    · left
      right
      right
      rw [hqq]
      unfold bodyQueue
      rw [if_pos hlt, if_neg hlc]

/-- C35, the claim as stated fails twice. A well-formed buffer whose loop count
lies above `FAUDIO_LOOP_INFINITE` and whose loop region is empty keeps the
loop of `FAudio_INTERNAL_DecodeBuffers` from returning with any fuel. And a
pass entered at the end of the loop region of a buffer that loops for ever
decodes no frame, decrements no loop count and keeps the head buffer. -/
theorem c35_decode_loop_counterexample :
    (WellFormed exampleEmptyLoopBuffer ∧
      (exampleEmptyLoopBuffer.LoopCount = exampleEnv.FAUDIO_LOOP_INFINITE →
        0 < exampleEmptyLoopBuffer.LoopLength) ∧
      ∀ fuel, FAudio_INTERNAL_DecodeBuffers exampleEnv fuel
        (exampleVoiceWith [exampleEmptyLoopBuffer]) exampleAudio 200 = none) ∧
    (WellFormed exampleInfiniteBuffer ∧
      exampleInfiniteBuffer.LoopCount = exampleEnv.FAUDIO_LOOP_INFINITE ∧
      0 < exampleInfiniteBuffer.LoopLength ∧
      ¬ PassProgress exampleEnv exampleInfiniteBuffer [] 0
        (DecodeBuffers_body exampleEnv exampleStalledVoice exampleAudio exampleInfiniteBuffer
          [] 10 0).1.src.bufferList
        (DecodeBuffers_body exampleEnv exampleStalledVoice exampleAudio exampleInfiniteBuffer
          [] 10 0).2.2) := by
  refine ⟨⟨⟨by decide, by decide, by decide, by decide⟩, by decide, fun fuel => ?_⟩,
    ⟨by decide, by decide, by decide, by decide⟩, rfl, by decide, ?_⟩
  · unfold FAudio_INTERNAL_DecodeBuffers
    rw [DecodeBuffers_loop_empty_region exampleEnv exampleEmptyLoopBuffer [] 200 (by decide)
      (by decide) rfl (by decide) fuel (exampleVoiceWith [exampleEmptyLoopBuffer])
      exampleAudio 0 rfl rfl (by decide)]
    rfl
  · rw [DecodeBuffers_body_queue, DecodeBuffers_body_decoded]
    have hend : endReadOf exampleStalledVoice exampleInfiniteBuffer 10 0 = 0 := by decide
    have hq : bodyQueue exampleEnv exampleStalledVoice exampleInfiniteBuffer [] 10 0 =
        [exampleInfiniteBuffer] := by
      unfold bodyQueue
      rw [hend, if_pos (by decide), if_pos (by decide), if_neg (by decide)]
    rw [hq, hend]
    unfold PassProgress
    intro h
    rcases h with h | h | h
    · exact absurd h (by decide)
    · exact absurd h.2.1 (by decide)
    · exact absurd h (List.cons_ne_nil _ _)

/-- C35, as amended: on a queue of well-formed buffers in which every buffer
whose loop count is `FAUDIO_LOOP_INFINITE` or more has a loop region that is
not empty, `FAudio_INTERNAL_DecodeBuffers` returns for every request below
`2 ^ 32`, given enough fuel. Each pass of its loop decodes at least one frame,
or decrements a finite loop count, or removes the head buffer, or rewinds a
head buffer that loops for ever to `LoopBegin` without decoding, after which
the frames of the loop region are available; the queue after a pass meets the
same conditions. -/
theorem c35_decode_loop_terminates (K : Env) (toDecode : Nat) (voice : FAudioSourceVoice)
    (audio : FAudio) (hT : toDecode < 2 ^ 32)
    (hwf : ∀ b ∈ voice.src.bufferList, WellFormed b)
    (hloop : ∀ b ∈ voice.src.bufferList, K.FAUDIO_LOOP_INFINITE ≤ b.LoopCount →
      0 < b.LoopLength) :
    (∀ fuel, 2 * toDecode + 2 * queueWeight K voice.src.bufferList + 1 < fuel →
      ∃ r, FAudio_INTERNAL_DecodeBuffers K fuel voice audio toDecode = some r) ∧
    (∀ buffer next decoded, voice.src.bufferList = buffer :: next → decoded < toDecode →
      (PassProgress K buffer next decoded
        (DecodeBuffers_body K voice audio buffer next toDecode decoded).1.src.bufferList
        (DecodeBuffers_body K voice audio buffer next toDecode decoded).2.2 ∨
      (K.FAUDIO_LOOP_INFINITE ≤ buffer.LoopCount ∧ 0 < buffer.LoopCount ∧
        (DecodeBuffers_body K voice audio buffer next toDecode decoded).1.src.bufferList =
          buffer :: next ∧
        (DecodeBuffers_body K voice audio buffer next toDecode decoded).1.src.curBufferOffset =
          buffer.LoopBegin ∧
        (DecodeBuffers_body K voice audio buffer next toDecode decoded).2.2 = decoded ∧
        0 < avail (DecodeBuffers_body K voice audio buffer next toDecode decoded).1 buffer)) ∧
      (∀ b ∈ (DecodeBuffers_body K voice audio buffer next toDecode decoded).1.src.bufferList,
        WellFormed b ∧ (K.FAUDIO_LOOP_INFINITE ≤ b.LoopCount → 0 < b.LoopLength))) := by
  have hp : ∀ b ∈ voice.src.bufferList, Playable K b := fun b hb =>
    Playable_of_loop_pos K b (hwf b hb) (hloop b hb)
  refine ⟨fun fuel hf => ?_, fun buffer next decoded hq hd => ⟨?_, ?_⟩⟩
  · obtain ⟨r, hr, _⟩ := DecodeBuffers_terminates K toDecode hT fuel voice audio hp hf
    exact ⟨r, hr⟩
  · have hb : buffer ∈ voice.src.bufferList := by rw [hq]; exact List.mem_cons_self _ _
    rcases DecodeBuffers_body_progress K voice audio buffer next toDecode decoded
      (hwf buffer hb) hd hT with h | ⟨h1, h2, h3, h4, h5, h6⟩
    · exact Or.inl h
    · refine Or.inr ⟨h1, h2, h3, h4, h5, ?_⟩
      rw [h6]
      exact hloop buffer hb h1
  · intro b hb
    have h1 := (DecodeBuffers_body_measure K voice audio buffer next toDecode decoded hq hp hd
      hT).2.2 b hb
    rw [DecodeBuffers_body_queue] at hb
    exact ⟨bodyQueue_wellFormed K voice buffer next toDecode decoded hq
      (by rw [← hq]; exact hwf) b hb, h1.loop_pos⟩

theorem c35_decode_loop_terminates_witness :
    (∃ r, FAudio_INTERNAL_DecodeBuffers exampleEnv 420 exampleStalledVoice exampleAudio 200 =
      some r) ∧
    (exampleEnv.FAUDIO_LOOP_INFINITE ≤ exampleInfiniteBuffer.LoopCount ∧
      (DecodeBuffers_body exampleEnv exampleStalledVoice exampleAudio exampleInfiniteBuffer []
        200 0).2.2 = 0 ∧
      0 < avail (DecodeBuffers_body exampleEnv exampleStalledVoice exampleAudio
        exampleInfiniteBuffer [] 200 0).1 exampleInfiniteBuffer) :=
  have h := c35_decode_loop_terminates exampleEnv 200 exampleStalledVoice exampleAudio
    (by decide)
    (fun b hb => by
      have e : b = exampleInfiniteBuffer := by simpa [exampleStalledVoice] using hb
      subst e
      exact ⟨by decide, by decide, by decide, by decide⟩)
    (fun b hb _ => by
      have e : b = exampleInfiniteBuffer := by simpa [exampleStalledVoice] using hb
      subst e
      decide)
  ⟨h.1 420 (by decide), by
    rcases (h.2 exampleInfiniteBuffer [] 0 rfl (by decide)).1 with h1 | h1
    · exfalso
      rw [DecodeBuffers_body_queue, DecodeBuffers_body_decoded] at h1
      have hend : endReadOf exampleStalledVoice exampleInfiniteBuffer 200 0 = 0 := by decide
      have hq : bodyQueue exampleEnv exampleStalledVoice exampleInfiniteBuffer [] 200 0 =
          [exampleInfiniteBuffer] := by
        unfold bodyQueue
        rw [hend, if_pos (by decide), if_pos (by decide), if_neg (by decide)]
      rw [hq, hend] at h1
      rcases h1 with h2 | h2 | h2
      · exact absurd h2 (by decide)
      · exact absurd h2.2.1 (by decide)
      · exact absurd h2 (List.cons_ne_nil _ _)
    · exact ⟨h1.1, h1.2.2.2.2.1, h1.2.2.2.2.2⟩⟩

/-! ## The count that the decode loop returns -/

theorem decodeCounts_append (a b : List Event) :
    decodeCounts (a ++ b) = decodeCounts a ++ decodeCounts b := by
  induction a with
  | nil => simp [decodeCounts]
  | cons e es ih =>
    cases e <;> simp [decodeCounts, ih]
    case decode c o n p => cases p <;> simp [decodeCounts, ih]

theorem decodeCounts_bodyEvents (K : Env) (voice : FAudioSourceVoice) (buffer : FAudioBuffer)
    (toDecode decoded : Nat) :
    decodeCounts (bodyEvents K voice buffer toDecode decoded) =
      [endReadOf voice buffer toDecode decoded] := by
  unfold bodyEvents
  split_ifs <;> simp [decodeCounts, decodeCounts_append]

theorem DecodeBuffers_body_totalSamples (K : Env) (voice : FAudioSourceVoice) (audio : FAudio)
    (buffer : FAudioBuffer) (next : List FAudioBuffer) (toDecode decoded : Nat)
    (h : endReadOf voice buffer toDecode decoded < sub32 toDecode decoded →
      buffer.LoopCount = 0 → buffer.Flags &&& K.FAUDIO_END_OF_STREAM = 0) :
    (DecodeBuffers_body K voice audio buffer next toDecode decoded).1.src.totalSamples =
      wrap64 (voice.src.totalSamples + endReadOf voice buffer toDecode decoded) := by
  unfold endReadOf avail at h
  unfold DecodeBuffers_body endReadOf avail
  cases next <;> (simp only []; split_ifs <;> first | rfl | (exfalso; omega))

theorem DecodeBuffers_body_totalSamples_lt (K : Env) (voice : FAudioSourceVoice)
    (audio : FAudio) (buffer : FAudioBuffer) (next : List FAudioBuffer) (toDecode decoded : Nat) :
    (DecodeBuffers_body K voice audio buffer next toDecode decoded).1.src.totalSamples <
      2 ^ 64 := by
  unfold DecodeBuffers_body
  cases next <;> (simp only []; split_ifs <;> (simp only [wrap64]; omega))

theorem SameButLoopCount_refl (q : List FAudioBuffer) : SameButLoopCount q q := by
  cases q with
  | nil => trivial
  | cons b r => exact ⟨rfl, rfl, Nat.le_refl _⟩

theorem DecodeBuffers_body_step (K : Env) (voice : FAudioSourceVoice) (audio : FAudio)
    (buffer : FAudioBuffer) (next : List FAudioBuffer) (toDecode decoded : Nat)
    (hq : voice.src.bufferList = buffer :: next) :
    (∃ b1, (DecodeBuffers_body K voice audio buffer next toDecode decoded).1.src.bufferList =
        b1 :: next ∧ b1 = { buffer with LoopCount := b1.LoopCount } ∧
      b1.LoopCount ≤ buffer.LoopCount ∧
      (DecodeBuffers_body K voice audio buffer next toDecode decoded).1.src.totalSamples =
        wrap64 (voice.src.totalSamples + endReadOf voice buffer toDecode decoded)) ∨
    ((DecodeBuffers_body K voice audio buffer next toDecode decoded).1.src.bufferList = next ∧
      (buffer.Flags &&& K.FAUDIO_END_OF_STREAM = 0 →
        (DecodeBuffers_body K voice audio buffer next toDecode decoded).1.src.totalSamples =
          wrap64 (voice.src.totalSamples + endReadOf voice buffer toDecode decoded))) := by
  rw [DecodeBuffers_body_queue]
  unfold bodyQueue
  by_cases h1 : endReadOf voice buffer toDecode decoded < sub32 toDecode decoded
  · by_cases h2 : buffer.LoopCount > 0
    · left
      have hts := DecodeBuffers_body_totalSamples K voice audio buffer next toDecode decoded
        (fun _ h0 => absurd h0 (by omega))
      rw [if_pos h1, if_pos h2]
      by_cases h3 : buffer.LoopCount < K.FAUDIO_LOOP_INFINITE
      · rw [if_pos h3]
        refine ⟨_, rfl, rfl, ?_, hts⟩
        show sub32 buffer.LoopCount 1 ≤ buffer.LoopCount
        simp only [sub32, wrap32]
        omega
      · rw [if_neg h3]
        exact ⟨_, rfl, rfl, Nat.le_refl _, hts⟩
    · right
      rw [if_pos h1, if_neg h2]
      exact ⟨rfl, fun h0 => DecodeBuffers_body_totalSamples K voice audio buffer next toDecode
        decoded (fun _ _ => h0)⟩
  · left
    rw [if_neg h1, hq]
    exact ⟨_, rfl, rfl, Nat.le_refl _, DecodeBuffers_body_totalSamples K voice audio buffer
      next toDecode decoded (fun h => absurd h h1)⟩

theorem SameButLoopCount_head (bf b1 b : FAudioBuffer)
    (h1 : bf = { b1 with LoopCount := bf.LoopCount })
    (h2 : b1 = { b with LoopCount := b1.LoopCount }) :
    bf = { b with LoopCount := bf.LoopCount } := by
  rw [h1, h2]

theorem totalSamples_compose (a x t e d d1 rd : Nat) (h1 : a = wrap64 (x + (rd - d1)))
    (h2 : x = wrap64 (t + e)) (h3 : d1 = d + e) (h4 : d1 ≤ rd) :
    a = wrap64 (t + (rd - d)) := by
  subst h1 h2 h3
  simp only [wrap64]
  have e1 : t + (rd - d) = t + e + (rd - (d + e)) := by omega
  rw [e1, Nat.mod_add_mod]

theorem DecodeBuffers_loop_post (K : Env) (toDecode : Nat) (hT : toDecode < 2 ^ 32) :
    ∀ (fuel : Nat) (voice : FAudioSourceVoice) (audio : FAudio) (decoded : Nat)
      (r : FAudioSourceVoice × FAudio × Nat),
      decoded ≤ toDecode → voice.src.totalSamples < 2 ^ 64 →
      DecodeBuffers_loop K toDecode fuel voice audio decoded = some r →
      r.2.2 ≤ toDecode ∧ decoded ≤ r.2.2 ∧ (r.1.src.bufferList ≠ [] → r.2.2 = toDecode) ∧
      (∃ ev, r.2.1.log = audio.log ++ ev ∧ decoded + (decodeCounts ev).sum = r.2.2) ∧
      ∃ removed, QueueSuffix removed r.1.src.bufferList voice.src.bufferList ∧
        ((∀ b ∈ removed, b.Flags &&& K.FAUDIO_END_OF_STREAM = 0) →
          r.1.src.totalSamples = wrap64 (voice.src.totalSamples + (r.2.2 - decoded))) := by
  intro fuel
  induction fuel with
  | zero => intro voice audio decoded r _ _ h; simp [DecodeBuffers_loop] at h
  | succ n ih =>
    intro voice audio decoded r hd hts h
    have hstop : r = (voice, audio, decoded) →
        r.2.2 ≤ toDecode ∧ decoded ≤ r.2.2 ∧ (¬ decoded < toDecode → r.2.2 = toDecode) ∧
        (∃ ev, r.2.1.log = audio.log ++ ev ∧ decoded + (decodeCounts ev).sum = r.2.2) ∧
        ∃ removed, QueueSuffix removed r.1.src.bufferList voice.src.bufferList ∧
          ((∀ b ∈ removed, b.Flags &&& K.FAUDIO_END_OF_STREAM = 0) →
            r.1.src.totalSamples = wrap64 (voice.src.totalSamples + (r.2.2 - decoded))) := by
      intro e
      subst e
      refine ⟨hd, Nat.le_refl _, fun h1 => ?_, ⟨[], by simp, by simp [decodeCounts]⟩,
        [], ⟨_, rfl, SameButLoopCount_refl _⟩, fun _ => ?_⟩
      · show decoded = toDecode
        omega
      · show voice.src.totalSamples = wrap64 (voice.src.totalSamples + (decoded - decoded))
        simp only [wrap64]
        omega
    by_cases hstay : voice.src.bufferList = [] ∨ ¬ decoded < toDecode
    · rw [DecodeBuffers_loop_done K toDecode n voice audio decoded hstay] at h
      obtain ⟨a1, a2, a3, a4, a5⟩ := hstop (Option.some.inj h).symm
      refine ⟨a1, a2, fun hne => ?_, a4, a5⟩
      rcases hstay with h0 | h0
      · have e := (Option.some.inj h).symm
        subst e
        exact absurd h0 hne
      · exact a3 h0
    · rw [not_or, not_not] at hstay
      obtain ⟨hne, hlt⟩ := hstay
      obtain ⟨buffer, next, hq⟩ : ∃ buffer next, voice.src.bufferList = buffer :: next := by
        cases hq : voice.src.bufferList with
        | nil => exact absurd hq hne
        | cons b nx => exact ⟨b, nx, rfl⟩
      rw [DecodeBuffers_loop_cons K toDecode n voice audio decoded buffer next hq hlt] at h
      have hdec : sub32 toDecode decoded = toDecode - decoded := by
        simp only [sub32, wrap32]; omega
      have hle : endReadOf voice buffer toDecode decoded ≤ toDecode - decoded := by
        unfold endReadOf; rw [FAudio_min_eq, hdec]; exact Nat.min_le_right _ _
      have hdd : (DecodeBuffers_body K voice audio buffer next toDecode decoded).2.2 =
          decoded + endReadOf voice buffer toDecode decoded := by
        rw [DecodeBuffers_body_decoded]; simp only [wrap32]; omega
      obtain ⟨i1, i2, i3, ⟨ev1, i4, i5⟩, removed2, ⟨q2, i6, i7⟩, i8⟩ :=
        ih _ _ _ r (by rw [hdd]; omega)
          (DecodeBuffers_body_totalSamples_lt K voice audio buffer next toDecode decoded) h
      have j2 : decoded ≤ r.2.2 := le_trans (by rw [hdd]; omega) i2
      refine ⟨i1, j2, i3, ⟨bodyEvents K voice buffer toDecode decoded ++ ev1, ?_, ?_⟩, ?_⟩
      · rw [i4, DecodeBuffers_body_log, List.append_assoc]
      · rw [decodeCounts_append, decodeCounts_bodyEvents, List.sum_append]
        rw [hdd] at i5
        simp only [List.sum_cons, List.sum_nil]
        omega
      · rw [hq]
        rcases DecodeBuffers_body_step K voice audio buffer next toDecode decoded hq with
          ⟨b1, s1, s2, s3, s4⟩ | ⟨s1, s4⟩
        · have i6a : b1 :: next = removed2 ++ q2 := s1.symm.trans i6
          cases removed2 with
          | nil =>
            have i6b : q2 = b1 :: next := i6a.symm
            subst i6b
            refine ⟨[], ⟨buffer :: next, rfl, ?_⟩, fun _ => ?_⟩
            · cases hr : r.1.src.bufferList with
              | nil => rw [hr] at i7; exact absurd i7 (by simp [SameButLoopCount])
              | cons bf rf =>
                rw [hr] at i7
                exact ⟨i7.1, SameButLoopCount_head bf b1 buffer i7.2.1 s2,
                  le_trans i7.2.2 s3⟩
            · exact totalSamples_compose _ _ _ _ _ _ _
                (i8 (fun b hb => absurd hb (List.not_mem_nil _))) s4 hdd i2
          | cons x p2 =>
            obtain ⟨e1, e2⟩ := List.cons.inj i6a
            refine ⟨buffer :: p2, ⟨q2, by rw [e2]; rfl, i7⟩, fun hfl => ?_⟩
            refine totalSamples_compose _ _ _ _ _ _ _ (i8 (fun b hb => ?_)) s4 hdd i2
            rcases List.mem_cons.1 hb with hb1 | hb1
            · rw [hb1, ← e1]
              have hf : b1.Flags = buffer.Flags := by rw [s2]
              rw [hf]
              exact hfl buffer (List.mem_cons_self _ _)
            · exact hfl b (List.mem_cons_of_mem _ hb1)
        · have i6a : next = removed2 ++ q2 := s1.symm.trans i6
          refine ⟨buffer :: removed2, ⟨q2, by rw [i6a]; rfl, i7⟩, fun hfl => ?_⟩
          exact totalSamples_compose _ _ _ _ _ _ _
            (i8 (fun b hb => hfl b (List.mem_cons_of_mem _ hb)))
            (s4 (hfl buffer (List.mem_cons_self _ _))) hdd i2

theorem DecodeBuffers_padding_log (K : Env) (voice : FAudioSourceVoice) (audio : FAudio)
    (decoded : Nat) :
    ∃ pad, (DecodeBuffers_padding K voice audio decoded).log = audio.log ++ pad ∧
      decodeCounts pad = [] := by
  unfold DecodeBuffers_padding
  cases voice.src.bufferList with
  | nil => exact ⟨[], by simp, rfl⟩
  | cons b rest => exact ⟨_, rfl, rfl⟩

/-- C36: the decode count postcondition. A call of
`FAudio_INTERNAL_DecodeBuffers` with a request below `2 ^ 32` that returns
leaves in `*toDecode` at most the request, and exactly the request when the
queue is not empty on return; the count is the sum of the frame counts of the
decode calls of the main loop; `totalSamples` has grown by it (in 64-bit
arithmetic) when no removed buffer carries the end-of-stream flag; and the
remaining queue is the original one without the buffers removed from its
head, the loop count of the head buffer apart. With enough fuel the call
returns on every queue of playable buffers. -/
theorem c36_decode_count_postcondition (K : Env) (fuel : Nat) (voice : FAudioSourceVoice)
    (audio : FAudio) (toDecode : Nat) (hT : toDecode < 2 ^ 32)
    (hts : voice.src.totalSamples < 2 ^ 64) :
    (∀ r, FAudio_INTERNAL_DecodeBuffers K fuel voice audio toDecode = some r →
      r.2.2 ≤ toDecode ∧ (r.1.src.bufferList ≠ [] → r.2.2 = toDecode) ∧
      (∃ ev, r.2.1.log = audio.log ++ ev ∧ (decodeCounts ev).sum = r.2.2) ∧
      ∃ removed, QueueSuffix removed r.1.src.bufferList voice.src.bufferList ∧
        ((∀ b ∈ removed, b.Flags &&& K.FAUDIO_END_OF_STREAM = 0) →
          r.1.src.totalSamples = wrap64 (voice.src.totalSamples + r.2.2) ∧
          (voice.src.totalSamples + toDecode < 2 ^ 64 →
            r.1.src.totalSamples = voice.src.totalSamples + r.2.2))) ∧
    ((∀ b ∈ voice.src.bufferList, Playable K b) →
      2 * toDecode + 2 * queueWeight K voice.src.bufferList + 1 < fuel →
      ∃ r, FAudio_INTERNAL_DecodeBuffers K fuel voice audio toDecode = some r) := by
  constructor
  · intro r hr
    unfold FAudio_INTERNAL_DecodeBuffers at hr
    cases hl : DecodeBuffers_loop K toDecode fuel voice audio 0 with
    | none => rw [hl] at hr; cases hr
    | some r0 =>
      rw [hl] at hr
      have e : r = (r0.1, DecodeBuffers_padding K r0.1 r0.2.1 r0.2.2, r0.2.2) :=
        (Option.some.inj hr).symm
      subst e
      obtain ⟨i1, _, i3, ⟨ev, i4, i5⟩, removed, i6, i7⟩ :=
        DecodeBuffers_loop_post K toDecode hT fuel voice audio 0 r0 (Nat.zero_le _) hts hl
      obtain ⟨pad, p1, p2⟩ := DecodeBuffers_padding_log K r0.1 r0.2.1 r0.2.2
      refine ⟨i1, i3, ⟨ev ++ pad, ?_, ?_⟩, removed, i6, fun hfl => ?_⟩
      · show (DecodeBuffers_padding K r0.1 r0.2.1 r0.2.2).log = _
        rw [p1, i4, List.append_assoc]
      · rw [decodeCounts_append, p2, List.append_nil]
        show (decodeCounts ev).sum = r0.2.2
        omega
      · have h7 : r0.1.src.totalSamples = wrap64 (voice.src.totalSamples + r0.2.2) := i7 hfl
        refine ⟨h7, fun hno => ?_⟩
        show r0.1.src.totalSamples = voice.src.totalSamples + r0.2.2
        rw [h7]
        have : r0.2.2 ≤ toDecode := i1
        simp only [wrap64]
        omega
  · intro hp hf
    obtain ⟨r, hr, _⟩ := DecodeBuffers_terminates K toDecode hT fuel voice audio hp hf
    exact ⟨r, hr⟩

theorem c36_decode_count_postcondition_witness :
    ∃ r, FAudio_INTERNAL_DecodeBuffers exampleEnv 420 exampleVoice exampleAudio 200 = some r ∧
      r.2.2 ≤ 200 ∧ (r.1.src.bufferList ≠ [] → r.2.2 = 200) ∧
      ∃ ev, r.2.1.log = exampleAudio.log ++ ev ∧ (decodeCounts ev).sum = r.2.2 :=
  have h := c36_decode_count_postcondition exampleEnv 420 exampleVoice exampleAudio 200
    (by decide) (by decide)
  match h.2
    (fun b hb => (List.mem_singleton.1 hb) ▸
      (⟨by decide, by decide, by decide, by decide, fun _ => by decide⟩ :
        Playable exampleEnv exampleBuffer))
    (by decide) with
  | ⟨r, hr⟩ => ⟨r, hr, (h.1 r hr).1, (h.1 r hr).2.1, (h.1 r hr).2.2.1⟩


/-! ## One tick of a source voice at a fractional rate -/

theorem DecodeBuffers_full_pass (K : Env) (voice : FAudioSourceVoice) (audio : FAudio)
    (b : FAudioBuffer) (next : List FAudioBuffer) (toDecode fuel : Nat)
    (hq : voice.src.bufferList = b :: next) (hT0 : 0 < toDecode) (hT : toDecode < 2 ^ 32)
    (hav : toDecode ≤ avail voice b) :
    ∃ v1 a1 d, FAudio_INTERNAL_DecodeBuffers K (fuel + 1 + 1) voice audio toDecode =
        some (v1, a1, d) ∧
      d = toDecode ∧ SameVoice voice v1 ∧ v1.src.bufferList = b :: next ∧
      v1.src.curBufferOffset = wrap32 (voice.src.curBufferOffset + toDecode) ∧
      v1.src.curBufferOffsetDec = voice.src.curBufferOffsetDec := by
  have hdec0 : sub32 toDecode 0 = toDecode := by simp only [sub32, wrap32]; omega
  have hend : endReadOf voice b toDecode 0 = toDecode := by
    unfold endReadOf
    rw [FAudio_min_eq, hdec0]
    exact Nat.min_eq_right hav
  have hbd : (DecodeBuffers_body K voice audio b next toDecode 0).2.2 = toDecode := by
    rw [DecodeBuffers_body_decoded, hend]
    simp only [wrap32]
    omega
  refine ⟨_, _, _, DecodeBuffers_one_pass K voice audio b next toDecode fuel hq hT0
    (Or.inr (by rw [hbd]; omega)), hbd, DecodeBuffers_body_sameVoice _ _ _ _ _ _ _, ?_, ?_, ?_⟩
  · rw [DecodeBuffers_body_queue]
    unfold bodyQueue
    rw [hend, hdec0, if_neg (Nat.lt_irrefl _)]
    exact hq
  · rw [DecodeBuffers_body_offset]
    unfold bodyOffset
    rw [hend, hdec0, if_neg (Nat.lt_irrefl _)]
  · rw [DecodeBuffers_body_dec, hend, hdec0]
    exact if_neg (fun h => Nat.lt_irrefl _ h.1)

theorem DecodeBuffers_last_pass (K : Env) (voice : FAudioSourceVoice) (audio : FAudio)
    (b : FAudioBuffer) (toDecode fuel : Nat)
    (hq : voice.src.bufferList = [b]) (hLC : b.LoopCount = 0) (hT : toDecode < 2 ^ 32)
    (hav : avail voice b < toDecode) :
    ∃ v1 a1 d, FAudio_INTERNAL_DecodeBuffers K (fuel + 1 + 1) voice audio toDecode =
        some (v1, a1, d) ∧
      d = avail voice b ∧ SameVoice voice v1 ∧ v1.src.bufferList = [] ∧
      v1.src.curBufferOffsetDec =
        (if b.Flags &&& K.FAUDIO_END_OF_STREAM ≠ 0 then 0 else voice.src.curBufferOffsetDec) := by
  have hdec0 : sub32 toDecode 0 = toDecode := by simp only [sub32, wrap32]; omega
  have hend : endReadOf voice b toDecode 0 = avail voice b := by
    unfold endReadOf
    rw [FAudio_min_eq, hdec0]
    exact Nat.min_eq_left (Nat.le_of_lt hav)
  have hLC0 : ¬ b.LoopCount > 0 := by omega
  have hbq : (DecodeBuffers_body K voice audio b [] toDecode 0).1.src.bufferList = [] := by
    rw [DecodeBuffers_body_queue]
    unfold bodyQueue
    rw [hend, hdec0, if_pos hav, if_neg hLC0]
  have hbd : (DecodeBuffers_body K voice audio b [] toDecode 0).2.2 = avail voice b := by
    rw [DecodeBuffers_body_decoded, hend]
    simp only [wrap32]
    omega
  refine ⟨_, _, _, DecodeBuffers_one_pass K voice audio b [] toDecode fuel hq (by omega)
    (Or.inl hbq), hbd, DecodeBuffers_body_sameVoice _ _ _ _ _ _ _, hbq, ?_⟩
  rw [DecodeBuffers_body_dec, hend, hdec0]
  by_cases he : b.Flags &&& K.FAUDIO_END_OF_STREAM ≠ 0
  · rw [if_pos ⟨hav, hLC0, he⟩, if_pos he]
  · rw [if_neg (fun h => he h.2.2), if_neg he]

theorem MixSource_end_fst (voice : FAudioSourceVoice) (audio : FAudio) :
    (MixSource_end voice audio).1 = voice := by
  unfold MixSource_end
  split_ifs <;> rfl

theorem MixSource_output_src (K : Env) (voice : FAudioSourceVoice) (audio : FAudio)
    (mixed : Nat) : (MixSource_output K voice audio mixed).1.src = voice.src := by
  unfold MixSource_output
  split_ifs <;> simp only [MixSource_end_fst]

/-- One tick of the decode/resample loop in which the head buffer supplies the
whole request: the frames mixed, the queue, the two parts of the buffer offset
and the resample offset afterwards. -/
theorem MixSource_loop_full (K : Env) (fuel : Nat) (voice : FAudioSourceVoice)
    (audio : FAudio) (b : FAudioBuffer) (next : List FAudioBuffer)
    (hq : voice.src.bufferList = b :: next)
    (hstep : 0 < voice.src.resampleStep) (hstep64 : voice.src.resampleStep + 2 ^ 32 ≤ 2 ^ 64)
    (hR0 : 0 < voice.src.resampleSamples) (hR : voice.src.resampleSamples < 2 ^ 32)
    (hno : (voice.src.resampleSamples - 0) * voice.src.resampleStep +
      voice.src.curBufferOffsetDec + (2 ^ 32 - 1) < 2 ^ 64)
    (hro : voice.src.resampleOffset < 2 ^ 64)
    (hD : MixSource_toDecode voice 0 < 2 ^ 32)
    (hav : MixSource_toDecode voice 0 ≤ avail voice b) (hfuel : 2 ≤ fuel) :
    ∃ v1 a1 mixed, MixSource_loop K fuel fuel voice audio 0 0 = some (v1, a1, mixed) ∧
      mixed = voice.src.resampleSamples ∧ v1.src.bufferList = b :: next ∧
      v1.src.curBufferOffset = wrap32 (voice.src.curBufferOffset + MixSource_toDecode voice 0) ∧
      v1.src.curBufferOffsetDec =
        (voice.src.curBufferOffsetDec +
          voice.src.resampleSamples * voice.src.resampleStep) % 2 ^ 32 ∧
      v1.src.resampleOffset =
        (if voice.src.resampleStep = FIXED_ONE then voice.src.resampleOffset
          else wrap64 (voice.src.resampleOffset +
            voice.src.resampleSamples * voice.src.resampleStep)) ∧
      v1.src.resampleStep = voice.src.resampleStep ∧
      v1.src.resampleSamples = voice.src.resampleSamples := by
  obtain ⟨m, rfl⟩ : ∃ m, fuel = m + 1 + 1 := ⟨fuel - 2, by omega⟩
  have hD0 : 0 < MixSource_toDecode voice 0 := by
    rw [MixSource_toDecode_eq voice 0 hR0 hR hno]
    have : 0 < (voice.src.resampleSamples - 0) * voice.src.resampleStep :=
      Nat.mul_pos (by omega) hstep
    omega
  obtain ⟨v1, a1, d, hdb, hd, hsv, hq1, hoff1, hdec1⟩ :=
    DecodeBuffers_full_pass K voice audio b next (MixSource_toDecode voice 0) m hq hD0 hD hav
  subst hd
  have hstep1 : v1.src.resampleStep = voice.src.resampleStep := hsv.resampleStep
  have hR1 : v1.src.resampleSamples = voice.src.resampleSamples := hsv.resampleSamples
  have hro1 : v1.src.resampleOffset = voice.src.resampleOffset := hsv.resampleOffset
  have hn : MixSource_toResample v1 0 (MixSource_toDecode voice 0) =
      voice.src.resampleSamples - 0 :=
    MixSource_toResample_full voice v1 0 hstep hR0 hR hno hstep1 hR1 (Nat.le_of_eq hdec1)
  rw [Nat.sub_zero] at hn
  have hcons := MixSource_loop_cons K (m + 1 + 1) (m + 1) voice audio 0 0 v1 a1
    (MixSource_toDecode voice 0) ⟨hR0, by rw [hq]; rfl⟩ hdb (by rw [hstep1]; omega)
  obtain ⟨g1, g2, g3, _, _⟩ := MixSource_resample_queue v1 a1 0 0 (MixSource_toDecode voice 0)
  obtain ⟨_, o2⟩ := MixSource_resample_offsets v1 a1 0 0 (MixSource_toDecode voice 0)
  have gro := MixSource_resample_resampleOffset v1 a1 0 0 (MixSource_toDecode voice 0)
    (by rw [hstep1]; exact hstep64) (by rw [hro1]; exact hro)
  have gmix : (MixSource_resample v1 a1 0 0 (MixSource_toDecode voice 0)).2.2.1 =
      voice.src.resampleSamples := by
    rw [MixSource_resample_mixed, hn]
    unfold wrap32
    omega
  have hdone : ¬ ((MixSource_resample v1 a1 0 0 (MixSource_toDecode voice 0)).2.2.1 <
      (MixSource_resample v1 a1 0 0 (MixSource_toDecode voice 0)).1.src.resampleSamples ∧
      (MixSource_resample v1 a1 0 0 (MixSource_toDecode voice 0)).1.src.bufferList.isEmpty =
        false) := by
    rw [gmix, g3, hR1]
    intro hcon
    exact Nat.lt_irrefl _ hcon.1
  have hne : v1.src.bufferList ≠ [] := by rw [hq1]; exact List.cons_ne_nil _ _
  refine ⟨_, _, _, Eq.trans hcons (MixSource_loop_done K (m + 1 + 1) m _ _ _ _ hdone), gmix,
    g1.trans hq1, (o2 hne).2.trans hoff1, ?_, ?_, g2.trans hstep1, g3.trans hR1⟩
  · rw [(o2 hne).1, hn, hstep1, hdec1]
    simp only [wrap64]
    generalize voice.src.resampleSamples * voice.src.resampleStep = p at *
    omega
  · rw [gro, hn, hstep1, hro1]

theorem DOUBLE_TO_FIXED_cd :
    DOUBLE_TO_FIXED (1 * (44100 : Sample) / (48000 : Sample)) = 3946001203 := by
  unfold DOUBLE_TO_FIXED
  have e : 1 * (44100 : Sample) / (48000 : Sample) * ((FIXED_ONE : Nat) : Sample) + 1 / 2 =
      (39460012037 : ℚ) / 10 := by
    rw [FIXED_ONE_eq]
    norm_num
  have h : Int.floor ((39460012037 : ℚ) / 10) = 3946001203 := by
    rw [Int.floor_eq_iff]
    constructor <;> norm_num
  rw [e, h]
  decide

/-- C33: the voice `exampleCdVoice` (44.1 kHz into 48 kHz, 480 frames a tick,
stepping value 3946001203) on a buffer of 588 frames. The tick requests 441
frames, which the buffer supplies without reaching its end, and mixes 480
frames; afterwards the buffer offset is 441 and its fraction 4294967200, so
the source position has advanced by `480 * resampleStep + 2 ^ 32`, one whole
frame more than the amount resampled. -/
theorem c33_phase_drift :
    exampleCdVoice.src.resampleStep = DOUBLE_TO_FIXED (1 * (44100 : Sample) / (48000 : Sample)) ∧
    MixSource_toDecode exampleCdVoice 0 = 441 ∧
    avail exampleCdVoice exampleCdBuffer = 588 ∧
    (∃ v1 a1, MixSource_loop exampleEnv 4 4 exampleCdVoice
        (passStart exampleCdVoice exampleAudio) 0 0 = some (v1, a1, 480)) ∧
    ∃ r, FAudio_INTERNAL_MixSource exampleEnv 4 exampleCdVoice exampleAudio = some r ∧
      r.1.src.bufferList = [exampleCdBuffer] ∧
      r.1.src.curBufferOffset = 441 ∧ r.1.src.curBufferOffsetDec = 4294967200 ∧
      r.1.src.resampleOffset = 1894080577440 ∧
      (r.1.src.curBufferOffset * 2 ^ 32 + r.1.src.curBufferOffsetDec) -
          (exampleCdVoice.src.curBufferOffset * 2 ^ 32 +
            exampleCdVoice.src.curBufferOffsetDec) =
        480 * exampleCdVoice.src.resampleStep + 2 ^ 32 := by
  obtain ⟨v1, a1, mixed, hl, hm, hq1, ho, hd, hr, _, _⟩ :=
    MixSource_loop_full exampleEnv 4 exampleCdVoice (passStart exampleCdVoice exampleAudio)
      exampleCdBuffer [] rfl (by decide) (by decide) (by decide) (by decide) (by decide)
      (by decide) (by decide) (by decide) (by decide)
  have hm1 : mixed = 480 := hm.trans (by decide)
  subst hm1
  have ho1 : v1.src.curBufferOffset = 441 := ho.trans (by decide)
  have hd1 : v1.src.curBufferOffsetDec = 4294967200 := hd.trans (by decide)
  have hr1 : v1.src.resampleOffset = 1894080577440 := hr.trans (by decide)
  refine ⟨?_, by decide, by decide, ⟨v1, a1, hl⟩, MixSource_output exampleEnv v1 a1 480, ?_, ?_,
    ?_, ?_, ?_, ?_⟩
  · exact DOUBLE_TO_FIXED_cd.symm
  · rw [MixSource_eq exampleEnv 4 exampleCdVoice exampleAudio exampleCdBuffer [] rfl rfl, hl]
    rfl
  · rw [MixSource_output_src]
    exact hq1
  · rw [MixSource_output_src]
    exact ho1
  · rw [MixSource_output_src]
    exact hd1
  · rw [MixSource_output_src]
    exact hr1
  · rw [MixSource_output_src, ho1, hd1]
    decide

/-! ## The two fractions of a source voice -/

theorem DecodeBuffers_loop_noEOS (K : Env) (toDecode : Nat) :
    ∀ (fuel : Nat) (voice : FAudioSourceVoice) (audio : FAudio) (decoded : Nat)
      (r : FAudioSourceVoice × FAudio × Nat),
      (∀ b ∈ voice.src.bufferList, b.Flags &&& K.FAUDIO_END_OF_STREAM = 0) →
      DecodeBuffers_loop K toDecode fuel voice audio decoded = some r →
      r.1.src.curBufferOffsetDec = voice.src.curBufferOffsetDec ∧
      ∀ b ∈ r.1.src.bufferList, b.Flags &&& K.FAUDIO_END_OF_STREAM = 0 := by
  intro fuel
  induction fuel with
  | zero => intro voice audio decoded r _ h; simp [DecodeBuffers_loop] at h
  | succ n ih =>
    intro voice audio decoded r hfl h
    by_cases hstay : voice.src.bufferList = [] ∨ ¬ decoded < toDecode
    · rw [DecodeBuffers_loop_done K toDecode n voice audio decoded hstay] at h
      have e := (Option.some.inj h).symm
      subst e
      exact ⟨rfl, hfl⟩
    · rw [not_or, not_not] at hstay
      obtain ⟨hne, hlt⟩ := hstay
      obtain ⟨buffer, next, hq⟩ : ∃ buffer next, voice.src.bufferList = buffer :: next := by
        cases hq : voice.src.bufferList with
        | nil => exact absurd hq hne
        | cons b nx => exact ⟨b, nx, rfl⟩
      rw [DecodeBuffers_loop_cons K toDecode n voice audio decoded buffer next hq hlt] at h
      have hb : buffer.Flags &&& K.FAUDIO_END_OF_STREAM = 0 :=
        hfl buffer (by rw [hq]; exact List.mem_cons_self _ _)
      have hfl1 : ∀ x ∈ (DecodeBuffers_body K voice audio buffer next toDecode
          decoded).1.src.bufferList, x.Flags &&& K.FAUDIO_END_OF_STREAM = 0 := by
        rw [DecodeBuffers_body_queue]
        exact bodyQueue_flags K voice buffer next toDecode decoded hq hfl
      have hd1 : (DecodeBuffers_body K voice audio buffer next toDecode
          decoded).1.src.curBufferOffsetDec = voice.src.curBufferOffsetDec := by
        rw [DecodeBuffers_body_dec]
        exact if_neg (fun hh => hh.2.2 hb)
      obtain ⟨i1, i2⟩ := ih _ _ _ r hfl1 h
      exact ⟨i1.trans hd1, i2⟩

theorem DecodeBuffers_noEOS (K : Env) (fuel : Nat) (voice : FAudioSourceVoice) (audio : FAudio)
    (toDecode : Nat) (v1 : FAudioSourceVoice) (a1 : FAudio) (d : Nat)
    (hfl : ∀ b ∈ voice.src.bufferList, b.Flags &&& K.FAUDIO_END_OF_STREAM = 0)
    (h : FAudio_INTERNAL_DecodeBuffers K fuel voice audio toDecode = some (v1, a1, d)) :
    v1.src.curBufferOffsetDec = voice.src.curBufferOffsetDec ∧
    ∀ b ∈ v1.src.bufferList, b.Flags &&& K.FAUDIO_END_OF_STREAM = 0 := by
  unfold FAudio_INTERNAL_DecodeBuffers at h
  cases hl : DecodeBuffers_loop K toDecode fuel voice audio 0 with
  | none => rw [hl] at h; cases h
  | some r0 =>
    rw [hl] at h
    have e : (r0.1, DecodeBuffers_padding K r0.1 r0.2.1 r0.2.2, r0.2.2) = (v1, a1, d) :=
      Option.some.inj h
    have e1 : r0.1 = v1 := congrArg Prod.fst e
    rw [← e1]
    exact DecodeBuffers_loop_noEOS K toDecode fuel voice audio 0 r0 hfl hl

/-- C34, the claim as stated fails: the voice `exampleCdVoiceSecond` is the
state after the first tick of `exampleCdVoice`, with `resampleOffset mod
2 ^ 32` equal to `curBufferOffsetDec` (4294967200). The decode request of 442
frames finishes the end-of-stream buffer after 147 frames, which resets
`curBufferOffsetDec`; 160 frames are resampled, and output frame 159 is read at
frame 147 of the decode cache: it reads the frames 147 and 148, and 148 is
more than the 147 frames decoded. -/
theorem c34_resampler_reads_counterexample :
    0 < exampleCdVoiceSecond.src.resampleStep ∧ FractionsAgree exampleCdVoiceSecond ∧
    MixSource_toDecode exampleCdVoiceSecond 0 = 442 ∧
    ∃ v1 a1 d, FAudio_INTERNAL_DecodeBuffers exampleEnv 4 exampleCdVoiceSecond exampleAudio
        (MixSource_toDecode exampleCdVoiceSecond 0) = some (v1, a1, d) ∧
      d = 147 ∧ exampleCdVoiceSecond.src.curBufferOffsetDec ≤ d * 2 ^ 32 ∧
      v1.src.curBufferOffsetDec = 0 ∧
      159 < MixSource_toResample v1 0 d ∧ v1.src.resampleStep ≠ FIXED_ONE ∧
      (ResamplePCM_loop v1.src.format.nChannels v1.src.resampleStep a1.decodeCache 159
        (resampleStart v1 a1 0)).dCache = 147 * v1.src.format.nChannels ∧
      resampleReadFrame v1 159 = 147 ∧
      ¬ (resampleReadFrame v1 159 + 1 ≤ d) := by
  obtain ⟨v1, a1, d, hdb, hd, hsv, _, hdec1⟩ :=
    DecodeBuffers_last_pass exampleEnv exampleCdVoiceSecond exampleAudio exampleCdBuffer
      (MixSource_toDecode exampleCdVoiceSecond 0) 2 rfl rfl (by decide) (by decide)
  have hd1 : d = 147 := hd.trans (by decide)
  subst hd1
  have h1 : v1.src.resampleStep = 3946001203 := hsv.resampleStep
  have h2 : v1.src.resampleSamples = 480 := hsv.resampleSamples
  have h3 : v1.src.curBufferOffsetDec = 0 := hdec1.trans (by decide)
  have h4 : v1.src.resampleOffset = 1894080577440 := hsv.resampleOffset
  have h5 : v1.src.format.nChannels = 2 := congrArg FAudioWaveFormatEx.nChannels hsv.format
  have hread : resampleReadFrame v1 159 = 147 := by
    unfold resampleReadFrame
    rw [h1, h4]
    decide
  refine ⟨by decide, by unfold FractionsAgree; decide, by decide, v1, a1, 147, hdb, rfl,
    by decide, h3, ?_, ?_, ?_, hread, ?_⟩
  · simp only [MixSource_toResample, h1, h2, h3]
    decide
  · rw [h1]
    decide
  · rw [(ResamplePCM_loop_spec v1.src.format.nChannels v1.src.resampleStep a1.decodeCache
      (by rw [h1]; decide) 159 (resampleStart v1 a1 0)
      (by show v1.src.resampleOffset &&& FIXED_FRACTION_MASK < 2 ^ 32
          simp only [and_mask]; omega)
      (by show v1.src.resampleOffset < 2 ^ 64; rw [h4]; decide)).2.2.1]
    unfold resampleStart
    simp only [h1, h4, h5, and_mask]
    decide
  · rw [hread]
    decide

/-- One output frame of the resampler stays inside the decoded frames and the
padding behind them. -/
theorem resampleReadFrame_bound (K : Env) (dfuel : Nat) (voice : FAudioSourceVoice)
    (audio : FAudio) (mixed pos : Nat) (v1 : FAudioSourceVoice) (a1 : FAudio) (d i : Nat)
    (hdb : FAudio_INTERNAL_DecodeBuffers K dfuel voice audio (MixSource_toDecode voice mixed) =
      some (v1, a1, d))
    (hstep : 0 < voice.src.resampleStep) (hstep64 : voice.src.resampleStep + 2 ^ 32 ≤ 2 ^ 64)
    (hro : voice.src.resampleOffset < 2 ^ 64) (hinv : FractionsAgree voice)
    (hd : d < 2 ^ 32) (hDec : voice.src.curBufferOffsetDec ≤ d * 2 ^ 32)
    (hi : i < MixSource_toResample v1 mixed d) :
    (ResamplePCM_loop v1.src.format.nChannels v1.src.resampleStep a1.decodeCache i
      (resampleStart v1 a1 pos)).dCache = resampleReadFrame v1 i * v1.src.format.nChannels ∧
    resampleReadFrame v1 i + 1 ≤ d + 1 ∧
    (v1.src.curBufferOffsetDec = voice.src.curBufferOffsetDec →
      resampleReadFrame v1 i + 1 ≤ d) ∧
    ((∀ b ∈ voice.src.bufferList, b.Flags &&& K.FAUDIO_END_OF_STREAM = 0) →
      v1.src.curBufferOffsetDec = voice.src.curBufferOffsetDec) := by
  have hsv : SameVoice voice v1 := (DecodeBuffers_same K dfuel voice audio _ _ hdb).1
  have h1 : v1.src.resampleStep = voice.src.resampleStep := hsv.resampleStep
  have h4 : v1.src.resampleOffset = voice.src.resampleOffset := hsv.resampleOffset
  unfold FractionsAgree at hinv
  have hDec1 : v1.src.curBufferOffsetDec ≤ voice.src.curBufferOffsetDec := by
    rcases hsv.dec with e | e <;> omega
  have hn : MixSource_toResample v1 mixed d ≤
      (d * 2 ^ 32 - v1.src.curBufferOffsetDec) / voice.src.resampleStep := by
    simp only [MixSource_toResample, h1, shl_prec, FAudio_min_eq, wrap64, sub64]
    have e : ((d * 2 ^ 32) % 2 ^ 64 % 2 ^ 64 + (2 ^ 64 - v1.src.curBufferOffsetDec % 2 ^ 64)) %
        2 ^ 64 = d * 2 ^ 32 - v1.src.curBufferOffsetDec := by omega
    rw [e]
    exact Nat.min_le_left _ _
  have hmul : (i + 1) * voice.src.resampleStep ≤ d * 2 ^ 32 - v1.src.curBufferOffsetDec :=
    le_trans (Nat.mul_le_mul_right _ (by omega))
      ((Nat.le_div_iff_mul_le hstep).1 (Nat.le_refl _))
  rw [Nat.add_mul, Nat.one_mul] at hmul
  have hread : resampleReadFrame v1 i =
      (voice.src.resampleOffset % 2 ^ 32 + i * voice.src.resampleStep) / 2 ^ 32 := by
    unfold resampleReadFrame
    rw [h1, h4]
  refine ⟨?_, ?_, ?_, fun hfl => (DecodeBuffers_noEOS K dfuel voice audio _ v1 a1 d hfl hdb).1⟩
  · rw [(ResamplePCM_loop_spec v1.src.format.nChannels v1.src.resampleStep a1.decodeCache
      (by rw [h1]; exact hstep64) i (resampleStart v1 a1 pos)
      (by show v1.src.resampleOffset &&& FIXED_FRACTION_MASK < 2 ^ 32
          simp only [and_mask]; omega)
      (by show v1.src.resampleOffset < 2 ^ 64; rw [h4]; exact hro)).2.2.1]
    unfold resampleStart resampleReadFrame
    simp only [and_mask, Nat.zero_add]
  · rw [hread]
    generalize i * voice.src.resampleStep = p at *
    have : (voice.src.resampleOffset % 2 ^ 32 + p) / 2 ^ 32 < d + 1 := by
      rw [Nat.div_lt_iff_lt_mul (by norm_num)]
      omega
    omega
  · intro he
    rw [hread]
    generalize i * voice.src.resampleStep = p at *
    have : (voice.src.resampleOffset % 2 ^ 32 + p) / 2 ^ 32 < d := by
      rw [Nat.div_lt_iff_lt_mul (by norm_num)]
      omega
    omega

/-- C34, as amended: in one iteration of the loop of
`FAudio_INTERNAL_MixSource` entered with `resampleOffset mod 2 ^ 32 =
curBufferOffsetDec`, a positive step and a count `decoded` returned by
`FAudio_INTERNAL_DecodeBuffers` with `decoded * 2 ^ 32 >= curBufferOffsetDec`,
every output frame `i < toResample` is read at the frame `n_i` of
`resampleReadFrame` and the next one, and `n_i + 1 <= decoded + 1`. When the
decode call left `curBufferOffsetDec` unchanged, as it does when no buffer of
the queue carries `FAUDIO_END_OF_STREAM`, `n_i + 1 <= decoded`. With enough
fuel the decode call returns on every queue of playable buffers, for a request
below `2 ^ 32`. -/
theorem c34_resampler_reads (K : Env) (dfuel : Nat) (voice : FAudioSourceVoice)
    (audio : FAudio) (mixed pos : Nat)
    (hstep : 0 < voice.src.resampleStep) (hstep64 : voice.src.resampleStep + 2 ^ 32 ≤ 2 ^ 64)
    (hro : voice.src.resampleOffset < 2 ^ 64) (hinv : FractionsAgree voice) :
    (∀ v1 a1 d i,
      FAudio_INTERNAL_DecodeBuffers K dfuel voice audio (MixSource_toDecode voice mixed) =
        some (v1, a1, d) →
      d < 2 ^ 32 → voice.src.curBufferOffsetDec ≤ d * 2 ^ 32 →
      i < MixSource_toResample v1 mixed d →
      (ResamplePCM_loop v1.src.format.nChannels v1.src.resampleStep a1.decodeCache i
        (resampleStart v1 a1 pos)).dCache = resampleReadFrame v1 i * v1.src.format.nChannels ∧
      resampleReadFrame v1 i + 1 ≤ d + 1 ∧
      (v1.src.curBufferOffsetDec = voice.src.curBufferOffsetDec →
        resampleReadFrame v1 i + 1 ≤ d) ∧
      ((∀ b ∈ voice.src.bufferList, b.Flags &&& K.FAUDIO_END_OF_STREAM = 0) →
        v1.src.curBufferOffsetDec = voice.src.curBufferOffsetDec)) ∧
    ((∀ b ∈ voice.src.bufferList, Playable K b) → MixSource_toDecode voice mixed < 2 ^ 32 →
      2 * MixSource_toDecode voice mixed + 2 * queueWeight K voice.src.bufferList + 1 < dfuel →
      ∃ v1 a1 d, FAudio_INTERNAL_DecodeBuffers K dfuel voice audio
          (MixSource_toDecode voice mixed) = some (v1, a1, d) ∧ d < 2 ^ 32) := by
  constructor
  · intro v1 a1 d i hdb hd hDec hi
    exact resampleReadFrame_bound K dfuel voice audio mixed pos v1 a1 d i hdb hstep hstep64 hro
      hinv hd hDec hi
  · intro hp hD hf
    have hmeas : loopMeasure K voice (MixSource_toDecode voice mixed) 0 < dfuel := by
      unfold loopMeasure
      have := stallFlag_le_one voice
      omega
    obtain ⟨r, hr, _, h2, _, _⟩ := DecodeBuffers_loop_terminates K
      (MixSource_toDecode voice mixed) hD dfuel voice audio 0 hp (Nat.zero_le _) hmeas
    exact ⟨r.1, DecodeBuffers_padding K r.1 r.2.1 r.2.2, r.2.2,
      DecodeBuffers_of_loop K dfuel voice audio (MixSource_toDecode voice mixed)
        r.1 r.2.1 r.2.2 hr, by omega⟩

theorem c34_resampler_reads_witness :
    ∃ v1 a1 d, FAudio_INTERNAL_DecodeBuffers exampleEnv 4 exampleCdPlainVoice exampleAudio
        (MixSource_toDecode exampleCdPlainVoice 0) = some (v1, a1, d) ∧
      d = 441 ∧ 479 < MixSource_toResample v1 0 d ∧
      resampleReadFrame v1 479 + 1 ≤ d := by
  obtain ⟨v1, a1, d, hdb, hd, hsv, _, _, hdec1⟩ :=
    DecodeBuffers_full_pass exampleEnv exampleCdPlainVoice exampleAudio exampleTickBuffer []
      (MixSource_toDecode exampleCdPlainVoice 0) 2 rfl (by decide) (by decide) (by decide)
  have hd1 : d = 441 := hd.trans (by decide)
  subst hd1
  have h1 : v1.src.resampleStep = 3946001203 := hsv.resampleStep
  have h2 : v1.src.resampleSamples = 480 := hsv.resampleSamples
  have h3 : v1.src.curBufferOffsetDec = 0 := hdec1
  have hn : 479 < MixSource_toResample v1 0 441 := by
    simp only [MixSource_toResample, h1, h2, h3]
    decide
  exact ⟨v1, a1, 441, hdb, rfl, hn,
    ((c34_resampler_reads exampleEnv 4 exampleCdPlainVoice exampleAudio 0 0
      (by decide) (by decide) (by decide) (by unfold FractionsAgree; decide)).1
      v1 a1 441 479 hdb (by decide) (by decide) hn).2.2.1 hdec1⟩

/-! ## A tick of an engine without submix voices -/

theorem setSendTarget_submixes_nil (audio : FAudio) (out : VoiceRef) (stream : FloatBuf)
    (h : audio.submixes = []) : (setSendTarget audio out stream).submixes = [] := by
  unfold setSendTarget
  cases out with
  | master => exact h
  | submix k =>
    simp only [h, List.get?_nil]

theorem mixSends_submixes_nil (K : Env) (term : Nat → Nat → Nat → Nat → Sample)
    (mixed outputChannels : Nat) :
    ∀ (sends : List FAudioSendDescriptor) (i : Nat) (audio : FAudio), audio.submixes = [] →
      (mixSends K term mixed outputChannels i sends audio).submixes = [] := by
  intro sends
  induction sends with
  | nil => intro i audio h; exact h
  | cons send rest ih =>
    intro i audio h
    unfold mixSends
    simp only []
    apply ih
    cases sendTarget audio send.pOutputVoice with
    | none => exact h
    | some t => exact setSendTarget_submixes_nil audio _ _ h

theorem MixSource_end_submixes (voice : FAudioSourceVoice) (audio : FAudio) :
    (MixSource_end voice audio).2.submixes = audio.submixes := by
  unfold MixSource_end
  split_ifs <;> rfl

theorem MixSource_output_submixes_nil (K : Env) (voice : FAudioSourceVoice) (audio : FAudio)
    (mixed : Nat) (h : audio.submixes = []) :
    (MixSource_output K voice audio mixed).2.submixes = [] := by
  unfold MixSource_output
  by_cases h1 : mixed = 0
  · rw [if_pos h1, MixSource_end_submixes]
    exact h
  · rw [if_neg h1]
    by_cases h2 : voice.sends.length = 0
    · rw [if_pos h2, MixSource_end_submixes]
      exact h
    · rw [if_neg h2]
      simp only []
      rw [MixSource_end_submixes]
      apply mixSends_submixes_nil
      by_cases h3 : voice.effects.length > 0
      · simp only [h3, if_true]
        obtain ⟨n, x, l, e⟩ := ProcessEffectChain_engine K voice.effects
          { audio with resampleCache :=
              (if voice.flags &&& K.FAUDIO_VOICE_USEFILTER ≠ 0 then
                FAudio_INTERNAL_FilterVoice voice.filter voice.filterState audio.resampleCache
                  mixed voice.src.format.nChannels
              else (voice.filterState, audio.resampleCache)).2 }
          voice.src.format.nChannels voice.src.format.nSamplesPerSec
          (if voice.flags &&& K.FAUDIO_VOICE_USEFILTER ≠ 0 then
                FAudio_INTERNAL_FilterVoice voice.filter voice.filterState audio.resampleCache
                  mixed voice.src.format.nChannels
              else (voice.filterState, audio.resampleCache)).2 mixed
        rw [e]
        exact h
      · simp only [h3, if_false]
        exact h

theorem MixSource_submixes_nil (K : Env) (fuel : Nat) (voice : FAudioSourceVoice)
    (audio : FAudio) (r : FAudioSourceVoice × FAudio)
    (hM : FAudio_INTERNAL_MixSource K fuel voice audio = some r) (h : audio.submixes = []) :
    r.2.submixes = [] := by
  unfold FAudio_INTERNAL_MixSource at hM
  simp only [] at hM
  have hlog : ∀ b : Bool,
      (if b = true then { audio with log := audio.log ++
        [Event.OnVoiceProcessingPassStart ((MixSource_step voice audio).src.decodeSamples * 2)] }
      else audio).submixes = [] := by
    intro b
    split_ifs
    · exact h
    · exact h
  cases hq : (MixSource_step voice audio).src.bufferList with
  | nil =>
    rw [hq] at hM
    simp only [Option.some.injEq] at hM
    rw [← hM, MixSource_end_submixes]
    exact hlog _
  | cons b rest =>
    rw [hq] at hM
    simp only [Option.map_eq_some'] at hM
    obtain ⟨r1, hl, hr⟩ := hM
    rw [← hr]
    obtain ⟨_, _, e2⟩ := MixSource_loop_base K fuel fuel _ _ 0 0 r1 hl
    exact MixSource_output_submixes_nil K r1.1 r1.2.1 r1.2.2 (e2.trans (hlog _))

theorem UpdateEngine_sources_submixes_nil (K : Env) (fuel : Nat) :
    ∀ (sources : List FAudioSourceVoice) (audio : FAudio)
      (r : List FAudioSourceVoice × FAudio),
      UpdateEngine_sources K fuel sources audio = some r → audio.submixes = [] →
      r.2.submixes = [] := by
  intro sources
  induction sources with
  | nil =>
    intro audio r h hs
    simp only [UpdateEngine_sources, Option.some.injEq] at h
    rw [← h]
    exact hs
  | cons source rest ih =>
    intro audio r h hs
    unfold UpdateEngine_sources at h
    split_ifs at h
    · cases hm : FAudio_INTERNAL_MixSource K fuel source audio with
      | none => rw [hm] at h; exact absurd h (by simp)
      | some r1 =>
        obtain ⟨source1, audio1⟩ := r1
        rw [hm] at h
        simp only [Option.map_eq_some'] at h
        obtain ⟨r2, h2, h3⟩ := h
        rw [← h3]
        exact ih audio1 r2 h2 (MixSource_submixes_nil K fuel source audio _ hm hs)
    · simp only [Option.map_eq_some'] at h
      obtain ⟨r2, h2, h3⟩ := h
      rw [← h3]
      exact ih audio r2 h2 hs

/-- A tick of an active engine without submix voices returns when the mixing
of its source voices returns. -/
theorem UpdateEngine_of_sources (K : Env) (fuel : Nat) (audio : FAudio) (out : FloatBuf)
    (r : List FAudioSourceVoice × FAudio)
    (hact : audio.active = true) (hsub : audio.submixes = [])
    (hs : UpdateEngine_sources K fuel audio.sources (UpdateEngine_start audio out) = some r) :
    FAudio_INTERNAL_UpdateEngine K fuel audio out =
      some (UpdateEngine_finish K { r.2 with sources := r.1 }) := by
  rw [UpdateEngine_eq, if_neg (by simp [hact]), hs]
  simp only [Option.some_bind]
  have hk : r.2.submixes = [] :=
    UpdateEngine_sources_submixes_nil K fuel audio.sources _ r hs hsub
  have ho : ∀ S, submixOrder (List.map submixKey []) S = [] := by
    intro S
    simp [submixOrder, stageMembers]
  rw [hk, ho]
  rfl

theorem UpdateEngine_sources_single (K : Env) (fuel : Nat) (voice v1 : FAudioSourceVoice)
    (audio a1 : FAudio) (hact : voice.src.active = true)
    (hM : FAudio_INTERNAL_MixSource K fuel voice audio = some (v1, a1)) :
    UpdateEngine_sources K fuel [voice] audio = some ([v1], a1) := by
  unfold UpdateEngine_sources
  rw [if_pos hact, hM]
  rfl

/-- Witness for C10 as amended: the example engine with a master volume of 2
and a source voice that mixes 480 stereo frames into the master voice, called
with an array that holds `2^25` everywhere: the call returns, and the first and
the last float of the tick are within the limits afterwards. -/
theorem c10_output_range_witness :
    ∃ a1 out1,
      FAudio_INTERNAL_UpdateEngine exampleEnv 10 exampleLoudAudio (fun _ => 33554432) =
        some (a1, out1) ∧
      InRange exampleEnv (out1 0) ∧ InRange exampleEnv (out1 959) :=
  match MixSource_pass_through exampleEnv 10 exampleTickVoice
    (UpdateEngine_start exampleLoudAudio (fun _ => 33554432)) exampleTickBuffer
    (pcm16Input exampleTickBuffer) { Flags := 0, pOutputVoice := VoiceRef.master }
    (fun _ => 33554432) 2
    ⟨by decide, by decide, by decide, by decide, rfl, by decide, by decide, rfl, by decide,
      fun off n hin => DecodePCM16_spec exampleTickBuffer exampleFormat off n
        (by
          have h2 := hin
          simp only [exampleTickBuffer, examplePlainBuffer, exampleBuffer] at h2
          simp only [exampleFormat]
          omega)⟩
    rfl (by decide) rfl (by decide) rfl rfl rfl rfl (by decide) with
  | ⟨v1, a1, _, hM, _, _⟩ =>
    have hret : FAudio_INTERNAL_UpdateEngine exampleEnv 10 exampleLoudAudio
        (fun _ => 33554432) =
        some ((UpdateEngine_finish exampleEnv { a1 with sources := [v1] }).1,
          (UpdateEngine_finish exampleEnv { a1 with sources := [v1] }).2) :=
      UpdateEngine_of_sources exampleEnv 10 exampleLoudAudio (fun _ => 33554432) ([v1], a1)
        rfl rfl (UpdateEngine_sources_single exampleEnv 10 exampleTickVoice v1 _ a1 rfl hM)
    have h := c10_output_range exampleEnv 10 exampleLoudAudio _ (fun _ => 33554432) _
      (by norm_num [exampleEnv]) rfl rfl (by decide) hret
    ⟨_, _, hret, h.1 (by norm_num [exampleLoudAudio, exampleMaster]) 0 (by decide),
      h.1 (by norm_num [exampleLoudAudio, exampleMaster]) 959 (by decide)⟩

end FAudioInternal
